import Mathlib

/-!
# Githooks runner: hook collection, trust prompt and batching

A shallow embedding of `githooks/apps/runner/runner.go`.

* Go slices are Lean lists, pointers into a slice are the value they point to
  (the fields read through them are never written while the pointer is live).
* A Go `panic` (`log.PanicF`, `log.AssertNoErrorPanicF`) is `Except.error` carrying the
  message; everything else is `Except.ok`.
* The collaborators that are not part of the runner (the prompt, the file hash, the
  enumerator `hooks.GetAllHooksIn`, the ignore patterns, `sort.Slice`) are fields of `Env`.
  The general theorems hold for every `Env`; what they need of `sort.Slice` (its result is
  in label order, or is a permutation) is a hypothesis on the enumerated hooks. The
  theorem on the labels of the batches takes `sort.Slice` itself (`goSortSliceWith`), which
  is proved to leave the hooks in label order (`goSortSliceWith_sorted`).
* `log.WarnF` lines are collected in `World.warnings`; debug and info lines are dropped.
* The concrete checks run in `scriptedEnv`, with the enumerator modelled from the spec
  (`GetAllHooksIn`) and `sort.Slice` as Go implements it (`GoSort.Slice`).
-/

namespace Githooks

/-! ## Data model -/

/-- The fields of `hooks.Hook` the runner reads or writes. -/
structure Hook where
  Path : String := ""
  NamespacePath : String := ""
  BatchName : String := ""
  Active : Bool := true
  Trusted : Bool := false
  SHA1 : String := ""
  deriving DecidableEq, Repr

/-- The record `hooks.ChecksumResult` built in `showTrustPrompt`. -/
structure ChecksumResult where
  SHA1 : String
  Path : String
  NamespacePath : String
  deriving DecidableEq, Repr

/-- The prompt context `uiSettings.PromptCtx`: how many questions were shown and whether
`Close` was called. -/
structure PromptContext where
  Shown : Nat := 0
  Closed : Bool := false
  deriving DecidableEq, Repr

/-- The record `UISettings`: the accept-all flag, the prompt context and the two staged lists
that `AppendTrustedHook` and `AppendDisabledHook` grow. -/
structure UISettings where
  AcceptAllChanges : Bool := false
  PromptCtx : PromptContext := {}
  TrustedHooks : List ChecksumResult := []
  DisabledHooks : List ChecksumResult := []
  deriving DecidableEq, Repr

/-- The in-memory `hooks.ChecksumStore`: its `(SHA1, path)` entries, in the order
`AddChecksum` received them. -/
structure ChecksumStore where
  Checksums : List (String × String) := []
  deriving DecidableEq, Repr

/-- The fields of `HookSettings` that the modelled functions read. -/
structure HookSettings where
  RepositoryDir : String := ""
  GitDirWorktree : String := ""
  HookName : String := ""
  HookDir : String := ""
  IsRepoTrusted : Bool := false
  SkipNonExistingSharedHooks : Bool := false
  SkipUntrustedHooks : Bool := false
  NonInteractive : Bool := false
  ContainerizedHooksEnabled : Bool := false
  Disabled : Bool := false
  InstallDir : String := ""
  RepositoryHooksDir : String := ""
  HookNamespace : String := ""
  deriving DecidableEq, Repr

/-- The state the runner mutates while collecting hooks. -/
structure World where
  uiSettings : UISettings := {}
  checksums : ChecksumStore := {}
  warnings : List String := []
  /-- The hooks handed to `cm.RunExecutable`, in call order. -/
  executed : List Hook := []
  /-- The lines of `log.Error...`, in call order. -/
  errors : List String := []
  /-- What `logHookResults` wrote to `log.GetInfoWriter()`, in call order. -/
  infoSink : List String := []
  /-- What `logHookResults` wrote to `log.GetErrorWriter()`, in call order. -/
  errorSink : List String := []
  /-- The directories (`SharedRepo.RepositoryDir`) of the shared sources handed to
  `getHooksInShared`, in call order. -/
  enumerated : List String := []
  deriving DecidableEq, Repr

/-- Go's `<` on strings: lexicographic order of the contents. -/
def strLess (a b : String) : Bool := decide (a.data < b.data)

/-- The collaborators of the runner. -/
structure Env where
  /-- Result `answer` of the `k`-th call (from 0) of `PromptCtx.ShowOptions`. -/
  ShowOptions : Nat → String
  /-- The hash `Hook.AssertSHA1` leaves in the hook record. -/
  AssertSHA1 : Hook → String
  /-- Result `(trusted, sha, e)` of `checksums.IsTrusted(hookPath)`. -/
  IsTrusted : ChecksumStore → String → Bool × String × Option String
  /-- Result `(ignored, byUser)` of `ignores.IsIgnored(namespacePath)`. -/
  IsIgnored : String → Bool × Bool
  /-- Result `(ns, err)` of `hooks.GetHooksNamespace(hooksDir)`. -/
  GetHooksNamespace : String → String × Option String
  /-- Result of `hooks.GetHookPatternsHooksDir(hooksDir, hookNames, namespace)`: the
  `Matches` predicate of the patterns and the error. -/
  GetHookPatternsHooksDir : String → List String → String → (String → Bool) × Option String
  /-- Call `hooks.GetAllHooksIn(gitx, rootDir, hooksDir, hookName, namespace, envs, isIgnored,
  isTrusted, lazyIfIgnored, parseRunnerConfig, containerized)`, by its arguments `rootDir`,
  `hooksDir`, `hookName`, `namespace`, the two callbacks and the two flags after them:
  a panic raised by a callback, or `(allHooks, maxBatches, err)`. -/
  GetAllHooksIn : String → String → String → String → (String → Bool) →
    (String → Except String (Bool × String)) → Bool → Bool →
    Except String (List Hook × Nat × Option String)
  /-- Result of `hooks.GetHookReplacementFileName(hookName)`. -/
  GetHookReplacementFileName : String → String
  /-- Error of `cm.RunExecutable(execx, hook, ...)`, none when the launch succeeded. -/
  RunExecutable : Hook → Option String
  /-- Call `sort.Slice(allHooks, less)` with `less` comparing `BatchName` by `<`. -/
  sortSlice : List Hook → List Hook

/-- Equality of results is decidable. -/
instance instDecidableEqExcept {ε α : Type} [DecidableEq ε] [DecidableEq α] :
    DecidableEq (Except ε α)
  | .ok a, .ok b =>
    if h : a = b then isTrue (by rw [h]) else isFalse (fun h1 => h (Except.ok.inj h1))
  | .error a, .error b =>
    if h : a = b then isTrue (by rw [h]) else isFalse (fun h1 => h (Except.error.inj h1))
  | .ok _, .error _ => isFalse (fun h => by cases h)
  | .error _, .ok _ => isFalse (fun h => by cases h)

/-- The panic of `log.AssertNoErrorPanicF(err, ...)`: none when `err` is nil. -/
def assertNoErrorPanicF (err : Option String) (msg : String) : Except String Unit :=
  match err with
  | none => .ok ()
  | some e => .error (msg ++ "\n-> error: [" ++ e ++ "]")

/-! ## `showTrustPrompt` -/

/-- The answer switch of `showTrustPrompt`: the new `AcceptAllChanges`, `acceptHook` and
`disableHook` for an answer (`"a"` falls through into `"y"`). -/
def answerSwitch (acceptAll : Bool) (answer : String) : Bool × Bool × Bool :=
  if answer = "a" then (true, true, false)
  else if answer = "y" then (acceptAll, true, false)
  else if answer = "d" then (acceptAll, false, true)
  else (acceptAll, false, false)

/-- Function `showTrustPrompt(uiSettings, checksums, hook)`. -/
def showTrustPrompt (env : Env) (w : World) (hook : Hook) : World × Hook :=
  if hook.Trusted then (w, hook)
  else
    let acceptHook0 := w.uiSettings.AcceptAllChanges
    let asked : UISettings × Bool × Bool :=
      if !acceptHook0 then
        let answer := env.ShowOptions w.uiSettings.PromptCtx.Shown
        let ctx := { w.uiSettings.PromptCtx with Shown := w.uiSettings.PromptCtx.Shown + 1 }
        let r := answerSwitch w.uiSettings.AcceptAllChanges answer
        ({ w.uiSettings with PromptCtx := ctx, AcceptAllChanges := r.1 }, r.2.1, r.2.2)
      else (w.uiSettings, acceptHook0, false)
    let ui := asked.1
    let acceptHook := asked.2.1
    let disableHook := asked.2.2
    let hook1 : Hook :=
      if acceptHook || disableHook then { hook with SHA1 := env.AssertSHA1 hook } else hook
    if acceptHook then
      let hook2 := { hook1 with Trusted := true }
      let entry : ChecksumResult :=
        { SHA1 := hook2.SHA1, Path := hook2.Path, NamespacePath := hook2.NamespacePath }
      ({ w with
          uiSettings := { ui with TrustedHooks := ui.TrustedHooks ++ [entry] },
          checksums := { Checksums := w.checksums.Checksums ++ [(hook2.SHA1, hook2.Path)] } },
        hook2)
    else if disableHook then
      let hook2 := { hook1 with Active := false }
      let entry : ChecksumResult :=
        { SHA1 := hook2.SHA1, Path := hook2.Path, NamespacePath := hook2.NamespacePath }
      ({ w with uiSettings := { ui with DisabledHooks := ui.DisabledHooks ++ [entry] } }, hook2)
    else ({ w with uiSettings := ui }, hook1)

/-! ## `failOrWarnOnActiveUntrusted` -/

/-- The warning text of `failOrWarnOnActiveUntrusted`. -/
def untrustedWarning (namespacePath : String) : String :=
  "Hook \x27" ++ namespacePath ++ "\x27\nis active and needs to be trusted first. Skipping."

/-- The panic text of `failOrWarnOnActiveUntrusted`. -/
def untrustedFatal (namespacePath : String) : String :=
  "Hook \x27" ++ namespacePath ++ "\x27 is active and needs to be trusted first.\n" ++
    "Either trust the hook or disable it, or skip active,\n" ++
    "untrusted hooks by running:\n" ++
    "  $ git hooks config skip-untrusted-hooks --enable"

/-- Function `failOrWarnOnActiveUntrusted(skipUntrustedHooks, hook)`. -/
def failOrWarnOnActiveUntrusted (skipUntrustedHooks : Bool) (hook : Hook) (w : World) :
    Except String World :=
  if hook.Active && !hook.Trusted then
    if skipUntrustedHooks then
      .ok { w with warnings := w.warnings ++ [untrustedWarning hook.NamespacePath] }
    else
      .error (untrustedFatal hook.NamespacePath)
  else .ok w

/-! ## `getHooksIn` -/

/-- The closure `isTrusted` of `getHooksIn` (and of `executeOldHook`). -/
def isTrustedClosure (env : Env) (settings : HookSettings) (checksums : ChecksumStore)
    (hookPath : String) : Except String (Bool × String) :=
  if settings.IsRepoTrusted then .ok (true, "")
  else
    let r := env.IsTrusted checksums hookPath
    match assertNoErrorPanicF r.2.2 ("Could not check trust status \x27" ++ hookPath ++ "\x27.") with
    | .error m => .error m
    | .ok _ => .ok (r.1, r.2.1)

/-- First part of `getHooksIn`, up to the enumeration: the namespace, the internal
ignores, the two closures and the call of `hooks.GetAllHooksIn`. Returns `allHooks` and
`maxBatches`. -/
def getHooksIn_enumerate (env : Env) (settings : HookSettings) (w : World)
    (rootDir hooksDir : String) (addInternalIgnores : Bool) (hookNamespace : String)
    (readNamespace : Bool) : Except String (List Hook × Nat) :=
  let ns : Except String String :=
    if readNamespace then
      match assertNoErrorPanicF (env.GetHooksNamespace hooksDir).2
          ("Could not get hook namespace in \x27" ++ hooksDir ++ "\x27") with
      | .error m => .error m
      | .ok _ =>
        .ok (if (env.GetHooksNamespace hooksDir).1 ≠ "" then (env.GetHooksNamespace hooksDir).1
          else hookNamespace)
    else .ok hookNamespace
  match ns with
  | .error m => .error m
  | .ok hookNamespace =>
    let internal : Except String (String → Bool) :=
      if addInternalIgnores then
        let r := env.GetHookPatternsHooksDir hooksDir [settings.HookName] hookNamespace
        match assertNoErrorPanicF r.2
            ("Could not get worktree ignores in \x27" ++ hooksDir ++ "\x27.") with
        | .error m => .error m
        | .ok _ => .ok r.1
      else .ok (fun _ => false)
    match internal with
    | .error m => .error m
    | .ok internalIgnores =>
      let isIgnored : String → Bool := fun namespacePath =>
        (env.IsIgnored namespacePath).1 || internalIgnores namespacePath
      match env.GetAllHooksIn rootDir hooksDir settings.HookName hookNamespace isIgnored
          (isTrustedClosure env settings w.checksums) true true with
      | .error m => .error m
      | .ok r =>
        match assertNoErrorPanicF r.2.2
            ("Errors while collecting hooks in \x27" ++ hooksDir ++ "\x27.") with
        | .error m => .error m
        | .ok _ => .ok (r.1, r.2.1)

/-- The variables of the batching loop of `getHooksIn`. -/
structure LoopState where
  batches : List (List Hook)
  curBatchIdx : Nat
  curBatchName : String
  world : World
  deriving DecidableEq, Repr

/-- The block `if hook.Active && !hook.Trusted { ... }` of `getHooksIn` and of
`executeOldHook`: the trust prompt unless non-interactive, then
`failOrWarnOnActiveUntrusted` with the given skip flag. Returns the state and the hook
record it leaves. -/
def trustGate (env : Env) (nonInteractive skip : Bool) (w : World) (hook : Hook) :
    Except String (World × Hook) :=
  if hook.Active && !hook.Trusted then
    let r := if !nonInteractive then showTrustPrompt env w hook else (w, hook)
    match failOrWarnOnActiveUntrusted skip r.2 r.1 with
    | .error m => .error m
    | .ok w2 => .ok (w2, r.2)
  else .ok (w, hook)

/-- One iteration of the loop `for i := range allHooks` of `getHooksIn`. -/
def getHooksIn_step (env : Env) (settings : HookSettings) (s : LoopState) (hook : Hook) :
    Except String LoopState :=
  match trustGate env settings.NonInteractive settings.SkipUntrustedHooks s.world hook with
  | .error m => .error m
  | .ok r =>
    if !r.2.Active || !r.2.Trusted then .ok { s with world := r.1 }
    else
      let s1 : LoopState :=
        if s.curBatchName ≠ r.2.BatchName then
          { batches := s.batches ++ [[]], curBatchIdx := s.curBatchIdx + 1,
            curBatchName := r.2.BatchName, world := r.1 }
        else { s with world := r.1 }
      if s1.curBatchIdx < s1.batches.length then
        .ok { s1 with batches := s1.batches.modify (fun b => b ++ [r.2]) s1.curBatchIdx }
      else .error "runtime error: index out of range"

/-- The loop `for i := range allHooks` of `getHooksIn`, over the sorted hooks. -/
def getHooksIn_loop (env : Env) (settings : HookSettings) :
    List Hook → LoopState → Except String LoopState
  | [], s => .ok s
  | hook :: rest, s =>
    match getHooksIn_step env settings s hook with
    | .error m => .error m
    | .ok s1 => getHooksIn_loop env settings rest s1

/-- Second part of `getHooksIn`, from `len(allHooks) == 0` on: sort by batch name and
split into batches. -/
def getHooksIn_batches (env : Env) (settings : HookSettings) (w : World)
    (allHooks : List Hook) (maxBatches : Nat) : Except String (List (List Hook) × World) :=
  match allHooks with
  | [] => .ok ([], w)
  | first :: others =>
    let sorted := if (first :: others).length > 1 then env.sortSlice (first :: others)
      else first :: others
    if maxBatches < 1 then .error "runtime error: makeslice: cap out of range"
    else
      match sorted with
      | [] => .error "runtime error: index out of range"
      | h0 :: _ =>
        match getHooksIn_loop env settings sorted
            { batches := [[]], curBatchIdx := 0, curBatchName := h0.BatchName, world := w } with
        | .error m => .error m
        | .ok s => .ok (s.batches, s.world)

/-- Function `getHooksIn`: the batches of the hooks to run and the state it leaves. -/
def getHooksIn (env : Env) (settings : HookSettings) (w : World)
    (rootDir hooksDir : String) (addInternalIgnores : Bool) (hookNamespace : String)
    (readNamespace : Bool) : Except String (List (List Hook) × World) :=
  match getHooksIn_enumerate env settings w rootDir hooksDir addInternalIgnores hookNamespace
      readNamespace with
  | .error m => .error m
  | .ok (allHooks, maxBatches) => getHooksIn_batches env settings w allHooks maxBatches

/-! ## The loop of `getHooksIn`, taken apart

The loop interleaves two things that do not depend on each other: the trust decision for
each hook (`gateAll`) and the batching of the hooks that are kept (`splitBatches`). The
lemma `getHooksIn_loop_eq` below shows the loop is their composition. -/

/-- The skip test `!hook.Active || !hook.Trusted` of the loop, negated: the hook is kept. -/
def Hook.kept (hook : Hook) : Bool := hook.Active && hook.Trusted

/-- The trust decisions of the loop: `trustGate` for each hook in turn. Returns the hook
records as the loop leaves them and the final state. -/
def gateAll (env : Env) (nonInteractive skip : Bool) :
    List Hook → World → Except String (List Hook × World)
  | [], w => .ok ([], w)
  | hook :: rest, w =>
    match trustGate env nonInteractive skip w hook with
    | .error m => .error m
    | .ok r =>
      match gateAll env nonInteractive skip rest r.1 with
      | .error m => .error m
      | .ok rs => .ok (r.2 :: rs.1, rs.2)

/-- The batching of the loop over the kept hooks: a new batch when the label differs from
the current one, then the hook joins the last batch. -/
def splitBatches : List Hook → List (List Hook) → String → List (List Hook)
  | [], batches, _ => batches
  | hook :: rest, batches, curBatchName =>
    if curBatchName ≠ hook.BatchName then
      splitBatches rest (batches ++ [[hook]]) hook.BatchName
    else
      splitBatches rest (batches.modify (fun b => b ++ [hook]) (batches.length - 1)) curBatchName

/-- The branch `if acceptHook { ... }` of `showTrustPrompt`, with the `uiSettings` left by
the prompt. -/
def stageAccept (env : Env) (w : World) (ui : UISettings) (hook : Hook) : World × Hook :=
  ({ w with
      uiSettings := { ui with TrustedHooks := ui.TrustedHooks ++
        [{ SHA1 := env.AssertSHA1 hook, Path := hook.Path,
           NamespacePath := hook.NamespacePath }] },
      checksums := { Checksums := w.checksums.Checksums ++ [(env.AssertSHA1 hook, hook.Path)] } },
    { hook with Trusted := true, SHA1 := env.AssertSHA1 hook })

/-- The branch `else if disableHook { ... }` of `showTrustPrompt`, with the `uiSettings`
left by the prompt. -/
def stageDisable (env : Env) (w : World) (ui : UISettings) (hook : Hook) : World × Hook :=
  ({ w with
      uiSettings := { ui with DisabledHooks := ui.DisabledHooks ++
        [{ SHA1 := env.AssertSHA1 hook, Path := hook.Path,
           NamespacePath := hook.NamespacePath }] } },
    { hook with Active := false, SHA1 := env.AssertSHA1 hook })

/-- The `uiSettings` after one question was shown. -/
def UISettings.asked (ui : UISettings) : UISettings :=
  { ui with PromptCtx := { ui.PromptCtx with Shown := ui.PromptCtx.Shown + 1 } }

/-- All hooks of a batch carry one label. -/
def UniformBatches (batches : List (List Hook)) : Prop :=
  ∀ b ∈ batches, ∀ x ∈ b, ∀ y ∈ b, x.BatchName = y.BatchName

/-- The labels of later batches are strictly above the labels of earlier ones. -/
def IncreasingBatches (batches : List (List Hook)) : Prop :=
  batches.Pairwise (fun b1 b2 => ∀ x ∈ b1, ∀ y ∈ b2, strLess x.BatchName y.BatchName = true)

/-- The slice `allHooks` after `if len(allHooks) > 1 { sort.Slice(...) }`. -/
def sortedHooks (env : Env) (allHooks : List Hook) : List Hook :=
  if allHooks.length > 1 then env.sortSlice allHooks else allHooks

/-- Successive calls of `showTrustPrompt` in one dispatch, on the given hooks in turn:
the state after the last call and the hook records the calls leave. -/
def showTrustPromptAll (env : Env) : List Hook → World → World × List Hook
  | [], w => (w, [])
  | hook :: rest, w =>
    ((showTrustPromptAll env rest (showTrustPrompt env w hook).1).1,
      (showTrustPrompt env w hook).2 ::
        (showTrustPromptAll env rest (showTrustPrompt env w hook).1).2)

/-- The entry `showTrustPrompt` stages for an accepted hook. -/
def acceptedEntry (env : Env) (hook : Hook) : ChecksumResult :=
  { SHA1 := env.AssertSHA1 hook, Path := hook.Path, NamespacePath := hook.NamespacePath }

/-! ## `executeOldHook` -/

/-- Constant `hooks.NamespaceReplacedHook`. -/
def NamespaceReplacedHook : String := "hooks"

/-- Function `executeOldHook`: run the replaced hook of the event, if there is one. The
text of the launch panic leaves out the rendering of the hook. -/
def executeOldHook (env : Env) (settings : HookSettings) (w : World) : Except String World :=
  let hookName := env.GetHookReplacementFileName settings.HookName
  let hookNamespace := NamespaceReplacedHook
  let isIgnored : String → Bool := fun namespacePath =>
    (env.IsIgnored namespacePath).1 && (env.IsIgnored namespacePath).2
  match env.GetAllHooksIn settings.RepositoryDir settings.HookDir hookName hookNamespace
      isIgnored (isTrustedClosure env settings w.checksums) true false with
  | .error m => .error m
  | .ok r =>
    match assertNoErrorPanicF r.2.2
        ("Errors while collecting hooks in \x27" ++ settings.HookDir ++ "\x27.") with
    | .error m => .error m
    | .ok _ =>
      match r.1 with
      | [] => .ok w
      | hook :: _ =>
        match trustGate env settings.NonInteractive settings.SkipNonExistingSharedHooks
            w hook with
        | .error m => .error m
        | .ok g =>
          if !g.2.Active || !g.2.Trusted then .ok g.1
          else
            match assertNoErrorPanicF (env.RunExecutable g.2) "Hook launch failed." with
            | .error m => .error m
            | .ok _ => .ok { g.1 with executed := g.1.executed ++ [g.2] }

/-! ## `storePendingData` -/

/-- The record `hooks.HookPatterns`: glob patterns and exact namespace paths. -/
structure HookPatterns where
  Patterns : List String := []
  NamespacePaths : List String := []
  deriving DecidableEq, Repr

/-- The record `hooks.RepoIgnorePatterns`: the user patterns and those of the hooks
directory. -/
structure RepoIgnorePatterns where
  User : HookPatterns := {}
  HooksDir : HookPatterns := {}
  deriving DecidableEq, Repr

/-- What `storePendingData` persists: the user ignore patterns written by
`hooks.StoreHookPatternsGitDir` (with the directory) and the entries handed to
`checksums.SyncChecksumAdd`; `none` when the call was not made. -/
structure Stored where
  userIgnores : Option (HookPatterns × String) := none
  syncedChecksums : Option (List ChecksumResult) := none
  deriving DecidableEq, Repr

/-- Modelled from the spec: `HookPatterns.AddNamespacePaths` is not in the sources; it stages
an exact-match ignore for the namespace path. -/
def HookPatterns.AddNamespacePaths (p : HookPatterns) (namespacePath : String) : HookPatterns :=
  { p with NamespacePaths := p.NamespacePaths ++ [namespacePath] }

/-- The loop `for i := range uiSettings.DisabledHooks` of `storePendingData`. -/
def storePendingData_addAll (user : HookPatterns) : List ChecksumResult → HookPatterns
  | [] => user
  | d :: rest => storePendingData_addAll (user.AddNamespacePaths d.NamespacePath) rest

/-- Function `storePendingData`: the ignore patterns it leaves and what it persisted. -/
def storePendingData (settings : HookSettings) (uiSettings : UISettings)
    (ignores : RepoIgnorePatterns) : RepoIgnorePatterns × Stored :=
  let r1 : RepoIgnorePatterns × Option (HookPatterns × String) :=
    if uiSettings.DisabledHooks.length ≠ 0 then
      let user := storePendingData_addAll ignores.User uiSettings.DisabledHooks
      ({ ignores with User := user }, some (user, settings.GitDirWorktree))
    else (ignores, none)
  let r2 : Option (List ChecksumResult) :=
    if uiSettings.TrustedHooks.length ≠ 0 then some uiSettings.TrustedHooks else none
  (r1.1, { userIgnores := r1.2, syncedChecksums := r2 })

/-! ## The state a panic leaves behind

`getHooksIn` and `executeOldHook` above return the state only when they return. The
deferred `storePendingData` of `mainRun` also runs when they panic, on the state as it is
then. The functions below give that state: a panic of the trust block comes from
`failOrWarnOnActiveUntrusted`, after `showTrustPrompt` has run. -/

/-- The state the trust block leaves, also when it panics. -/
def trustGate_world (env : Env) (nonInteractive skip : Bool) (w : World) (hook : Hook) : World :=
  match trustGate env nonInteractive skip w hook with
  | .ok r => r.1
  | .error _ => if !nonInteractive then (showTrustPrompt env w hook).1 else w

/-- The state the loop of `getHooksIn` leaves, also when it panics. -/
def getHooksIn_loop_world (env : Env) (settings : HookSettings) :
    List Hook → LoopState → World
  | [], s => s.world
  | hook :: rest, s =>
    match getHooksIn_step env settings s hook with
    | .ok s1 => getHooksIn_loop_world env settings rest s1
    | .error _ =>
      trustGate_world env settings.NonInteractive settings.SkipUntrustedHooks s.world hook

/-- The state `getHooksIn` leaves, also when it panics. -/
def getHooksIn_world (env : Env) (settings : HookSettings) (w : World)
    (rootDir hooksDir : String) (addInternalIgnores : Bool) (hookNamespace : String)
    (readNamespace : Bool) : World :=
  match getHooksIn_enumerate env settings w rootDir hooksDir addInternalIgnores hookNamespace
      readNamespace with
  | .error _ => w
  | .ok (allHooks, maxBatches) =>
    if maxBatches < 1 then w
    else
      match sortedHooks env allHooks with
      | [] => w
      | h0 :: t =>
        getHooksIn_loop_world env settings (h0 :: t)
          { batches := [[]], curBatchIdx := 0, curBatchName := h0.BatchName, world := w }

/-- Function `getHooksIn` with the state it leaves, also when it panics. -/
def getHooksInS (env : Env) (settings : HookSettings) (w : World)
    (rootDir hooksDir : String) (addInternalIgnores : Bool) (hookNamespace : String)
    (readNamespace : Bool) : World × Except String (List (List Hook)) :=
  (getHooksIn_world env settings w rootDir hooksDir addInternalIgnores hookNamespace
      readNamespace,
    (getHooksIn env settings w rootDir hooksDir addInternalIgnores hookNamespace
      readNamespace).map Prod.fst)

/-- Function `executeOldHook` with the state it leaves, also when it panics: a panic of
the trust block leaves the state after the prompt, a failed launch the state after it. -/
def executeOldHookS (env : Env) (settings : HookSettings) (w : World) :
    World × Except String Unit :=
  match executeOldHook env settings w with
  | .ok w1 => (w1, .ok ())
  | .error m =>
    match env.GetAllHooksIn settings.RepositoryDir settings.HookDir
        (env.GetHookReplacementFileName settings.HookName) NamespaceReplacedHook
        (fun namespacePath => (env.IsIgnored namespacePath).1 && (env.IsIgnored namespacePath).2)
        (isTrustedClosure env settings w.checksums) true false with
    | .ok (hook :: _, _, none) =>
      match trustGate env settings.NonInteractive settings.SkipNonExistingSharedHooks
          w hook with
      | .ok g => ({ g.1 with executed := g.1.executed ++ [g.2] }, .error m)
      | .error _ =>
        (trustGate_world env settings.NonInteractive settings.SkipNonExistingSharedHooks
          w hook, .error m)
    | _ => (w, .error m)

/-! ## Shared hook repositories -/

/-- The fields of `hooks.SharedRepo` the runner reads. -/
structure SharedRepo where
  OriginalURL : String := ""
  URL : String := ""
  RepositoryDir : String := ""
  IsCloned : Bool := false
  IsLocal : Bool := false
  deriving DecidableEq, Repr

/-- The values `hooks.SharedHookTypeV.Repo`, `.Local` and `.Global`. -/
inductive SharedHookType
  | Repo
  | Local
  | Global
  deriving DecidableEq, Repr

/-- The collaborators of the collection of shared hooks. -/
structure SharedEnv where
  /-- Error of `hooks.LoadNamespaceEnvs(settings.RepositoryHooksDir)`. -/
  LoadNamespaceEnvs : Option String := none
  /-- Result `(shared, err)` of `hooks.LoadRepoSharedHooks(installDir, repositoryDir)`. -/
  LoadRepoSharedHooks : List SharedRepo × Option String := ([], none)
  /-- Result `(shared, err)` of `hooks.LoadConfigSharedHooks` in the local scope. -/
  LoadConfigSharedHooksLocal : List SharedRepo × Option String := ([], none)
  /-- Result `(shared, err)` of `hooks.LoadConfigSharedHooks` in the global scope. -/
  LoadConfigSharedHooksGlobal : List SharedRepo × Option String := ([], none)
  /-- Result of `hooks.AllowLocalURLInRepoSharedHooks()`. -/
  AllowLocalURLInRepoSharedHooks : Bool := false
  /-- Result `(exists, err)` of `cm.IsPathExisting(dir)`. -/
  IsPathExisting : String → Bool × Option String
  /-- The `remote.origin.url` recorded in the clone at `dir`. -/
  RemoteOriginURL : String → String
  /-- Result of `hooks.GetSharedGithooksDir(dir)`. -/
  GetSharedGithooksDir : String → String
  /-- Result `(hash, err)` of `cm.GetSHA1Hash` on a string. -/
  GetSHA1Hash : String → String × Option String
  /-- Result of `hooks.GetRepoSharedFile(repositoryDir)`. -/
  GetRepoSharedFile : String → String
  /-- Result of `hooks.GetRepoSharedFileRel()`. -/
  GetRepoSharedFileRel : String := ".githooks/.shared.yaml"
  /-- Constant `hooks.GitCKShared`. -/
  GitCKShared : String := "githooks.shared"

/-- Modelled from the spec: the log method `ErrorOrPanicF(isFatal, err, format, args...)`
is not in the sources. With `isFatal` it is a fatal error (a panic with the message),
otherwise the failure is downgraded to a logged error and the run continues. -/
def errorOrPanicF (isFatal : Bool) (err : Option String) (msg : String) (w : World) :
    World × Except String Unit :=
  let full : String :=
    match err with
    | none => msg
    | some e => msg ++ "\n-> error: [" ++ e ++ "]"
  if isFatal then (w, .error full) else ({ w with errors := w.errors ++ [full] }, .ok ())

/-- Modelled from the spec: the log method `ErrorOrPanicIfF(isFatal, condition, format,
args...)` is not in the sources: `ErrorOrPanicF` when the condition holds, nothing
otherwise. -/
def errorOrPanicIfF (isFatal condition : Bool) (msg : String) (w : World) :
    World × Except String Unit :=
  if condition then errorOrPanicF isFatal none msg w else (w, .ok ())

/-- The warning of `checkSharedHook` for a directory that is already listed. -/
def alreadyListedWarning (originalURL : String) : String :=
  "Shared hooks entry:\n\x27" ++ originalURL ++ "\x27\nis already listed and will be skipped."

/-- The message of `checkSharedHook` for a local path among the repository shared hooks. -/
def localPathMessage (sharedFileRel originalURL : String) : String :=
  "Shared hooks in \x27" ++ sharedFileRel ++ "\x27 contain a local path\n" ++
    "\x27" ++ originalURL ++ "\x27\n" ++
    "which is forbidden.\n" ++
    "\n" ++
    "You can only have local paths in shared hooks defined\n" ++
    "in the local or global Git configuration.\n" ++
    "\n" ++
    "You need to fix this by running\n" ++
    "  $ git hooks shared add [--local|--global] \x27" ++ originalURL ++ "\x27\n" ++
    "and deleting it from the \x27.shared\x27 file by\n" ++
    "  $ git hooks shared remove --shared \x27" ++ originalURL ++ "\x27"

/-- The message of `checkSharedHook` for a directory that does not exist. -/
def missingMessage (skip isCloned : Bool) (repositoryDir originalURL : String) : String :=
  "Repository: \x27" ++ repositoryDir ++ "\x27\nneeds shared hooks in:\n" ++
    "\x27" ++ originalURL ++ "\x27\n" ++
    (if isCloned then
      "which are are not available. To fix, run:\n" ++
        "$ git hooks shared update\n" ++
        "or gracefully continue by setting:\n" ++
        "$ git hooks config skip-non-existing-shared-hooks --enable [--global]"
    else "which does not exist.") ++
    (if skip then "\nContinuing..." else "")

/-- The message of `checkSharedHook` for a clone with another remote URL. -/
def urlMessage (skip : Bool) (originalURL url : String) : String :=
  "Failed to execute shared hooks in \x27" ++ originalURL ++ "\x27\n" ++
    "The remote URL \x27" ++ url ++ "\x27 is different.\n" ++
    "To fix it, run:\n" ++
    "  $ git hooks shared purge\n" ++
    "  $ git hooks shared update" ++
    (if skip then "\nContinuing..." else "")

/-- Function `checkSharedHook(settings, hook, allAddedHooks, sharedType)`: the state it
leaves and its result, or the panic. -/
def checkSharedHook (senv : SharedEnv) (settings : HookSettings) (hook : SharedRepo)
    (allAddedHooks : List String) (sharedType : SharedHookType) (w : World) :
    World × Except String Bool :=
  let isFatal : Bool := decide (settings.HookName ≠ "reference-transaction")
  if hook.RepositoryDir ∈ allAddedHooks then
    ({ w with warnings := w.warnings ++ [alreadyListedWarning hook.OriginalURL] }, .ok false)
  else
    match errorOrPanicIfF isFatal
        (!senv.AllowLocalURLInRepoSharedHooks && decide (sharedType = SharedHookType.Repo) &&
          hook.IsLocal)
        (localPathMessage senv.GetRepoSharedFileRel hook.OriginalURL) w with
    | (w0, .error m) => (w0, .error m)
    | (w1, .ok _) =>
      if !(senv.IsPathExisting hook.RepositoryDir).1 then
        match errorOrPanicF (isFatal && !settings.SkipNonExistingSharedHooks)
            (senv.IsPathExisting hook.RepositoryDir).2
            (missingMessage settings.SkipNonExistingSharedHooks hook.IsCloned
              settings.RepositoryDir hook.OriginalURL) w1 with
        | (w0, .error m) => (w0, .error m)
        | (w2, .ok _) => (w2, .ok false)
      else if hook.IsCloned && decide (senv.RemoteOriginURL hook.RepositoryDir ≠ hook.URL) then
        match errorOrPanicF (isFatal && !settings.SkipNonExistingSharedHooks) none
            (urlMessage settings.SkipNonExistingSharedHooks hook.OriginalURL
              (senv.RemoteOriginURL hook.RepositoryDir)) w1 with
        | (w0, .error m) => (w0, .error m)
        | (w2, .ok _) => (w2, .ok false)
      else (w1, .ok true)

/-- Function `hooks.GetDefaultHooksNamespaceShared(sharedRepo)`: the first ten characters
of the hash of the original URL. -/
def GetDefaultHooksNamespaceShared (senv : SharedEnv) (sharedRepo : SharedRepo) :
    Except String String :=
  match (senv.GetSHA1Hash sharedRepo.OriginalURL).2 with
  | some e => .error ("Could not compute default hash.\n-> error: [" ++ e ++ "]")
  | none =>
    if (senv.GetSHA1Hash sharedRepo.OriginalURL).1.length < 10 then
      .error "runtime error: slice bounds out of range"
    else .ok (String.mk ((senv.GetSHA1Hash sharedRepo.OriginalURL).1.data.take 10))

/-- Function `getHooksInShared(settings, uiSettings, namespaceEnvs, shRepo, ...)`. The call
is put on record in `World.enumerated`, by the directory of the source. -/
def getHooksInShared (senv : SharedEnv) (env : Env) (settings : HookSettings) (w : World)
    (shRepo : SharedRepo) : World × Except String (List (List Hook)) :=
  match GetDefaultHooksNamespaceShared senv shRepo with
  | .error m => ({ w with enumerated := w.enumerated ++ [shRepo.RepositoryDir] }, .error m)
  | .ok hookNamespace =>
    getHooksInS env settings { w with enumerated := w.enumerated ++ [shRepo.RepositoryDir] }
      shRepo.RepositoryDir (senv.GetSharedGithooksDir shRepo.RepositoryDir) true hookNamespace
      true

/-- The loop `for i := range shared` of `getRepoSharedHooks` and of
`getConfigSharedHooks`: the batches `hs` and the list `*allAddedHooks` it leaves. -/
def sharedHooksLoop (senv : SharedEnv) (env : Env) (settings : HookSettings)
    (sharedType : SharedHookType) :
    List SharedRepo → List (List Hook) → List String → World →
      World × Except String (List (List Hook) × List String)
  | [], hs, allAddedHooks, w => (w, .ok (hs, allAddedHooks))
  | shRepo :: rest, hs, allAddedHooks, w =>
    match checkSharedHook senv settings shRepo allAddedHooks sharedType w with
    | (w0, .error m) => (w0, .error m)
    | (w1, .ok false) =>
      sharedHooksLoop senv env settings sharedType rest hs allAddedHooks w1
    | (w1, .ok true) =>
      match getHooksInShared senv env settings w1 shRepo with
      | (w0, .error m) => (w0, .error m)
      | (w2, .ok batches) =>
        sharedHooksLoop senv env settings sharedType rest (hs ++ batches)
          (allAddedHooks ++ [shRepo.RepositoryDir]) w2

/-- Function `getRepoSharedHooks`. The call of `updateSharedHooks` in it changes the file
system only and is left out here. -/
def getRepoSharedHooks (senv : SharedEnv) (env : Env) (settings : HookSettings) (w : World)
    (allAddedHooks : List String) :
    World × Except String (List (List Hook) × List String) :=
  let loaded : World × Except String Unit :=
    match senv.LoadRepoSharedHooks.2 with
    | some e =>
      errorOrPanicF (!settings.SkipNonExistingSharedHooks) (some e)
        ("Repository shared hooks are demanded but failed to parse the file:\n\x27" ++
          senv.GetRepoSharedFile settings.RepositoryDir ++ "\x27") w
    | none => (w, .ok ())
  match loaded with
  | (w0, .error m) => (w0, .error m)
  | (w1, .ok _) =>
    sharedHooksLoop senv env settings SharedHookType.Repo senv.LoadRepoSharedHooks.1 []
      allAddedHooks w1

/-- Function `hooks.GetSharedHookTypeString(sharedType)`, for the message. -/
def GetSharedHookTypeString : SharedHookType → String
  | .Repo => "repo"
  | .Local => "local"
  | .Global => "global"

/-- The `switch sharedType` of `getConfigSharedHooks`: the sources of the local or of the
global configuration and the error of loading them; nothing for another type. -/
def loadConfigShared (senv : SharedEnv) : SharedHookType → List SharedRepo × Option String
  | .Local => senv.LoadConfigSharedHooksLocal
  | .Global => senv.LoadConfigSharedHooksGlobal
  | .Repo => ([], none)

/-- Function `getConfigSharedHooks`. -/
def getConfigSharedHooks (senv : SharedEnv) (env : Env) (settings : HookSettings) (w : World)
    (allAddedHooks : List String) (sharedType : SharedHookType) :
    World × Except String (List (List Hook) × List String) :=
  let shared : List SharedRepo × Option String := loadConfigShared senv sharedType
  let loaded : World × Except String Unit :=
    match shared.2 with
    | some e =>
      errorOrPanicF (!settings.SkipNonExistingSharedHooks) (some e)
        ("Shared hooks are demanded but failed to parse the " ++
          GetSharedHookTypeString sharedType ++ " config:\n\x27" ++ senv.GitCKShared ++ "\x27") w
    | none => (w, .ok ())
  match loaded with
  | (w0, .error m) => (w0, .error m)
  | (w1, .ok _) => sharedHooksLoop senv env settings sharedType shared.1 [] allAddedHooks w1

/-- The record `hooks.Hooks`: the batches of the four tiers. -/
structure Hooks where
  LocalHooks : List (List Hook) := []
  RepoSharedHooks : List (List Hook) := []
  LocalSharedHooks : List (List Hook) := []
  GlobalSharedHooks : List (List Hook) := []
  deriving DecidableEq, Repr

/-- Function `collectHooks`, together with the final value of its local variable
`allAddedShared`. -/
def collectHooks_run (senv : SharedEnv) (env : Env) (settings : HookSettings) (w : World) :
    World × Except String (Hooks × List String) :=
  match senv.LoadNamespaceEnvs with
  | some e => (w, .error ("Could not load env. file\n-> error: [" ++ e ++ "]"))
  | none =>
    match getHooksInS env settings w settings.RepositoryDir settings.RepositoryHooksDir
        false settings.HookNamespace false with
    | (w0, .error m) => (w0, .error m)
    | (w1, .ok localHooks) =>
      match getRepoSharedHooks senv env settings w1 [] with
      | (w0, .error m) => (w0, .error m)
      | (w2, .ok r2) =>
        match getConfigSharedHooks senv env settings w2 r2.2 SharedHookType.Local with
        | (w0, .error m) => (w0, .error m)
        | (w3, .ok r3) =>
          match getConfigSharedHooks senv env settings w3 r3.2 SharedHookType.Global with
          | (w0, .error m) => (w0, .error m)
          | (w4, .ok r4) =>
            (w4, .ok ({ LocalHooks := localHooks, RepoSharedHooks := r2.1,
                        LocalSharedHooks := r3.1, GlobalSharedHooks := r4.1 }, r4.2))

/-- Function `collectHooks`. -/
def collectHooks (senv : SharedEnv) (env : Env) (settings : HookSettings) (w : World) :
    World × Except String Hooks :=
  ((collectHooks_run senv env settings w).1,
    (collectHooks_run senv env settings w).2.map Prod.fst)

/-! ## Execution: `logHookResults` and `executeHooks` -/

/-- The record `hooks.HookResult`. -/
structure HookResult where
  Hook : Hook
  Output : String := ""
  Error : Option String := none
  deriving DecidableEq, Repr

/-- The collaborators of the execution. -/
structure ExecEnv where
  /-- Output and error of running a hook. -/
  RunHook : Hook → String × Option String
  /-- Constant `cm.ListItemLiteral`. -/
  ListItemLiteral : String := "•"
  /-- Error of writing the execution sequence, which only a debug build does. -/
  DumpError : Option String := none
  /-- Whether `hooks.ExecuteHooksParallel`, after a batch, hands the results it has
  gathered and not yet handed over (the argument) to `outputCallback` right away, or
  keeps them for later. -/
  HandOver : List HookResult → Bool := fun _ => true

/-- The error line of `log.AssertNoErrorF(r.Error, "Hook '%s' failed!", r.Hook.Path)`. -/
def hookFailedLine (path err : String) : String :=
  "Hook \x27" ++ path ++ "\x27 failed!\n-> error: [" ++ err ++ "]"

/-- The item `strs.FmtW(&sb, "\n%s '%s'", cm.ListItemLiteral, r.Hook.NamespacePath)`. -/
def failedItem (lit namespacePath : String) : String :=
  "\n" ++ lit ++ " \x27" ++ namespacePath ++ "\x27"

/-- The loop `for _, r := range res` of `logHookResults`: the state, `hadErrors` and the
string builder `sb`. -/
def logHookResults_loop (lit : String) :
    List HookResult → World → Bool → String → World × Bool × String
  | [], w, hadErrors, sb => (w, hadErrors, sb)
  | r :: rest, w, hadErrors, sb =>
    match r.Error with
    | none =>
      logHookResults_loop lit rest
        (if r.Output ≠ "" then { w with infoSink := w.infoSink ++ [r.Output] } else w)
        hadErrors sb
    | some e =>
      let w1 : World :=
        if r.Output ≠ "" then { w with errorSink := w.errorSink ++ [r.Output] } else w
      logHookResults_loop lit rest
        { w1 with errors := w1.errors ++ [hookFailedLine r.Hook.Path e] }
        true (sb ++ failedItem lit r.Hook.NamespacePath)

/-- The head of the panic message of `logHookResults`. -/
def hooksFailedHead : String := "Some hooks failed, check output for details:\n"

/-- Function `logHookResults(res...)`. -/
def logHookResults (lit : String) (res : List HookResult) (w : World) :
    World × Except String Unit :=
  if (logHookResults_loop lit res w false "").2.1 then
    ((logHookResults_loop lit res w false "").1,
      .error (hooksFailedHead ++ (logHookResults_loop lit res w false "").2.2))
  else ((logHookResults_loop lit res w false "").1, .ok ())

/-- The results of running the hooks of one batch. -/
def runBatch (xenv : ExecEnv) (batch : List Hook) : List HookResult :=
  batch.map (fun h => { Hook := h, Output := (xenv.RunHook h).1, Error := (xenv.RunHook h).2 })

/-- The loop over the batches of `hooks.ExecuteHooksParallel`: `res` are the results so
far, `pending` the results gathered and not yet handed to `outputCallback`. -/
def ExecuteHooksParallel_loop (xenv : ExecEnv)
    (outputCallback : List HookResult → World → World × Except String Unit) :
    List (List Hook) → List HookResult → List HookResult → World →
      World × Except String (List HookResult)
  | [], res, [], w => (w, .ok res)
  | [], res, r :: pending, w =>
    match outputCallback (r :: pending) w with
    | (w0, .error m) => (w0, .error m)
    | (w1, .ok _) => (w1, .ok res)
  | batch :: rest, res, pending, w =>
    if xenv.HandOver (pending ++ runBatch xenv batch) then
      match outputCallback (pending ++ runBatch xenv batch)
          { w with executed := w.executed ++ batch } with
      | (w0, .error m) => (w0, .error m)
      | (w1, .ok _) =>
        ExecuteHooksParallel_loop xenv outputCallback rest (res ++ runBatch xenv batch) [] w1
    else
      ExecuteHooksParallel_loop xenv outputCallback rest (res ++ runBatch xenv batch)
        (pending ++ runBatch xenv batch) { w with executed := w.executed ++ batch }

/-- Modelled from the spec: `hooks.ExecuteHooksParallel(pool, execx, hs, res,
outputCallback, args...)` is not in the sources. Batch after batch, it runs the hooks of
the batch (here one after the other, in the order of the batch) and gathers all results
of the batch before it proceeds; the results accumulate into one list; it reports no
error of its own. Every result is handed to `outputCallback` once, in the order of the
hooks, after the batch of the hook is complete and before the call returns; whether that
is right after the batch or together with the results of later batches is not said, and
is left to `ExecEnv.HandOver`. -/
def ExecuteHooksParallel (xenv : ExecEnv)
    (outputCallback : List HookResult → World → World × Except String Unit)
    (hs : List (List Hook)) (res : List HookResult) (w : World) :
    World × Except String (List HookResult) :=
  ExecuteHooksParallel_loop xenv outputCallback hs res [] w

/-- Function `executeHooks(settings, hs)`: the four calls of `hooks.ExecuteHooksParallel`.
The thread count and the pool do not change what is run and are left out, like the
rewriting of the arguments for containers and the `Launching ...` lines. -/
def executeHooks (xenv : ExecEnv) (hs : Hooks) (w : World) : World × Except String Unit :=
  match xenv.DumpError with
  | some e => (w, .error ("Failed to create execution log.\n-> error: [" ++ e ++ "]"))
  | none =>
    match ExecuteHooksParallel xenv (logHookResults xenv.ListItemLiteral) hs.LocalHooks [] w with
    | (w0, .error m) => (w0, .error m)
    | (w1, .ok results1) =>
      match ExecuteHooksParallel xenv (logHookResults xenv.ListItemLiteral)
          hs.RepoSharedHooks results1 w1 with
      | (w0, .error m) => (w0, .error m)
      | (w2, .ok results2) =>
        match ExecuteHooksParallel xenv (logHookResults xenv.ListItemLiteral)
            hs.LocalSharedHooks results2 w2 with
        | (w0, .error m) => (w0, .error m)
        | (w3, .ok results3) =>
          match ExecuteHooksParallel xenv (logHookResults xenv.ListItemLiteral)
              hs.GlobalSharedHooks results3 w3 with
          | (w0, .error m) => (w0, .error m)
          | (w4, .ok _) => (w4, .ok ())

/-- The batches of the four tiers, in the order of the calls in `executeHooks`. -/
def Hooks.allBatches (hs : Hooks) : List (List Hook) :=
  hs.LocalHooks ++ hs.RepoSharedHooks ++ hs.LocalSharedHooks ++ hs.GlobalSharedHooks

/-! ## `mainRun` -/

/-- The steps of `mainRun` that are taken by their outcome. -/
structure MainEnv where
  /-- Panic of `createLog()`, which runs before the recover handler is installed. -/
  createLog : Option String := none
  /-- Error of `os.Getwd()`. -/
  Getwd : Option String := none
  /-- Outcome of `setupSettings(cwd)`: its panic, or the settings. -/
  setupSettings : Except String (HookSettings × UISettings)
  /-- Panic of `assertRegistered(...)`. -/
  assertRegistered : Option String := none
  /-- The store loaded by `hooks.GetChecksumStorage`. -/
  checksums : ChecksumStore := {}
  /-- The namespace read by `hooks.GetHooksNamespace(settings.RepositoryHooksDir)`. -/
  hooksNamespace : String := ""
  /-- The patterns loaded by `hooks.GetIgnorePatterns`. -/
  ignores : RepoIgnorePatterns := {}
  /-- The state `updateGithooks` leaves (it may show prompts). -/
  updateGithooks : World → World := fun w => w
  /-- Panic of `executeLFSHooks(settings)`. -/
  executeLFSHooks : Option String := none

/-- Modelled from the spec: `cm.HandleCLIErrors(r, log, ...)` is not in the sources. It
reports the recovered panic and is true exactly when there was one, so that panic
recovery maps to exit code 1 unconditionally. -/
def HandleCLIErrors (r : Option String) : Bool := r.isSome

/-- The statements of `mainRun` after `defer storePendingData(...)`. -/
def mainRun_body (menv : MainEnv) (senv : SharedEnv) (env : Env) (xenv : ExecEnv)
    (settings : HookSettings) (w : World) : World × Except String Unit :=
  if settings.Disabled then
    match menv.executeLFSHooks with
    | some m => (w, .error m)
    | none => executeOldHookS env settings w
  else
    match menv.executeLFSHooks with
    | some m => (menv.updateGithooks w, .error m)
    | none =>
      match executeOldHookS env settings (menv.updateGithooks w) with
      | (w0, .error m) => (w0, .error m)
      | (w1, .ok _) =>
        match collectHooks senv env settings w1 with
        | (w0, .error m) => (w0, .error m)
        | (w2, .ok hooks) =>
          match executeHooks xenv hooks w2 with
          | (w0, .error m) => (w0, .error m)
          | (w3, .ok _) =>
            ({ w3 with uiSettings :=
                { w3.uiSettings with
                  PromptCtx := { w3.uiSettings.PromptCtx with Closed := true } } }, .ok ())

/-- What a run of `mainRun` leaves. -/
structure MainResult where
  exitCode : Nat
  /-- The panic the handler recovered, if any. -/
  recovered : Option String := none
  /-- The state at the end, once the stores are loaded. -/
  world : Option World := none
  /-- What the deferred `storePendingData` left, if it was registered. -/
  stored : Option (RepoIgnorePatterns × Stored) := none
  deriving DecidableEq, Repr

/-- The exit code the deferred recover handler of `mainRun` leaves, from 0. -/
def recoverExitCode (r : Option String) : Nat := if HandleCLIErrors r then 1 else 0

/-- The settings of `mainRun` once the namespace of the repository is read. -/
def mainRun_settings (menv : MainEnv) (su : HookSettings × UISettings) : HookSettings :=
  if menv.hooksNamespace ≠ "" then { su.1 with HookNamespace := menv.hooksNamespace } else su.1

/-- The state of `mainRun` once the stores are loaded. -/
def mainRun_start (menv : MainEnv) (su : HookSettings × UISettings) : World :=
  { uiSettings := su.2, checksums := menv.checksums }

/-- The panic a stretch of the run ended with, if any. -/
def panicOf (out : World × Except String Unit) : Option String :=
  match out.2 with
  | .error m => some m
  | .ok _ => none

/-- Function `mainRun`: its result, or the panic of `createLog()` that nothing recovers. -/
def mainRun (menv : MainEnv) (senv : SharedEnv) (env : Env) (xenv : ExecEnv) :
    Except String MainResult :=
  match menv.createLog with
  | some m => .error m
  | none =>
    match menv.Getwd with
    | some e =>
      let m := "Could not get current working dir.\n-> error: [" ++ e ++ "]"
      .ok { exitCode := recoverExitCode (some m), recovered := some m }
    | none =>
      match menv.setupSettings with
      | .error m => .ok { exitCode := recoverExitCode (some m), recovered := some m }
      | .ok su =>
        match menv.assertRegistered with
        | some m => .ok { exitCode := recoverExitCode (some m), recovered := some m }
        | none =>
          let settings := mainRun_settings menv su
          let out := mainRun_body menv senv env xenv settings (mainRun_start menv su)
          .ok { exitCode := recoverExitCode (panicOf out), recovered := panicOf out,
                world := some out.1,
                stored := some (storePendingData settings out.1.uiSettings menv.ignores) }

/-! ## Go's `sort.Slice`

The standard library's `sort.Slice` (Go 1.19 and later): pattern-defeating quicksort
`pdqsort_func` over the index-based `Less` and `Swap` of the slice. Loops that count
towards a bound recurse on a counter; `pdqsort_func` recurses on a depth bound that the
length of the range never exceeds, and returns `none` only if that bound is used up.
The step `breakPatterns_func` is an argument of `pdqsort_func` and `Slice`, and
`goSortSlice` hands in the function of the library: that the result is in order is
proved for every such step that only moves elements inside its range (`Slice_sorted`), so
the numbers its generator `xorshift` draws do not enter that proof. -/

namespace GoSort

variable {α : Type}

/-- Method `data.Swap(i, j)` of the slice. -/
def swap (data : List α) (i j : Nat) : List α :=
  match data[i]?, data[j]? with
  | some x, some y => (data.set i y).set j x
  | _, _ => data

/-- Method `data.Less(i, j)` of the slice. -/
def lessAt (less : α → α → Bool) (data : List α) (i j : Nat) : Bool :=
  match data[i]?, data[j]? with
  | some x, some y => less x y
  | _, _ => false

/-- Inner loop of `insertionSort_func`: `for j := i; j > a && Less(j, j-1); j--`. -/
def insertionSort_inner (less : α → α → Bool) (a : Nat) : Nat → List α → List α
  | 0, data => data
  | j + 1, data =>
    if a < j + 1 && lessAt less data (j + 1) j then
      insertionSort_inner less a j (swap data (j + 1) j)
    else data

/-- Outer loop of `insertionSort_func`, `n` iterations left, at index `i`. -/
def insertionSort_outer (less : α → α → Bool) (a : Nat) : Nat → Nat → List α → List α
  | 0, _, data => data
  | n + 1, i, data => insertionSort_outer less a n (i + 1) (insertionSort_inner less a i data)

/-- Function `insertionSort_func(data, a, b)`. -/
def insertionSort_func (less : α → α → Bool) (data : List α) (a b : Nat) : List α :=
  insertionSort_outer less a (b - (a + 1)) (a + 1) data

/-- Function `siftDown_func(data, lo, hi, first)`, with `root` starting at `lo`. -/
def siftDown_func (less : α → α → Bool) (hi first : Nat) : Nat → Nat → List α → List α
  | 0, _, data => data
  | n + 1, root, data =>
    let child := 2 * root + 1
    if hi ≤ child then data
    else
      let child :=
        if child + 1 < hi && lessAt less data (first + child) (first + child + 1) then child + 1
        else child
      if !lessAt less data (first + root) (first + child) then data
      else siftDown_func less hi first n child (swap data (first + root) (first + child))

/-- First loop of `heapSort_func`: `siftDown` for `i = n-1, ..., 0`. -/
def heapSort_build (less : α → α → Bool) (hi first : Nat) : Nat → List α → List α
  | 0, data => data
  | i + 1, data => heapSort_build less hi first i (siftDown_func less hi first hi i data)

/-- Second loop of `heapSort_func`: pop for `i = n-1, ..., 0`. -/
def heapSort_pop (less : α → α → Bool) (first : Nat) : Nat → List α → List α
  | 0, data => data
  | i + 1, data =>
    heapSort_pop less first i (siftDown_func less i first i 0 (swap data first (first + i)))

/-- Function `heapSort_func(data, a, b)`. -/
def heapSort_func (less : α → α → Bool) (data : List α) (a b : Nat) : List α :=
  let hi := b - a
  heapSort_pop less a hi (heapSort_build less hi a ((hi - 1) / 2 + 1) data)

/-- The scanning loop `for i <= j && Less(i, a) { i++ }` of `partition_func`. -/
def scanUp (p : Nat → Bool) : Nat → Nat → Nat → Nat
  | 0, i, _ => i
  | n + 1, i, j => if i ≤ j && p i then scanUp p n (i + 1) j else i

/-- The scanning loop `for i <= j && !Less(j, a) { j-- }` of `partition_func`; the
result is `j + 1`, so that `0` stands for `j = -1`. -/
def scanDown (p : Nat → Bool) (i : Nat) : Nat → Nat
  | 0 => 0
  | j + 1 => if i ≤ j && p j then scanDown p i j else j + 1

/-- The main loop of `partition_func` and `partitionEqual_func`; `j1` is `j + 1`.
Returns `data`, `i` and `j + 1` at the `break`. -/
def partition_loop (up down : List α → Nat → Bool) :
    Nat → List α → Nat → Nat → List α × Nat × Nat
  | 0, data, i, j1 => (data, i, j1)
  | n + 1, data, i, j1 =>
    let i := scanUp (up data) j1 i (j1 - 1)
    let j1 := if j1 = 0 then 0 else scanDown (down data) i j1
    if j1 ≤ i then (data, i, j1)
    else partition_loop up down n (swap data i (j1 - 1)) (i + 1) (j1 - 1)

/-- Function `partition_func(data, a, b, pivot)`: `(data, newpivot, alreadyPartitioned)`. -/
def partition_func (less : α → α → Bool) (data : List α) (a b pivot : Nat) :
    List α × Nat × Bool :=
  let data := swap data a pivot
  let up : List α → Nat → Bool := fun d i => lessAt less d i a
  let down : List α → Nat → Bool := fun d j => !lessAt less d j a
  let i := scanUp (up data) b (a + 1) (b - 1)
  let j1 := scanDown (down data) i b
  if j1 ≤ i then (swap data (j1 - 1) a, j1 - 1, true)
  else
    let r := partition_loop up down b (swap data i (j1 - 1)) (i + 1) (j1 - 1)
    (swap r.1 (r.2.2 - 1) a, r.2.2 - 1, false)

/-- Function `partitionEqual_func(data, a, b, pivot)`: `(data, newpivot)`. -/
def partitionEqual_func (less : α → α → Bool) (data : List α) (a b pivot : Nat) :
    List α × Nat :=
  let data := swap data a pivot
  let up : List α → Nat → Bool := fun d i => !lessAt less d a i
  let down : List α → Nat → Bool := fun d j => lessAt less d a j
  let r := partition_loop up down b data (a + 1) b
  (r.1, r.2.1)

/-- The loop `for j := i - 1; j >= 1; j--` of `partialInsertionSort_func`. -/
def shiftLeft (less : α → α → Bool) : Nat → List α → List α
  | 0, data => data
  | j + 1, data =>
    if 1 ≤ j + 1 && lessAt less data (j + 1) j then shiftLeft less j (swap data (j + 1) j)
    else data

/-- The loop `for j := i + 1; j < b; j++` of `partialInsertionSort_func`. -/
def shiftRight (less : α → α → Bool) (b : Nat) : Nat → Nat → List α → List α
  | 0, _, data => data
  | n + 1, j, data =>
    if j < b && lessAt less data j (j - 1) then shiftRight less b n (j + 1) (swap data j (j - 1))
    else data

/-- The loop `for j := 0; j < maxSteps; j++` of `partialInsertionSort_func`, `n` steps
left: `(data, sorted)`. -/
def partialInsertionSort_loop (less : α → α → Bool) (a b : Nat) :
    Nat → Nat → List α → List α × Bool
  | 0, _, data => (data, false)
  | n + 1, i, data =>
    let i := scanUp (fun k => !lessAt less data k (k - 1)) b i (b - 1)
    if i = b then (data, true)
    else if b - a < 50 then (data, false)
    else
      let data := swap data i (i - 1)
      let data := if 2 ≤ i - a then shiftLeft less (i - 1) data else data
      let data := if 2 ≤ b - i then shiftRight less b b (i + 1) data else data
      partialInsertionSort_loop less a b n i data

/-- Function `partialInsertionSort_func(data, a, b)`: `(data, sorted)`. -/
def partialInsertionSort_func (less : α → α → Bool) (data : List α) (a b : Nat) :
    List α × Bool :=
  partialInsertionSort_loop less a b 5 (a + 1) data

/-- Function `bits.Len(x)`: the number of bits of `x`. -/
def bitsLen : Nat → Nat → Nat
  | 0, _ => 0
  | n + 1, x => if x = 0 then 0 else bitsLen n (x / 2) + 1

/-- Method `Next` of `xorshift`, a `uint64`: `r ^= r << 13; r ^= r >> 17; r ^= r << 5`. -/
def xorshiftNext (r : Nat) : Nat :=
  let r := r ^^^ ((r <<< 13) % 2 ^ 64)
  let r := r ^^^ (r >>> 17)
  r ^^^ ((r <<< 5) % 2 ^ 64)

/-- The three swaps of `breakPatterns_func`. -/
def breakPatterns_loop (a length modulus idx : Nat) : Nat → Nat → Nat → List α → List α
  | 0, _, _, data => data
  | n + 1, i, random, data =>
    let random := xorshiftNext random
    let other := random % modulus
    let other := if length ≤ other then other - length else other
    breakPatterns_loop a length modulus idx n (i + 1) random (swap data (idx - 1 + i) (a + other))

/-- Function `breakPatterns_func(data, a, b)`. -/
def breakPatterns_func (data : List α) (a b : Nat) : List α :=
  let length := b - a
  if 8 ≤ length then
    breakPatterns_loop a length (2 ^ bitsLen 64 length) (a + (length / 4) * 2 - 1) 3 0 length data
  else data

/-- The hint of `choosePivot_func`. -/
inductive sortedHint
  | unknownHint
  | increasingHint
  | decreasingHint
  deriving DecidableEq, Repr

/-- Function `order2_func(data, a, b, swaps)`: `(x, y, swaps)`. -/
def order2_func (less : α → α → Bool) (data : List α) (a b swaps : Nat) : Nat × Nat × Nat :=
  if lessAt less data b a then (b, a, swaps + 1) else (a, b, swaps)

/-- Function `median_func(data, a, b, c, swaps)`: `(median, swaps)`. -/
def median_func (less : α → α → Bool) (data : List α) (a b c swaps : Nat) : Nat × Nat :=
  let r1 := order2_func less data a b swaps
  let r2 := order2_func less data r1.2.1 c r1.2.2
  let r3 := order2_func less data r1.1 r2.1 r2.2.2
  (r3.2.1, r3.2.2)

/-- Function `medianAdjacent_func(data, a, swaps)`. -/
def medianAdjacent_func (less : α → α → Bool) (data : List α) (a swaps : Nat) : Nat × Nat :=
  median_func less data (a - 1) a (a + 1) swaps

/-- Function `choosePivot_func(data, a, b)`: `(pivot, hint)`. -/
def choosePivot_func (less : α → α → Bool) (data : List α) (a b : Nat) : Nat × sortedHint :=
  let l := b - a
  let i := a + l / 4 * 1
  let j := a + l / 4 * 2
  let k := a + l / 4 * 3
  let r : Nat × Nat :=
    if 8 ≤ l then
      if 50 ≤ l then
        let ri := medianAdjacent_func less data i 0
        let rj := medianAdjacent_func less data j ri.2
        let rk := medianAdjacent_func less data k rj.2
        median_func less data ri.1 rj.1 rk.1 rk.2
      else median_func less data i j k 0
    else (j, 0)
  if r.2 = 0 then (r.1, .increasingHint)
  else if r.2 = 12 then (r.1, .decreasingHint)
  else (r.1, .unknownHint)

/-- Function `reverseRange_func(data, a, b)`: the loop `for i < j`, `n` steps left; `j1`
is `j + 1`. -/
def reverseRange_loop : Nat → Nat → Nat → List α → List α
  | 0, _, _, data => data
  | n + 1, i, j1, data =>
    if i + 1 < j1 then reverseRange_loop n (i + 1) (j1 - 1) (swap data i (j1 - 1)) else data

/-- Function `pdqsort_func(data, a, b, limit)`, with the loop variables `wasBalanced` and
`wasPartitioned` as arguments; the first argument after the two functions bounds the
depth. The function `breakPatterns` stands for `breakPatterns_func`: it is handed in, so
that what is proved of the sort holds whichever elements of the range that step swaps. -/
def pdqsort_func (less : α → α → Bool) (breakPatterns : List α → Nat → Nat → List α) :
    Nat → List α → Nat → Nat → Nat → Bool → Bool → Option (List α)
  | 0, _, _, _, _, _, _ => none
  | fuel + 1, data, a, b, limit, wasBalanced, wasPartitioned =>
    let length := b - a
    if length ≤ 12 then some (insertionSort_func less data a b)
    else if limit = 0 then some (heapSort_func less data a b)
    else
      let data := if !wasBalanced then breakPatterns data a b else data
      let limit := if !wasBalanced then limit - 1 else limit
      let ph := choosePivot_func less data a b
      let data := if ph.2 = .decreasingHint then reverseRange_loop length a b data else data
      let pivot := if ph.2 = .decreasingHint then (b - 1) - (ph.1 - a) else ph.1
      let hint := if ph.2 = .decreasingHint then sortedHint.increasingHint else ph.2
      let tryPartial := wasBalanced && wasPartitioned && hint = .increasingHint
      let pr := if tryPartial then partialInsertionSort_func less data a b else (data, false)
      if pr.2 then some pr.1
      else
        let data := pr.1
        if 0 < a && !lessAt less data (a - 1) pivot then
          let r := partitionEqual_func less data a b pivot
          pdqsort_func less breakPatterns fuel r.1 r.2 b limit wasBalanced wasPartitioned
        else
          let r := partition_func less data a b pivot
          let mid := r.2.1
          let leftLen := mid - a
          let rightLen := b - mid
          let balanceThreshold := length / 8
          if leftLen < rightLen then
            match pdqsort_func less breakPatterns fuel r.1 a mid limit true true with
            | none => none
            | some data => pdqsort_func less breakPatterns fuel data (mid + 1) b limit
                (decide (balanceThreshold ≤ leftLen)) r.2.2
          else
            match pdqsort_func less breakPatterns fuel r.1 (mid + 1) b limit true true with
            | none => none
            | some data => pdqsort_func less breakPatterns fuel data a mid limit
                (decide (balanceThreshold ≤ rightLen)) r.2.2

/-- Function `sort.Slice(x, less)`, with `breakPatterns` for `breakPatterns_func`; `none`
only if the depth bound were used up. -/
def Slice (less : α → α → Bool) (breakPatterns : List α → Nat → Nat → List α) (x : List α) :
    Option (List α) :=
  pdqsort_func less breakPatterns (x.length + 1) x 0 x.length (bitsLen 64 x.length) true true

/-- The comparison is a strict weak order. -/
structure StrictWeak (less : α → α → Bool) : Prop where
  irrefl : ∀ x, less x x = false
  trans : ∀ x y z, less x y = true → less y z = true → less x z = true
  negtrans : ∀ x y z, less x y = false → less y z = false → less x z = false

/-- The slice `d2` is the slice `d1` with elements of the range `[a, b)` put in other
places of that range, and all else unchanged. -/
def Keeps (a b : Nat) (d1 d2 : List α) : Prop :=
  d2.length = d1.length ∧ (∀ k, k < a ∨ b ≤ k → d2[k]? = d1[k]?) ∧
    ∀ k, a ≤ k → k < b → ∃ k1, a ≤ k1 ∧ k1 < b ∧ d2[k]? = d1[k1]?

/-- The range `[a, b)` of the slice is in order: no element is less than one before it. -/
def SortedOn (less : α → α → Bool) (d : List α) (a b : Nat) : Prop :=
  ∀ i j, a ≤ i → i < j → j < b → lessAt less d j i = false

/-- The heap order of `siftDown_func` on the nodes from `lo` on, over the slice from
`first`: no node with a parent at or after `lo` is greater than its parent. -/
def HeapFrom (less : α → α → Bool) (first lo hi : Nat) (d : List α) : Prop :=
  ∀ c, 0 < c → c < hi → lo ≤ (c - 1) / 2 →
    lessAt less d (first + (c - 1) / 2) (first + c) = false

end GoSort

/-- The call `sort.Slice(allHooks, func(i, j) { allHooks[i].BatchName < allHooks[j].BatchName })`
of `getHooksIn` under Go's `pdqsort_func`, with `breakPatterns` for `breakPatterns_func`. -/
def goSortSliceWith (breakPatterns : List Hook → Nat → Nat → List Hook)
    (allHooks : List Hook) : List Hook :=
  (GoSort.Slice (fun a b => strLess a.BatchName b.BatchName) breakPatterns allHooks).getD
    allHooks

/-- The call `sort.Slice(allHooks, func(i, j) { allHooks[i].BatchName < allHooks[j].BatchName })`
of `getHooksIn` under Go's `pdqsort_func`. -/
def goSortSlice (allHooks : List Hook) : List Hook :=
  goSortSliceWith GoSort.breakPatterns_func allHooks

/-- A script found by the enumerator for the event: its path, namespace-path and batch
label. -/
structure Script where
  Path : String
  NamespacePath : String
  BatchName : String
  deriving DecidableEq, Repr

/-- The hooks of `GetAllHooksIn`, script by script. -/
def GetAllHooksIn_hooks (isIgnored : String → Bool)
    (isTrusted : String → Except String (Bool × String)) : List Script → Except String (List Hook)
  | [] => .ok []
  | s :: rest =>
    match isTrusted s.Path with
    | .error m => .error m
    | .ok t =>
      match GetAllHooksIn_hooks isIgnored isTrusted rest with
      | .error m => .error m
      | .ok hooks =>
        let hook : Hook :=
          { Path := s.Path, NamespacePath := s.NamespacePath, BatchName := s.BatchName,
            Active := !isIgnored s.NamespacePath, Trusted := t.1, SHA1 := t.2 }
        .ok (hook :: hooks)

/-- Modelled from the spec: `hooks.GetAllHooksIn` is not in the sources. Each script found
for the event becomes a hook with `active = ¬ is_ignored(namespace-path)` and
`trusted = is_trusted(path)`; `maxBatches` is the count of distinct batch labels. A panic
of the `isTrusted` callback propagates. -/
def GetAllHooksIn (scripts : List Script) (isIgnored : String → Bool)
    (isTrusted : String → Except String (Bool × String)) :
    Except String (List Hook × Nat × Option String) :=
  match GetAllHooksIn_hooks isIgnored isTrusted scripts with
  | .error m => .error m
  | .ok hooks => .ok (hooks, ((scripts.map (fun s => s.BatchName)).dedup).length, none)

/-! ## `common/error.go`

A Go `error` is its message, `none` for `nil`. -/

/-- Function `Error(lines...)`: `errors.New(strings.Join(lines, "\n"))`. -/
def Error (lines : List String) : String := String.intercalate "\n" lines

/-- Function `ErrorF(format, args...)`: `fmt.Errorf(format, args...)`, with the formatter
of the standard library given as `sprintf`. -/
def ErrorF (sprintf : String → List String → String) (format : String) (args : List String) :
    String :=
  sprintf format args

/-- The loop `for _, e := range errs` of `CombineErrors`: the string `s` and the flag
`anyNotNil`. -/
def CombineErrors_loop : List (Option String) → String → Bool → String × Bool
  | [], s, anyNotNil => (s, anyNotNil)
  | none :: rest, s, anyNotNil => CombineErrors_loop rest s anyNotNil
  | some e :: rest, s, _ => CombineErrors_loop rest (s ++ ("\n" ++ e)) true

/-- Function `CombineErrors(err, errs...)`. -/
def CombineErrors (err : Option String) (errs : List (Option String)) : Option String :=
  let start : String × Bool :=
    match err with
    | some e => ("" ++ e, true)
    | none => ("", false)
  if (CombineErrors_loop errs start.1 start.2).2 then
    some (CombineErrors_loop errs start.1 start.2).1
  else none

/-- Function `Panic(lines...)`: `panic(Error(lines...))`. -/
def Panic (lines : List String) : Except String Unit := .error (Error lines)

/-- Function `PanicF(format, args...)`: `panic(ErrorF(format, args...))`. -/
def PanicF (sprintf : String → List String → String) (format : String) (args : List String) :
    Except String Unit :=
  .error (ErrorF sprintf format args)

/-- Function `AssertPanic(condition, lines...)`. -/
def AssertPanic (condition : Bool) (lines : List String) : Except String Unit :=
  if !condition then Panic lines else .ok ()

/-- Function `AssertPanicF(condition, format, args...)`. -/
def AssertPanicF (sprintf : String → List String → String) (condition : Bool)
    (format : String) (args : List String) : Except String Unit :=
  if !condition then PanicF sprintf format args else .ok ()

/-- Function `PanicIf(condition, lines...)`. -/
def PanicIf (condition : Bool) (lines : List String) : Except String Unit :=
  if condition then Panic lines else .ok ()

/-- Function `PanicIfF(condition, format, args...)`. -/
def PanicIfF (sprintf : String → List String → String) (condition : Bool)
    (format : String) (args : List String) : Except String Unit :=
  if condition then PanicF sprintf format args else .ok ()

/-- Function `AssertNoErrorPanic(err, lines...)`. -/
def AssertNoErrorPanic (err : Option String) (lines : List String) : Except String Unit :=
  match err with
  | some e => PanicIf true (lines ++ ["-> error: [" ++ e ++ "]"])
  | none => .ok ()

/-! ## Go's `strconv.ParseInt` and `strconv.Atoi`

The standard library's `ParseUint` and `ParseInt` for base 10 and bit size 64, over the
characters of the string: a character outside `0`..`9` is a syntax error (a letter is a
digit above the base, any other byte no digit at all). `uint64` arithmetic is taken modulo
`2^64`. -/

/-- The errors `strconv.ErrSyntax` and `strconv.ErrRange`. -/
inductive NumErr
  | ErrSyntax
  | ErrRange
  deriving DecidableEq, Repr

/-- The loop `for _, c := range []byte(s)` of `ParseUint` for base 10 and bit size 64,
with `cutoff = maxUint64/10 + 1` and `maxVal = 1<<64 - 1`. -/
def ParseUint_loop : List Char → Nat → Except NumErr Nat
  | [], n => .ok n
  | c :: rest, n =>
    if 48 ≤ c.toNat ∧ c.toNat ≤ 57 then
      if n ≥ (2 ^ 64 - 1) / 10 + 1 then .error NumErr.ErrRange
      else
        if (n * 10 % 2 ^ 64 + (c.toNat - 48)) % 2 ^ 64 < n * 10 % 2 ^ 64 ∨
            (n * 10 % 2 ^ 64 + (c.toNat - 48)) % 2 ^ 64 > 2 ^ 64 - 1 then
          .error NumErr.ErrRange
        else ParseUint_loop rest ((n * 10 % 2 ^ 64 + (c.toNat - 48)) % 2 ^ 64)
    else .error NumErr.ErrSyntax

/-- Go's `strconv.ParseUint(s, 10, 64)`. -/
def ParseUint (s : List Char) : Except NumErr Nat :=
  match s with
  | [] => .error NumErr.ErrSyntax
  | c :: rest => ParseUint_loop (c :: rest) 0

/-- The conversion `int64(x)` and the wrap-around of `int64` arithmetic. -/
def toInt64 (x : Int) : Int := (x + 2 ^ 63) % 2 ^ 64 - 2 ^ 63

/-- Go's `strconv.ParseInt(s, 10, 64)`. -/
def ParseInt (s : String) : Except NumErr Int :=
  match s.data with
  | [] => .error NumErr.ErrSyntax
  | c :: rest =>
    let neg : Bool := decide (c = '-')
    let digits : List Char := if c = '+' ∨ c = '-' then rest else c :: rest
    match ParseUint digits with
    | .error NumErr.ErrSyntax => .error NumErr.ErrSyntax
    | .error NumErr.ErrRange => .error NumErr.ErrRange
    | .ok un =>
      if !neg ∧ un ≥ 2 ^ 63 then .error NumErr.ErrRange
      else if neg ∧ un > 2 ^ 63 then .error NumErr.ErrRange
      else if neg then .ok (toInt64 (-(toInt64 un))) else .ok (toInt64 un)

/-- Go's `strconv.Atoi(s)` on a 64-bit platform: `ParseInt(s, 10, 0)` converted to
`int`. -/
def Atoi (s : String) : Except NumErr Int := ParseInt s

/-- The message of a `*strconv.NumError`, with `strconv.Quote` given as `quote`. -/
def NumError_Error (quote : String → String) (func num : String) (err : NumErr) : String :=
  "strconv." ++ func ++ ": parsing " ++ quote num ++ ": " ++
    (match err with
     | .ErrSyntax => "invalid syntax"
     | .ErrRange => "value out of range")

/-- The value of a decimal numeral, as the spec has it: the digits of the text read in
base 10. -/
def decimalValue (digits : List Char) : Nat :=
  digits.foldl (fun n c => 10 * n + (c.toNat - 48)) 0

/-- The 64-bit integer a text is the base-10 text of, as the spec has it: an optional
sign, then one or more decimal digits, of a value from `-2^63` to `2^63 - 1`. -/
def int64OfText (s : String) : Option Int :=
  let neg : Bool := decide (s.data.head? = some '-')
  let digits : List Char :=
    if s.data.head? = some '-' ∨ s.data.head? = some '+' then s.data.tail else s.data
  if digits ≠ [] ∧ (∀ c ∈ digits, 48 ≤ c.toNat ∧ c.toNat ≤ 57) then
    let v : Int := if neg then -(decimalValue digits : Int) else (decimalValue digits : Int)
    if -2 ^ 63 ≤ v ∧ v < 2 ^ 63 then some v else none
  else none

/-! ## Go's `time` package

From Go's `time/time.go`. A `time.Time` is held by what its methods `sec()` and `nsec()`
give: the seconds since January 1 of year 1, an `int64`, and the nanoseconds within the
second. The monotonic clock reading that `time.Now()` adds plays no part here: `Sub`,
`Equal` and `Before` use it only when both times carry one, and `time.Unix` gives none. -/

/-- A Go `time.Time`. -/
structure Time where
  /-- Result of `t.sec()`: seconds since January 1 of year 1, an `int64`. -/
  sec : Int
  /-- Result of `t.nsec()`: nanoseconds within the second, from 0 to 999999999. -/
  nsec : Int
  deriving DecidableEq, Repr

/-- Constant `unixToInternal`: the seconds from January 1 of year 1 to the Unix epoch. -/
def unixToInternal : Int := (1969 * 365 + 1969 / 4 - 1969 / 100 + 1969 / 400) * 86400

/-- Go's `unixTime(sec, nsec)`: `Time{uint64(nsec), sec + unixToInternal, Local}`, the sum
in `int64`. -/
def unixTime (sec nsec : Int) : Time := { sec := toInt64 (sec + unixToInternal), nsec := nsec }

/-- Go's `time.Unix(sec, nsec)`. -/
def Unix (sec nsec : Int) : Time :=
  if nsec < 0 ∨ nsec ≥ 1000000000 then
    if nsec - nsec.tdiv 1000000000 * 1000000000 < 0 then
      unixTime (toInt64 (toInt64 (sec + nsec.tdiv 1000000000) - 1))
        (nsec - nsec.tdiv 1000000000 * 1000000000 + 1000000000)
    else
      unixTime (toInt64 (sec + nsec.tdiv 1000000000))
        (nsec - nsec.tdiv 1000000000 * 1000000000)
  else unixTime sec nsec

/-- The instant a `time.Time` stands for, in nanoseconds after the Unix epoch, as a
number without bounds. -/
def Time.instant (t : Time) : Int := (t.sec - unixToInternal) * 1000000000 + t.nsec

/-- Constant `time.Second`, a `Duration` in nanoseconds. -/
def Second : Int := 1000000000

/-- Constant `time.Hour`, a `Duration` in nanoseconds. -/
def Hour : Int := 60 * 60 * 1000000000

/-- Constant `minDuration`. -/
def minDuration : Int := -2 ^ 63

/-- Constant `maxDuration`. -/
def maxDuration : Int := 2 ^ 63 - 1

/-- Go's `t.addSec(d)`, for a time without monotonic clock reading: the sum in `int64`,
or the greatest (least) seconds count when the sum overflows. -/
def Time.addSec (t : Time) (d : Int) : Time :=
  if decide (toInt64 (t.sec + d) > t.sec) = decide (d > 0) then
    { t with sec := toInt64 (t.sec + d) }
  else if d > 0 then { t with sec := 2 ^ 63 - 1 }
  else { t with sec := -(2 ^ 63 - 1) }

/-- Go's `t.Add(d)`, for a time without monotonic clock reading. `d / 1e9` and `d % 1e9`
are Go's truncated division; the sums of nanoseconds stay within `int32`. -/
def Time.Add (t : Time) (d : Int) : Time :=
  if t.nsec + d.tmod 1000000000 ≥ 1000000000 then
    ({ t with nsec := t.nsec + d.tmod 1000000000 - 1000000000 } : Time).addSec
      (d.tdiv 1000000000 + 1)
  else if t.nsec + d.tmod 1000000000 < 0 then
    ({ t with nsec := t.nsec + d.tmod 1000000000 + 1000000000 } : Time).addSec
      (d.tdiv 1000000000 - 1)
  else ({ t with nsec := t.nsec + d.tmod 1000000000 } : Time).addSec (d.tdiv 1000000000)

/-- Go's `t.Equal(u)`, when not both times carry a monotonic clock reading. -/
def Time.Equal (t u : Time) : Bool := decide (t.sec = u.sec) && decide (t.nsec = u.nsec)

/-- Go's `t.Before(u)`, when not both times carry a monotonic clock reading. -/
def Time.Before (t u : Time) : Bool :=
  decide (t.sec < u.sec) || (decide (t.sec = u.sec) && decide (t.nsec < u.nsec))

/-- Go's `t.Sub(u)`, when not both times carry a monotonic clock reading:
`d := Duration(t.sec()-u.sec())*Second + Duration(t.nsec()-u.nsec())` in `int64`, then `d`
when `u.Add(d).Equal(t)`, else `minDuration` when `t.Before(u)`, else `maxDuration`. -/
def Time.Sub (t u : Time) : Int :=
  if (u.Add (toInt64 (toInt64 (toInt64 (t.sec - u.sec) * Second) + (t.nsec - u.nsec)))).Equal t
  then toInt64 (toInt64 (toInt64 (t.sec - u.sec) * Second) + (t.nsec - u.nsec))
  else if t.Before u then minDuration
  else maxDuration

/-- A `time.Time` as Go holds it: the seconds in `int64`, the nanoseconds within a
second. -/
def Time.valid (t : Time) : Prop :=
  -2 ^ 63 ≤ t.sec ∧ t.sec ≤ 2 ^ 63 - 1 ∧ 0 ≤ t.nsec ∧ t.nsec < 1000000000

instance (t : Time) : Decidable t.valid := by
  unfold Time.valid
  infer_instance

/-- The difference of two instants, cut off at the least and the greatest `Duration`. -/
def clampDuration (x : Int) : Int :=
  if x < -2 ^ 63 then -2 ^ 63 else if x > 2 ^ 63 - 1 then 2 ^ 63 - 1 else x

/-- Go's `Duration.Hours()`: `hour := d / Hour; nsec := d % Hour;
float64(hour) + float64(nsec)/(60*60*1e9)`, with Go's truncated division. The `float64`
arithmetic is taken exactly: `hour` and `nsec` are below `2^53`, and the rounding of the
quotient and of the sum is monotone and leaves a sum at or below 24 at or below 24 and a
sum above 24 above it, since a nonzero quotient is at least `2^-42`. -/
def Duration_Hours (d : Int) : ℚ :=
  ((d.tdiv Hour : Int) : ℚ) + ((d.tmod Hour : Int) : ℚ) / (60 * 60 * 1000000000)

/-! ## `updates/timestamp.go` -/

/-- The Git context `gitx`: the values of the global configuration and the keys
`GetConfig` was asked for, in call order. -/
structure GitX where
  config : String → String
  reads : List String := []

/-- The method `gitx.GetConfig(key, git.GlobalScope)`. -/
def GitX.GetConfig (gitx : GitX) (key : String) : String × GitX :=
  (gitx.config key, { gitx with reads := gitx.reads ++ [key] })

/-- Function `GetUpdateCheckTimestamp(gitx)`: the results `t`, `isSet` and `err`, and the
Git context after the call. `key` is the constant `hooks.GitCKAutoUpdateCheckTimestamp`,
`quote` is `strconv.Quote`. -/
def GetUpdateCheckTimestamp (quote : String → String) (key : String) (gitx : GitX) :
    (Time × Bool × Option String) × GitX :=
  let timeLastUpdateCheck := (gitx.GetConfig key).1
  if timeLastUpdateCheck = "" then ((Unix 0 0, false, none), (gitx.GetConfig key).2)
  else
    match ParseInt timeLastUpdateCheck with
    | .error e =>
      ((Unix 0 0, true,
          CombineErrors (some (Error ["Could not parse update time."]))
            [some (NumError_Error quote "ParseInt" timeLastUpdateCheck e)]),
        (gitx.GetConfig key).2)
    | .ok value => ((Unix value 0, true, none), (gitx.GetConfig key).2)

/-! ## `shouldRunUpdateCheck` -/

/-- The collaborators of `shouldRunUpdateCheck`. -/
structure UpdateEnv where
  /-- Result `enabled` of `updates.GetAutomaticUpdateCheckSettings(settings.GitX)`. -/
  AutomaticUpdateCheckEnabled : Bool
  /-- The wall clock reading of `time.Now()`. -/
  Now : Time
  /-- Constant `hooks.GitCKAutoUpdateCheckTimestamp`. -/
  GitCKAutoUpdateCheckTimestamp : String := "githooks.autoUpdateCheckTimestamp"
  /-- Go's `strconv.Quote`. -/
  Quote : String → String := fun s => "\"" ++ s ++ "\""

/-- Function `shouldRunUpdateCheck(settings)`: its result, the Git context after it and
the errors `log.AssertNoErrorF` logged. -/
def shouldRunUpdateCheck (uenv : UpdateEnv) (settings : HookSettings) (gitx : GitX) :
    Bool × GitX × List String :=
  if settings.HookName ≠ "post-commit" then (false, gitx, [])
  else if !uenv.AutomaticUpdateCheckEnabled then (false, gitx, [])
  else
    let r := GetUpdateCheckTimestamp uenv.Quote uenv.GitCKAutoUpdateCheckTimestamp gitx
    let errors : List String :=
      match r.1.2.2 with
      | some e => ["Could get last update check time.\n-> error: [" ++ e ++ "]"]
      | none => []
    (decide (Duration_Hours (uenv.Now.Sub r.1.1) > 24.0), r.2, errors)

/-! ## `logInvocation` -/

/-- Function `logInvocation(s)`: the messages it hands to `log.DebugF`, in call order.
`trace` is `os.Getenv("GITHOOKS_RUNNER_TRACE")`, `isDebug` is `cm.IsDebug`, `args` is
`s.Args` as `%q` renders it and `dump` is `s.toString()`. -/
def logInvocation (trace : String) (isDebug : Bool) (s : HookSettings) (args dump : String) :
    List String :=
  if trace ≠ "" then ["Running hooks for: \x27" ++ s.HookName ++ "\x27 " ++ args]
  else if trace = "1" || isDebug then ["Settings:\n" ++ dump]
  else []

/-! ## `updateSharedHooks` -/

/-- The collaborators of `updateSharedHooks`. -/
structure SharedUpdateEnv where
  /-- Result of `hooks.IsSharedHooksUpdateDisabled(settings.GitX, git.Traverse)`. -/
  IsSharedHooksUpdateDisabled : Bool := false
  /-- Result of `settings.GitX.GetConfigAll(hooks.GitCKSharedUpdateTriggers, git.Traverse)`. -/
  updateTriggers : List String := []
  /-- Go's `path.Join` of two elements. -/
  Join : String → String → String := fun a b => a ++ "/" ++ b
  /-- Error of `hooks.UpdateSharedHooks`. -/
  UpdateSharedHooks : Option String := none
  /-- Error of `cm.TouchFile`. -/
  TouchFile : Option String := none

/-- The state `updateSharedHooks` works on: the paths that exist, the calls of
`hooks.UpdateSharedHooks` made, and the errors logged. -/
structure SharedUpdateState where
  files : List String := []
  refreshed : List (List SharedRepo × SharedHookType) := []
  errors : List String := []
  deriving DecidableEq, Repr

/-- Modelled from the spec: `cm.TouchFile(path, true)` is not in the sources. It writes the
marker file (creates it when it is absent) unless it fails. -/
def TouchFile (err : Option String) (file : String) (files : List String) : List String :=
  match err with
  | some _ => files
  | none => if file ∈ files then files else files ++ [file]

/-- Function `updateSharedHooks(settings, sharedHooks, sharedType)`. -/
def updateSharedHooks (uenv : SharedUpdateEnv) (settings : HookSettings)
    (sharedHooks : List SharedRepo) (sharedType : SharedHookType) (st : SharedUpdateState) :
    SharedUpdateState :=
  let disableUpdate := uenv.IsSharedHooksUpdateDisabled
  let updateTriggers := uenv.updateTriggers
  let updateOnCloneDoneFile :=
    uenv.Join settings.GitDirWorktree ".githooks-shared-update-on-clone-done"
  let updateOnCloneDoneFileExists : Bool := decide (updateOnCloneDoneFile ∈ st.files)
  let updateOnCloneNeeded : Bool :=
    decide (settings.HookName = "post-checkout") && !updateOnCloneDoneFileExists
  let triggered : Bool :=
    decide (settings.HookName = "post-merge") || updateOnCloneNeeded ||
      decide (settings.HookName ∈ updateTriggers)
  if disableUpdate || !triggered then st
  else
    let st1 : SharedUpdateState :=
      { st with
        refreshed := st.refreshed ++ [(sharedHooks, sharedType)],
        errors := st.errors ++
          (match uenv.UpdateSharedHooks with
           | some e => ["Errors while updating shared hooks repositories.\n-> error: [" ++ e ++ "]"]
           | none => []) }
    if updateOnCloneNeeded then
      { st1 with files := TouchFile uenv.TouchFile updateOnCloneDoneFile st1.files }
    else st1

/-! ## The workers of `executeHooks` -/

/-- Function `math.MaxInt(a, b)` of `github.com/pkg/math`. -/
def MaxInt (a b : Int) : Int := if a > b then a else b

/-- Modelled from the spec: the method `hs.GetHooksCount()` of `hooks.Hooks` is not in the
sources: the total script count, over the batches of the four tiers. -/
def Hooks.GetHooksCount (hs : Hooks) : Nat :=
  hs.LocalHooks.flatten.length + hs.RepoSharedHooks.flatten.length +
    hs.LocalSharedHooks.flatten.length + hs.GlobalSharedHooks.flatten.length

/-- The variable `nThreads` of `executeHooks`, after `nThreads = math.MaxInt(nThreads, 1)`.
`numCPU` is `runtime.NumCPU()` and `nThSetting` the configured `hooks.GitCKNumThreads`. -/
def executeHooks_nThreads (numCPU : Int) (nThSetting : String) : Int :=
  let nThreads : Int :=
    match Atoi nThSetting with
    | .ok n => n
    | .error _ => numCPU
  MaxInt nThreads 1

/-- The variable `pool` of `executeHooks`: the arguments of `threadpool.New` when a pool
is made, `none` for the nil pointer. `useThreadPool` is the constant
`hooks.UseThreadPool`. -/
def executeHooks_pool (useThreadPool : Bool) (hs : Hooks) (nThreads : Int) :
    Option (Int × Nat) :=
  if useThreadPool && decide (hs.GetHooksCount > 1) then some (nThreads, 15) else none

/-! ## The installer: `findGitHookTemplates` -/

/-- The collaborators of the search for the Git hook templates. -/
structure TemplateEnv where
  /-- Result of `git.Ctx().GetConfig(key, git.GlobalScope)`. -/
  GetConfig : String → String := fun _ => ""
  /-- Result of `os.LookupEnv("GIT_TEMPLATE_DIR")`, `none` when the variable is not set. -/
  GitTemplateDir : Option String := none
  /-- Result of `cm.IsWritable(dir)`. -/
  IsWritable : String → Bool := fun _ => false
  /-- Result `(path, err)` of `cm.ReplaceTilde(dir)`. -/
  ReplaceTilde : String → String × Option String := fun d => (d, none)
  /-- Result of `cm.ReplaceTildeWith(dir, homeDir)`. -/
  ReplaceTildeWith : String → String → String := fun d _ => d
  /-- Go's `path.Join` of two elements. -/
  Join : String → String → String := fun a b => a ++ "/" ++ b
  /-- Result of `git.GetDefaultTemplateDir()`. -/
  GetDefaultTemplateDir : String := ""
  /-- Result `(dir, err)` of `homedir.Dir()`. -/
  HomeDir : String × Option String := ("", none)
  /-- Answer of `promptCtx.ShowPromptOptions` to the question with the given text. -/
  ShowPromptOptions : String → String := fun _ => ""
  /-- Answer of `promptCtx.ShowPrompt("Enter the target folder", default, ...)`. -/
  ShowPrompt : String → String := fun d => d
  /-- Result of `searchTemplateDirOnDisk(promptCtx)`; the search of the disk it makes is
  taken by what it finds. -/
  searchTemplateDirOnDisk : String := ""

/-- Function `checkTemplateDir(targetDir)`. -/
def checkTemplateDir (tenv : TemplateEnv) (targetDir : String) : Except String String :=
  if targetDir = "" then .ok ""
  else if tenv.IsWritable targetDir then .ok targetDir
  else
    match (tenv.ReplaceTilde targetDir).2 with
    | some e =>
      .error ("Could not replace tilde \x27~\x27 in \x27" ++ (tenv.ReplaceTilde targetDir).1 ++
        "\x27.\n-> error: [" ++ e ++ "]")
    | none =>
      if tenv.IsWritable (tenv.ReplaceTilde targetDir).1 then
        .ok (tenv.ReplaceTilde targetDir).1
      else .ok ""

/-- Function `setupNewTemplateDir(installDir, promptCtx)`; `hasPrompt` says that
`promptCtx` is not nil. -/
def setupNewTemplateDir (tenv : TemplateEnv) (installDir : String) (hasPrompt : Bool) :
    Except String String :=
  match tenv.HomeDir.2 with
  | some e => .error (Error ["Could not get home directory.", "-> error: [" ++ e ++ "]"])
  | none =>
    let templateDir :=
      if hasPrompt then tenv.ShowPrompt (tenv.Join installDir "templates")
      else tenv.Join installDir "templates"
    .ok (tenv.ReplaceTildeWith templateDir tenv.HomeDir.1)

/-- The text of the panic of `findGitHookTemplates` for an installation without
templates directory. -/
def corruptInstallMessage (installUsesCoreHooksPath : String) : String :=
  "Your installation is corrupt.\n" ++
    "The global value \x27githooks.useCoreHooksPath = " ++ installUsesCoreHooksPath ++ "\x27\n" ++
    "is set but the corresponding hook templates directory\n" ++
    "is not found."

/-- The steps 4 to 6 of `findGitHookTemplates`, once no template directory was found in
the environment, the Git configuration and the default location. -/
def findGitHookTemplates_setup (tenv : TemplateEnv) (installDir : String)
    (useCoreHooksPath nonInteractive : Bool) : Except String (String × String) :=
  if nonInteractive then
    match setupNewTemplateDir tenv installDir false with
    | .error m => .error m
    | .ok templateDir => .ok (tenv.Join templateDir "hooks", templateDir)
  else
    let found : String :=
      if tenv.ShowPromptOptions
          "Could not find the Git hook template directory.\nDo you want to search for it?"
          = "y" then tenv.searchTemplateDirOnDisk
      else ""
    if found ≠ "" then
      if useCoreHooksPath then .ok (tenv.Join found "hooks", "")
      else if tenv.ShowPromptOptions
          ("Do you want to set this up as the Git template\n" ++
            "directory (e.g setting \x27init.templateDir\x27)\n" ++
            "for future use?") ≠ "y" then
        .error (Error ["Could not determine Git hook", "templates directory. -> Abort."])
      else .ok (tenv.Join found "hooks", found)
    else if tenv.ShowPromptOptions "Do you want to set up a new Git templates folder?"
        = "y" then
      match setupNewTemplateDir tenv installDir true with
      | .error m => .error m
      | .ok templateDir => .ok (tenv.Join templateDir "hooks", templateDir)
    else .ok ("", "")

/-- The steps 2 and 3 of `findGitHookTemplates`: the Git configuration and the default
location; `none` when neither gives a directory. -/
def findGitHookTemplates_config (tenv : TemplateEnv) (useCoreHooksPath : Bool) :
    Except String (Option (String × String)) :=
  let fromConfig : Except String (Option (String × String)) :=
    if useCoreHooksPath || decide (tenv.GetConfig "githooks.useCoreHooksPath" = "true") then
      match checkTemplateDir tenv (tenv.GetConfig "core.hooksPath") with
      | .error m => .error m
      | .ok hooksTemplateDir =>
        if hooksTemplateDir ≠ "" then .ok (some (hooksTemplateDir, "")) else .ok none
    else
      match checkTemplateDir tenv (tenv.GetConfig "init.templateDir") with
      | .error m => .error m
      | .ok templateDir =>
        if templateDir ≠ "" then .ok (some (tenv.Join templateDir "hooks", "")) else .ok none
  match fromConfig with
  | .error m => .error m
  | .ok (some r) => .ok (some r)
  | .ok none =>
    match checkTemplateDir tenv (tenv.Join tenv.GetDefaultTemplateDir "hooks") with
    | .error m => .error m
    | .ok hooksTemplateDir =>
      if hooksTemplateDir ≠ "" then .ok (some (hooksTemplateDir, "")) else .ok none

/-- Function `findGitHookTemplates(installDir, useCoreHooksPath, nonInteractive,
promptCtx)`: the hook template directory and the Git template directory, or the panic. -/
def findGitHookTemplates (tenv : TemplateEnv) (installDir : String)
    (useCoreHooksPath nonInteractive : Bool) : Except String (String × String) :=
  let installUsesCoreHooksPath := tenv.GetConfig "githooks.useCoreHooksPath"
  let haveInstall : Bool := decide (installUsesCoreHooksPath ≠ "")
  let fromEnv : Except String (Option (String × String)) :=
    match tenv.GitTemplateDir with
    | some gitTempDir =>
      match checkTemplateDir tenv gitTempDir with
      | .error m => .error m
      | .ok templateDir =>
        if templateDir ≠ "" then .ok (some (tenv.Join templateDir "hooks", "")) else .ok none
    | none => .ok none
  match fromEnv with
  | .error m => .error m
  | .ok (some r) => .ok r
  | .ok none =>
    match findGitHookTemplates_config tenv useCoreHooksPath with
    | .error m => .error m
    | .ok (some r) => .ok r
    | .ok none =>
      if haveInstall then .error (corruptInstallMessage installUsesCoreHooksPath)
      else findGitHookTemplates_setup tenv installDir useCoreHooksPath nonInteractive

/-! ## The installer: `prepareDispatch` -/

/-- The fields of `updates.ReleaseStatus` that `prepareDispatch` reads. -/
structure ReleaseStatus where
  LocalCommitSHA : String := ""
  RemoteCommitSHA : String := ""
  RemoteURL : String := ""
  Branch : String := ""
  deriving DecidableEq, Repr

/-- The record `updates.Binaries`. -/
structure Binaries where
  BinDir : String := ""
  Installer : String := ""
  Others : List String := []
  All : List String := []
  deriving DecidableEq, Repr

/-- The fields of `Arguments` that `prepareDispatch` and `runInstaller` read or write. -/
structure Arguments where
  InternalAutoUpdate : Bool := false
  BuildFromSource : Bool := false
  InternalPostUpdate : Bool := false
  InternalUpdateTo : String := ""
  InternalBinaries : List String := []
  deriving DecidableEq, Repr

/-- The collaborators of `prepareDispatch`. -/
structure DispatchEnv where
  /-- Result `(status, err)` of `updates.GetStatus(settings.CloneDir, true)`. -/
  GetStatus : ReleaseStatus × Option String := ({}, none)
  /-- Result `(status, err)` of `updates.FetchUpdates(...)`. -/
  FetchUpdates : ReleaseStatus × Option String := ({}, none)
  /-- Result of `cm.IsFile(hooks.GetInstallerExecutable(settings.InstallDir))`. -/
  haveInstaller : Bool := false
  /-- Error of `ioutil.TempDir`. -/
  TempDir : Option String := none
  /-- Error of `git.Clone(tempDir, url, branch, -1)`. -/
  Clone : Option String := none
  /-- Error of `gitx.Check("checkout", ...)`. -/
  Checkout : Option String := none
  /-- Result `(binPath, err)` of `builder.Build(tempDir, buildTags)`. -/
  Build : String × Option String := ("", none)
  /-- Result `(bins, err)` of `cm.GetAllFiles(binPath)`. -/
  GetAllFiles : List String × Option String := ([], none)
  /-- Result of `cm.IsExecutable(file)`. -/
  IsExecutable : String → Bool := fun _ => true
  /-- Result of `downloadBinaries(settings, tempDir, status)`, or its panic. -/
  downloadBinaries : ReleaseStatus → Except String Binaries := fun _ => .error "no download"
  /-- Variable `IsDispatchSkipped`. -/
  IsDispatchSkipped : Bool := false
  /-- Error of `ioutil.TempFile`. -/
  TempFile : Option String := none
  /-- Error of `cm.RunExecutable` for the executable at a path. -/
  RunExecutable : String → Option String := fun _ => none

/-- The closure that `buildFromSource` maps over the files of the build: an executable
is the installer when its path contains `installer`, one of the others when not, and
joins `All`. -/
def buildFromSource_collect (denv : DispatchEnv) : List String → Binaries → Binaries
  | [], binaries => binaries
  | s :: rest, binaries =>
    if denv.IsExecutable s then
      let b1 : Binaries :=
        if "installer".data <:+: s.data then { binaries with Installer := s }
        else { binaries with Others := binaries.Others ++ [s] }
      buildFromSource_collect denv rest { b1 with All := b1.All ++ [s] }
    else buildFromSource_collect denv rest binaries

/-- Function `buildFromSource(buildTags, tempDir, url, branch, commitSHA)`. The texts of
the panics leave out the rendering of their arguments; the method `log.PanicIf` is taken
to be `cm.PanicIf`. -/
def buildFromSource (denv : DispatchEnv) (commitSHA : String) : Except String Binaries :=
  match denv.Clone with
  | some e => .error ("Could not clone release branch into \x27%s\x27.\n-> error: [" ++ e ++ "]")
  | none =>
    if commitSHA.utf8ByteSize < 6 then .error "runtime error: slice bounds out of range"
    else
      match denv.Checkout with
      | some e =>
        .error ("Could not checkout update commit \x27%s\x27 in \x27%s\x27.\n-> error: [" ++ e ++ "]")
      | none =>
        match denv.Build.2 with
        | some e =>
          .error ("Could not build release branch in \x27%s\x27.\n-> error: [" ++ e ++ "]")
        | none =>
          match denv.GetAllFiles.2 with
          | some e =>
            .error ("Could not get files in path \x27%s\x27.\n-> error: [" ++ e ++ "]")
          | none =>
            let binaries :=
              buildFromSource_collect denv denv.GetAllFiles.1 { BinDir := denv.Build.1 }
            match PanicIf (decide (binaries.All.length = 0) || decide (binaries.Installer = ""))
                ["No binaries found in \x27%s\x27", denv.Build.1] with
            | .error m => .error m
            | .ok _ => .ok binaries

/-- What a call of `runInstaller` leaves: its result, the arguments as it set them and the
paths of the executables it ran. -/
structure Dispatched where
  result : Bool
  args : Arguments
  ran : List String := []
  deriving DecidableEq, Repr

/-- Function `runInstaller(installer, args, updateTo, binaries)`. -/
def runInstaller (denv : DispatchEnv) (installer : String) (args : Arguments)
    (updateTo : String) (binaries : List String) : Except String Dispatched :=
  let args1 : Arguments :=
    { args with InternalPostUpdate := true, InternalUpdateTo := updateTo,
                InternalBinaries := binaries }
  if denv.IsDispatchSkipped then .ok { result := false, args := args1 }
  else
    match denv.TempFile with
    | some e => .error ("Could not create temporary file in \x27%s\x27.\n-> error: [" ++ e ++ "]")
    | none =>
      match denv.RunExecutable installer with
      | some e => .error (Error ["Running installer failed.", "-> error: [" ++ e ++ "]"])
      | none => .ok { result := true, args := args1, ran := [installer] }

/-- The statements of `prepareDispatch` up to the call of `runInstaller`: the arguments
`installer`, `updateTo` and `binaries` of that call, or the panic before it. -/
def prepareDispatch_call (denv : DispatchEnv) (args : Arguments) :
    Except String (String × String × List String) :=
  let fetched : ReleaseStatus × Option String :=
    if args.InternalAutoUpdate then denv.GetStatus else denv.FetchUpdates
  match fetched.2 with
  | some e =>
    .error ((if args.InternalAutoUpdate then "Could not get status of release clone \x27%s\x27"
        else "Could not assert release clone \x27%s\x27 existing") ++
      "\n-> error: [" ++ e ++ "]")
  | none =>
    let status := fetched.1
    let updateAvailable : Bool := decide (status.LocalCommitSHA ≠ status.RemoteCommitSHA)
    let haveInstaller := denv.haveInstaller
    let got : Except String Binaries :=
      if updateAvailable || !haveInstaller then
        match denv.TempDir with
        | some e =>
          .error ("Can not create temporary update dir in \x27%s\x27\n-> error: [" ++ e ++ "]")
        | none =>
          if args.BuildFromSource then buildFromSource denv status.RemoteCommitSHA
          else denv.downloadBinaries status
      else .ok {}
    match got with
    | .error m => .error m
    | .ok binaries =>
      let updateTo := if updateAvailable then status.RemoteCommitSHA else ""
      .ok (binaries.Installer, updateTo, binaries.All)

/-- Function `prepareDispatch(settings, args)`. -/
def prepareDispatch (denv : DispatchEnv) (args : Arguments) : Except String Dispatched :=
  match prepareDispatch_call denv args with
  | .error m => .error m
  | .ok call => runInstaller denv call.1 args call.2.1 call.2.2

/-! ## Environments for the concrete checks -/

/-- An environment for one hooks directory: the prompt answers `answers` in turn (and "n"
after the last), the scripts `scripts` found by the spec-modelled enumerator, the
namespace paths `ignored` ignored by the user, the paths `trusted` trusted by the checksum
store, and Go's `sort.Slice`. -/
def scriptedEnv (answers : List String) (scripts : List Script) (ignored trusted : List String) :
    Env where
  ShowOptions := fun k => answers.getD k "n"
  AssertSHA1 := fun h => if h.SHA1 = "" then "sha:" ++ h.Path else h.SHA1
  IsTrusted := fun _ path => (decide (path ∈ trusted), "", none)
  IsIgnored := fun namespacePath => (decide (namespacePath ∈ ignored), true)
  GetHooksNamespace := fun _ => ("", none)
  GetHookPatternsHooksDir := fun _ _ _ => (fun _ => false, none)
  GetAllHooksIn := fun _ _ _ _ isIgnored isTrusted _ _ => GetAllHooksIn scripts isIgnored isTrusted
  GetHookReplacementFileName := fun n => n ++ ".replaced.githook"
  RunExecutable := fun _ => none
  sortSlice := goSortSlice

/-- The script with the given path and batch label, in the namespace `ns`. -/
def mkScript (path label : String) : Script :=
  { Path := path, NamespacePath := "ns/" ++ path, BatchName := label }

/-- An active hook with the given path, batch label and trust flag. -/
def mkHook (path label : String) (trusted : Bool) : Hook :=
  { Path := path, NamespacePath := "ns/" ++ path, BatchName := label, Active := true,
    Trusted := trusted, SHA1 := "" }

/-- The scripts of scenario S1: `01/a`, `01/b` and `02/c`, as the enumerator finds them. -/
def s1Scripts : List Script := [mkScript "c" "02", mkScript "a" "01", mkScript "b" "01"]

/-- Scenario S1 with `b` untrusted and every prompt answered "n". -/
def s1Env : Env := scriptedEnv ["n"] s1Scripts [] ["a", "c"]

/-- The hooks enumerated in `s1Env`. -/
def s1Hooks : List Hook :=
  [mkHook "c" "02" true, mkHook "a" "01" true, mkHook "b" "01" false]

/-- The state `getHooksIn` leaves in `s1Env` when untrusted hooks are skipped. -/
def s1World : World :=
  { uiSettings := { PromptCtx := { Shown := 1 } }, warnings := [untrustedWarning "ns/b"] }

/-- Two scripts `01/a` and `02/c`, of which the user ignores `a`; both are trusted. -/
def skippedFirstEnv : Env :=
  scriptedEnv [] [mkScript "a" "01", mkScript "c" "02"] ["ns/a"] ["a", "c"]

/-- The hooks enumerated in `skippedFirstEnv`. -/
def skippedFirstHooks : List Hook :=
  [{ mkHook "a" "01" true with Active := false }, mkHook "c" "02" true]

/-- Thirteen trusted scripts: `h00` with label `2`, then `h01` to `h12` with label `1`. -/
def thirteenScripts : List Script :=
  [mkScript "h00" "2", mkScript "h01" "1", mkScript "h02" "1", mkScript "h03" "1",
   mkScript "h04" "1", mkScript "h05" "1", mkScript "h06" "1", mkScript "h07" "1",
   mkScript "h08" "1", mkScript "h09" "1", mkScript "h10" "1", mkScript "h11" "1",
   mkScript "h12" "1"]

/-- The environment with `thirteenScripts`; it is used with `IsRepoTrusted` set. -/
def thirteenEnv : Env := scriptedEnv [] thirteenScripts [] []

/-- The paths of the hooks of each batch. -/
def batchPaths (batches : List (List Hook)) : List (List String) :=
  batches.map (fun b => b.map (fun h => h.Path))

/-- Scenario S1 with `b` untrusted and the prompt answered "y". -/
def s1AcceptEnv : Env := scriptedEnv ["y"] s1Scripts [] ["a", "c"]

/-- The hook `b` of scenario S1 once accepted. -/
def s1AcceptedB : Hook := { mkHook "b" "01" true with SHA1 := "sha:b" }

/-- The state `getHooksIn` leaves in `s1AcceptEnv`. -/
def s1AcceptWorld : World :=
  { uiSettings := { PromptCtx := { Shown := 1 },
                    TrustedHooks := [{ SHA1 := "sha:b", Path := "b", NamespacePath := "ns/b" }] },
    checksums := { Checksums := [("sha:b", "b")] } }

/-- An environment whose hooks directory holds the replaced hook of `pre-commit`, not
trusted. -/
def oldHookEnv : Env := scriptedEnv [] [mkScript "pre-commit.replaced.githook" ""] [] []

/-- A shared-hooks environment in which exactly the directories `existing` exist and the
clones record the remote URLs `remotes`. -/
def sharedEnvOf (existing : List String) (remotes : List (String × String))
    (repoShared localShared globalShared : List SharedRepo) : SharedEnv where
  LoadRepoSharedHooks := (repoShared, none)
  LoadConfigSharedHooksLocal := (localShared, none)
  LoadConfigSharedHooksGlobal := (globalShared, none)
  IsPathExisting := fun dir => (decide (dir ∈ existing), none)
  RemoteOriginURL := fun dir => (remotes.lookup dir).getD ""
  GetSharedGithooksDir := fun dir => dir ++ "/.githooks"
  GetSHA1Hash := fun url => ("0123456789abcdef" ++ url, none)
  GetRepoSharedFile := fun dir => dir ++ "/.githooks/.shared.yaml"

/-- A shared source that is a local path. -/
def localSource (path : String) : SharedRepo :=
  { OriginalURL := path, URL := path, RepositoryDir := path, IsCloned := false, IsLocal := true }

/-- A shared source cloned from `url` into `dir`. -/
def clonedSource (url dir : String) : SharedRepo :=
  { OriginalURL := url, URL := url, RepositoryDir := dir, IsCloned := true, IsLocal := false }

/-- A repository shared source that is a clone of a `file://` URL: cloned and a local
path. -/
def localCloneSource (url dir : String) : SharedRepo :=
  { OriginalURL := url, URL := url, RepositoryDir := dir, IsCloned := true, IsLocal := true }

/-- Scenario S5: a clone at `/clones/x` that records another remote URL than declared, a
local path `/local/hooks` that exists, and no other directory. -/
def s5Env : SharedEnv :=
  sharedEnvOf ["/local/hooks", "/clones/x"] [("/clones/x", "https://other")] [] [] []

/-- An environment in which the enumerator finds the scripts `scriptsOf rootDir` under
the root directory `rootDir`; no prompts answered, nothing ignored, nothing in the store. -/
def dirEnv (scriptsOf : String → List Script) : Env where
  ShowOptions := fun _ => "n"
  AssertSHA1 := fun h => if h.SHA1 = "" then "sha:" ++ h.Path else h.SHA1
  IsTrusted := fun _ _ => (false, "", none)
  IsIgnored := fun _ => (false, false)
  GetHooksNamespace := fun _ => ("", none)
  GetHookPatternsHooksDir := fun _ _ _ => (fun _ => false, none)
  GetAllHooksIn := fun rootDir _ _ _ isIgnored isTrusted _ _ =>
    GetAllHooksIn (scriptsOf rootDir) isIgnored isTrusted
  GetHookReplacementFileName := fun n => n ++ ".replaced.githook"
  RunExecutable := fun _ => none
  sortSlice := goSortSlice

/-- Scenario S6: the repository `/repo` has the hook `a`; the shared source cloned to
`/clones/x`, with the hook `s`, is listed both in the repository and in the local
configuration. -/
def s6Env : Env :=
  dirEnv (fun rootDir =>
    if rootDir = "/repo" then [mkScript "a" "01"]
    else if rootDir = "/clones/x" then [mkScript "s" "01"]
    else [])

/-- The shared sources of scenario S6. -/
def s6Shared : SharedEnv :=
  sharedEnvOf ["/clones/x"] [("/clones/x", "https://x")]
    [clonedSource "https://x" "/clones/x"] [clonedSource "https://x" "/clones/x"] []

/-- The settings of scenario S6: the repository `/repo`, trusted as a whole. -/
def s6Settings : HookSettings :=
  { RepositoryDir := "/repo", RepositoryHooksDir := "/repo/.githooks", HookName := "pre-commit",
    IsRepoTrusted := true, NonInteractive := true }

/-- An execution environment in which the hooks with a path in `failing` exit with an
error and all others succeed; every hook prints `out:` and its path. -/
def execEnvOf (failing : List String) : ExecEnv where
  RunHook := fun h =>
    ("out:" ++ h.Path, if h.Path ∈ failing then some "exit status 1" else none)

/-- An execution environment like `execEnvOf failing`, with the given hand-over of the
results to the callback. -/
def execEnvWith (failing : List String) (handOver : List HookResult → Bool) : ExecEnv where
  RunHook := fun h =>
    ("out:" ++ h.Path, if h.Path ∈ failing then some "exit status 1" else none)
  HandOver := handOver

/-- Hooks to execute: `a` and then `c` in the local tier, `s` in the repository shared
tier. -/
def failingHooks : Hooks :=
  { LocalHooks := [[mkHook "a" "01" true, mkHook "b" "01" true], [mkHook "c" "02" true]],
    RepoSharedHooks := [[mkHook "s" "01" true]] }

/-- An environment for a whole run: the prompt answers `answers` in turn, the paths
`trusted` trusted by the checksum store, and the scripts `scriptsOf rootDir hookName`
found for an event name under a root directory. -/
def runEnv (answers trusted : List String) (scriptsOf : String → String → List Script) :
    Env where
  ShowOptions := fun k => answers.getD k "n"
  AssertSHA1 := fun h => if h.SHA1 = "" then "sha:" ++ h.Path else h.SHA1
  IsTrusted := fun _ path => (decide (path ∈ trusted), "", none)
  IsIgnored := fun _ => (false, false)
  GetHooksNamespace := fun _ => ("", none)
  GetHookPatternsHooksDir := fun _ _ _ => (fun _ => false, none)
  GetAllHooksIn := fun rootDir _ hookName _ isIgnored isTrusted _ _ =>
    GetAllHooksIn (scriptsOf rootDir hookName) isIgnored isTrusted
  GetHookReplacementFileName := fun n => n ++ ".replaced.githook"
  RunExecutable := fun _ => none
  sortSlice := goSortSlice

/-- The settings of the runs below: the event `pre-commit` in the repository `/repo`. -/
def mainSettings : HookSettings :=
  { RepositoryDir := "/repo", RepositoryHooksDir := "/repo/.githooks",
    GitDirWorktree := "/repo/.git", HookName := "pre-commit", HookDir := "/repo/.git/hooks" }

/-- The scripts of scenario S1 for `pre-commit` in `/repo`, and none elsewhere. -/
def mainScripts (rootDir hookName : String) : List Script :=
  if rootDir = "/repo" ∧ hookName = "pre-commit" then
    [mkScript "a" "01", mkScript "b" "01", mkScript "c" "02"]
  else []

/-- The steps of `mainRun` before the stores are loaded, all succeeding with the given
settings. -/
def mainEnvOf (settings : HookSettings) : MainEnv :=
  { setupSettings := .ok (settings, {}) }

/-- No shared sources. -/
def noShared : SharedEnv := sharedEnvOf [] [] [] [] []

/-! ## Theorems: `showTrustPrompt` -/

theorem storePendingData_addAll_paths (ds : List ChecksumResult) (user : HookPatterns) :
    (storePendingData_addAll user ds).NamespacePaths
      = user.NamespacePaths ++ ds.map (fun d => d.NamespacePath) := by
  induction ds generalizing user with
  | nil => simp [storePendingData_addAll]
  | cons d rest ih =>
    simp [storePendingData_addAll, ih, HookPatterns.AddNamespacePaths]

/-- C8: in `showTrustPrompt`, an untrusted hook answered "y" while accept-all is not set
becomes trusted with its active flag unchanged; exactly one entry with its hash, path and
namespace-path is appended to `TrustedHooks`, the (hash, path) pair is added to the checksum
store, and `DisabledHooks` and `AcceptAllChanges` are unchanged. -/
theorem showTrustPrompt_accept (env : Env) (w : World) (hook : Hook)
    (hUntrusted : hook.Trusted = false)
    (hAll : w.uiSettings.AcceptAllChanges = false)
    (hAnswer : env.ShowOptions w.uiSettings.PromptCtx.Shown = "y") :
    (showTrustPrompt env w hook).2 =
        { hook with Trusted := true, SHA1 := env.AssertSHA1 hook } ∧
      (showTrustPrompt env w hook).2.Active = hook.Active ∧
      (showTrustPrompt env w hook).1.uiSettings.TrustedHooks =
        w.uiSettings.TrustedHooks ++
          [{ SHA1 := (showTrustPrompt env w hook).2.SHA1, Path := hook.Path,
             NamespacePath := hook.NamespacePath }] ∧
      (showTrustPrompt env w hook).1.checksums.Checksums =
        w.checksums.Checksums ++ [((showTrustPrompt env w hook).2.SHA1, hook.Path)] ∧
      (showTrustPrompt env w hook).1.uiSettings.DisabledHooks = w.uiSettings.DisabledHooks ∧
      (showTrustPrompt env w hook).1.uiSettings.AcceptAllChanges = false := by
  simp [showTrustPrompt, answerSwitch, hUntrusted, hAll, hAnswer]

theorem showTrustPrompt_accept_witness :
    (showTrustPrompt (scriptedEnv ["y"] [] [] []) {} (mkHook "a" "01" false)).2 =
        { mkHook "a" "01" false with
          Trusted := true, SHA1 := (scriptedEnv ["y"] [] [] []).AssertSHA1 (mkHook "a" "01" false) } ∧
      (showTrustPrompt (scriptedEnv ["y"] [] [] []) {} (mkHook "a" "01" false)).1.uiSettings.TrustedHooks =
        [{ SHA1 := "sha:a", Path := "a", NamespacePath := "ns/a" }] :=
  ⟨(showTrustPrompt_accept (scriptedEnv ["y"] [] [] []) {} (mkHook "a" "01" false) rfl rfl rfl).1,
    by decide⟩

/-- C9: in `showTrustPrompt`, an untrusted hook answered "d" becomes inactive and stays
untrusted; exactly one entry with its namespace-path is appended to `DisabledHooks`, and
neither the checksum store nor `TrustedHooks` changes; `storePendingData` then adds that
namespace-path to the user ignore patterns and persists the patterns containing it. -/
theorem showTrustPrompt_disable (env : Env) (settings : HookSettings) (w : World)
    (ignores : RepoIgnorePatterns) (hook : Hook)
    (hUntrusted : hook.Trusted = false)
    (hAll : w.uiSettings.AcceptAllChanges = false)
    (hAnswer : env.ShowOptions w.uiSettings.PromptCtx.Shown = "d") :
    (showTrustPrompt env w hook).2.Active = false ∧
      (showTrustPrompt env w hook).2.Trusted = false ∧
      (showTrustPrompt env w hook).1.uiSettings.DisabledHooks =
        w.uiSettings.DisabledHooks ++
          [{ SHA1 := env.AssertSHA1 hook, Path := hook.Path,
             NamespacePath := hook.NamespacePath }] ∧
      (showTrustPrompt env w hook).1.checksums = w.checksums ∧
      (showTrustPrompt env w hook).1.uiSettings.TrustedHooks = w.uiSettings.TrustedHooks ∧
      (storePendingData settings (showTrustPrompt env w hook).1.uiSettings ignores).1.User.NamespacePaths
        = ignores.User.NamespacePaths ++
            w.uiSettings.DisabledHooks.map (fun d => d.NamespacePath) ++ [hook.NamespacePath] ∧
      (storePendingData settings (showTrustPrompt env w hook).1.uiSettings ignores).2.userIgnores
        = some ((storePendingData settings (showTrustPrompt env w hook).1.uiSettings ignores).1.User,
            settings.GitDirWorktree) := by
  have hd : "d" ≠ "a" ∧ "d" ≠ "y" := by decide
  simp [showTrustPrompt, answerSwitch, hUntrusted, hAll, hAnswer, hd.1, hd.2, storePendingData,
    storePendingData_addAll_paths]

theorem showTrustPrompt_disable_witness :
    (showTrustPrompt (scriptedEnv ["d"] [] [] []) {} (mkHook "a" "01" false)).2.Active = false ∧
      (storePendingData {} (showTrustPrompt (scriptedEnv ["d"] [] [] []) {}
          (mkHook "a" "01" false)).1.uiSettings {}).1.User.NamespacePaths = ["ns/a"] :=
  ⟨(showTrustPrompt_disable (scriptedEnv ["d"] [] [] []) {} {} {} (mkHook "a" "01" false)
      rfl rfl rfl).1, by decide⟩

/-- C10: in `showTrustPrompt`, an untrusted hook answered with anything other than "y", "a"
or "d" (so also "n") while accept-all is not set leaves the hook record, the flags and lists
of `uiSettings` and the checksum store unchanged; the hook stays untrusted and as active as
it was. -/
theorem showTrustPrompt_reject (env : Env) (w : World) (hook : Hook)
    (hUntrusted : hook.Trusted = false)
    (hAll : w.uiSettings.AcceptAllChanges = false)
    (hy : env.ShowOptions w.uiSettings.PromptCtx.Shown ≠ "y")
    (ha : env.ShowOptions w.uiSettings.PromptCtx.Shown ≠ "a")
    (hd : env.ShowOptions w.uiSettings.PromptCtx.Shown ≠ "d") :
    (showTrustPrompt env w hook).2 = hook ∧
      (showTrustPrompt env w hook).2.Trusted = false ∧
      (showTrustPrompt env w hook).2.Active = hook.Active ∧
      (showTrustPrompt env w hook).1.uiSettings.AcceptAllChanges = w.uiSettings.AcceptAllChanges ∧
      (showTrustPrompt env w hook).1.uiSettings.TrustedHooks = w.uiSettings.TrustedHooks ∧
      (showTrustPrompt env w hook).1.uiSettings.DisabledHooks = w.uiSettings.DisabledHooks ∧
      (showTrustPrompt env w hook).1.checksums = w.checksums ∧
      (showTrustPrompt env w hook).1.warnings = w.warnings := by
  simp [showTrustPrompt, answerSwitch, hUntrusted, hAll, hy, ha, hd]

theorem showTrustPrompt_reject_witness :
    (showTrustPrompt (scriptedEnv ["n"] [] [] []) {} (mkHook "a" "01" false)).2 = mkHook "a" "01" false ∧
      (showTrustPrompt (scriptedEnv ["n"] [] [] []) {} (mkHook "a" "01" false)).1.checksums = {} :=
  ⟨(showTrustPrompt_reject (scriptedEnv ["n"] [] [] []) {} (mkHook "a" "01" false) rfl rfl
      (by decide) (by decide) (by decide)).1,
    (showTrustPrompt_reject (scriptedEnv ["n"] [] [] []) {} (mkHook "a" "01" false) rfl rfl
      (by decide) (by decide) (by decide)).2.2.2.2.2.2.1⟩

/-! ## Lemmas: the loop of `getHooksIn` -/

theorem modify_append_singleton (bs : List (List Hook)) (hook : Hook) :
    (bs ++ [[]]).modify (fun b => b ++ [hook]) bs.length = bs ++ [[hook]] := by
  induction bs with
  | nil => rfl
  | cons b bs ih => simpa [List.modify_succ_cons] using ih

theorem getHooksIn_step_eq (env : Env) (settings : HookSettings) (s : LoopState) (hook : Hook)
    (hidx : s.curBatchIdx + 1 = s.batches.length) :
    getHooksIn_step env settings s hook =
      match trustGate env settings.NonInteractive settings.SkipUntrustedHooks s.world hook with
      | .error m => .error m
      | .ok r =>
        if r.2.kept then
          if s.curBatchName ≠ r.2.BatchName then
            .ok { batches := s.batches ++ [[r.2]], curBatchIdx := s.curBatchIdx + 1,
                  curBatchName := r.2.BatchName, world := r.1 }
          else
            .ok { batches := s.batches.modify (fun b => b ++ [r.2]) (s.batches.length - 1),
                  curBatchIdx := s.curBatchIdx, curBatchName := s.curBatchName, world := r.1 }
        else .ok { s with world := r.1 } := by
  unfold getHooksIn_step
  cases hg : trustGate env settings.NonInteractive settings.SkipUntrustedHooks s.world hook with
  | error m => rfl
  | ok r =>
    have hlen : s.batches.length - 1 = s.curBatchIdx := by omega
    by_cases hk : r.2.kept = true
    · have hk1 : (!r.2.Active || !r.2.Trusted) = false := by
        simp only [Hook.kept, Bool.and_eq_true] at hk
        simp [hk.1, hk.2]
      by_cases hn : s.curBatchName = r.2.BatchName
      · have : s.curBatchIdx < s.batches.length := by omega
        simp [hk, hk1, hn, this, hlen]
      · have h1 : s.curBatchIdx + 1 < s.batches.length + 1 := by omega
        have h2 := modify_append_singleton s.batches r.2
        rw [← hidx] at h2
        simp [hk, hk1, hn, h1, h2]
    · have hk1 : (!r.2.Active || !r.2.Trusted) = true := by
        simp only [Hook.kept, Bool.and_eq_true, not_and_or] at hk
        rcases hk with h | h
        · simp [h]
        · simp [h]
      simp [hk, hk1]

theorem getHooksIn_step_idx (env : Env) (settings : HookSettings) (s s1 : LoopState)
    (hook : Hook) (hidx : s.curBatchIdx + 1 = s.batches.length)
    (h : getHooksIn_step env settings s hook = .ok s1) :
    s1.curBatchIdx + 1 = s1.batches.length := by
  rw [getHooksIn_step_eq env settings s hook hidx] at h
  cases hg : trustGate env settings.NonInteractive settings.SkipUntrustedHooks s.world hook with
  | error m => simp [hg] at h
  | ok r =>
    simp only [hg] at h
    split at h
    · split at h
      · cases h; simp [hidx]
      · cases h; simp [hidx]
    · cases h; simpa using hidx

/-- The loop of `getHooksIn` is the trust decisions followed by the batching of the kept
hooks. -/
theorem getHooksIn_loop_eq (env : Env) (settings : HookSettings) (hooks : List Hook)
    (s : LoopState) (hidx : s.curBatchIdx + 1 = s.batches.length) :
    (getHooksIn_loop env settings hooks s).map (fun s1 => (s1.batches, s1.world)) =
      (gateAll env settings.NonInteractive settings.SkipUntrustedHooks hooks s.world).map
        (fun r => (splitBatches (r.1.filter Hook.kept) s.batches s.curBatchName, r.2)) := by
  induction hooks generalizing s with
  | nil => simp [getHooksIn_loop, gateAll, splitBatches, Except.map]
  | cons hook rest ih =>
    unfold getHooksIn_loop gateAll
    cases hs : getHooksIn_step env settings s hook with
    | error m =>
      rw [getHooksIn_step_eq env settings s hook hidx] at hs
      cases hg : trustGate env settings.NonInteractive settings.SkipUntrustedHooks s.world
          hook with
      | error m1 =>
        simp only [hg] at hs
        cases hs
        simp [Except.map]
      | ok r =>
        simp only [hg] at hs
        split at hs
        · split at hs <;> cases hs
        · cases hs
    | ok s1 =>
      have hidx1 := getHooksIn_step_idx env settings s s1 hook hidx hs
      rw [getHooksIn_step_eq env settings s hook hidx] at hs
      cases hg : trustGate env settings.NonInteractive settings.SkipUntrustedHooks s.world
          hook with
      | error m1 => simp [hg] at hs
      | ok r =>
        simp only [hg] at hs
        simp only []
        rw [ih s1 hidx1]
        by_cases hk : r.2.kept = true
        · by_cases hn : s.curBatchName = r.2.BatchName
          · simp only [hk, hn, ne_eq, not_true_eq_false, if_false, if_true] at hs
            cases hs
            cases hr : gateAll env settings.NonInteractive settings.SkipUntrustedHooks rest r.1 with
            | error m => simp [Except.map]
            | ok rs => simp [Except.map, List.filter_cons, hk, splitBatches, hn]
          · simp only [hk, hn, ne_eq, not_false_eq_true, if_true] at hs
            cases hs
            cases hr : gateAll env settings.NonInteractive settings.SkipUntrustedHooks rest r.1 with
            | error m => simp [Except.map]
            | ok rs => simp [Except.map, List.filter_cons, hk, splitBatches, hn]
        · simp only [hk, if_false] at hs
          cases hs
          cases hr : gateAll env settings.NonInteractive settings.SkipUntrustedHooks rest r.1 with
          | error m => simp [Except.map]
          | ok rs => simp [Except.map, List.filter_cons, hk]

theorem getHooksIn_batches_eq (env : Env) (settings : HookSettings) (w : World)
    (allHooks : List Hook) (maxBatches : Nat) (h0 : Hook) (t : List Hook)
    (hne : allHooks ≠ []) (hmax : 1 ≤ maxBatches) (hsorted : sortedHooks env allHooks = h0 :: t) :
    getHooksIn_batches env settings w allHooks maxBatches =
      (gateAll env settings.NonInteractive settings.SkipUntrustedHooks (h0 :: t) w).map
        (fun r => (splitBatches (r.1.filter Hook.kept) [[]] h0.BatchName, r.2)) := by
  cases allHooks with
  | nil => exact absurd rfl hne
  | cons first others =>
    have hm : ¬ maxBatches < 1 := by omega
    have hs : (if (first :: others).length > 1 then env.sortSlice (first :: others)
        else first :: others) = h0 :: t := hsorted
    have hloop := getHooksIn_loop_eq env settings (h0 :: t)
      { batches := [[]], curBatchIdx := 0, curBatchName := h0.BatchName, world := w } rfl
    simp only [getHooksIn_batches, hs, hm, if_false]
    cases hl : getHooksIn_loop env settings (h0 :: t)
        { batches := [[]], curBatchIdx := 0, curBatchName := h0.BatchName, world := w } with
    | error m =>
      rw [hl] at hloop
      cases hg : gateAll env settings.NonInteractive settings.SkipUntrustedHooks (h0 :: t) w with
      | error m1 =>
        rw [hg] at hloop
        simp only [Except.map] at hloop
        simp only [Except.map]
        exact hloop
      | ok r => rw [hg] at hloop; simp [Except.map] at hloop
    | ok s1 =>
      rw [hl] at hloop
      cases hg : gateAll env settings.NonInteractive settings.SkipUntrustedHooks (h0 :: t) w with
      | error m1 => rw [hg] at hloop; simp [Except.map] at hloop
      | ok r =>
        rw [hg] at hloop
        simp only [Except.map] at hloop
        simp only [Except.map]
        exact hloop

theorem modify_last (init : List (List Hook)) (last : List Hook) (f : List Hook → List Hook) :
    (init ++ [last]).modify f ((init ++ [last]).length - 1) = init ++ [f last] := by
  have hl : (init ++ [last]).length - 1 = init.length := by simp
  rw [hl]
  induction init with
  | nil => rfl
  | cons b bs ih => simpa [List.modify_succ_cons] using ih

/-- The batching keeps the batches before the last, extends the last batch by the leading
hooks that carry the current label, and opens only non-empty batches after it. -/
theorem splitBatches_shape (ks : List Hook) :
    ∀ (init : List (List Hook)) (last : List Hook) (cur : String),
      ∃ tl : List (List Hook),
        splitBatches ks (init ++ [last]) cur =
          init ++ (last ++ ks.takeWhile (fun k => decide (k.BatchName = cur))) :: tl ∧
        ∀ b ∈ tl, b ≠ [] := by
  induction ks with
  | nil => intro init last cur; exact ⟨[], by simp [splitBatches], by simp⟩
  | cons k ks ih =>
    intro init last cur
    by_cases hn : cur = k.BatchName
    · obtain ⟨tl, h1, h2⟩ := ih init (last ++ [k]) cur
      refine ⟨tl, ?_, h2⟩
      simp only [splitBatches, hn, ne_eq, not_true_eq_false, if_false, modify_last]
      rw [← hn, h1]
      simp [List.takeWhile_cons, hn]
    · obtain ⟨tl, h1, h2⟩ := ih (init ++ [last]) [k] k.BatchName
      refine ⟨([k] ++ ks.takeWhile (fun x => decide (x.BatchName = k.BatchName))) :: tl, ?_, ?_⟩
      · simp only [splitBatches, hn, ne_eq, not_false_eq_true, if_true]
        rw [h1]
        have : ¬ (k.BatchName = cur) := fun h => hn h.symm
        simp [List.takeWhile_cons, this]
      · intro b hb
        rcases List.mem_cons.mp hb with h | h
        · rw [h]; simp
        · exact h2 b h

theorem splitBatches_flatten (ks : List Hook) :
    ∀ (init : List (List Hook)) (last : List Hook) (cur : String),
      (splitBatches ks (init ++ [last]) cur).flatten = (init ++ [last]).flatten ++ ks := by
  induction ks with
  | nil => intro init last cur; simp [splitBatches]
  | cons k ks ih =>
    intro init last cur
    by_cases hn : cur = k.BatchName
    · simp only [splitBatches, hn, ne_eq, not_true_eq_false, if_false, modify_last]
      rw [ih init (last ++ [k]) k.BatchName]
      simp
    · simp only [splitBatches, hn, ne_eq, not_false_eq_true, if_true]
      rw [ih (init ++ [last]) [k] k.BatchName]
      simp

/-! ## Lemmas: the order of batch labels -/

theorem strLess_iff (a b : String) : strLess a b = true ↔ a.data < b.data := by
  simp [strLess]

theorem strLess_eq_false_iff (a b : String) : strLess a b = false ↔ b.data ≤ a.data := by
  simp [strLess]

theorem strLess_trans {a b c : String} (h1 : strLess a b = true) (h2 : strLess b c = true) :
    strLess a c = true := by
  rw [strLess_iff] at *
  exact lt_trans h1 h2

theorem strLess_of_ne {a b : String} (hne : a ≠ b) (h : strLess b a = false) :
    strLess a b = true := by
  rw [strLess_eq_false_iff] at h
  rw [strLess_iff]
  have hd : a.data ≠ b.data := fun hd => hne (String.ext hd)
  exact lt_of_le_of_ne h hd

theorem strLess_of_lt_of_le {a b c : String} (h1 : strLess a b = true)
    (h2 : strLess c b = false) : strLess a c = true := by
  rw [strLess_eq_false_iff] at h2
  rw [strLess_iff] at *
  exact lt_of_lt_of_le h1 h2

/-- Go's `<` on strings is the order of `String`. -/
theorem strLess_iff_lt (a b : String) : strLess a b = true ↔ a < b := by
  rw [strLess_iff]
  exact String.lt_iff_toList_lt.symm

theorem splitBatches_sorted (ks : List Hook) :
    ∀ (init : List (List Hook)) (last : List Hook) (cur : String),
      ks.Pairwise (fun a b => strLess b.BatchName a.BatchName = false) →
      (∀ k ∈ ks, strLess k.BatchName cur = false) →
      (∀ x ∈ last, x.BatchName = cur) →
      UniformBatches init →
      IncreasingBatches init →
      (∀ b ∈ init, ∀ x ∈ b, strLess x.BatchName cur = true) →
      UniformBatches (splitBatches ks (init ++ [last]) cur) ∧
        IncreasingBatches (splitBatches ks (init ++ [last]) cur) := by
  induction ks with
  | nil =>
    intro init last cur _ _ hlast huni hinc hlt
    simp only [splitBatches]
    constructor
    · intro b hb x hx y hy
      rcases List.mem_append.mp hb with h | h
      · exact huni b h x hx y hy
      · simp only [List.mem_singleton] at h
        subst h
        rw [hlast x hx, hlast y hy]
    · unfold IncreasingBatches
      rw [List.pairwise_append]
      refine ⟨hinc, List.pairwise_singleton _ _, ?_⟩
      intro b1 hb1 b2 hb2 x hx y hy
      simp only [List.mem_singleton] at hb2
      subst hb2
      rw [hlast y hy]
      exact hlt b1 hb1 x hx
  | cons k ks ih =>
    intro init last cur hsorted hge hlast huni hinc hlt
    have hks : ks.Pairwise (fun a b => strLess b.BatchName a.BatchName = false) :=
      (List.pairwise_cons.mp hsorted).2
    have hk : ∀ x ∈ ks, strLess x.BatchName k.BatchName = false :=
      (List.pairwise_cons.mp hsorted).1
    by_cases hn : cur = k.BatchName
    · simp only [splitBatches, hn, ne_eq, not_true_eq_false, if_false, modify_last]
      apply ih init (last ++ [k]) k.BatchName hks hk
      · intro x hx
        rcases List.mem_append.mp hx with h | h
        · rw [hlast x h, hn]
        · simp only [List.mem_singleton] at h
          rw [h]
      · exact huni
      · exact hinc
      · intro b hb x hx
        rw [← hn]
        exact hlt b hb x hx
    · simp only [splitBatches, hn, ne_eq, not_false_eq_true, if_true]
      have hcur : strLess cur k.BatchName = true :=
        strLess_of_ne hn (hge k (List.mem_cons_self _ _))
      apply ih (init ++ [last]) [k] k.BatchName hks hk
      · intro x hx
        simp only [List.mem_singleton] at hx
        rw [hx]
      · intro b hb x hx y hy
        rcases List.mem_append.mp hb with h | h
        · exact huni b h x hx y hy
        · simp only [List.mem_singleton] at h
          subst h
          rw [hlast x hx, hlast y hy]
      · unfold IncreasingBatches
        rw [List.pairwise_append]
        refine ⟨hinc, List.pairwise_singleton _ _, ?_⟩
        intro b1 hb1 b2 hb2 x hx y hy
        simp only [List.mem_singleton] at hb2
        subst hb2
        rw [hlast y hy]
        exact hlt b1 hb1 x hx
      · intro b hb x hx
        rcases List.mem_append.mp hb with h | h
        · exact strLess_trans (hlt b h x hx) hcur
        · simp only [List.mem_singleton] at h
          subst h
          rw [hlast x hx]
          exact hcur

/-! ## Lemmas: the trust decisions -/

/-- The five ways through `showTrustPrompt` for an untrusted hook. -/
theorem showTrustPrompt_eq (env : Env) (w : World) (hook : Hook)
    (hUntrusted : hook.Trusted = false) :
    showTrustPrompt env w hook =
      if w.uiSettings.AcceptAllChanges = true then stageAccept env w w.uiSettings hook
      else if env.ShowOptions w.uiSettings.PromptCtx.Shown = "a" then
        stageAccept env w { w.uiSettings.asked with AcceptAllChanges := true } hook
      else if env.ShowOptions w.uiSettings.PromptCtx.Shown = "y" then
        stageAccept env w w.uiSettings.asked hook
      else if env.ShowOptions w.uiSettings.PromptCtx.Shown = "d" then
        stageDisable env w w.uiSettings.asked hook
      else ({ w with uiSettings := w.uiSettings.asked }, hook) := by
  by_cases hA : w.uiSettings.AcceptAllChanges = true
  · simp [showTrustPrompt, hUntrusted, hA, stageAccept]
  · simp only [Bool.not_eq_true] at hA
    by_cases ha : env.ShowOptions w.uiSettings.PromptCtx.Shown = "a"
    · simp [showTrustPrompt, answerSwitch, hUntrusted, hA, ha, stageAccept, UISettings.asked]
    · by_cases hy : env.ShowOptions w.uiSettings.PromptCtx.Shown = "y"
      · simp [showTrustPrompt, answerSwitch, hUntrusted, hA, hy, stageAccept,
          UISettings.asked]
      · by_cases hd : env.ShowOptions w.uiSettings.PromptCtx.Shown = "d"
        · have hda : "d" ≠ "a" ∧ "d" ≠ "y" := by decide
          simp [showTrustPrompt, answerSwitch, hUntrusted, hA, hd, hda.1, hda.2, stageDisable,
            UISettings.asked]
        · simp [showTrustPrompt, answerSwitch, hUntrusted, hA, ha, hy, hd, UISettings.asked]

theorem showTrustPrompt_fields (env : Env) (w : World) (hook : Hook) :
    (showTrustPrompt env w hook).2.Path = hook.Path ∧
      (showTrustPrompt env w hook).2.NamespacePath = hook.NamespacePath ∧
      (showTrustPrompt env w hook).2.BatchName = hook.BatchName := by
  by_cases hT : hook.Trusted = true
  · simp [showTrustPrompt, hT]
  · simp only [Bool.not_eq_true] at hT
    rw [showTrustPrompt_eq env w hook hT]
    split_ifs <;> simp [stageAccept, stageDisable]

/-- The block `trustGate` by cases. -/
theorem trustGate_eq (env : Env) (ni skip : Bool) (w : World) (hook : Hook) :
    trustGate env ni skip w hook =
      if (hook.Active && !hook.Trusted) = true then
        if ((if ni = true then (w, hook) else showTrustPrompt env w hook).2.Active &&
            !(if ni = true then (w, hook) else showTrustPrompt env w hook).2.Trusted) = true then
          if skip = true then
            .ok ({ (if ni = true then (w, hook) else showTrustPrompt env w hook).1 with
                    warnings := (if ni = true then (w, hook)
                        else showTrustPrompt env w hook).1.warnings ++
                      [untrustedWarning (if ni = true then (w, hook)
                        else showTrustPrompt env w hook).2.NamespacePath] },
                 (if ni = true then (w, hook) else showTrustPrompt env w hook).2)
          else .error (untrustedFatal (if ni = true then (w, hook)
              else showTrustPrompt env w hook).2.NamespacePath)
        else .ok (if ni = true then (w, hook) else showTrustPrompt env w hook)
      else .ok (w, hook) := by
  unfold trustGate failOrWarnOnActiveUntrusted
  cases ni <;> cases skip <;> simp only [Bool.not_true, Bool.not_false, if_true, if_false] <;>
    split_ifs <;> simp_all

theorem trustGate_fields (env : Env) (ni skip : Bool) (w : World) (hook : Hook)
    (r : World × Hook) (h : trustGate env ni skip w hook = .ok r) :
    r.2.Path = hook.Path ∧ r.2.NamespacePath = hook.NamespacePath ∧
      r.2.BatchName = hook.BatchName := by
  rw [trustGate_eq] at h
  have hf := showTrustPrompt_fields env w hook
  cases ni <;> split_ifs at h <;> cases h <;> first | exact hf | exact ⟨rfl, rfl, rfl⟩

theorem gateAll_fields (env : Env) (ni skip : Bool) (hooks : List Hook) :
    ∀ (w : World) (r : List Hook × World), gateAll env ni skip hooks w = .ok r →
      r.1.map (fun h => h.Path) = hooks.map (fun h => h.Path) ∧
      r.1.map (fun h => h.NamespacePath) = hooks.map (fun h => h.NamespacePath) ∧
      r.1.map (fun h => h.BatchName) = hooks.map (fun h => h.BatchName) := by
  induction hooks with
  | nil =>
    intro w r h
    simp only [gateAll] at h
    cases h
    simp
  | cons hook rest ih =>
    intro w r h
    simp only [gateAll] at h
    cases hg : trustGate env ni skip w hook with
    | error m => simp [hg] at h
    | ok g =>
      simp only [hg] at h
      cases hr : gateAll env ni skip rest g.1 with
      | error m => simp [hr] at h
      | ok rs =>
        simp only [hr] at h
        cases h
        obtain ⟨h1, h2, h3⟩ := trustGate_fields env ni skip w hook g hg
        obtain ⟨i1, i2, i3⟩ := ih g.1 rs hr
        simp [h1, h2, h3, i1, i2, i3]

/-! ## Lemmas: `getHooksIn` as a whole -/

theorem getHooksIn_eq (env : Env) (settings : HookSettings) (w : World)
    (rootDir hooksDir : String) (addInternalIgnores : Bool) (hookNamespace : String)
    (readNamespace : Bool) (allHooks : List Hook) (maxBatches : Nat)
    (henum : getHooksIn_enumerate env settings w rootDir hooksDir addInternalIgnores
      hookNamespace readNamespace = .ok (allHooks, maxBatches)) :
    getHooksIn env settings w rootDir hooksDir addInternalIgnores hookNamespace readNamespace
      = getHooksIn_batches env settings w allHooks maxBatches := by
  simp [getHooksIn, henum]

theorem getHooksIn_ok_enumerate (env : Env) (settings : HookSettings) (w : World)
    (rootDir hooksDir : String) (addInternalIgnores : Bool) (hookNamespace : String)
    (readNamespace : Bool) (res : List (List Hook) × World)
    (h : getHooksIn env settings w rootDir hooksDir addInternalIgnores hookNamespace
      readNamespace = .ok res) :
    ∃ allHooks maxBatches,
      getHooksIn_enumerate env settings w rootDir hooksDir addInternalIgnores
        hookNamespace readNamespace = .ok (allHooks, maxBatches) ∧
      getHooksIn_batches env settings w allHooks maxBatches = .ok res := by
  unfold getHooksIn at h
  cases he : getHooksIn_enumerate env settings w rootDir hooksDir addInternalIgnores
      hookNamespace readNamespace with
  | error m => simp [he] at h
  | ok r =>
    obtain ⟨allHooks, maxBatches⟩ := r
    simp only [he] at h
    exact ⟨allHooks, maxBatches, rfl, h⟩

/-- A successful `getHooksIn` on a non-empty enumeration: the trust decisions over the
sorted hooks succeeded, and the batches are the batching of the hooks they keep. -/
theorem getHooksIn_batches_ok (env : Env) (settings : HookSettings) (w : World)
    (allHooks : List Hook) (maxBatches : Nat) (res : List (List Hook) × World)
    (hne : allHooks ≠ [])
    (h : getHooksIn_batches env settings w allHooks maxBatches = .ok res) :
    ∃ h0 t r, sortedHooks env allHooks = h0 :: t ∧
      gateAll env settings.NonInteractive settings.SkipUntrustedHooks (h0 :: t) w = .ok r ∧
      res.1 = splitBatches (r.1.filter Hook.kept) [[]] h0.BatchName ∧ res.2 = r.2 := by
  have hmax : 1 ≤ maxBatches := by
    by_contra hc
    have hlt : maxBatches < 1 := by omega
    cases allHooks with
    | nil => exact hne rfl
    | cons first others => simp [getHooksIn_batches, hlt] at h
  cases hs : sortedHooks env allHooks with
  | nil =>
    cases allHooks with
    | nil => exact absurd rfl hne
    | cons first others =>
      have hs1 : (if (first :: others).length > 1 then env.sortSlice (first :: others)
          else first :: others) = [] := hs
      have hm : ¬ maxBatches < 1 := by omega
      simp only [getHooksIn_batches, hs1, hm, if_false] at h
      cases h
  | cons h0 t =>
    rw [getHooksIn_batches_eq env settings w allHooks maxBatches h0 t hne hmax hs] at h
    cases hg : gateAll env settings.NonInteractive settings.SkipUntrustedHooks (h0 :: t) w with
    | error m => simp [hg, Except.map] at h
    | ok r =>
      simp only [hg, Except.map] at h
      cases h
      exact ⟨h0, t, r, rfl, hg, rfl, rfl⟩

theorem getHooksIn_batches_nil (env : Env) (settings : HookSettings) (w : World)
    (maxBatches : Nat) : getHooksIn_batches env settings w [] maxBatches = .ok ([], w) := rfl

theorem splitBatches_flatten_start (ks : List Hook) (cur : String) :
    (splitBatches ks [[]] cur).flatten = ks := by
  have h := splitBatches_flatten ks [] [] cur
  simpa using h

/-- The hooks in the batches of `getHooksIn` are the hooks kept by the trust decisions,
in the order of the sorted list. -/
theorem getHooksIn_batches_flatten (env : Env) (settings : HookSettings) (w : World)
    (allHooks : List Hook) (maxBatches : Nat) (res : List (List Hook) × World)
    (h : getHooksIn_batches env settings w allHooks maxBatches = .ok res) :
    ∃ r, gateAll env settings.NonInteractive settings.SkipUntrustedHooks
        (sortedHooks env allHooks) w = .ok r ∧
      res.1.flatten = r.1.filter Hook.kept ∧ res.2 = r.2 := by
  by_cases hne : allHooks = []
  · subst hne
    rw [getHooksIn_batches_nil] at h
    cases h
    exact ⟨([], w), by simp [sortedHooks, gateAll], by simp, rfl⟩
  · obtain ⟨h0, t, r, hs, hg, hb, hw⟩ := getHooksIn_batches_ok env settings w allHooks
      maxBatches res hne h
    refine ⟨r, by rw [hs]; exact hg, ?_, hw⟩
    rw [hb, splitBatches_flatten_start]

/-! ## Theorems: `getHooksIn` -/

/-- C1: every hook in the batch list returned by `getHooksIn` has `Active = true` and
`Trusted = true`; a hook that is inactive or untrusted after the prompt is in no batch. -/
theorem getHooksIn_active_trusted (env : Env) (settings : HookSettings) (w : World)
    (rootDir hooksDir : String) (addInternalIgnores : Bool) (hookNamespace : String)
    (readNamespace : Bool) (batches : List (List Hook)) (w1 : World)
    (h : getHooksIn env settings w rootDir hooksDir addInternalIgnores hookNamespace
      readNamespace = .ok (batches, w1)) :
    ∀ b ∈ batches, ∀ hook ∈ b, hook.Active = true ∧ hook.Trusted = true := by
  obtain ⟨allHooks, maxBatches, _, hb⟩ := getHooksIn_ok_enumerate env settings w rootDir
    hooksDir addInternalIgnores hookNamespace readNamespace (batches, w1) h
  obtain ⟨r, _, hf, _⟩ := getHooksIn_batches_flatten env settings w allHooks maxBatches
    (batches, w1) hb
  intro b hb1 hook hh
  have hmem : hook ∈ batches.flatten := List.mem_flatten.mpr ⟨b, hb1, hh⟩
  simp only [] at hf
  rw [hf, List.mem_filter] at hmem
  simpa [Hook.kept] using hmem.2

theorem getHooksIn_active_trusted_witness :
    getHooksIn s1Env { SkipUntrustedHooks := true } {} "" "" false "" false
        = .ok ([[mkHook "a" "01" true], [mkHook "c" "02" true]], s1World) ∧
      ∀ b ∈ [[mkHook "a" "01" true], [mkHook "c" "02" true]], ∀ hook ∈ b,
        hook.Active = true ∧ hook.Trusted = true :=
  ⟨by decide,
    getHooksIn_active_trusted s1Env { SkipUntrustedHooks := true } {} "" "" false "" false
      [[mkHook "a" "01" true], [mkHook "c" "02" true]] s1World (by decide)⟩

theorem sortedHooks_pairwise (env : Env) (allHooks : List Hook)
    (hsort : (env.sortSlice allHooks).Pairwise
      (fun a b => strLess b.BatchName a.BatchName = false)) :
    (sortedHooks env allHooks).Pairwise (fun a b => strLess b.BatchName a.BatchName = false) := by
  unfold sortedHooks
  split_ifs with h
  · exact hsort
  · match allHooks, h with
    | [], _ => exact List.Pairwise.nil
    | [x], _ => exact List.pairwise_singleton _ _
    | _ :: _ :: _, h => simp at h

theorem pairwise_of_labels {l1 l2 : List Hook}
    (hmap : l1.map (fun h => h.BatchName) = l2.map (fun h => h.BatchName))
    (h : l2.Pairwise (fun a b => strLess b.BatchName a.BatchName = false)) :
    l1.Pairwise (fun a b => strLess b.BatchName a.BatchName = false) := by
  have h2 : (l2.map (fun h => h.BatchName)).Pairwise (fun a b => strLess b a = false) :=
    List.pairwise_map.mpr h
  rw [← hmap] at h2
  exact List.pairwise_map.mp h2

theorem strLess_irrefl (a : String) : strLess a a = false := by
  simp [strLess]

/-- A successful `getHooksIn` on a non-empty enumeration in label order: the kept hooks
are in label order and none is below the label of the first sorted hook. -/
theorem getHooksIn_batches_kept (env : Env) (settings : HookSettings) (w : World)
    (allHooks : List Hook) (maxBatches : Nat) (res : List (List Hook) × World)
    (hne : allHooks ≠ [])
    (hsort : (env.sortSlice allHooks).Pairwise
      (fun a b => strLess b.BatchName a.BatchName = false))
    (h : getHooksIn_batches env settings w allHooks maxBatches = .ok res) :
    ∃ h0 t r, sortedHooks env allHooks = h0 :: t ∧
      gateAll env settings.NonInteractive settings.SkipUntrustedHooks (h0 :: t) w = .ok r ∧
      res.1 = splitBatches (r.1.filter Hook.kept) [[]] h0.BatchName ∧ res.2 = r.2 ∧
      (r.1.filter Hook.kept).Pairwise (fun a b => strLess b.BatchName a.BatchName = false) ∧
      ∀ k ∈ r.1.filter Hook.kept, strLess k.BatchName h0.BatchName = false := by
  obtain ⟨h0, t, r, hs, hg, hb, hw⟩ := getHooksIn_batches_ok env settings w allHooks
    maxBatches res hne h
  have hp := sortedHooks_pairwise env allHooks hsort
  rw [hs] at hp
  obtain ⟨_, _, hl⟩ := gateAll_fields env settings.NonInteractive
    settings.SkipUntrustedHooks (h0 :: t) w r hg
  have hr : r.1.Pairwise (fun a b => strLess b.BatchName a.BatchName = false) :=
    pairwise_of_labels hl hp
  have hge : ∀ k ∈ r.1, strLess k.BatchName h0.BatchName = false := by
    match hr1 : r.1, hl, hr with
    | [], _, _ => intro k hk; simp at hk
    | g0 :: gt, hl, hr =>
      simp only [List.map_cons, List.cons.injEq] at hl
      intro k hk
      rcases List.mem_cons.mp hk with hk1 | hk1
      · rw [hk1, hl.1]; exact strLess_irrefl _
      · rw [← hl.1]; exact (List.pairwise_cons.mp hr).1 k hk1
  exact ⟨h0, t, r, hs, hg, hb, hw, hr.sublist (List.filter_sublist _),
    fun k hk => hge k (List.mem_of_mem_filter hk)⟩

/-- The batches of a successful `getHooksIn` over sorted hooks: one label per batch,
labels strictly increasing from batch to batch. -/
theorem getHooksIn_batches_sorted (env : Env) (settings : HookSettings) (w : World)
    (allHooks : List Hook) (maxBatches : Nat) (res : List (List Hook) × World)
    (hsort : (env.sortSlice allHooks).Pairwise
      (fun a b => strLess b.BatchName a.BatchName = false))
    (h : getHooksIn_batches env settings w allHooks maxBatches = .ok res) :
    UniformBatches res.1 ∧ IncreasingBatches res.1 := by
  by_cases hne : allHooks = []
  · subst hne
    rw [getHooksIn_batches_nil] at h
    cases h
    exact ⟨by intro b hb; simp at hb, List.Pairwise.nil⟩
  · obtain ⟨h0, t, r, _, _, hb, _, hks, hge1⟩ := getHooksIn_batches_kept env settings w
      allHooks maxBatches res hne hsort h
    have := splitBatches_sorted (r.1.filter Hook.kept) [] [] h0.BatchName hks hge1
      (by intro x hx; simp at hx) (by intro b hb; simp at hb) List.Pairwise.nil
      (by intro b hb; simp at hb)
    rw [hb]
    simpa using this

/-! ## Lemmas: `sort.Slice` sorts -/

namespace GoSort

variable {α : Type}

theorem swap_length (d : List α) (i j : Nat) : (swap d i j).length = d.length := by
  unfold swap
  split <;> simp

theorem swap_getElem (d : List α) (i j k : Nat) (hi : i < d.length) (hj : j < d.length) :
    (swap d i j)[k]? = if k = j then d[i]? else if k = i then d[j]? else d[k]? := by
  unfold swap
  rw [List.getElem?_eq_getElem hi, List.getElem?_eq_getElem hj]
  simp only
  rw [List.getElem?_set, List.getElem?_set]
  by_cases h1 : j = k
  · subst h1
    simp [hj]
  · by_cases h2 : i = k
    · subst h2
      simp [h1, hi, Ne.symm h1]
    · simp [h1, h2, Ne.symm h1, Ne.symm h2]

theorem lessAt_congr (less : α → α → Bool) (d1 d2 : List α) (i j i1 j1 : Nat)
    (hi : d2[i]? = d1[i1]?) (hj : d2[j]? = d1[j1]?) :
    lessAt less d2 i j = lessAt less d1 i1 j1 := by
  unfold lessAt
  rw [hi, hj]

theorem lessAt_swap (less : α → α → Bool) (d : List α) (p q i j : Nat) (hp : p < d.length)
    (hq : q < d.length) :
    lessAt less (swap d p q) i j
      = lessAt less d (if i = q then p else if i = p then q else i)
          (if j = q then p else if j = p then q else j) := by
  apply lessAt_congr
  · rw [swap_getElem d p q i hp hq]
    split_ifs <;> rfl
  · rw [swap_getElem d p q j hp hq]
    split_ifs <;> rfl

theorem lessAt_irrefl {less : α → α → Bool} (hw : StrictWeak less) (d : List α) (i : Nat) :
    lessAt less d i i = false := by
  unfold lessAt
  cases d[i]? with
  | none => rfl
  | some x => exact hw.irrefl x

theorem lessAt_trans {less : α → α → Bool} (hw : StrictWeak less) (d : List α) (i j k : Nat)
    (h1 : lessAt less d i j = true) (h2 : lessAt less d j k = true) :
    lessAt less d i k = true := by
  unfold lessAt at *
  cases hi : d[i]? with
  | none => simp [hi] at h1
  | some x =>
    cases hj : d[j]? with
    | none => simp [hi, hj] at h1
    | some y =>
      cases hk : d[k]? with
      | none => simp [hj, hk] at h2
      | some z =>
        simp only [hi, hj, hk] at h1 h2 ⊢
        exact hw.trans x y z h1 h2

theorem lessAt_negtrans {less : α → α → Bool} (hw : StrictWeak less) (d : List α)
    (i j k : Nat) (hj : j < d.length)
    (h1 : lessAt less d i j = false) (h2 : lessAt less d j k = false) :
    lessAt less d i k = false := by
  unfold lessAt at *
  cases hi : d[i]? with
  | none => rfl
  | some x =>
    cases hk : d[k]? with
    | none => rfl
    | some z =>
      rw [List.getElem?_eq_getElem hj] at h1 h2
      simp only [hi, hk] at h1 h2 ⊢
      exact hw.negtrans x _ z h1 h2

theorem lessAt_asymm {less : α → α → Bool} (hw : StrictWeak less) (d : List α) (i j : Nat)
    (h : lessAt less d i j = true) : lessAt less d j i = false := by
  cases h2 : lessAt less d j i with
  | false => rfl
  | true =>
    have := lessAt_trans hw d i j i h h2
    rw [lessAt_irrefl hw] at this
    cases this

theorem Keeps_refl (a b : Nat) (d : List α) : Keeps a b d d :=
  ⟨rfl, fun _ _ => rfl, fun k h1 h2 => ⟨k, h1, h2, rfl⟩⟩

theorem Keeps_trans {a b : Nat} {d1 d2 d3 : List α} (h12 : Keeps a b d1 d2)
    (h23 : Keeps a b d2 d3) : Keeps a b d1 d3 := by
  obtain ⟨l1, o1, r1⟩ := h12
  obtain ⟨l2, o2, r2⟩ := h23
  refine ⟨l2.trans l1, fun k hk => (o2 k hk).trans (o1 k hk), ?_⟩
  intro k h1 h2
  obtain ⟨k1, a1, b1, e1⟩ := r2 k h1 h2
  obtain ⟨k2, a2, b2, e2⟩ := r1 k1 a1 b1
  exact ⟨k2, a2, b2, e1.trans e2⟩

theorem Keeps_mono {a b a1 b1 : Nat} {d1 d2 : List α} (h : Keeps a1 b1 d1 d2) (ha : a ≤ a1)
    (hb : b1 ≤ b) : Keeps a b d1 d2 := by
  obtain ⟨l1, o1, r1⟩ := h
  refine ⟨l1, fun k hk => o1 k (by omega), ?_⟩
  intro k h1 h2
  by_cases hk : a1 ≤ k ∧ k < b1
  · obtain ⟨k1, a2, b2, e⟩ := r1 k hk.1 hk.2
    exact ⟨k1, by omega, by omega, e⟩
  · exact ⟨k, h1, h2, o1 k (by omega)⟩

theorem Keeps_swap (a b : Nat) (d : List α) (i j : Nat) (hai : a ≤ i) (hib : i < b)
    (haj : a ≤ j) (hjb : j < b) (hb : b ≤ d.length) : Keeps a b d (swap d i j) := by
  have hi : i < d.length := by omega
  have hj : j < d.length := by omega
  refine ⟨swap_length d i j, ?_, ?_⟩
  · intro k hk
    rw [swap_getElem d i j k hi hj]
    have h1 : k ≠ j := by omega
    have h2 : k ≠ i := by omega
    simp [h1, h2]
  · intro k h1 h2
    rw [swap_getElem d i j k hi hj]
    by_cases e1 : k = j
    · exact ⟨i, hai, hib, by simp [e1]⟩
    · by_cases e2 : k = i
      · subst e2
        exact ⟨j, haj, hjb, by simp [e1]⟩
      · exact ⟨k, h1, h2, by simp [e1, e2]⟩

/-- A bound that holds for every element of the range before holds for every element of
the range after. -/
theorem Keeps_lower {less : α → α → Bool} {a b : Nat} {d1 d2 : List α} (h : Keeps a b d1 d2)
    (p : Nat) (hp : p < a ∨ b ≤ p)
    (hlow : ∀ k, a ≤ k → k < b → lessAt less d1 k p = false) :
    ∀ k, a ≤ k → k < b → lessAt less d2 k p = false := by
  intro k h1 h2
  obtain ⟨k1, a1, b1, e⟩ := h.2.2 k h1 h2
  rw [lessAt_congr less d1 d2 k p k1 p e (h.2.1 p hp)]
  exact hlow k1 a1 b1

theorem SortedOn_of_adjacent {less : α → α → Bool} (hw : StrictWeak less) (d : List α)
    (a b : Nat) (hb : b ≤ d.length)
    (h : ∀ k, a < k → k < b → lessAt less d k (k - 1) = false) : SortedOn less d a b := by
  intro i j hi hij hj
  induction j with
  | zero => omega
  | succ j ih =>
    by_cases e : i = j
    · subst e
      exact h (i + 1) (by omega) hj
    · have h1 := ih (by omega) (by omega)
      have h2 := h (j + 1) (by omega) hj
      simp only [Nat.add_sub_cancel] at h2
      exact lessAt_negtrans hw d (j + 1) j i (by omega) h2 h1

/-- The inner loop of the insertion sort, at `j`, with the moving element at `j`: the
rest of `[a, J]` is in order and nothing right of `j` is less than the moving element. -/
theorem insertionSort_inner_spec {less : α → α → Bool} (hw : StrictWeak less) (a J : Nat) :
    ∀ (j : Nat) (d : List α), a ≤ j → j ≤ J → J < d.length →
      (∀ p q, a ≤ p → p < q → q ≤ J → p ≠ j → q ≠ j →
        lessAt less d q p = false) →
      (∀ q, j < q → q ≤ J → lessAt less d q j = false) →
      Keeps a (J + 1) d (insertionSort_inner less a j d) ∧
        SortedOn less (insertionSort_inner less a j d) a (J + 1) := by
  intro j
  induction j with
  | zero =>
    intro d ha hJ hlen h1 h2
    simp only [insertionSort_inner]
    refine ⟨Keeps_refl _ _ _, ?_⟩
    intro p q hp hpq hq
    by_cases e : p = 0
    · subst e
      exact h2 q hpq (by omega)
    · exact h1 p q hp hpq (by omega) e (by omega)
  | succ j ih =>
    intro d ha hJ hlen h1 h2
    simp only [insertionSort_inner]
    by_cases hc : (decide (a < j + 1) && lessAt less d (j + 1) j) = true
    · rw [if_pos hc]
      simp only [Bool.and_eq_true, decide_eq_true_eq] at hc
      obtain ⟨haj, hless⟩ := hc
      have hsw : ∀ x y, lessAt less (swap d (j + 1) j) x y
          = lessAt less d (if x = j then j + 1 else if x = j + 1 then j else x)
              (if y = j then j + 1 else if y = j + 1 then j else y) :=
        fun x y => lessAt_swap less d (j + 1) j x y (by omega) (by omega)
      obtain ⟨k1, s1⟩ := ih (swap d (j + 1) j) (by omega) (by omega)
        (by rw [swap_length]; exact hlen)
        (by
          intro p q hp hpq hq hpj hqj
          rw [hsw]
          simp only [hpj, hqj, if_false]
          by_cases e1 : q = j + 1
          · have e2 : p ≠ j + 1 := by omega
            simp only [e1, e2, if_true, if_false]
            exact h1 p j hp (by omega) (by omega) (by omega) (by omega)
          · by_cases e2 : p = j + 1
            · simp only [e1, e2, if_true, if_false]
              exact h1 j q (by omega) (by omega) hq (by omega) e1
            · simp only [e1, e2, if_false]
              exact h1 p q hp hpq hq e2 e1)
        (by
          intro q hjq hq
          rw [hsw]
          simp only [if_true]
          by_cases e1 : q = j + 1
          · have e0 : ¬ j + 1 = j := by omega
            simp only [e1, e0, if_true, if_false]
            exact lessAt_asymm hw d (j + 1) j hless
          · have e0 : q ≠ j := by omega
            simp only [e1, e0, if_false]
            exact h2 q (by omega) hq)
      exact ⟨Keeps_trans (Keeps_swap a (J + 1) d (j + 1) j (by omega) (by omega) (by omega)
        (by omega)
        (by omega)) k1, s1⟩
    · rw [if_neg hc]
      refine ⟨Keeps_refl _ _ _, ?_⟩
      simp only [Bool.and_eq_true, decide_eq_true_eq, not_and, Bool.not_eq_true] at hc
      intro p q hp hpq hq
      by_cases e1 : q = j + 1
      · subst e1
        have hlt : a < j + 1 := by omega
        have hnl := hc hlt
        by_cases e2 : p = j
        · subst e2
          exact hnl
        · have := h1 p j hp (by omega) (by omega) (by omega) (by omega)
          exact lessAt_negtrans hw d (j + 1) j p (by omega) hnl this
      · by_cases e2 : p = j + 1
        · subst e2
          exact h2 q hpq (by omega)
        · exact h1 p q hp hpq (by omega) e2 e1

theorem insertionSort_outer_spec {less : α → α → Bool} (hw : StrictWeak less) (a : Nat) :
    ∀ (n i : Nat) (d : List α), a ≤ i → i + n ≤ d.length → (n = 0 ∨ a < i) →
      SortedOn less d a i →
      Keeps a (i + n) d (insertionSort_outer less a n i d) ∧
        SortedOn less (insertionSort_outer less a n i d) a (i + n) := by
  intro n
  induction n with
  | zero =>
    intro i d _ _ _ hs
    exact ⟨Keeps_refl _ _ _, hs⟩
  | succ n ih =>
    intro i d hai hlen hpos hs
    simp only [insertionSort_outer]
    obtain ⟨k1, s1⟩ := insertionSort_inner_spec hw a i i d hai (le_refl _) (by omega)
      (fun p q hp hpq hq _ hqi => hs p q hp hpq (by omega))
      (fun q h1 h2 => by omega)
    have hl := k1.1
    obtain ⟨k2, s2⟩ := ih (i + 1) (insertionSort_inner less a i d) (by omega) (by omega)
      (Or.inr (by omega)) s1
    have e : i + 1 + n = i + (n + 1) := by omega
    rw [e] at k2 s2
    exact ⟨Keeps_trans (Keeps_mono k1 (le_refl _) (by omega)) k2, s2⟩

/-- `insertionSort_func` puts the range `[a, b)` in order. -/
theorem insertionSort_func_spec {less : α → α → Bool} (hw : StrictWeak less) (d : List α)
    (a b : Nat) (hab : a ≤ b) (hb : b ≤ d.length) :
    Keeps a b d (insertionSort_func less d a b) ∧
      SortedOn less (insertionSort_func less d a b) a b := by
  unfold insertionSort_func
  by_cases h : b ≤ a + 1
  · have e : b - (a + 1) = 0 := by omega
    rw [e]
    simp only [insertionSort_outer]
    refine ⟨Keeps_refl _ _ _, ?_⟩
    intro i j h1 h2 h3
    omega
  · obtain ⟨k, s⟩ := insertionSort_outer_spec hw a (b - (a + 1)) (a + 1) d (by omega)
      (by omega) (Or.inr (by omega)) (by intro i j h1 h2 h3; omega)
    have e : a + 1 + (b - (a + 1)) = b := by omega
    rw [e] at k s
    exact ⟨k, s⟩

theorem scanUp_spec (p : Nat → Bool) (j : Nat) :
    ∀ (n i : Nat), j + 1 ≤ i + n →
      i ≤ scanUp p n i j ∧ (i ≤ j + 1 → scanUp p n i j ≤ j + 1) ∧
        (∀ k, i ≤ k → k < scanUp p n i j → p k = true) ∧
        (scanUp p n i j ≤ j → p (scanUp p n i j) = false) := by
  intro n
  induction n with
  | zero =>
    intro i h
    simp only [scanUp]
    exact ⟨le_refl _, fun h1 => h1, fun k h1 h2 => by omega, fun h1 => by omega⟩
  | succ n ih =>
    intro i h
    simp only [scanUp]
    by_cases hc : (decide (i ≤ j) && p i) = true
    · rw [if_pos hc]
      simp only [Bool.and_eq_true, decide_eq_true_eq] at hc
      obtain ⟨r1, r2, r3, r4⟩ := ih (i + 1) (by omega)
      refine ⟨by omega, fun _ => r2 (by omega), ?_, r4⟩
      intro k h1 h2
      by_cases e : k = i
      · rw [e]; exact hc.2
      · exact r3 k (by omega) h2
    · rw [if_neg hc]
      simp only [Bool.and_eq_true, decide_eq_true_eq, not_and, Bool.not_eq_true] at hc
      exact ⟨le_refl _, fun h1 => h1, fun k h1 h2 => by omega, hc⟩

theorem scanDown_spec (p : Nat → Bool) (i : Nat) :
    ∀ (j1 : Nat),
      scanDown p i j1 ≤ j1 ∧ (i ≤ j1 → i ≤ scanDown p i j1) ∧
        (∀ k, scanDown p i j1 ≤ k → k < j1 → p k = true) ∧
        (i < scanDown p i j1 → p (scanDown p i j1 - 1) = false) := by
  intro j1
  induction j1 with
  | zero =>
    simp only [scanDown]
    exact ⟨le_refl _, fun h => h, fun k h1 h2 => by omega, fun h => by omega⟩
  | succ j ih =>
    simp only [scanDown]
    by_cases hc : (decide (i ≤ j) && p j) = true
    · rw [if_pos hc]
      simp only [Bool.and_eq_true, decide_eq_true_eq] at hc
      obtain ⟨r1, r2, r3, r4⟩ := ih
      refine ⟨by omega, fun _ => r2 hc.1, ?_, r4⟩
      intro k h1 h2
      by_cases e : k = j
      · rw [e]; exact hc.2
      · exact r3 k h1 (by omega)
    · rw [if_neg hc]
      simp only [Bool.and_eq_true, decide_eq_true_eq, not_and, Bool.not_eq_true] at hc
      refine ⟨le_refl _, fun h => h, fun k h1 h2 => by omega, ?_⟩
      intro h
      simp only [Nat.add_sub_cancel]
      exact hc (by omega)

/-- The main loop of the two partition functions: with everything in `[a + 1, i)` passing
`up` and nothing in `[j1, b)` passing it, the loop ends with the two parts meeting. -/
theorem partition_loop_spec (up down : List α → Nat → Bool) (a b : Nat)
    (hdown : ∀ d k, down d k = !up d k)
    (hup : ∀ (d : List α) p q k, a < p → a < q → p < d.length → q < d.length →
      up (swap d p q) k = up d (if k = q then p else if k = p then q else k)) :
    ∀ (n : Nat) (d : List α) (i j1 : Nat), a + 1 ≤ i → i ≤ j1 → j1 ≤ b →
      b ≤ d.length →
      j1 ≤ i + n →
      (∀ k, a + 1 ≤ k → k < i → up d k = true) →
      (∀ k, j1 ≤ k → k < b → up d k = false) →
      Keeps (a + 1) b d (partition_loop up down n d i j1).1 ∧
        (partition_loop up down n d i j1).2.1 = (partition_loop up down n d i j1).2.2 ∧
        a + 1 ≤ (partition_loop up down n d i j1).2.1 ∧
        (partition_loop up down n d i j1).2.1 ≤ b ∧
        (∀ k, a + 1 ≤ k → k < (partition_loop up down n d i j1).2.1 →
          up (partition_loop up down n d i j1).1 k = true) ∧
        (∀ k, (partition_loop up down n d i j1).2.1 ≤ k → k < b →
          up (partition_loop up down n d i j1).1 k = false) := by
  intro n
  induction n with
  | zero =>
    intro d i j1 hai hij hjb hb hf hL hR
    simp only [partition_loop]
    have e : i = j1 := by omega
    subst e
    exact ⟨Keeps_refl _ _ _, rfl, hai, hjb, hL, hR⟩
  | succ n ih =>
    intro d i j1 hai hij hjb hb hf hL hR
    obtain ⟨u1, u2, u3, u4⟩ := scanUp_spec (up d) (j1 - 1) j1 i (by omega)
    generalize hi1 : scanUp (up d) j1 i (j1 - 1) = i1 at u1 u2 u3 u4
    have hi1j : i1 ≤ j1 := by
      have := u2 (by omega)
      omega
    have hj0 : j1 ≠ 0 := by omega
    obtain ⟨v1, v2, v3, v4⟩ := scanDown_spec (down d) i1 j1
    generalize hj2 : scanDown (down d) i1 j1 = j2 at v1 v2 v3 v4
    have hv2 := v2 hi1j
    have hL1 : ∀ k, a + 1 ≤ k → k < i1 → up d k = true := by
      intro k h1 h2
      by_cases e : k < i
      · exact hL k h1 e
      · exact u3 k (by omega) h2
    have hR1 : ∀ k, j2 ≤ k → k < b → up d k = false := by
      intro k h1 h2
      by_cases e : j1 ≤ k
      · exact hR k e h2
      · have := v3 k h1 (by omega)
        rw [hdown] at this
        simpa using this
    simp only [partition_loop, hi1, hj0, if_false, hj2]
    by_cases hc : j2 ≤ i1
    · rw [if_pos hc]
      have e : i1 = j2 := by omega
      subst e
      exact ⟨Keeps_refl _ _ _, rfl, (by show a + 1 ≤ i1; omega), (by show i1 ≤ b; omega),
        hL1, hR1⟩
    · rw [if_neg hc]
      have hui : up d i1 = false := u4 (by omega)
      have huj : up d (j2 - 1) = true := by
        have := v4 (by omega)
        rw [hdown] at this
        simpa using this
      have hne : i1 ≠ j2 - 1 := by
        intro e
        rw [e, huj] at hui
        cases hui
      have hsw : ∀ k, up (swap d i1 (j2 - 1)) k
          = up d (if k = j2 - 1 then i1 else if k = i1 then j2 - 1 else k) :=
        fun k => hup d i1 (j2 - 1) k (by omega) (by omega) (by omega) (by omega)
      obtain ⟨k1, r1, r2, r3, r4, r5⟩ := ih (swap d i1 (j2 - 1)) (i1 + 1) (j2 - 1) (by omega)
        (by omega) (by omega) (by rw [swap_length]; exact hb) (by omega)
        (by
          intro k h1 h2
          rw [hsw]
          by_cases e1 : k = j2 - 1
          · omega
          · by_cases e2 : k = i1
            · simp only [e1, e2, if_true, if_false]
              have e3 : ¬ i1 = j2 - 1 := hne
              simp only [e3, if_false]
              exact huj
            · simp only [e1, e2, if_false]
              exact hL1 k h1 (by omega))
        (by
          intro k h1 h2
          rw [hsw]
          by_cases e1 : k = j2 - 1
          · simp only [e1, if_true]
            exact hui
          · have e2 : k ≠ i1 := by omega
            simp only [e1, e2, if_false]
            exact hR1 k (by omega) h2)
      exact ⟨Keeps_trans (Keeps_swap (a + 1) b d i1 (j2 - 1) (by omega) (by omega) (by omega)
        (by omega)
        hb) k1, r1, r2, r3, r4, r5⟩

/-- `partition_func` puts the pivot at `mid`, everything less than it before `mid` and
nothing less than it after `mid`. -/
theorem partition_func_spec {less : α → α → Bool} (d : List α) (a b pivot : Nat)
    (hab : a < b) (hb : b ≤ d.length) (hpa : a ≤ pivot) (hpb : pivot < b) :
    Keeps a b d (partition_func less d a b pivot).1 ∧
      a ≤ (partition_func less d a b pivot).2.1 ∧
      (partition_func less d a b pivot).2.1 < b ∧
      (∀ k, a ≤ k → k < (partition_func less d a b pivot).2.1 →
        lessAt less (partition_func less d a b pivot).1 k
          (partition_func less d a b pivot).2.1 = true) ∧
      (∀ k, (partition_func less d a b pivot).2.1 < k → k < b →
        lessAt less (partition_func less d a b pivot).1 k
          (partition_func less d a b pivot).2.1 = false) := by
  have hb0 : b ≠ 0 := by omega
  have hlen0 : b ≤ (swap d a pivot).length := by rw [swap_length]; exact hb
  have heq : (partition_func less d a b pivot).1
        = swap (partition_loop (fun d i => lessAt less d i a) (fun d j => !lessAt less d j a)
            (b + 1) (swap d a pivot) (a + 1) b).1
            ((partition_loop (fun d i => lessAt less d i a) (fun d j => !lessAt less d j a)
              (b + 1) (swap d a pivot) (a + 1) b).2.2 - 1) a ∧
      (partition_func less d a b pivot).2.1
        = (partition_loop (fun d i => lessAt less d i a) (fun d j => !lessAt less d j a)
            (b + 1) (swap d a pivot) (a + 1) b).2.2 - 1 := by
    unfold partition_func
    simp only [partition_loop, hb0, if_false]
    split_ifs <;> exact ⟨rfl, rfl⟩
  obtain ⟨k1, r1, r2, r3, r4, r5⟩ := partition_loop_spec
    (fun (d : List α) i => lessAt less d i a) (fun d j => !lessAt less d j a) a b
    (fun _ _ => rfl)
    (by
      intro d p q k h1 h2 h3 h4
      simp only
      rw [lessAt_swap less d p q k a h3 h4]
      have e1 : a ≠ q := by omega
      have e2 : a ≠ p := by omega
      simp only [e1, e2, if_false])
    (b + 1) (swap d a pivot) (a + 1) b (le_refl _) (by omega) (le_refl _) hlen0 (by omega)
    (fun k h1 h2 => by omega) (fun k h1 h2 => by omega)
  rw [heq.1, heq.2]
  generalize partition_loop (fun (d : List α) i => lessAt less d i a)
    (fun d j => !lessAt less d j a) (b + 1) (swap d a pivot) (a + 1) b = R at k1 r1 r2 r3 r4 r5
  obtain ⟨d1, m, m2⟩ := R
  simp only at k1 r1 r2 r3 r4 r5 ⊢
  subst r1
  have hl1 : d1.length = d.length := by rw [k1.1, swap_length]
  have hsw : ∀ x y, lessAt less (swap d1 (m - 1) a) x y
      = lessAt less d1 (if x = a then m - 1 else if x = m - 1 then a else x)
          (if y = a then m - 1 else if y = m - 1 then a else y) :=
    fun x y => lessAt_swap less d1 (m - 1) a x y (by omega) (by omega)
  have hmid : (if m - 1 = a then m - 1 else if m - 1 = m - 1 then a else m - 1) = a := by
    by_cases h : m - 1 = a
    · rw [if_pos h]
      exact h
    · rw [if_neg h, if_pos rfl]
  refine ⟨?_, by omega, by omega, ?_, ?_⟩
  · exact Keeps_trans (Keeps_trans (Keeps_swap a b d a pivot (le_refl _) hab hpa hpb hb)
      (Keeps_mono k1 (by omega) (le_refl _)))
      (Keeps_swap a b d1 (m - 1) a (by omega) (by omega) (le_refl _) hab (by omega))
  · intro k h1 h2
    rw [hsw, hmid]
    by_cases e : k = a
    · simp only [e, if_true]
      exact r4 (m - 1) (by omega) (by omega)
    · have e2 : k ≠ m - 1 := by omega
      simp only [e, e2, if_false]
      exact r4 k (by omega) (by omega)
  · intro k h1 h2
    rw [hsw, hmid]
    have e : k ≠ a := by omega
    have e2 : k ≠ m - 1 := by omega
    simp only [e, e2, if_false]
    exact r5 k (by omega) h2

/-- `partitionEqual_func` puts the pivot at `a`, the elements the pivot is not less than
before `mid` and the elements the pivot is less than from `mid` on. -/
theorem partitionEqual_func_spec {less : α → α → Bool} (hw : StrictWeak less) (d : List α)
    (a b pivot : Nat) (hab : a < b) (hb : b ≤ d.length) (hpa : a ≤ pivot) (hpb : pivot < b) :
    Keeps a b d (partitionEqual_func less d a b pivot).1 ∧
      (partitionEqual_func less d a b pivot).1[a]? = d[pivot]? ∧
      a + 1 ≤ (partitionEqual_func less d a b pivot).2 ∧
      (partitionEqual_func less d a b pivot).2 ≤ b ∧
      (∀ k, a ≤ k → k < (partitionEqual_func less d a b pivot).2 →
        lessAt less (partitionEqual_func less d a b pivot).1 a k = false) ∧
      (∀ k, (partitionEqual_func less d a b pivot).2 ≤ k → k < b →
        lessAt less (partitionEqual_func less d a b pivot).1 a k = true) := by
  have hlen0 : b ≤ (swap d a pivot).length := by rw [swap_length]; exact hb
  obtain ⟨k1, r1, r2, r3, r4, r5⟩ := partition_loop_spec
    (fun (d : List α) i => !lessAt less d a i) (fun d j => lessAt less d a j) a b
    (fun _ _ => by simp)
    (by
      intro d p q k h1 h2 h3 h4
      simp only
      rw [lessAt_swap less d p q a k h3 h4]
      have e1 : a ≠ q := by omega
      have e2 : a ≠ p := by omega
      simp only [e1, e2, if_false])
    b (swap d a pivot) (a + 1) b (le_refl _) (by omega) (le_refl _) hlen0 (by omega)
    (fun k h1 h2 => by omega) (fun k h1 h2 => by omega)
  unfold partitionEqual_func
  simp only
  generalize partition_loop (fun (d : List α) i => !lessAt less d a i)
    (fun d j => lessAt less d a j) b (swap d a pivot) (a + 1) b = R at k1 r1 r2 r3 r4 r5
  obtain ⟨d1, m, m2⟩ := R
  simp only at k1 r1 r2 r3 r4 r5 ⊢
  subst r1
  refine ⟨?_, ?_, r2, r3, ?_, ?_⟩
  · exact Keeps_trans (Keeps_swap a b d a pivot (le_refl _) hab hpa hpb hb)
      (Keeps_mono k1 (by omega) (le_refl _))
  · rw [k1.2.1 a (Or.inl (by omega)), swap_getElem d a pivot a (by omega) (by omega)]
    by_cases e : a = pivot
    · simp [e]
    · simp [e]
  · intro k h1 h2
    by_cases e : k = a
    · rw [e]
      exact lessAt_irrefl hw d1 a
    · have := r4 k (by omega) h2
      simpa using this
  · intro k h1 h2
    have := r5 k h1 h2
    simpa using this

theorem order2_func_mem (less : α → α → Bool) (d : List α) (x y s : Nat) :
    ((order2_func less d x y s).1 = x ∧ (order2_func less d x y s).2.1 = y) ∨
      ((order2_func less d x y s).1 = y ∧ (order2_func less d x y s).2.1 = x) := by
  unfold order2_func
  split_ifs
  · exact Or.inr ⟨rfl, rfl⟩
  · exact Or.inl ⟨rfl, rfl⟩

theorem median_func_range (less : α → α → Bool) (d : List α) (x y z s lo hi : Nat)
    (hx : lo ≤ x ∧ x < hi) (hy : lo ≤ y ∧ y < hi) (hz : lo ≤ z ∧ z < hi) :
    lo ≤ (median_func less d x y z s).1 ∧ (median_func less d x y z s).1 < hi := by
  unfold median_func
  simp only
  rcases order2_func_mem less d x y s with ⟨e1, e2⟩ | ⟨e1, e2⟩ <;>
    rcases order2_func_mem less d (order2_func less d x y s).2.1 z
      (order2_func less d x y s).2.2 with ⟨f1, f2⟩ | ⟨f1, f2⟩ <;>
    rcases order2_func_mem less d (order2_func less d x y s).1
      (order2_func less d (order2_func less d x y s).2.1 z (order2_func less d x y s).2.2).1
      (order2_func less d (order2_func less d x y s).2.1 z
        (order2_func less d x y s).2.2).2.2 with ⟨g1, g2⟩ | ⟨g1, g2⟩ <;>
    rw [g2] <;> first
      | (rw [f1, e2]; exact hy)
      | (rw [f1, e2]; exact hx)
      | (rw [f1]; exact hz)
      | (rw [e1]; exact hx)
      | (rw [e1]; exact hy)

/-- The pivot `choosePivot_func` chooses lies in the range. -/
theorem choosePivot_func_range (less : α → α → Bool) (d : List α) (a b : Nat) (hab : a < b) :
    a ≤ (choosePivot_func less d a b).1 ∧ (choosePivot_func less d a b).1 < b := by
  have key : ∀ r : Nat × Nat, (a ≤ r.1 ∧ r.1 < b) →
      a ≤ (if r.2 = 0 then (r.1, sortedHint.increasingHint)
        else if r.2 = 12 then (r.1, sortedHint.decreasingHint)
        else (r.1, sortedHint.unknownHint)).1 ∧
      (if r.2 = 0 then (r.1, sortedHint.increasingHint)
        else if r.2 = 12 then (r.1, sortedHint.decreasingHint)
        else (r.1, sortedHint.unknownHint)).1 < b := by
    intro r hr
    split_ifs <;> exact hr
  unfold choosePivot_func
  simp only
  apply key
  by_cases h8 : 8 ≤ b - a
  · rw [if_pos h8]
    by_cases h50 : 50 ≤ b - a
    · rw [if_pos h50]
      unfold medianAdjacent_func
      apply median_func_range
      · apply median_func_range <;> constructor <;> omega
      · apply median_func_range <;> constructor <;> omega
      · apply median_func_range <;> constructor <;> omega
    · rw [if_neg h50]
      apply median_func_range <;> constructor <;> omega
  · rw [if_neg h8]
    simp only
    constructor <;> omega

theorem reverseRange_loop_keeps (a b : Nat) :
    ∀ (n i j1 : Nat) (d : List α), a ≤ i → j1 ≤ b → b ≤ d.length →
      Keeps a b d (reverseRange_loop n i j1 d) := by
  intro n
  induction n with
  | zero => intro i j1 d _ _ _; exact Keeps_refl _ _ _
  | succ n ih =>
    intro i j1 d hi hj hb
    simp only [reverseRange_loop]
    split_ifs with h
    · exact Keeps_trans (Keeps_swap a b d i (j1 - 1) hi (by omega) (by omega) (by omega) hb)
        (ih (i + 1) (j1 - 1) _ (by omega) (by omega) (by rw [swap_length]; exact hb))
    · exact Keeps_refl _ _ _

theorem bitsLen_pow (n : Nat) : ∀ x : Nat, 1 ≤ x → 2 ^ bitsLen n x ≤ 2 * x := by
  induction n with
  | zero => intro x hx; simp only [bitsLen, pow_zero]; omega
  | succ n ih =>
    intro x hx
    simp only [bitsLen]
    have h0 : x ≠ 0 := by omega
    rw [if_neg h0, pow_succ]
    by_cases h : 1 ≤ x / 2
    · have := ih (x / 2) h
      omega
    · have e : x / 2 = 0 := by omega
      rw [e]
      have e0 : bitsLen n 0 = 0 := by
        cases n <;> simp [bitsLen]
      rw [e0]
      simp only [pow_zero]
      omega

theorem breakPatterns_loop_keeps (a b length modulus idx : Nat) (hlen : a + length = b)
    (hmod : modulus ≤ 2 * length) (hm0 : 0 < modulus) :
    ∀ (n i random : Nat) (d : List α), a ≤ idx - 1 + i → idx - 1 + i + n ≤ b →
      b ≤ d.length →
      Keeps a b d (breakPatterns_loop a length modulus idx n i random d) := by
  intro n
  induction n with
  | zero => intro i random d _ _ _; exact Keeps_refl _ _ _
  | succ n ih =>
    intro i random d h1 h2 hb
    simp only [breakPatterns_loop]
    have hlt : xorshiftNext random % modulus < modulus := Nat.mod_lt _ hm0
    have hother : (if length ≤ xorshiftNext random % modulus
        then xorshiftNext random % modulus - length
        else xorshiftNext random % modulus) < length := by
      split_ifs <;> omega
    exact Keeps_trans (Keeps_swap a b d (idx - 1 + i) _ h1 (by omega) (by omega) (by omega) hb)
      (ih (i + 1) _ _ (by omega) (by omega) (by rw [swap_length]; exact hb))

theorem breakPatterns_func_keeps (d : List α) (a b : Nat) (hab : a ≤ b) (hb : b ≤ d.length) :
    Keeps a b d (breakPatterns_func d a b) := by
  unfold breakPatterns_func
  simp only
  split_ifs with h
  · have hp := bitsLen_pow 64 (b - a) (by omega)
    exact breakPatterns_loop_keeps a b (b - a) (2 ^ bitsLen 64 (b - a))
      (a + (b - a) / 4 * 2 - 1) (by omega) hp (Nat.pow_pos (by norm_num)) 3 0
      (b - a) d (by omega) (by omega) hb
  · exact Keeps_refl _ _ _

theorem shiftRight_keeps (less : α → α → Bool) (lo b : Nat) :
    ∀ (n j : Nat) (d : List α), lo + 1 ≤ j → b ≤ d.length →
      Keeps lo b d (shiftRight less b n j d) := by
  intro n
  induction n with
  | zero => intro j d _ _; exact Keeps_refl _ _ _
  | succ n ih =>
    intro j d hj hb
    simp only [shiftRight]
    by_cases hc : (decide (j < b) && lessAt less d j (j - 1)) = true
    · rw [if_pos hc]
      simp only [Bool.and_eq_true, decide_eq_true_eq] at hc
      exact Keeps_trans (Keeps_swap lo b d j (j - 1) (by omega) hc.1 (by omega) (by omega) hb)
        (ih (j + 1) _ (by omega) (by rw [swap_length]; exact hb))
    · rw [if_neg hc]
      exact Keeps_refl _ _ _

theorem insertionSort_inner_self (less : α → α → Bool) (a : Nat) (d : List α) :
    insertionSort_inner less a a d = d := by
  cases a with
  | zero => rfl
  | succ a => simp [insertionSort_inner]

/-- Above an element that nothing of the range is less than, the loop that shifts to the
left down to index 1 is the inner loop of the insertion sort. -/
theorem shiftLeft_eq (less : α → α → Bool) (a : Nat) :
    ∀ (j : Nat) (d : List α), a ≤ j → j < d.length →
      (0 < a → ∀ k, a ≤ k → k ≤ j → lessAt less d k (a - 1) = false) →
      shiftLeft less j d = insertionSort_inner less a j d := by
  intro j
  induction j with
  | zero => intro d _ _ _; rfl
  | succ j ih =>
    intro d ha hlen hlow
    simp only [shiftLeft, insertionSort_inner]
    by_cases e : a = j + 1
    · have h0 := hlow (by omega) (j + 1) (by omega) (le_refl _)
      have e2 : a - 1 = j := by omega
      rw [e2] at h0
      have e3 : ¬ a < j + 1 := by omega
      simp [h0, e3]
    · have e3 : a < j + 1 := by omega
      have e4 : 1 ≤ j + 1 := by omega
      simp only [e3, e4, decide_True, Bool.true_and]
      split_ifs with hl
      · apply ih
        · omega
        · rw [swap_length]; omega
        · intro ha0 k h1 h2
          rw [lessAt_swap less d (j + 1) j k (a - 1) hlen (by omega)]
          have e5 : a - 1 ≠ j := by omega
          have e6 : a - 1 ≠ j + 1 := by omega
          simp only [e5, e6, if_false]
          split_ifs
          · exact hlow ha0 (j + 1) (by omega) (le_refl _)
          · exact hlow ha0 j (by omega) (by omega)
          · exact hlow ha0 k h1 (by omega)
      · rfl

/-- The loop of `partialInsertionSort_func`, with `[a, i)` in order: it rearranges the
range only, and when it reports `true` the range is in order. -/
theorem partialInsertionSort_loop_spec {less : α → α → Bool} (hw : StrictWeak less)
    (a b : Nat) :
    ∀ (n i : Nat) (d : List α), a + 1 ≤ i → i ≤ b → b ≤ d.length →
      (∀ k, a < k → k < i → lessAt less d k (k - 1) = false) →
      (0 < a → ∀ k, a ≤ k → k < b → lessAt less d k (a - 1) = false) →
      Keeps a b d (partialInsertionSort_loop less a b n i d).1 ∧
        ((partialInsertionSort_loop less a b n i d).2 = true →
          SortedOn less (partialInsertionSort_loop less a b n i d).1 a b) := by
  intro n
  induction n with
  | zero =>
    intro i d _ _ _ _ _
    simp only [partialInsertionSort_loop]
    exact ⟨Keeps_refl _ _ _, fun h => by cases h⟩
  | succ n ih =>
    intro i d hai hib hb hadj hlow
    obtain ⟨u1, u2, u3, u4⟩ := scanUp_spec (fun k => !lessAt less d k (k - 1)) (b - 1) b i
      (by omega)
    generalize hi1 : scanUp (fun k => !lessAt less d k (k - 1)) b i (b - 1) = i1
      at u1 u2 u3 u4
    have hi1b : i1 ≤ b := by
      have := u2 (by omega)
      omega
    have hadj1 : ∀ k, a < k → k < i1 → lessAt less d k (k - 1) = false := by
      intro k h1 h2
      by_cases e : k < i
      · exact hadj k h1 e
      · have := u3 k (by omega) h2
        simpa using this
    simp only [partialInsertionSort_loop, hi1]
    by_cases e1 : i1 = b
    · rw [if_pos e1]
      refine ⟨Keeps_refl _ _ _, fun _ => ?_⟩
      rw [e1] at hadj1
      exact SortedOn_of_adjacent hw d a b hb hadj1
    · rw [if_neg e1]
      by_cases e2 : b - a < 50
      · rw [if_pos e2]
        exact ⟨Keeps_refl _ _ _, fun h => by cases h⟩
      · rw [if_neg e2]
        have hless : lessAt less d i1 (i1 - 1) = true := by
          have := u4 (by omega)
          simpa using this
        have hsorted : SortedOn less d a i1 := SortedOn_of_adjacent hw d a i1 (by omega) hadj1
        have hk1 := Keeps_swap a b d i1 (i1 - 1) (by omega) (by omega) (by omega) (by omega) hb
        have hd2 : (if 2 ≤ i1 - a then shiftLeft less (i1 - 1) (swap d i1 (i1 - 1))
            else swap d i1 (i1 - 1)) = insertionSort_inner less a i1 d := by
          have hstep : insertionSort_inner less a i1 d
              = insertionSort_inner less a (i1 - 1) (swap d i1 (i1 - 1)) := by
            obtain ⟨j, rfl⟩ : ∃ j, i1 = j + 1 := ⟨i1 - 1, by omega⟩
            simp only [insertionSort_inner, Nat.add_sub_cancel] at hless ⊢
            have : a < j + 1 := by omega
            simp [this, hless]
          rw [hstep]
          split_ifs with h2
          · apply shiftLeft_eq less a (i1 - 1) _ (by omega) (by rw [swap_length]; omega)
            intro ha0 k h3 h4
            exact Keeps_lower hk1 (a - 1) (Or.inl (by omega)) (hlow ha0) k h3 (by omega)
          · have e3 : i1 - 1 = a := by omega
            rw [e3, insertionSort_inner_self]
        rw [hd2]
        obtain ⟨k2, s2⟩ := insertionSort_inner_spec hw a i1 i1 d (by omega) (le_refl _)
          (by omega) (fun p q hp hpq hq _ hqi => hsorted p q hp hpq (by omega))
          (fun q h1 h2 => by omega)
        generalize insertionSort_inner less a i1 d = d2 at k2 s2
        have hl2 : d2.length = d.length := k2.1
        have k3 : Keeps i1 b d2 (if 2 ≤ b - i1 then shiftRight less b b (i1 + 1) d2 else d2) := by
          split_ifs
          · exact shiftRight_keeps less i1 b b (i1 + 1) d2 (le_refl _) (by omega)
          · exact Keeps_refl _ _ _
        generalize (if 2 ≤ b - i1 then shiftRight less b b (i1 + 1) d2 else d2) = d3 at k3
        have k13 : Keeps a b d d3 :=
          Keeps_trans (Keeps_mono k2 (le_refl _) (by omega)) (Keeps_mono k3 (by omega) (le_refl _))
        obtain ⟨k4, s4⟩ := ih i1 d3 (by omega) hi1b (by rw [k13.1]; exact hb)
          (by
            intro k h1 h2
            rw [lessAt_congr less d2 d3 k (k - 1) k (k - 1) (k3.2.1 k (Or.inl h2))
              (k3.2.1 (k - 1) (Or.inl (by omega)))]
            exact s2 (k - 1) k (by omega) (by omega) (by omega))
          (fun ha0 => Keeps_lower k13 (a - 1) (Or.inl (by omega)) (hlow ha0))
        exact ⟨Keeps_trans k13 k4, s4⟩

/-- `partialInsertionSort_func` rearranges the range only, and when it reports `true`
the range is in order. -/
theorem partialInsertionSort_func_spec {less : α → α → Bool} (hw : StrictWeak less)
    (d : List α) (a b : Nat) (hab : a < b) (hb : b ≤ d.length)
    (hlow : 0 < a → ∀ k, a ≤ k → k < b → lessAt less d k (a - 1) = false) :
    Keeps a b d (partialInsertionSort_func less d a b).1 ∧
      ((partialInsertionSort_func less d a b).2 = true →
        SortedOn less (partialInsertionSort_func less d a b).1 a b) :=
  partialInsertionSort_loop_spec hw a b 5 (a + 1) d (le_refl _) hab hb
    (fun k h1 h2 => by omega) hlow

theorem lessAt_swap_off (less : α → α → Bool) (d : List α) (f p q x y : Nat)
    (hp : f + p < d.length) (hq : f + q < d.length) :
    lessAt less (swap d (f + p) (f + q)) (f + x) (f + y)
      = lessAt less d (f + (if x = q then p else if x = p then q else x))
          (f + (if y = q then p else if y = p then q else y)) := by
  rw [lessAt_swap less d (f + p) (f + q) (f + x) (f + y) hp hq]
  congr 1 <;> split_ifs <;> omega

/-- `siftDown_func` at the node `r`, when the heap order holds from `lo` on except at `r`
and the parent of `r` is not less than the children of `r`: the heap order holds from
`lo` on afterwards. -/
theorem siftDown_func_spec {less : α → α → Bool} (hw : StrictWeak less) (hi first lo : Nat) :
    ∀ (n r : Nat) (d : List α), lo ≤ r → hi ≤ r + n → first + hi ≤ d.length →
      (∀ c, 0 < c → c < hi → lo ≤ (c - 1) / 2 → (c - 1) / 2 ≠ r →
        lessAt less d (first + (c - 1) / 2) (first + c) = false) →
      (∀ c, 0 < c → c < hi → (c - 1) / 2 = r → 0 < r → lo ≤ (r - 1) / 2 →
        lessAt less d (first + (r - 1) / 2) (first + c) = false) →
      Keeps (first + lo) (first + hi) d (siftDown_func less hi first n r d) ∧
        HeapFrom less first lo hi (siftDown_func less hi first n r d) := by
  intro n
  induction n with
  | zero =>
    intro r d hlo hf hlen h1 h2
    simp only [siftDown_func]
    refine ⟨Keeps_refl _ _ _, ?_⟩
    intro c hc0 hc hp
    exact h1 c hc0 hc hp (by omega)
  | succ n ih =>
    intro r d hlo hf hlen h1 h2
    simp only [siftDown_func]
    by_cases hch : hi ≤ 2 * r + 1
    · rw [if_pos hch]
      refine ⟨Keeps_refl _ _ _, ?_⟩
      intro c hc0 hc hp
      exact h1 c hc0 hc hp (by omega)
    · rw [if_neg hch]
      have hsel : ∃ ch, (if (decide (2 * r + 1 + 1 < hi) &&
            lessAt less d (first + (2 * r + 1)) (first + (2 * r + 1) + 1)) = true
          then 2 * r + 1 + 1 else 2 * r + 1) = ch ∧
          (ch = 2 * r + 1 ∨ ch = 2 * r + 2) ∧ ch < hi ∧
          ∀ c, 0 < c → c < hi → (c - 1) / 2 = r →
            lessAt less d (first + ch) (first + c) = false := by
        by_cases hs : (decide (2 * r + 1 + 1 < hi) &&
            lessAt less d (first + (2 * r + 1)) (first + (2 * r + 1) + 1)) = true
        · rw [if_pos hs]
          simp only [Bool.and_eq_true, decide_eq_true_eq] at hs
          refine ⟨_, rfl, Or.inr rfl, hs.1, ?_⟩
          intro c hc0 hc hp
          have hcc : c = 2 * r + 1 ∨ c = 2 * r + 1 + 1 := by omega
          rcases hcc with e | e
          · rw [e]
            exact lessAt_asymm hw d _ _ hs.2
          · rw [e]
            exact lessAt_irrefl hw d _
        · rw [if_neg hs]
          simp only [Bool.and_eq_true, decide_eq_true_eq, not_and, Bool.not_eq_true] at hs
          refine ⟨_, rfl, Or.inl rfl, by omega, ?_⟩
          intro c hc0 hc hp
          have hcc : c = 2 * r + 1 ∨ c = 2 * r + 1 + 1 := by omega
          rcases hcc with e | e
          · rw [e]
            exact lessAt_irrefl hw d _
          · rw [e]
            exact hs (by omega)
      obtain ⟨ch, hche, hch12, hchhi, hchmax⟩ := hsel
      simp only [hche]
      by_cases hstop : (!lessAt less d (first + r) (first + ch)) = true
      · rw [if_pos hstop]
        refine ⟨Keeps_refl _ _ _, ?_⟩
        simp only [Bool.not_eq_true'] at hstop
        intro c hc0 hc hp
        by_cases e : (c - 1) / 2 = r
        · rw [e]
          exact lessAt_negtrans hw d (first + r) (first + ch) (first + c) (by omega) hstop
            (hchmax c hc0 hc e)
        · exact h1 c hc0 hc hp e
      · rw [if_neg hstop]
        simp only [Bool.not_eq_true', Bool.not_eq_false] at hstop
        have hr : first + r < d.length := by omega
        have hc' : first + ch < d.length := by omega
        have hsw : ∀ x y, lessAt less (swap d (first + r) (first + ch)) (first + x) (first + y)
            = lessAt less d (first + (if x = ch then r else if x = r then ch else x))
                (first + (if y = ch then r else if y = r then ch else y)) :=
          fun x y => lessAt_swap_off less d first r ch x y hr hc'
        have hpch : (ch - 1) / 2 = r := by omega
        obtain ⟨k1, p1⟩ := ih ch (swap d (first + r) (first + ch)) (by omega) (by omega)
          (by rw [swap_length]; exact hlen)
          (by
            intro c hc0 hc hp hne
            rw [hsw]
            by_cases e : (c - 1) / 2 = r
            · -- a child of r
              have e1 : ¬ (c - 1) / 2 = ch := by omega
              simp only [e, e1, if_false, if_true]
              have e2 : ¬ r = ch := by omega
              simp only [e2, if_false, if_true]
              by_cases e3 : c = ch
              · simp only [e3, if_true]
                exact lessAt_asymm hw d _ _ hstop
              · have e4 : c ≠ r := by omega
                simp only [e3, e4, if_false]
                exact hchmax c hc0 hc e
            · have e1 : ¬ (c - 1) / 2 = ch := hne
              simp only [e, e1, if_false]
              have e3 : c ≠ ch := by omega
              simp only [e3, if_false]
              by_cases e4 : c = r
              · simp only [e4, if_true]
                rw [e4] at hc0 hp
                exact h2 ch (by omega) hchhi hpch hc0 hp
              · simp only [e4, if_false]
                exact h1 c hc0 hc hp e)
          (by
            intro c hc0 hc hp _ _
            rw [hpch, hsw]
            have e1 : ¬ r = ch := by omega
            have e3 : c ≠ ch := by omega
            have e4 : c ≠ r := by omega
            simp only [e1, e3, e4, if_false, if_true]
            have := h1 c hc0 hc (by omega) (by omega)
            rw [hp] at this
            exact this)
        refine ⟨?_, p1⟩
        exact Keeps_trans (Keeps_swap (first + lo) (first + hi) d (first + r) (first + ch)
          (by omega)
          (by omega) (by omega) (by omega) hlen) (Keeps_mono k1 (by omega) (le_refl _))

/-- The first loop of `heapSort_func` brings the range into heap order. -/
theorem heapSort_build_spec {less : α → α → Bool} (hw : StrictWeak less) (hi first : Nat) :
    ∀ (i : Nat) (d : List α), first + hi ≤ d.length → HeapFrom less first i hi d →
      Keeps first (first + hi) d (heapSort_build less hi first i d) ∧
        HeapFrom less first 0 hi (heapSort_build less hi first i d) := by
  intro i
  induction i with
  | zero =>
    intro d _ h
    exact ⟨Keeps_refl _ _ _, h⟩
  | succ i ih =>
    intro d hlen h
    simp only [heapSort_build]
    obtain ⟨k1, p1⟩ := siftDown_func_spec hw hi first i hi i d (le_refl _) (by omega) hlen
      (fun c hc0 hc hp hne => h c hc0 hc (by omega))
      (fun c hc0 hc hp hr hlo => by omega)
    obtain ⟨k2, p2⟩ := ih (siftDown_func less hi first hi i d) (by rw [k1.1]; exact hlen) p1
    exact ⟨Keeps_trans (Keeps_mono k1 (by omega) (le_refl _)) k2, p2⟩

/-- In heap order no node is greater than the root. -/
theorem HeapFrom_root_max {less : α → α → Bool} (hw : StrictWeak less) (first hi : Nat)
    (d : List α) (hlen : first + hi ≤ d.length) (h : HeapFrom less first 0 hi d) :
    ∀ x, x < hi → lessAt less d first (first + x) = false := by
  intro x
  induction x using Nat.strong_induction_on with
  | _ x ih =>
    intro hx
    by_cases e : x = 0
    · subst e
      exact lessAt_irrefl hw d _
    · have h1 := ih ((x - 1) / 2) (by omega) (by omega)
      have h2 := h x (by omega) hx (Nat.zero_le _)
      exact lessAt_negtrans hw d first (first + (x - 1) / 2) (first + x) (by omega) h1 h2

/-- The second loop of `heapSort_func`, with `[0, i)` in heap order, `[i, hi)` in order
and nothing in `[i, hi)` less than anything in `[0, i)`. -/
theorem heapSort_pop_spec {less : α → α → Bool} (hw : StrictWeak less) (first hi : Nat) :
    ∀ (i : Nat) (d : List α), i ≤ hi → first + hi ≤ d.length →
      HeapFrom less first 0 i d →
      SortedOn less d (first + i) (first + hi) →
      (∀ x y, x < i → i ≤ y → y < hi → lessAt less d (first + y) (first + x) = false) →
      Keeps first (first + hi) d (heapSort_pop less first i d) ∧
        SortedOn less (heapSort_pop less first i d) first (first + hi) := by
  intro i
  induction i with
  | zero =>
    intro d _ _ _ hs _
    exact ⟨Keeps_refl _ _ _, hs⟩
  | succ i ih =>
    intro d hi1 hlen hheap hs hcross
    simp only [heapSort_pop]
    have hmax := HeapFrom_root_max hw first (i + 1) d (by omega) hheap
    have hsw : ∀ x y, lessAt less (swap d first (first + i)) (first + x) (first + y)
        = lessAt less d (first + (if x = i then 0 else if x = 0 then i else x))
            (first + (if y = i then 0 else if y = 0 then i else y)) := by
      intro x y
      have := lessAt_swap_off less d first 0 i x y (by omega) (by omega)
      simpa using this
    have hk1 : Keeps first (first + hi) d (swap d first (first + i)) :=
      Keeps_swap first (first + hi) d first (first + i) (le_refl _) (by omega) (by omega)
        (by omega) hlen
    have hl1 : (swap d first (first + i)).length = d.length := swap_length _ _ _
    obtain ⟨k2, p2⟩ := siftDown_func_spec hw i first 0 i 0 (swap d first (first + i))
      (le_refl _) (by omega) (by omega)
      (by
        intro c hc0 hc hp hne
        rw [hsw]
        have e1 : (c - 1) / 2 ≠ i := by omega
        have e2 : c ≠ i := by omega
        have e3 : c ≠ 0 := by omega
        simp only [e1, hne, e2, e3, if_false]
        exact hheap c hc0 (by omega) (Nat.zero_le _))
      (fun c hc0 hc hp hr hlo => by omega)
    generalize siftDown_func less i first i 0 (swap d first (first + i)) = d2 at k2 p2
    have hl2 : d2.length = d.length := by rw [k2.1, hl1]
    have hout : ∀ y, i ≤ y → d2[first + y]? = (swap d first (first + i))[first + y]? :=
      fun y hy => k2.2.1 (first + y) (Or.inr (by omega))
    obtain ⟨k3, s3⟩ := ih d2 (by omega) (by omega) p2
      (by
        intro p q hp hpq hq
        obtain ⟨y, rfl⟩ : ∃ y, q = first + y := ⟨q - first, by omega⟩
        obtain ⟨x, rfl⟩ : ∃ x, p = first + x := ⟨p - first, by omega⟩
        rw [lessAt_congr less _ d2 _ _ _ _ (hout y (by omega)) (hout x (by omega)), hsw]
        have e1 : y ≠ i := by omega
        have e2 : y ≠ 0 := by omega
        simp only [e1, e2, if_false]
        by_cases e3 : x = i
        · simp only [e3, if_true]
          have := hcross 0 y (by omega) (by omega) (by omega)
          simpa using this
        · have e4 : x ≠ 0 := by omega
          simp only [e3, e4, if_false]
          exact hs (first + x) (first + y) (by omega) (by omega) (by omega))
      (by
        intro x y hx hy hyhi
        obtain ⟨x1, hx1a, hx1b, ex⟩ := k2.2.2 (first + x) (by omega) (by omega)
        obtain ⟨x2, rfl⟩ : ∃ x2, x1 = first + x2 := ⟨x1 - first, by omega⟩
        rw [lessAt_congr less _ d2 _ _ _ _ (hout y hy) ex, hsw]
        have e0 : x2 ≠ i := by omega
        by_cases e1 : y = i
        · simp only [e1, e0, if_true, if_false]
          by_cases e2 : x2 = 0
          · simp only [e2, if_true]
            have := hmax i (by omega)
            simpa using this
          · simp only [e2, if_false]
            have := hmax x2 (by omega)
            simpa using this
        · have e3 : y ≠ 0 := by omega
          simp only [e1, e3, e0, if_false]
          by_cases e2 : x2 = 0
          · simp only [e2, if_true]
            exact hcross i y (by omega) (by omega) hyhi
          · simp only [e2, if_false]
            exact hcross x2 y (by omega) (by omega) hyhi)
    exact ⟨Keeps_trans (Keeps_trans hk1 (Keeps_mono k2 (by omega) (by omega))) k3, s3⟩

/-- `heapSort_func` puts the range `[a, b)` in order. -/
theorem heapSort_func_spec {less : α → α → Bool} (hw : StrictWeak less) (d : List α)
    (a b : Nat) (hab : a ≤ b) (hb : b ≤ d.length) :
    Keeps a b d (heapSort_func less d a b) ∧ SortedOn less (heapSort_func less d a b) a b := by
  unfold heapSort_func
  simp only
  have e : a + (b - a) = b := by omega
  obtain ⟨k1, p1⟩ := heapSort_build_spec hw (b - a) a ((b - a - 1) / 2 + 1) d (by omega)
    (by
      intro c hc0 hc hp
      omega)
  obtain ⟨k2, s2⟩ := heapSort_pop_spec hw a (b - a) (b - a)
    (heapSort_build less (b - a) a ((b - a - 1) / 2 + 1) d) (le_refl _)
    (by rw [k1.1]; omega) p1
    (by
      intro i j h1 h2 h3
      omega)
    (by
      intro x y h1 h2 h3
      omega)
  rw [e] at k1 k2 s2
  exact ⟨Keeps_trans k1 k2, s2⟩

/-- A range is in order when the pivot at `mid` has everything less than it before it and
nothing less than it after it, and the two parts are in order, each holding the elements
it held after the partition. -/
theorem SortedOn_of_parts {less : α → α → Bool} (hw : StrictWeak less) (d4 d6 : List α)
    (a mid b : Nat)
    (hL : ∀ k, a ≤ k → k < mid → lessAt less d4 k mid = true)
    (hR : ∀ k, mid < k → k < b → lessAt less d4 k mid = false)
    (hmid : d6[mid]? = d4[mid]?)
    (hleft : ∀ k, a ≤ k → k < mid → ∃ k1, a ≤ k1 ∧ k1 < mid ∧ d6[k]? = d4[k1]?)
    (hright : ∀ k, mid < k → k < b → ∃ k1, mid < k1 ∧ k1 < b ∧ d6[k]? = d4[k1]?)
    (hs1 : SortedOn less d6 a mid) (hs2 : SortedOn less d6 (mid + 1) b) :
    SortedOn less d6 a b := by
  intro i j hi hij hj
  by_cases c1 : j < mid
  · exact hs1 i j hi hij c1
  · by_cases c2 : mid < i
    · exact hs2 i j (by omega) hij hj
    · by_cases c3 : j = mid
      · subst c3
        obtain ⟨i1, h1, h2, e⟩ := hleft i hi (by omega)
        rw [lessAt_congr less d4 d6 j i j i1 hmid e]
        exact lessAt_asymm hw d4 _ _ (hL i1 h1 h2)
      · obtain ⟨j1, g1, g2, ej⟩ := hright j (by omega) hj
        by_cases c4 : i = mid
        · subst c4
          rw [lessAt_congr less d4 d6 j i j1 i ej hmid]
          exact hR j1 g1 g2
        · obtain ⟨i1, h1, h2, e⟩ := hleft i hi (by omega)
          rw [lessAt_congr less d4 d6 j i j1 i1 ej e]
          cases hc : lessAt less d4 j1 i1 with
          | false => rfl
          | true =>
            have := lessAt_trans hw d4 j1 i1 mid hc (hL i1 h1 h2)
            rw [hR j1 g1 g2] at this
            cases this

/-- A range is in order when the elements the pivot is not less than, none of them less
than the element before the range, come first and the rest is in order after them. -/
theorem SortedOn_of_equal {less : α → α → Bool} (hw : StrictWeak less) (d4 d6 : List α)
    (a mid b : Nat) (ha : 0 < a) (ham : a + 1 ≤ mid) (hmb : mid ≤ b) (hb : b ≤ d4.length)
    (hlow : ∀ k, a ≤ k → k < b → lessAt less d4 k (a - 1) = false)
    (hpiv : lessAt less d4 (a - 1) a = false)
    (hL : ∀ k, a ≤ k → k < mid → lessAt less d4 a k = false)
    (hR : ∀ k, mid ≤ k → k < b → lessAt less d4 a k = true)
    (hk : Keeps mid b d4 d6) (hs2 : SortedOn less d6 mid b) :
    SortedOn less d6 a b := by
  intro i j hi hij hj
  by_cases c1 : mid ≤ i
  · exact hs2 i j c1 hij hj
  · have ei : d6[i]? = d4[i]? := hk.2.1 i (Or.inl (by omega))
    by_cases c2 : j < mid
    · have ej : d6[j]? = d4[j]? := hk.2.1 j (Or.inl c2)
      rw [lessAt_congr less d4 d6 j i j i ej ei]
      have h1 := lessAt_negtrans hw d4 j (a - 1) a (by omega) (hlow j (by omega) hj) hpiv
      exact lessAt_negtrans hw d4 j a i (by omega) h1 (hL i hi (by omega))
    · obtain ⟨j1, g1, g2, ej⟩ := hk.2.2 j (by omega) hj
      rw [lessAt_congr less d4 d6 j i j1 i ej ei]
      cases hc : lessAt less d4 j1 i with
      | false => rfl
      | true =>
        have := lessAt_trans hw d4 a j1 i (hR j1 g1 g2) hc
        rw [hL i hi (by omega)] at this
        cases this

/-- `pdqsort_func` returns, with the range `[a, b)` in order, whenever the depth bound is
above the length of the range and nothing in the range is less than the element before
it. -/
theorem pdqsort_func_spec {less : α → α → Bool} (hw : StrictWeak less)
    (bp : List α → Nat → Nat → List α)
    (hbp : ∀ d a b, a ≤ b → b ≤ d.length → Keeps a b d (bp d a b)) :
    ∀ (fuel : Nat) (d : List α) (a b limit : Nat) (wasBalanced wasPartitioned : Bool),
      a ≤ b → b ≤ d.length → b - a < fuel →
      (0 < a → ∀ k, a ≤ k → k < b → lessAt less d k (a - 1) = false) →
      ∃ d1, pdqsort_func less bp fuel d a b limit wasBalanced wasPartitioned = some d1 ∧
        Keeps a b d d1 ∧ SortedOn less d1 a b := by
  intro fuel
  induction fuel with
  | zero => intro d a b limit wb wp _ _ h; omega
  | succ fuel ih =>
    intro d a b limit wb wp hab hb hf hlow
    rw [pdqsort_func]
    simp only
    by_cases h12 : b - a ≤ 12
    · rw [if_pos h12]
      exact ⟨_, rfl, insertionSort_func_spec hw d a b hab hb⟩
    · rw [if_neg h12]
      by_cases hl0 : limit = 0
      · rw [if_pos hl0]
        exact ⟨_, rfl, heapSort_func_spec hw d a b hab hb⟩
      · rw [if_neg hl0]
        -- breakPatterns
        have k1 : Keeps a b d (if (!wb) = true then bp d a b else d) := by
          split_ifs
          · exact hbp d a b hab hb
          · exact Keeps_refl _ _ _
        generalize (if (!wb) = true then bp d a b else d) = d1 at k1
        generalize (if (!wb) = true then limit - 1 else limit) = limit1
        have hb1 : b ≤ d1.length := by rw [k1.1]; exact hb
        obtain ⟨p1, p2⟩ := choosePivot_func_range less d1 a b (by omega)
        generalize choosePivot_func less d1 a b = ph at p1 p2
        have k2 : Keeps a b d1 (if ph.2 = sortedHint.decreasingHint
            then reverseRange_loop (b - a) a b d1 else d1) := by
          split_ifs
          · exact reverseRange_loop_keeps a b (b - a) a b d1 (le_refl _) (le_refl _) hb1
          · exact Keeps_refl _ _ _
        generalize (if ph.2 = sortedHint.decreasingHint
            then reverseRange_loop (b - a) a b d1 else d1) = d2 at k2
        have hb2 : b ≤ d2.length := by rw [k2.1]; exact hb1
        have hpv : a ≤ (if ph.2 = sortedHint.decreasingHint then b - 1 - (ph.1 - a) else ph.1) ∧
            (if ph.2 = sortedHint.decreasingHint then b - 1 - (ph.1 - a) else ph.1) < b := by
          split_ifs <;> constructor <;> omega
        generalize (if ph.2 = sortedHint.decreasingHint then b - 1 - (ph.1 - a) else ph.1)
          = pivot at hpv
        generalize (if ph.2 = sortedHint.decreasingHint then sortedHint.increasingHint
          else ph.2) = hint
        have k12 : Keeps a b d d2 := Keeps_trans k1 k2
        have hlow2 : 0 < a → ∀ k, a ≤ k → k < b → lessAt less d2 k (a - 1) = false :=
          fun ha0 => Keeps_lower k12 (a - 1) (Or.inl (by omega)) (hlow ha0)
        have k3 : Keeps a b d2 (if (wb && wp && decide (hint = sortedHint.increasingHint)) = true
              then partialInsertionSort_func less d2 a b else (d2, false)).1 ∧
            ((if (wb && wp && decide (hint = sortedHint.increasingHint)) = true
              then partialInsertionSort_func less d2 a b else (d2, false)).2 = true →
              SortedOn less (if (wb && wp && decide (hint = sortedHint.increasingHint)) = true
                then partialInsertionSort_func less d2 a b else (d2, false)).1 a b) := by
          split_ifs
          · exact partialInsertionSort_func_spec hw d2 a b (by omega) hb2 hlow2
          · exact ⟨Keeps_refl _ _ _, fun h => by cases h⟩
        generalize (if (wb && wp && decide (hint = sortedHint.increasingHint)) = true
          then partialInsertionSort_func less d2 a b else (d2, false)) = pr at k3
        obtain ⟨d3, sorted3⟩ := pr
        simp only at k3 ⊢
        obtain ⟨k3, s3⟩ := k3
        have k123 : Keeps a b d d3 := Keeps_trans k12 k3
        have hb3 : b ≤ d3.length := by rw [k3.1]; exact hb2
        have hlow3 : 0 < a → ∀ k, a ≤ k → k < b → lessAt less d3 k (a - 1) = false :=
          fun ha0 => Keeps_lower k123 (a - 1) (Or.inl (by omega)) (hlow ha0)
        by_cases hs : sorted3 = true
        · rw [if_pos hs]
          exact ⟨d3, rfl, k123, s3 hs⟩
        · rw [if_neg hs]
          by_cases heq : (decide (0 < a) && !lessAt less d3 (a - 1) pivot) = true
          · rw [if_pos heq]
            simp only [Bool.and_eq_true, decide_eq_true_eq, Bool.not_eq_true'] at heq
            obtain ⟨ha0, hpiv⟩ := heq
            obtain ⟨k4, epiv, m1, m2, hL, hR⟩ := partitionEqual_func_spec hw d3 a b pivot
              (by omega) hb3 hpv.1 hpv.2
            generalize partitionEqual_func less d3 a b pivot = r at k4 epiv m1 m2 hL hR
            obtain ⟨d4, mid⟩ := r
            simp only at k4 epiv m1 m2 hL hR ⊢
            have hb4 : b ≤ d4.length := by rw [k4.1]; exact hb3
            have hlow4 := Keeps_lower k4 (a - 1) (Or.inl (by omega)) (hlow3 ha0)
            have hpiv4 : lessAt less d4 (a - 1) a = false := by
              rw [lessAt_congr less d3 d4 (a - 1) a (a - 1) pivot
                (k4.2.1 (a - 1) (Or.inl (by omega))) epiv]
              exact hpiv
            obtain ⟨d5, e5, k5, s5⟩ := ih d4 mid b limit1 wb wp m2 hb4 (by omega)
              (by
                intro _ k h1 h2
                cases hc : lessAt less d4 k (mid - 1) with
                | false => rfl
                | true =>
                  have := lessAt_trans hw d4 a k (mid - 1) (hR k h1 h2) hc
                  rw [hL (mid - 1) (by omega) (by omega)] at this
                  cases this)
            refine ⟨d5, e5,
              Keeps_trans k123 (Keeps_trans k4 (Keeps_mono k5 (by omega) (le_refl _))), ?_⟩
            exact SortedOn_of_equal hw d4 d5 a mid b ha0 m1 m2 hb4 hlow4 hpiv4 hL hR k5 s5
          · rw [if_neg heq]
            obtain ⟨k4, m1, m2, hL, hR⟩ := @partition_func_spec _ less d3 a b pivot
              (by omega) hb3 hpv.1 hpv.2
            generalize partition_func less d3 a b pivot = r at k4 m1 m2 hL hR
            obtain ⟨d4, mid, ap⟩ := r
            simp only at k4 m1 m2 hL hR ⊢
            have hb4 : b ≤ d4.length := by rw [k4.1]; exact hb3
            have k1234 : Keeps a b d d4 := Keeps_trans k123 k4
            have hlow4 : 0 < a → ∀ k, a ≤ k → k < b → lessAt less d4 k (a - 1) = false :=
              fun ha0 => Keeps_lower k1234 (a - 1) (Or.inl (by omega)) (hlow ha0)
            by_cases hlr : mid - a < b - mid
            · rw [if_pos hlr]
              obtain ⟨d5, e5, k5, s5⟩ := ih d4 a mid limit1 true true m1 (by omega) (by omega)
                (fun ha0 k h1 h2 => hlow4 ha0 k h1 (by omega))
              rw [e5]
              simp only
              have hb5 : b ≤ d5.length := by rw [k5.1]; exact hb4
              obtain ⟨d6, e6, k6, s6⟩ := ih d5 (mid + 1) b limit1
                (decide ((b - a) / 8 ≤ mid - a)) ap (by omega) hb5 (by omega)
                (by
                  intro _ k h1 h2
                  simp only [Nat.add_sub_cancel]
                  rw [lessAt_congr less d4 d5 k mid k mid (k5.2.1 k (Or.inr (by omega)))
                    (k5.2.1 mid (Or.inr (le_refl _)))]
                  exact hR k (by omega) h2)
              refine ⟨d6, e6, Keeps_trans k1234
                (Keeps_trans (Keeps_mono k5 (le_refl _) (by omega))
                (Keeps_mono k6 (by omega) (le_refl _))), ?_⟩
              apply SortedOn_of_parts hw d4 d6 a mid b hL hR
              · rw [k6.2.1 mid (Or.inl (by omega)), k5.2.1 mid (Or.inr (le_refl _))]
              · intro k h1 h2
                obtain ⟨k1, g1, g2, e⟩ := k5.2.2 k h1 h2
                exact ⟨k1, g1, g2, (k6.2.1 k (Or.inl (by omega))).trans e⟩
              · intro k h1 h2
                obtain ⟨k1, g1, g2, e⟩ := k6.2.2 k (by omega) h2
                exact ⟨k1, by omega, g2, e.trans (k5.2.1 k1 (Or.inr (by omega)))⟩
              · intro i j h1 h2 h3
                rw [lessAt_congr less d5 d6 j i j i (k6.2.1 j (Or.inl (by omega)))
                  (k6.2.1 i (Or.inl (by omega)))]
                exact s5 i j h1 h2 h3
              · exact s6
            · rw [if_neg hlr]
              obtain ⟨d5, e5, k5, s5⟩ := ih d4 (mid + 1) b limit1 true true (by omega) hb4
                (by omega)
                (by
                  intro _ k h1 h2
                  simp only [Nat.add_sub_cancel]
                  exact hR k (by omega) h2)
              rw [e5]
              simp only
              have hb5 : b ≤ d5.length := by rw [k5.1]; exact hb4
              obtain ⟨d6, e6, k6, s6⟩ := ih d5 a mid limit1
                (decide ((b - a) / 8 ≤ b - mid)) ap m1 (by omega) (by omega)
                (by
                  intro ha0 k h1 h2
                  rw [lessAt_congr less d4 d5 k (a - 1) k (a - 1)
                    (k5.2.1 k (Or.inl (by omega))) (k5.2.1 (a - 1) (Or.inl (by omega)))]
                  exact hlow4 ha0 k h1 (by omega))
              refine ⟨d6, e6, Keeps_trans k1234
                (Keeps_trans (Keeps_mono k5 (by omega) (le_refl _))
                (Keeps_mono k6 (le_refl _) (by omega))), ?_⟩
              apply SortedOn_of_parts hw d4 d6 a mid b hL hR
              · rw [k6.2.1 mid (Or.inr (le_refl _)), k5.2.1 mid (Or.inl (by omega))]
              · intro k h1 h2
                obtain ⟨k1, g1, g2, e⟩ := k6.2.2 k h1 h2
                exact ⟨k1, g1, g2, e.trans (k5.2.1 k1 (Or.inl (by omega)))⟩
              · intro k h1 h2
                obtain ⟨k1, g1, g2, e⟩ := k5.2.2 k (by omega) h2
                exact ⟨k1, by omega, g2, (k6.2.1 k (Or.inr (by omega))).trans e⟩
              · exact s6
              · intro i j h1 h2 h3
                rw [lessAt_congr less d5 d6 j i j i (k6.2.1 j (Or.inr (by omega)))
                  (k6.2.1 i (Or.inr (by omega)))]
                exact s5 i j h1 h2 h3

/-- `sort.Slice` returns, with the slice in order, whichever elements of the range the
step `breakPatterns` swaps. -/
theorem Slice_sorted {less : α → α → Bool} (hw : StrictWeak less)
    (bp : List α → Nat → Nat → List α)
    (hbp : ∀ d a b, a ≤ b → b ≤ d.length → Keeps a b d (bp d a b)) (x : List α) :
    ∃ d1, Slice less bp x = some d1 ∧ d1.length = x.length ∧
      d1.Pairwise (fun p q => less q p = false) := by
  obtain ⟨d1, e, k, s⟩ := pdqsort_func_spec hw bp hbp (x.length + 1) x 0 x.length
    (bitsLen 64 x.length) true true (Nat.zero_le _) (le_refl _) (by omega)
    (fun h => by omega)
  refine ⟨d1, e, k.1, ?_⟩
  rw [List.pairwise_iff_getElem]
  intro i j hi hj hij
  have := s i j (Nat.zero_le _) hij (by rw [← k.1]; exact hj)
  unfold lessAt at this
  rw [List.getElem?_eq_getElem hi, List.getElem?_eq_getElem hj] at this
  exact this

end GoSort

/-- Go's `<` on the batch labels of hooks is a strict weak order. -/
theorem strLess_strictWeak :
    GoSort.StrictWeak (fun a b : Hook => strLess a.BatchName b.BatchName) where
  irrefl := fun x => strLess_irrefl x.BatchName
  trans := fun _ _ _ h1 h2 => strLess_trans h1 h2
  negtrans := by
    intro x y z h1 h2
    rw [strLess_eq_false_iff] at h1 h2 ⊢
    exact le_trans h2 h1

/-- Go's `sort.Slice` leaves the hooks in the order of their batch labels, whichever
elements of the range its step `breakPatterns` swaps. -/
theorem goSortSliceWith_sorted (breakPatterns : List Hook → Nat → Nat → List Hook)
    (hbreak : ∀ d a b, a ≤ b → b ≤ d.length → GoSort.Keeps a b d (breakPatterns d a b))
    (allHooks : List Hook) :
    (goSortSliceWith breakPatterns allHooks).Pairwise
      (fun a b => strLess b.BatchName a.BatchName = false) := by
  obtain ⟨d1, e, _, hp⟩ := GoSort.Slice_sorted strLess_strictWeak breakPatterns hbreak allHooks
  unfold goSortSliceWith
  rw [e]
  exact hp

/-- Go's `sort.Slice` with `breakPatterns_func` leaves the hooks in the order of their
batch labels. -/
theorem goSortSlice_sorted (allHooks : List Hook) :
    (goSortSlice allHooks).Pairwise (fun a b => strLess b.BatchName a.BatchName = false) :=
  goSortSliceWith_sorted GoSort.breakPatterns_func
    (fun d a b h1 h2 => GoSort.breakPatterns_func_keeps d a b h1 h2) allHooks

/-! ## Theorems: the labels of the batches -/

/-- C5: in the batch list returned by `getHooksIn`, with the hooks sorted by Go's
`sort.Slice` (whichever elements of the range its step `breakPatterns` swaps), all hooks
of one batch carry the same batch label, and the labels of a later batch are strictly
greater, in string order, than the labels of an earlier batch. -/
theorem getHooksIn_batch_labels (env : Env) (settings : HookSettings) (w : World)
    (rootDir hooksDir : String) (addInternalIgnores : Bool) (hookNamespace : String)
    (readNamespace : Bool) (breakPatterns : List Hook → Nat → Nat → List Hook)
    (batches : List (List Hook)) (w1 : World)
    (hbreak : ∀ d a b, a ≤ b → b ≤ d.length → GoSort.Keeps a b d (breakPatterns d a b))
    (hsort : env.sortSlice = goSortSliceWith breakPatterns)
    (h : getHooksIn env settings w rootDir hooksDir addInternalIgnores hookNamespace
      readNamespace = .ok (batches, w1)) :
    (∀ b ∈ batches, ∀ x ∈ b, ∀ y ∈ b, x.BatchName = y.BatchName) ∧
      batches.Pairwise (fun b1 b2 => ∀ x ∈ b1, ∀ y ∈ b2, x.BatchName < y.BatchName) := by
  obtain ⟨allHooks, maxBatches, _, hb⟩ := getHooksIn_ok_enumerate env settings w rootDir
    hooksDir addInternalIgnores hookNamespace readNamespace (batches, w1) h
  have hs : (env.sortSlice allHooks).Pairwise
      (fun a b => strLess b.BatchName a.BatchName = false) := by
    rw [hsort]
    exact goSortSliceWith_sorted breakPatterns hbreak allHooks
  obtain ⟨hU, hI⟩ := getHooksIn_batches_sorted env settings w allHooks maxBatches
    (batches, w1) hs hb
  refine ⟨hU, ?_⟩
  refine List.Pairwise.imp ?_ hI
  intro b1 b2 hlt x hx y hy
  exact (strLess_iff_lt _ _).mp (hlt x hx y hy)

theorem getHooksIn_batch_labels_witness :
    s1Env.sortSlice = goSortSliceWith GoSort.breakPatterns_func ∧
      getHooksIn s1Env { SkipUntrustedHooks := true } {} "" "" false "" false
        = .ok ([[mkHook "a" "01" true], [mkHook "c" "02" true]], s1World) ∧
      ((∀ b ∈ [[mkHook "a" "01" true], [mkHook "c" "02" true]], ∀ x ∈ b, ∀ y ∈ b,
          x.BatchName = y.BatchName) ∧
        [[mkHook "a" "01" true], [mkHook "c" "02" true]].Pairwise
          (fun b1 b2 => ∀ x ∈ b1, ∀ y ∈ b2, x.BatchName < y.BatchName)) :=
  ⟨rfl, by decide,
    getHooksIn_batch_labels s1Env { SkipUntrustedHooks := true } {} "" "" false "" false
      GoSort.breakPatterns_func [[mkHook "a" "01" true], [mkHook "c" "02" true]] s1World
      (fun d a b h1 h2 => GoSort.breakPatterns_func_keeps d a b h1 h2) rfl (by decide)⟩

theorem labels_toFinset_of_uniform (x : Hook) (xs : List Hook)
    (h : ∀ y ∈ x :: xs, y.BatchName = x.BatchName) :
    ((x :: xs).map (fun h => h.BatchName)).toFinset = {x.BatchName} := by
  ext a
  simp only [List.mem_toFinset, List.mem_map, Finset.mem_singleton]
  constructor
  · rintro ⟨y, hy, rfl⟩
    exact h y hy
  · intro ha
    exact ⟨x, List.mem_cons_self _ _, ha.symm⟩

/-- With one label per batch and labels increasing from batch to batch, there are as many
non-empty batches as distinct labels. -/
theorem nonempty_batches_count (bs : List (List Hook)) (hU : UniformBatches bs)
    (hI : IncreasingBatches bs) :
    (bs.filter (fun b => decide (b ≠ []))).length
      = ((bs.flatten.map (fun h => h.BatchName)).dedup).length := by
  induction bs with
  | nil => simp
  | cons b rest ih =>
    have hU1 : UniformBatches rest := fun c hc => hU c (List.mem_cons_of_mem _ hc)
    have hI1 : IncreasingBatches rest := (List.pairwise_cons.mp hI).2
    have ih1 := ih hU1 hI1
    cases b with
    | nil => simpa using ih1
    | cons x xs =>
      have hfil : ((x :: xs) :: rest).filter (fun b => decide (b ≠ []))
          = (x :: xs) :: rest.filter (fun b => decide (b ≠ [])) := by
        simp [List.filter_cons]
      rw [hfil, List.length_cons, ih1, ← List.card_toFinset, ← List.card_toFinset,
        List.flatten_cons, List.map_append, List.toFinset_append,
        labels_toFinset_of_uniform x xs
          (fun y hy => hU (x :: xs) (List.mem_cons_self _ _) y hy x (List.mem_cons_self _ _))]
      have hnot : x.BatchName ∉ (rest.flatten.map (fun h => h.BatchName)).toFinset := by
        simp only [List.mem_toFinset, List.mem_map, not_exists, not_and]
        intro y hy heq
        obtain ⟨c, hc, hyc⟩ := List.mem_flatten.mp hy
        have hlt := (List.pairwise_cons.mp hI).1 c hc x (List.mem_cons_self _ _) y hyc
        rw [heq, strLess_irrefl] at hlt
        exact Bool.false_ne_true hlt
      rw [← Finset.insert_eq, Finset.card_insert_of_not_mem hnot]

/-- The first batch stays empty exactly when no kept hook carries the current label. -/
theorem takeWhile_label_eq_nil (ks : List Hook) (cur : String)
    (hks : ks.Pairwise (fun a b => strLess b.BatchName a.BatchName = false))
    (hge : ∀ k ∈ ks, strLess k.BatchName cur = false) :
    ks.takeWhile (fun k => decide (k.BatchName = cur)) = [] ↔
      ∀ k ∈ ks, k.BatchName ≠ cur := by
  cases ks with
  | nil => simp
  | cons k0 rest =>
    constructor
    · intro ht
      have h0 : k0.BatchName ≠ cur := by
        intro heq
        simp [List.takeWhile_cons, heq] at ht
      have hlt : strLess cur k0.BatchName = true :=
        strLess_of_ne (fun e => h0 e.symm) (hge k0 (List.mem_cons_self _ _))
      intro k hk
      rcases List.mem_cons.mp hk with h1 | h1
      · rw [h1]; exact h0
      · have hle := (List.pairwise_cons.mp hks).1 k h1
        have := strLess_of_lt_of_le hlt hle
        intro heq
        rw [heq, strLess_irrefl] at this
        exact Bool.false_ne_true this
    · intro hall
      have h0 : k0.BatchName ≠ cur := hall k0 (List.mem_cons_self _ _)
      simp [List.takeWhile_cons, h0]

/-- C7 (amended): for a non-empty enumeration (that `sort.Slice` has put in label order),
`getHooksIn` returns at least one batch; every batch after the first is non-empty; the
number of non-empty batches is the number of distinct batch labels among the kept hooks;
the number of batches is that number, plus one when the first batch is empty; and the
first batch is empty exactly when no kept hook carries the label of the first sorted
hook. -/
theorem getHooksIn_batch_count (env : Env) (settings : HookSettings) (w : World)
    (rootDir hooksDir : String) (addInternalIgnores : Bool) (hookNamespace : String)
    (readNamespace : Bool) (allHooks : List Hook) (maxBatches : Nat)
    (batches : List (List Hook)) (w1 : World)
    (henum : getHooksIn_enumerate env settings w rootDir hooksDir addInternalIgnores
      hookNamespace readNamespace = .ok (allHooks, maxBatches))
    (hne : allHooks ≠ [])
    (hsort : (env.sortSlice allHooks).Pairwise
      (fun a b => strLess b.BatchName a.BatchName = false))
    (h : getHooksIn env settings w rootDir hooksDir addInternalIgnores hookNamespace
      readNamespace = .ok (batches, w1)) :
    batches ≠ [] ∧ (∀ b ∈ batches.tail, b ≠ []) ∧
      (batches.filter (fun b => decide (b ≠ []))).length
        = ((batches.flatten.map (fun h => h.BatchName)).dedup).length ∧
      batches.length = ((batches.flatten.map (fun h => h.BatchName)).dedup).length
        + (if batches.head? = some [] then 1 else 0) ∧
      (batches.head? = some [] ↔
        ∀ h0 ∈ (sortedHooks env allHooks).head?, ∀ hook ∈ batches.flatten,
          hook.BatchName ≠ h0.BatchName) := by
  rw [getHooksIn_eq env settings w rootDir hooksDir addInternalIgnores hookNamespace
    readNamespace allHooks maxBatches henum] at h
  obtain ⟨hU, hI⟩ := getHooksIn_batches_sorted env settings w allHooks maxBatches
    (batches, w1) hsort h
  have hcount := nonempty_batches_count batches hU hI
  obtain ⟨h0, t, r, hs, _, hb, _, hks, hge⟩ := getHooksIn_batches_kept env settings w
    allHooks maxBatches (batches, w1) hne hsort h
  obtain ⟨tl, hshape, htl⟩ := splitBatches_shape (r.1.filter Hook.kept) [] [] h0.BatchName
  simp only [List.nil_append] at hshape
  have hb1 : batches = ((r.1.filter Hook.kept).takeWhile
      (fun k => decide (k.BatchName = h0.BatchName))) :: tl := by
    rw [← hshape]; exact hb
  have hflat : batches.flatten = r.1.filter Hook.kept := by
    have : batches = splitBatches (r.1.filter Hook.kept) [[]] h0.BatchName := hb
    rw [this, splitBatches_flatten_start]
  have htail : ∀ b ∈ batches.tail, b ≠ [] := by
    rw [hb1]; exact htl
  have hhead : batches.head? = some [] ↔
      ∀ h1 ∈ (sortedHooks env allHooks).head?, ∀ hook ∈ batches.flatten,
        hook.BatchName ≠ h1.BatchName := by
    rw [hflat, hs]
    have hT := takeWhile_label_eq_nil (r.1.filter Hook.kept) h0.BatchName hks hge
    rw [hb1]
    simp only [List.head?_cons, Option.some.injEq, Option.mem_def]
    rw [hT]
    constructor
    · intro hall h1 h1eq
      cases h1eq
      exact hall
    · intro hall
      exact hall h0 rfl
  refine ⟨by rw [hb1]; simp, htail, hcount, ?_, hhead⟩
  rw [← hcount]
  have hfil : ∀ l : List (List Hook), (∀ b ∈ l, b ≠ []) →
      l.filter (fun b => decide (b ≠ [])) = l := by
    intro l hl
    apply List.filter_eq_self.mpr
    intro b hb2
    simpa using hl b hb2
  rw [hb1] at htail ⊢
  simp only [List.tail_cons] at htail
  have hfilt : tl.filter (fun b => !decide (b = [])) = tl := by
    simpa using hfil tl htail
  cases hhead1 : (r.1.filter Hook.kept).takeWhile
      (fun k => decide (k.BatchName = h0.BatchName)) with
  | nil => simp [List.filter_cons, hfilt]
  | cons x xs => simp [List.filter_cons, hfilt]

theorem getHooksIn_batch_count_witness :
    getHooksIn skippedFirstEnv { NonInteractive := true } {} "" "" false "" false
        = .ok ([[], [mkHook "c" "02" true]], {}) ∧
      ([[], [mkHook "c" "02" true]] ≠ [] ∧
        (∀ b ∈ [[], [mkHook "c" "02" true]].tail, b ≠ []) ∧
        ([[], [mkHook "c" "02" true]].filter (fun b => decide (b ≠ []))).length
          = (([[], [mkHook "c" "02" true]].flatten.map (fun h => h.BatchName)).dedup).length ∧
        [[], [mkHook "c" "02" true]].length
          = (([[], [mkHook "c" "02" true]].flatten.map (fun h => h.BatchName)).dedup).length
            + (if [[], [mkHook "c" "02" true]].head? = some [] then 1 else 0) ∧
        ([[], [mkHook "c" "02" true]].head? = some [] ↔
          ∀ h0 ∈ (sortedHooks skippedFirstEnv skippedFirstHooks).head?,
            ∀ hook ∈ [[], [mkHook "c" "02" true]].flatten, hook.BatchName ≠ h0.BatchName)) :=
  ⟨by decide,
    getHooksIn_batch_count skippedFirstEnv { NonInteractive := true } {} "" "" false "" false
      skippedFirstHooks 2 [[], [mkHook "c" "02" true]] {}
      (by decide) (by decide) (by decide) (by decide)⟩

/-- C7 (as stated) fails: with `01/a` ignored and `02/c` kept, `getHooksIn` returns two
batches, the first of them empty, while the kept hooks carry one label. -/
theorem getHooksIn_batch_count_counterexample :
    getHooksIn skippedFirstEnv { NonInteractive := true } {} "" "" false "" false
        = .ok ([[], [mkHook "c" "02" true]], {}) ∧
      [[], [mkHook "c" "02" true]].length = 2 ∧
      (([mkHook "c" "02" true].map (fun h => h.BatchName)).dedup).length = 1 ∧
      ([] : List Hook) ∈ [[], [mkHook "c" "02" true]] := by
  decide

/-- C6 (amended): for any two kept hooks, so also for two with equal batch label, the
relative order inside the resulting batch is their relative order in the list as
`sort.Slice` leaves it: each batch, read by hook path, is a sublist of the sorted hooks. -/
theorem getHooksIn_batch_order (env : Env) (settings : HookSettings) (w : World)
    (rootDir hooksDir : String) (addInternalIgnores : Bool) (hookNamespace : String)
    (readNamespace : Bool) (allHooks : List Hook) (maxBatches : Nat)
    (batches : List (List Hook)) (w1 : World)
    (henum : getHooksIn_enumerate env settings w rootDir hooksDir addInternalIgnores
      hookNamespace readNamespace = .ok (allHooks, maxBatches))
    (h : getHooksIn env settings w rootDir hooksDir addInternalIgnores hookNamespace
      readNamespace = .ok (batches, w1)) :
    ∀ b ∈ batches, List.Sublist (b.map (fun hook => hook.Path))
      ((sortedHooks env allHooks).map (fun hook => hook.Path)) := by
  rw [getHooksIn_eq env settings w rootDir hooksDir addInternalIgnores hookNamespace
    readNamespace allHooks maxBatches henum] at h
  obtain ⟨r, hg, hf, _⟩ := getHooksIn_batches_flatten env settings w allHooks maxBatches
    (batches, w1) h
  obtain ⟨hp, _, _⟩ := gateAll_fields env settings.NonInteractive
    settings.SkipUntrustedHooks (sortedHooks env allHooks) w r hg
  intro b hb
  have h1 : List.Sublist b batches.flatten := List.sublist_flatten_of_mem hb
  simp only [] at hf
  rw [hf] at h1
  have h2 : List.Sublist b r.1 := h1.trans (List.filter_sublist _)
  rw [← hp]
  exact h2.map _

theorem getHooksIn_batch_order_witness :
    getHooksIn_enumerate s1Env { SkipUntrustedHooks := true } {} "" "" false "" false
        = .ok (s1Hooks, 2) ∧
      ∀ b ∈ [[mkHook "a" "01" true], [mkHook "c" "02" true]],
        List.Sublist (b.map (fun hook => hook.Path))
          ((sortedHooks s1Env s1Hooks).map (fun hook => hook.Path)) :=
  ⟨by decide,
    getHooksIn_batch_order s1Env { SkipUntrustedHooks := true } {} "" "" false "" false
      s1Hooks 2 [[mkHook "a" "01" true], [mkHook "c" "02" true]] s1World
      (by decide) (by decide)⟩

/-- C6 (as stated) fails: thirteen trusted hooks, `h00` with label `2` and `h01` to `h12`
with label `1`, come back with `h06` ahead of `h01` in the batch of label `1`, while the
enumerator lists `h01` ahead of `h06`. -/
theorem getHooksIn_unstable_counterexample :
    (getHooksIn_enumerate thirteenEnv { IsRepoTrusted := true } {} "" "" false "" false).map
        (fun r => r.1.map (fun hook => hook.Path))
      = .ok ["h00", "h01", "h02", "h03", "h04", "h05", "h06", "h07", "h08", "h09", "h10",
          "h11", "h12"] ∧
    (getHooksIn thirteenEnv { IsRepoTrusted := true } {} "" "" false "" false).map
        (fun r => batchPaths r.1)
      = .ok [["h06", "h01", "h02", "h03", "h04", "h05", "h07", "h08", "h09", "h10", "h11",
          "h12"], ["h00"]] ∧
    ¬ List.Sublist ["h06", "h01"]
        ["h00", "h01", "h02", "h03", "h04", "h05", "h06", "h07", "h08", "h09", "h10", "h11",
          "h12"] := by
  decide

/-! ## Lemmas: where trust comes from -/

theorem showTrustPrompt_provenance (env : Env) (w : World) (hook : Hook)
    (hUntrusted : hook.Trusted = false) :
    ∃ aC aT,
      (showTrustPrompt env w hook).1.checksums.Checksums = w.checksums.Checksums ++ aC ∧
      (showTrustPrompt env w hook).1.uiSettings.TrustedHooks = w.uiSettings.TrustedHooks ++ aT ∧
      ((showTrustPrompt env w hook).2.Trusted = true →
        ((showTrustPrompt env w hook).2.SHA1, (showTrustPrompt env w hook).2.Path) ∈ aC ∧
        ({ SHA1 := (showTrustPrompt env w hook).2.SHA1,
           Path := (showTrustPrompt env w hook).2.Path,
           NamespacePath := (showTrustPrompt env w hook).2.NamespacePath } : ChecksumResult)
          ∈ aT) := by
  rw [showTrustPrompt_eq env w hook hUntrusted]
  split_ifs
  · exact ⟨[(env.AssertSHA1 hook, hook.Path)],
      [{ SHA1 := env.AssertSHA1 hook, Path := hook.Path, NamespacePath := hook.NamespacePath }],
      by simp [stageAccept], by simp [stageAccept], by simp [stageAccept]⟩
  · exact ⟨[(env.AssertSHA1 hook, hook.Path)],
      [{ SHA1 := env.AssertSHA1 hook, Path := hook.Path, NamespacePath := hook.NamespacePath }],
      by simp [stageAccept], by simp [stageAccept, UISettings.asked], by simp [stageAccept]⟩
  · exact ⟨[(env.AssertSHA1 hook, hook.Path)],
      [{ SHA1 := env.AssertSHA1 hook, Path := hook.Path, NamespacePath := hook.NamespacePath }],
      by simp [stageAccept], by simp [stageAccept, UISettings.asked], by simp [stageAccept]⟩
  · exact ⟨[], [], by simp [stageDisable], by simp [stageDisable, UISettings.asked],
      by simp [stageDisable, hUntrusted]⟩
  · exact ⟨[], [], by simp, by simp [UISettings.asked], by simp [hUntrusted]⟩

theorem trustGate_provenance (env : Env) (ni skip : Bool) (w : World) (hook : Hook)
    (g : World × Hook) (h : trustGate env ni skip w hook = .ok g) :
    ∃ aC aT,
      g.1.checksums.Checksums = w.checksums.Checksums ++ aC ∧
      g.1.uiSettings.TrustedHooks = w.uiSettings.TrustedHooks ++ aT ∧
      (g.2.Trusted = true → hook.Trusted = true ∨
        ((g.2.SHA1, g.2.Path) ∈ aC ∧
          ({ SHA1 := g.2.SHA1, Path := g.2.Path, NamespacePath := g.2.NamespacePath } :
            ChecksumResult) ∈ aT)) := by
  rw [trustGate_eq] at h
  by_cases hc : (hook.Active && !hook.Trusted) = true
  · have hU : hook.Trusted = false := by
      simp only [Bool.and_eq_true, Bool.not_eq_true'] at hc
      exact hc.2
    obtain ⟨aC, aT, h1, h2, h3⟩ := showTrustPrompt_provenance env w hook hU
    simp only [hc, if_true] at h
    cases ni
    · simp only [Bool.false_eq_true, if_false] at h
      split_ifs at h
      · cases h
        exact ⟨aC, aT, h1, h2, fun ht => Or.inr (h3 ht)⟩
      · cases h
        exact ⟨aC, aT, h1, h2, fun ht => Or.inr (h3 ht)⟩
    · simp only [if_true] at h
      split_ifs at h
      cases h
      exact ⟨[], [], by simp, by simp, fun ht => Or.inl ht⟩
  · simp only [hc, if_false] at h
    cases h
    exact ⟨[], [], by simp, by simp, fun ht => Or.inl ht⟩

theorem gateAll_provenance (env : Env) (ni skip : Bool) (hooks : List Hook) :
    ∀ (w : World) (r : List Hook × World), gateAll env ni skip hooks w = .ok r →
      ∃ aC aT,
        r.2.checksums.Checksums = w.checksums.Checksums ++ aC ∧
        r.2.uiSettings.TrustedHooks = w.uiSettings.TrustedHooks ++ aT ∧
        ∀ kept ∈ r.1, kept.Trusted = true →
          (∃ hook ∈ hooks, hook.Trusted = true ∧ hook.Path = kept.Path) ∨
          ((kept.SHA1, kept.Path) ∈ aC ∧
            ({ SHA1 := kept.SHA1, Path := kept.Path, NamespacePath := kept.NamespacePath } :
              ChecksumResult) ∈ aT) := by
  induction hooks with
  | nil =>
    intro w r h
    simp only [gateAll] at h
    cases h
    exact ⟨[], [], by simp, by simp, by intro k hk; simp at hk⟩
  | cons hook rest ih =>
    intro w r h
    simp only [gateAll] at h
    cases hg : trustGate env ni skip w hook with
    | error m => simp [hg] at h
    | ok g =>
      simp only [hg] at h
      cases hr : gateAll env ni skip rest g.1 with
      | error m => simp [hr] at h
      | ok rs =>
        simp only [hr] at h
        cases h
        obtain ⟨aC1, aT1, c1, t1, p1⟩ := trustGate_provenance env ni skip w hook g hg
        obtain ⟨aC2, aT2, c2, t2, p2⟩ := ih g.1 rs hr
        obtain ⟨f1, _, _⟩ := trustGate_fields env ni skip w hook g hg
        refine ⟨aC1 ++ aC2, aT1 ++ aT2, by simp [c2, c1], by simp [t2, t1], ?_⟩
        intro k hk ht
        rcases List.mem_cons.mp hk with hk1 | hk1
        · subst hk1
          rcases p1 ht with h1 | h1
          · exact Or.inl ⟨hook, List.mem_cons_self _ _, h1, f1.symm⟩
          · exact Or.inr ⟨List.mem_append_left _ h1.1, List.mem_append_left _ h1.2⟩
        · rcases p2 k hk1 ht with h1 | h1
          · obtain ⟨x, hx, hx1, hx2⟩ := h1
            exact Or.inl ⟨x, List.mem_cons_of_mem _ hx, hx1, hx2⟩
          · exact Or.inr ⟨List.mem_append_right _ h1.1, List.mem_append_right _ h1.2⟩

theorem isTrustedClosure_true (env : Env) (settings : HookSettings) (checksums : ChecksumStore)
    (hookPath : String)
    (h : (isTrustedClosure env settings checksums hookPath).map Prod.fst = .ok true) :
    settings.IsRepoTrusted = true ∨ (env.IsTrusted checksums hookPath).1 = true := by
  unfold isTrustedClosure at h
  by_cases hr : settings.IsRepoTrusted = true
  · exact Or.inl hr
  · right
    simp only [hr, if_false] at h
    cases ha : assertNoErrorPanicF (env.IsTrusted checksums hookPath).2.2
        ("Could not check trust status \x27" ++ hookPath ++ "\x27.") with
    | error m => simp [ha, Except.map] at h
    | ok u => simpa [ha, Except.map] using h

/-- The spec-modelled enumerator marks a hook trusted only on the word of the callback. -/
theorem GetAllHooksIn_hooks_trusted (isIgnored : String → Bool)
    (isTrusted : String → Except String (Bool × String)) (scripts : List Script) :
    ∀ hooks, GetAllHooksIn_hooks isIgnored isTrusted scripts = .ok hooks →
      ∀ hook ∈ hooks, hook.Trusted = true → (isTrusted hook.Path).map Prod.fst = .ok true := by
  induction scripts with
  | nil =>
    intro hooks h
    simp only [GetAllHooksIn_hooks] at h
    cases h
    intro k hk
    simp at hk
  | cons sc rest ih =>
    intro hooks h
    simp only [GetAllHooksIn_hooks] at h
    cases ht : isTrusted sc.Path with
    | error m => simp [ht] at h
    | ok tr =>
      simp only [ht] at h
      cases hr : GetAllHooksIn_hooks isIgnored isTrusted rest with
      | error m => simp [hr] at h
      | ok hs =>
        simp only [hr] at h
        cases h
        intro k hk hT
        rcases List.mem_cons.mp hk with h1 | h1
        · subst h1
          simp only at hT
          simp [ht, Except.map, hT]
        · exact ih hs hr k h1 hT

theorem sortedHooks_subset (env : Env) (allHooks : List Hook)
    (hsub : ∀ hook ∈ env.sortSlice allHooks, hook ∈ allHooks) :
    ∀ hook ∈ sortedHooks env allHooks, hook ∈ allHooks := by
  unfold sortedHooks
  split_ifs
  · exact hsub
  · exact fun _ h => h

/-- C2: for every sequence of prompt answers, every hook `getHooksIn` returns is in a
repository trusted as a whole, or was reported trusted by the checksum store, or had an
acceptance for its path staged into the checksum store and into `uiSettings.TrustedHooks`
during this call (given an enumerator that marks a hook trusted only on the word of the
`isTrusted` callback, and a sort that returns enumerated hooks only). -/
theorem getHooksIn_trust_provenance (env : Env) (settings : HookSettings) (w : World)
    (rootDir hooksDir : String) (addInternalIgnores : Bool) (hookNamespace : String)
    (readNamespace : Bool) (allHooks : List Hook) (maxBatches : Nat)
    (batches : List (List Hook)) (w1 : World)
    (henum : getHooksIn_enumerate env settings w rootDir hooksDir addInternalIgnores
      hookNamespace readNamespace = .ok (allHooks, maxBatches))
    (hclosure : ∀ hook ∈ allHooks, hook.Trusted = true →
      (isTrustedClosure env settings w.checksums hook.Path).map Prod.fst = .ok true)
    (hsub : ∀ hook ∈ env.sortSlice allHooks, hook ∈ allHooks)
    (h : getHooksIn env settings w rootDir hooksDir addInternalIgnores hookNamespace
      readNamespace = .ok (batches, w1)) :
    ∃ addedChecksums addedTrusted,
      w1.checksums.Checksums = w.checksums.Checksums ++ addedChecksums ∧
      w1.uiSettings.TrustedHooks = w.uiSettings.TrustedHooks ++ addedTrusted ∧
      ∀ b ∈ batches, ∀ hook ∈ b,
        settings.IsRepoTrusted = true ∨
        (env.IsTrusted w.checksums hook.Path).1 = true ∨
        ((hook.SHA1, hook.Path) ∈ addedChecksums ∧
          ({ SHA1 := hook.SHA1, Path := hook.Path, NamespacePath := hook.NamespacePath } :
            ChecksumResult) ∈ addedTrusted) := by
  rw [getHooksIn_eq env settings w rootDir hooksDir addInternalIgnores hookNamespace
    readNamespace allHooks maxBatches henum] at h
  obtain ⟨r, hg, hf, hw⟩ := getHooksIn_batches_flatten env settings w allHooks maxBatches
    (batches, w1) h
  obtain ⟨aC, aT, hc, ht, hp⟩ := gateAll_provenance env settings.NonInteractive
    settings.SkipUntrustedHooks (sortedHooks env allHooks) w r hg
  simp only [] at hf hw
  refine ⟨aC, aT, by rw [hw]; exact hc, by rw [hw]; exact ht, ?_⟩
  intro b hb hook hh
  have hmem : hook ∈ batches.flatten := List.mem_flatten.mpr ⟨b, hb, hh⟩
  rw [hf, List.mem_filter] at hmem
  have hT : hook.Trusted = true := by
    have := hmem.2
    simp only [Hook.kept, Bool.and_eq_true] at this
    exact this.2
  rcases hp hook hmem.1 hT with h1 | h1
  · obtain ⟨x, hx, hx1, hx2⟩ := h1
    have hx3 := sortedHooks_subset env allHooks hsub x hx
    have := isTrustedClosure_true env settings w.checksums x.Path (hclosure x hx3 hx1)
    rw [hx2] at this
    rcases this with h2 | h2
    · exact Or.inl h2
    · exact Or.inr (Or.inl h2)
  · exact Or.inr (Or.inr h1)

theorem getHooksIn_trust_provenance_witness :
    getHooksIn s1AcceptEnv {} {} "" "" false "" false
        = .ok ([[mkHook "a" "01" true, s1AcceptedB], [mkHook "c" "02" true]], s1AcceptWorld) ∧
      ∃ addedChecksums addedTrusted,
        s1AcceptWorld.checksums.Checksums = ({} : World).checksums.Checksums ++ addedChecksums ∧
        s1AcceptWorld.uiSettings.TrustedHooks
          = ({} : World).uiSettings.TrustedHooks ++ addedTrusted ∧
        ∀ b ∈ [[mkHook "a" "01" true, s1AcceptedB], [mkHook "c" "02" true]], ∀ hook ∈ b,
          ({} : HookSettings).IsRepoTrusted = true ∨
          (s1AcceptEnv.IsTrusted ({} : World).checksums hook.Path).1 = true ∨
          ((hook.SHA1, hook.Path) ∈ addedChecksums ∧
            ({ SHA1 := hook.SHA1, Path := hook.Path, NamespacePath := hook.NamespacePath } :
              ChecksumResult) ∈ addedTrusted) :=
  ⟨by decide,
    getHooksIn_trust_provenance s1AcceptEnv {} {} "" "" false "" false s1Hooks 2
      [[mkHook "a" "01" true, s1AcceptedB], [mkHook "c" "02" true]] s1AcceptWorld
      (by decide) (by decide) (by decide) (by decide)⟩

/-! ## Theorems: untrusted hooks without a prompt -/

theorem trustGate_nonInteractive (env : Env) (skip : Bool) (w : World) (hook : Hook) :
    trustGate env true skip w hook =
      if (hook.Active && !hook.Trusted) = true then
        if skip = true then
          .ok ({ w with warnings := w.warnings ++ [untrustedWarning hook.NamespacePath] }, hook)
        else .error (untrustedFatal hook.NamespacePath)
      else .ok (w, hook) := by
  rw [trustGate_eq]
  split_ifs <;> simp_all

theorem gateAll_nonInteractive_skip (env : Env) (hooks : List Hook) :
    ∀ w : World, ∃ w1, gateAll env true true hooks w = .ok (hooks, w1) := by
  induction hooks with
  | nil => intro w; exact ⟨w, rfl⟩
  | cons hook rest ih =>
    intro w
    simp only [gateAll, trustGate_nonInteractive]
    split_ifs
    · obtain ⟨w1, h1⟩ := ih
        { w with warnings := w.warnings ++ [untrustedWarning hook.NamespacePath] }
      exact ⟨w1, by simp [h1]⟩
    · obtain ⟨w1, h1⟩ := ih w
      exact ⟨w1, by simp [h1]⟩

theorem gateAll_nonInteractive_fatal (env : Env) (hooks : List Hook) :
    ∀ w : World,
      (∀ hook ∈ hooks, ¬ (hook.Active = true ∧ hook.Trusted = false)) ∧
          gateAll env true false hooks w = .ok (hooks, w) ∨
        ∃ hook ∈ hooks, hook.Active = true ∧ hook.Trusted = false ∧
          gateAll env true false hooks w = .error (untrustedFatal hook.NamespacePath) := by
  induction hooks with
  | nil => intro w; exact Or.inl ⟨by intro k hk; simp at hk, rfl⟩
  | cons hook rest ih =>
    intro w
    by_cases hc : (hook.Active && !hook.Trusted) = true
    · right
      have hc1 : hook.Active = true ∧ hook.Trusted = false := by
        simpa using hc
      exact ⟨hook, List.mem_cons_self _ _, hc1.1, hc1.2,
        by simp [gateAll, trustGate_nonInteractive, hc]⟩
    · have hc1 : ¬ (hook.Active = true ∧ hook.Trusted = false) := by
        simpa using hc
      rcases ih w with ⟨h1, h2⟩ | ⟨k, hk, hk1, hk2, hk3⟩
      · left
        refine ⟨?_, by simp [gateAll, trustGate_nonInteractive, hc, h2]⟩
        intro k hk
        rcases List.mem_cons.mp hk with h3 | h3
        · rw [h3]; exact hc1
        · exact h1 k h3
      · right
        exact ⟨k, List.mem_cons_of_mem _ hk, hk1, hk2,
          by simp [gateAll, trustGate_nonInteractive, hc, hk3]⟩

theorem untrustedFatal_contains (namespacePath : String) :
    List.IsInfix namespacePath.data (untrustedFatal namespacePath).data := by
  unfold untrustedFatal
  simp only [String.data_append, List.append_assoc]
  exact ⟨_, _, by simp only [List.append_assoc]; rfl⟩

theorem sortedHooks_perm (env : Env) (allHooks : List Hook)
    (hperm : (env.sortSlice allHooks).Perm allHooks) :
    (sortedHooks env allHooks).Perm allHooks := by
  unfold sortedHooks
  split_ifs
  · exact hperm
  · exact List.Perm.refl _

/-- C3: in a non-interactive dispatch, once the enumeration has returned `allHooks` (and
`sort.Slice` permutes them), `getHooksIn` panics if and only if `SkipUntrustedHooks` is
false and some enumerated hook is active and untrusted; the panic message is the
trust message of such a hook and contains its namespace-path; with `SkipUntrustedHooks`
set there is no panic and no active, untrusted hook is in a batch. -/
theorem getHooksIn_nonInteractive_fatal (env : Env) (settings : HookSettings) (w : World)
    (rootDir hooksDir : String) (addInternalIgnores : Bool) (hookNamespace : String)
    (readNamespace : Bool) (allHooks : List Hook) (maxBatches : Nat)
    (hni : settings.NonInteractive = true)
    (henum : getHooksIn_enumerate env settings w rootDir hooksDir addInternalIgnores
      hookNamespace readNamespace = .ok (allHooks, maxBatches))
    (hmax : allHooks ≠ [] → 1 ≤ maxBatches)
    (hperm : (env.sortSlice allHooks).Perm allHooks) :
    ((∃ m, getHooksIn env settings w rootDir hooksDir addInternalIgnores hookNamespace
          readNamespace = .error m) ↔
        (settings.SkipUntrustedHooks = false ∧
          ∃ hook ∈ allHooks, hook.Active = true ∧ hook.Trusted = false)) ∧
      (∀ m, getHooksIn env settings w rootDir hooksDir addInternalIgnores hookNamespace
          readNamespace = .error m →
        ∃ hook ∈ allHooks, hook.Active = true ∧ hook.Trusted = false ∧
          m = untrustedFatal hook.NamespacePath ∧
          List.IsInfix hook.NamespacePath.data m.data) ∧
      (settings.SkipUntrustedHooks = true →
        ∃ batches w1, getHooksIn env settings w rootDir hooksDir addInternalIgnores
            hookNamespace readNamespace = .ok (batches, w1) ∧
          ∀ hook ∈ allHooks, hook.Active = true → hook.Trusted = false →
            ∀ b ∈ batches, hook ∉ b) := by
  have hEq := getHooksIn_eq env settings w rootDir hooksDir addInternalIgnores hookNamespace
    readNamespace allHooks maxBatches henum
  by_cases hne : allHooks = []
  · subst hne
    rw [hEq, getHooksIn_batches_nil]
    refine ⟨⟨?_, ?_⟩, ?_, ?_⟩
    · rintro ⟨m, hm⟩; cases hm
    · rintro ⟨_, k, hk, _⟩; simp at hk
    · intro m hm; cases hm
    · intro _; exact ⟨[], w, rfl, by intro k hk; simp at hk⟩
  · have hp := sortedHooks_perm env allHooks hperm
    cases hs : sortedHooks env allHooks with
    | nil =>
      rw [hs] at hp
      exact absurd (List.Perm.eq_nil hp.symm) hne
    | cons h0 t =>
      have hB := getHooksIn_batches_eq env settings w allHooks maxBatches h0 t hne (hmax hne) hs
      rw [hni] at hB
      rw [hEq, hB]
      have hmemiff : ∀ k, k ∈ h0 :: t ↔ k ∈ allHooks := by
        intro k; rw [← hs]; exact hp.mem_iff
      cases hskip : settings.SkipUntrustedHooks with
      | true =>
        obtain ⟨w1, hw1⟩ := gateAll_nonInteractive_skip env (h0 :: t) w
        rw [hw1]
        refine ⟨⟨?_, ?_⟩, ?_, ?_⟩
        · rintro ⟨m, hm⟩; simp [Except.map] at hm
        · rintro ⟨hf, _⟩; cases hf
        · intro m hm; simp [Except.map] at hm
        · intro _
          refine ⟨_, w1, rfl, ?_⟩
          intro hook _ _ hT b hb hmem
          have hfl : hook ∈ (splitBatches ((h0 :: t).filter Hook.kept) [[]]
              h0.BatchName).flatten := List.mem_flatten.mpr ⟨b, hb, hmem⟩
          rw [splitBatches_flatten_start, List.mem_filter] at hfl
          have := hfl.2
          simp [Hook.kept, hT] at this
      | false =>
        rcases gateAll_nonInteractive_fatal env (h0 :: t) w with ⟨h1, h2⟩ | ⟨k, hk, hk1, hk2, hk3⟩
        · rw [h2]
          refine ⟨⟨?_, ?_⟩, ?_, ?_⟩
          · rintro ⟨m, hm⟩; simp [Except.map] at hm
          · rintro ⟨_, k, hk, hk1, hk2⟩
            exact absurd ⟨hk1, hk2⟩ (h1 k ((hmemiff k).mpr hk))
          · intro m hm; simp [Except.map] at hm
          · intro hf; cases hf
        · rw [hk3]
          refine ⟨⟨?_, ?_⟩, ?_, ?_⟩
          · intro _
            exact ⟨rfl, k, (hmemiff k).mp hk, hk1, hk2⟩
          · intro _
            exact ⟨_, rfl⟩
          · intro m hm
            simp only [Except.map, Except.error.injEq] at hm
            refine ⟨k, (hmemiff k).mp hk, hk1, hk2, hm.symm, ?_⟩
            rw [← hm]
            exact untrustedFatal_contains _
          · intro hf; cases hf

set_option maxRecDepth 8000 in
theorem getHooksIn_nonInteractive_fatal_witness :
    getHooksIn s1Env { NonInteractive := true } {} "" "" false "" false
        = .error (untrustedFatal "ns/b") ∧
      ((∃ m, getHooksIn s1Env { NonInteractive := true } {} "" "" false "" false = .error m) ↔
        (({ NonInteractive := true } : HookSettings).SkipUntrustedHooks = false ∧
          ∃ hook ∈ s1Hooks, hook.Active = true ∧ hook.Trusted = false)) :=
  ⟨by decide,
    (getHooksIn_nonInteractive_fatal s1Env { NonInteractive := true } {} "" "" false "" false
      s1Hooks 2 rfl (by decide) (by decide) (by decide)).1⟩

/-! ## Theorems: `executeOldHook` -/

set_option maxRecDepth 8000 in
/-- C4 (the code departs from it): `executeOldHook` hands `SkipNonExistingSharedHooks`, not
`SkipUntrustedHooks`, to `failOrWarnOnActiveUntrusted`. Its result does not depend on
`SkipUntrustedHooks` at all; with skip-untrusted set the untrusted replaced hook is still
fatal, and with skip-untrusted unset it is skipped with a warning when the setting for
missing shared hooks is set. -/
theorem executeOldHook_skip_setting :
    (∀ (env : Env) (settings : HookSettings) (w : World) (skip : Bool),
        executeOldHook env { settings with SkipUntrustedHooks := skip } w
          = executeOldHook env settings w) ∧
      executeOldHook oldHookEnv
          { HookName := "pre-commit", NonInteractive := true, SkipUntrustedHooks := true } {}
        = .error (untrustedFatal "ns/pre-commit.replaced.githook") ∧
      executeOldHook oldHookEnv
          { HookName := "pre-commit", NonInteractive := true,
            SkipNonExistingSharedHooks := true } {}
        = .ok { warnings := [untrustedWarning "ns/pre-commit.replaced.githook"] } := by
  refine ⟨?_, by decide, by decide⟩
  intro env settings w skip
  rfl

/-! ## Theorems: accept-all -/

theorem showTrustPrompt_acceptAll (env : Env) (w : World) (hook : Hook)
    (hAll : w.uiSettings.AcceptAllChanges = true) (hUntrusted : hook.Trusted = false) :
    showTrustPrompt env w hook = stageAccept env w w.uiSettings hook := by
  rw [showTrustPrompt_eq env w hook hUntrusted, if_pos hAll]

theorem showTrustPromptAll_acceptAll (env : Env) (hooks : List Hook) :
    ∀ w : World, w.uiSettings.AcceptAllChanges = true →
      (∀ hook ∈ hooks, hook.Trusted = false) →
      (showTrustPromptAll env hooks w).1.uiSettings.PromptCtx = w.uiSettings.PromptCtx ∧
      (showTrustPromptAll env hooks w).1.uiSettings.AcceptAllChanges = true ∧
      (showTrustPromptAll env hooks w).1.uiSettings.TrustedHooks
        = w.uiSettings.TrustedHooks ++ hooks.map (acceptedEntry env) ∧
      (showTrustPromptAll env hooks w).1.checksums.Checksums
        = w.checksums.Checksums ++ hooks.map (fun h => (env.AssertSHA1 h, h.Path)) ∧
      (showTrustPromptAll env hooks w).1.uiSettings.DisabledHooks = w.uiSettings.DisabledHooks ∧
      (showTrustPromptAll env hooks w).2
        = hooks.map (fun h => { h with Trusted := true, SHA1 := env.AssertSHA1 h }) := by
  induction hooks with
  | nil => intro w hAll _; simp [showTrustPromptAll, hAll]
  | cons hook rest ih =>
    intro w hAll hU
    have h1 := showTrustPrompt_acceptAll env w hook hAll (hU hook (List.mem_cons_self _ _))
    have hrest : ∀ k ∈ rest, k.Trusted = false := fun k hk => hU k (List.mem_cons_of_mem _ hk)
    have hAll1 : (stageAccept env w w.uiSettings hook).1.uiSettings.AcceptAllChanges = true := by
      simp [stageAccept, hAll]
    obtain ⟨i1, i2, i3, i4, i5, i6⟩ := ih (stageAccept env w w.uiSettings hook).1 hAll1 hrest
    simp only [showTrustPromptAll, h1]
    refine ⟨?_, i2, ?_, ?_, ?_, ?_⟩
    · rw [i1]; simp [stageAccept]
    · rw [i3]; simp [stageAccept, acceptedEntry]
    · rw [i4]; simp [stageAccept]
    · rw [i5]; simp [stageAccept]
    · rw [i6]; simp [stageAccept]

/-- C11: once accept-all is set (a prompt was answered "a"), a call of `showTrustPrompt`
on an untrusted hook shows no question, marks the hook trusted, appends exactly one entry
for it to `TrustedHooks` and to the checksum store, and leaves accept-all set; and for
successive calls on `k` untrusted hooks of which the first prompt is answered "a", one
question is shown in all and `k` entries are staged, one per hook. -/
theorem showTrustPrompt_accept_all (env : Env) :
    (∀ (w : World) (hook : Hook), w.uiSettings.AcceptAllChanges = true →
        hook.Trusted = false →
        (showTrustPrompt env w hook).1.uiSettings.PromptCtx = w.uiSettings.PromptCtx ∧
        (showTrustPrompt env w hook).2.Trusted = true ∧
        (showTrustPrompt env w hook).1.uiSettings.TrustedHooks
          = w.uiSettings.TrustedHooks ++ [acceptedEntry env hook] ∧
        (showTrustPrompt env w hook).1.checksums.Checksums
          = w.checksums.Checksums ++ [(env.AssertSHA1 hook, hook.Path)] ∧
        (showTrustPrompt env w hook).1.uiSettings.AcceptAllChanges = true) ∧
    (∀ (w : World) (first : Hook) (rest : List Hook),
        w.uiSettings.AcceptAllChanges = false →
        (∀ hook ∈ first :: rest, hook.Trusted = false) →
        env.ShowOptions w.uiSettings.PromptCtx.Shown = "a" →
        (showTrustPromptAll env (first :: rest) w).1.uiSettings.PromptCtx.Shown
          = w.uiSettings.PromptCtx.Shown + 1 ∧
        (showTrustPromptAll env (first :: rest) w).1.uiSettings.TrustedHooks
          = w.uiSettings.TrustedHooks ++ (first :: rest).map (acceptedEntry env) ∧
        (showTrustPromptAll env (first :: rest) w).1.checksums.Checksums
          = w.checksums.Checksums ++
            (first :: rest).map (fun h => (env.AssertSHA1 h, h.Path)) ∧
        ((first :: rest).map (acceptedEntry env)).length = (first :: rest).length ∧
        ∀ hook ∈ (showTrustPromptAll env (first :: rest) w).2, hook.Trusted = true) := by
  constructor
  · intro w hook hAll hU
    rw [showTrustPrompt_acceptAll env w hook hAll hU]
    simp [stageAccept, acceptedEntry, hAll]
  · intro w first rest hAll hU hAns
    have hF : first.Trusted = false := hU first (List.mem_cons_self _ _)
    have hrest : ∀ k ∈ rest, k.Trusted = false := fun k hk => hU k (List.mem_cons_of_mem _ hk)
    have hAllF : ¬ (w.uiSettings.AcceptAllChanges = true) := by simp [hAll]
    have h1 : showTrustPrompt env w first
        = stageAccept env w { w.uiSettings.asked with AcceptAllChanges := true } first := by
      rw [showTrustPrompt_eq env w first hF, if_neg hAllF, if_pos hAns]
    have hAll1 : (stageAccept env w { w.uiSettings.asked with AcceptAllChanges := true }
        first).1.uiSettings.AcceptAllChanges = true := by
      simp [stageAccept]
    obtain ⟨i1, _, i3, i4, _, i6⟩ := showTrustPromptAll_acceptAll env rest
      (stageAccept env w { w.uiSettings.asked with AcceptAllChanges := true } first).1
      hAll1 hrest
    simp only [showTrustPromptAll, h1]
    refine ⟨?_, ?_, ?_, by simp, ?_⟩
    · rw [i1]; simp [stageAccept, UISettings.asked]
    · rw [i3]; simp [stageAccept, UISettings.asked, acceptedEntry]
    · rw [i4]; simp [stageAccept]
    · intro hook hh
      rcases List.mem_cons.mp hh with h2 | h2
      · rw [h2]; simp [stageAccept]
      · rw [i6] at h2
        obtain ⟨x, _, hx⟩ := List.mem_map.mp h2
        rw [← hx]

/-- Three untrusted hooks and the answer "a" to the first prompt (scenario S4): one
question, three staged entries. -/
theorem showTrustPrompt_accept_all_witness :
    (showTrustPromptAll (scriptedEnv ["a"] [] [] [])
        [mkHook "a" "01" false, mkHook "b" "01" false, mkHook "c" "02" false] {}).1
      = { uiSettings :=
            { AcceptAllChanges := true, PromptCtx := { Shown := 1 },
              TrustedHooks :=
                [{ SHA1 := "sha:a", Path := "a", NamespacePath := "ns/a" },
                 { SHA1 := "sha:b", Path := "b", NamespacePath := "ns/b" },
                 { SHA1 := "sha:c", Path := "c", NamespacePath := "ns/c" }] },
          checksums := { Checksums := [("sha:a", "a"), ("sha:b", "b"), ("sha:c", "c")] } } ∧
    (showTrustPromptAll (scriptedEnv ["a"] [] [] [])
        [mkHook "a" "01" false, mkHook "b" "01" false, mkHook "c" "02" false]
        {}).1.uiSettings.PromptCtx.Shown = ({} : World).uiSettings.PromptCtx.Shown + 1 :=
  ⟨by decide,
    ((showTrustPrompt_accept_all (scriptedEnv ["a"] [] [] [])).2 {} (mkHook "a" "01" false)
      [mkHook "b" "01" false, mkHook "c" "02" false] rfl (by decide) rfl).1⟩

/-! ## Theorems: `checkSharedHook` -/

theorem checkSharedHook_listed (senv : SharedEnv) (settings : HookSettings) (hook : SharedRepo)
    (allAddedHooks : List String) (sharedType : SharedHookType) (w : World)
    (h : hook.RepositoryDir ∈ allAddedHooks) :
    checkSharedHook senv settings hook allAddedHooks sharedType w =
      ({ w with warnings := w.warnings ++ [alreadyListedWarning hook.OriginalURL] },
        .ok false) := by
  simp [checkSharedHook, h]

theorem checkSharedHook_true_not_listed (senv : SharedEnv) (settings : HookSettings)
    (hook : SharedRepo) (allAddedHooks : List String) (sharedType : SharedHookType)
    (w w1 : World)
    (h : checkSharedHook senv settings hook allAddedHooks sharedType w = (w1, .ok true)) :
    hook.RepositoryDir ∉ allAddedHooks := by
  intro hl
  rw [checkSharedHook_listed senv settings hook allAddedHooks sharedType w hl] at h
  simp at h

/-- When `checkSharedHook` returns false, the loop goes on with the remaining sources. -/
theorem sharedHooksLoop_skip (senv : SharedEnv) (env : Env) (settings : HookSettings)
    (hook : SharedRepo) (allAddedHooks : List String) (sharedType : SharedHookType)
    (w : World)
    (h : (checkSharedHook senv settings hook allAddedHooks sharedType w).2 = .ok false)
    (rest : List SharedRepo) (hs : List (List Hook)) :
    sharedHooksLoop senv env settings sharedType (hook :: rest) hs allAddedHooks w
      = sharedHooksLoop senv env settings sharedType rest hs allAddedHooks
          (checkSharedHook senv settings hook allAddedHooks sharedType w).1 := by
  rcases hck : checkSharedHook senv settings hook allAddedHooks sharedType w with ⟨w1, r⟩
  rw [hck] at h
  simp only at h
  subst h
  simp [sharedHooksLoop, hck]

/-- C14 (amended): a cloned shared source whose recorded `remote.origin.url` differs from
the declared URL is never accepted by `checkSharedHook`. The check raises a fatal error if
and only if the source is not listed already, the event is not `reference-transaction`,
and skip-missing-shared is not set or the source is a local path that the repository's
shared list may not hold; in the remaining cases it only logs (a warning for a listed
directory, errors otherwise) and returns false, so that the loop goes on with the
remaining sources. -/
theorem checkSharedHook_url_mismatch (senv : SharedEnv) (env : Env) (settings : HookSettings)
    (hook : SharedRepo) (allAddedHooks : List String) (sharedType : SharedHookType)
    (w : World)
    (hcloned : hook.IsCloned = true)
    (hurl : senv.RemoteOriginURL hook.RepositoryDir ≠ hook.URL) :
    (checkSharedHook senv settings hook allAddedHooks sharedType w).2 ≠ .ok true ∧
      ((∃ m, (checkSharedHook senv settings hook allAddedHooks sharedType w).2 = .error m) ↔
        (hook.RepositoryDir ∉ allAddedHooks ∧ settings.HookName ≠ "reference-transaction" ∧
          (settings.SkipNonExistingSharedHooks = false ∨
            (!senv.AllowLocalURLInRepoSharedHooks &&
              decide (sharedType = SharedHookType.Repo) && hook.IsLocal) = true))) ∧
      ((¬ ∃ m, (checkSharedHook senv settings hook allAddedHooks sharedType w).2 = .error m) →
        (checkSharedHook senv settings hook allAddedHooks sharedType w).2 = .ok false ∧
        (hook.RepositoryDir ∉ allAddedHooks →
          w.errors.length
            < (checkSharedHook senv settings hook allAddedHooks sharedType w).1.errors.length) ∧
        ∀ (rest : List SharedRepo) (hs : List (List Hook)),
          sharedHooksLoop senv env settings sharedType (hook :: rest) hs allAddedHooks w
            = sharedHooksLoop senv env settings sharedType rest hs allAddedHooks
                (checkSharedHook senv settings hook allAddedHooks sharedType w).1) := by
  have hne : (checkSharedHook senv settings hook allAddedHooks sharedType w).2 ≠ .ok true := by
    by_cases hl : hook.RepositoryDir ∈ allAddedHooks
    · simp [checkSharedHook, hl]
    · cases hc : (!senv.AllowLocalURLInRepoSharedHooks &&
          decide (sharedType = SharedHookType.Repo) && hook.IsLocal) <;>
        cases he : (senv.IsPathExisting hook.RepositoryDir).1 <;>
        cases hs : settings.SkipNonExistingSharedHooks <;>
        by_cases hn : settings.HookName = "reference-transaction" <;>
        simp [checkSharedHook, errorOrPanicIfF, errorOrPanicF, hl, hc, he, hs, hn, hcloned, hurl]
  have hiff : (∃ m, (checkSharedHook senv settings hook allAddedHooks sharedType w).2
        = .error m) ↔
      (hook.RepositoryDir ∉ allAddedHooks ∧ settings.HookName ≠ "reference-transaction" ∧
        (settings.SkipNonExistingSharedHooks = false ∨
          (!senv.AllowLocalURLInRepoSharedHooks &&
            decide (sharedType = SharedHookType.Repo) && hook.IsLocal) = true)) := by
    by_cases hl : hook.RepositoryDir ∈ allAddedHooks
    · simp [checkSharedHook, hl]
    · cases hc : (!senv.AllowLocalURLInRepoSharedHooks &&
          decide (sharedType = SharedHookType.Repo) && hook.IsLocal) <;>
        cases he : (senv.IsPathExisting hook.RepositoryDir).1 <;>
        cases hs : settings.SkipNonExistingSharedHooks <;>
        by_cases hn : settings.HookName = "reference-transaction" <;>
        simp [checkSharedHook, errorOrPanicIfF, errorOrPanicF, hl, hc, he, hs, hn, hcloned, hurl]
  refine ⟨hne, hiff, ?_⟩
  intro hno
  have hfalse : (checkSharedHook senv settings hook allAddedHooks sharedType w).2
      = .ok false := by
    cases hr : (checkSharedHook senv settings hook allAddedHooks sharedType w).2 with
    | error m => exact absurd ⟨m, hr⟩ hno
    | ok b =>
      cases b with
      | false => rfl
      | true => exact absurd hr hne
  refine ⟨hfalse, ?_, fun rest hs =>
    sharedHooksLoop_skip senv env settings hook allAddedHooks sharedType w hfalse rest hs⟩
  intro hl
  rw [hiff] at hno
  cases hc : (!senv.AllowLocalURLInRepoSharedHooks &&
      decide (sharedType = SharedHookType.Repo) && hook.IsLocal) <;>
    cases he : (senv.IsPathExisting hook.RepositoryDir).1 <;>
    cases hs : settings.SkipNonExistingSharedHooks <;>
    by_cases hn : settings.HookName = "reference-transaction" <;>
    simp [hl, hc, hs, hn] at hno <;>
    simp [checkSharedHook, errorOrPanicIfF, errorOrPanicF, hl, hc, he, hs, hn, hcloned, hurl]

set_option maxRecDepth 8000 in
/-- Scenario S5: fatal for `pre-push`, an error and `false` for `reference-transaction`. -/
theorem checkSharedHook_url_mismatch_witness :
    (checkSharedHook s5Env { HookName := "pre-push" } (clonedSource "https://x" "/clones/x")
        [] SharedHookType.Repo {}).2 ≠ .ok true ∧
      (checkSharedHook s5Env { HookName := "pre-push" } (clonedSource "https://x" "/clones/x")
        [] SharedHookType.Repo {}).2
        = .error (urlMessage false "https://x" "https://other") ∧
      (checkSharedHook s5Env { HookName := "reference-transaction" }
        (clonedSource "https://x" "/clones/x") [] SharedHookType.Repo {}).2 = .ok false :=
  ⟨(checkSharedHook_url_mismatch s5Env (scriptedEnv [] [] [] []) { HookName := "pre-push" }
      (clonedSource "https://x" "/clones/x") [] SharedHookType.Repo {} rfl (by decide)).1,
    by decide, by decide⟩

set_option maxRecDepth 8000 in
/-- C14 (as stated) fails: a clone of a `file://` URL in the repository's shared list,
with another remote URL recorded, is fatal in a `pre-push` event although
skip-missing-shared is set: the check for local paths comes first and does not look at
that setting. And a source whose directory is listed already is turned away with a warning,
in a `pre-push` event without skip-missing-shared, before its URL is looked at. -/
theorem checkSharedHook_url_mismatch_counterexample :
    (localCloneSource "file:///srv/hooks.git" "/clones/x").IsCloned = true ∧
      s5Env.RemoteOriginURL (localCloneSource "file:///srv/hooks.git" "/clones/x").RepositoryDir
        ≠ (localCloneSource "file:///srv/hooks.git" "/clones/x").URL ∧
      ({ HookName := "pre-push", SkipNonExistingSharedHooks := true } :
        HookSettings).SkipNonExistingSharedHooks = true ∧
      checkSharedHook s5Env { HookName := "pre-push", SkipNonExistingSharedHooks := true }
          (localCloneSource "file:///srv/hooks.git" "/clones/x") [] SharedHookType.Repo {}
        = ({}, .error (localPathMessage ".githooks/.shared.yaml" "file:///srv/hooks.git")) ∧
      ({ HookName := "pre-push" } : HookSettings).SkipNonExistingSharedHooks = false ∧
      checkSharedHook s5Env { HookName := "pre-push" } (clonedSource "https://x" "/clones/x")
          ["/clones/x"] SharedHookType.Repo {}
        = ({ warnings := [alreadyListedWarning "https://x"] }, .ok false) := by
  decide

/-- C15 (amended): a shared source whose local directory does not exist is never accepted
by `checkSharedHook`. No fatal error is raised (the check logs and returns false) if and
only if the source is listed already, or the event is `reference-transaction`, or
skip-missing-shared is set and the source is not a local path that the repository's shared
list may not hold. -/
theorem checkSharedHook_missing_dir (senv : SharedEnv) (settings : HookSettings)
    (hook : SharedRepo) (allAddedHooks : List String) (sharedType : SharedHookType)
    (w : World)
    (hmissing : (senv.IsPathExisting hook.RepositoryDir).1 = false) :
    (checkSharedHook senv settings hook allAddedHooks sharedType w).2 ≠ .ok true ∧
      ((checkSharedHook senv settings hook allAddedHooks sharedType w).2 = .ok false ↔
        (hook.RepositoryDir ∈ allAddedHooks ∨ settings.HookName = "reference-transaction" ∨
          (settings.SkipNonExistingSharedHooks = true ∧
            (!senv.AllowLocalURLInRepoSharedHooks &&
              decide (sharedType = SharedHookType.Repo) && hook.IsLocal) = false))) ∧
      ((∃ m, (checkSharedHook senv settings hook allAddedHooks sharedType w).2 = .error m) ↔
        ¬ (hook.RepositoryDir ∈ allAddedHooks ∨ settings.HookName = "reference-transaction" ∨
          (settings.SkipNonExistingSharedHooks = true ∧
            (!senv.AllowLocalURLInRepoSharedHooks &&
              decide (sharedType = SharedHookType.Repo) && hook.IsLocal) = false))) := by
  refine ⟨?_, ?_, ?_⟩ <;>
    by_cases hl : hook.RepositoryDir ∈ allAddedHooks <;>
    cases hc : (!senv.AllowLocalURLInRepoSharedHooks &&
        decide (sharedType = SharedHookType.Repo) && hook.IsLocal) <;>
    cases hs : settings.SkipNonExistingSharedHooks <;>
    by_cases hn : settings.HookName = "reference-transaction" <;>
    simp [checkSharedHook, errorOrPanicIfF, errorOrPanicF, hl, hc, hmissing, hs, hn]

theorem checkSharedHook_missing_dir_witness :
    (checkSharedHook s5Env { HookName := "pre-push", SkipNonExistingSharedHooks := true }
        (clonedSource "https://y" "/clones/missing") [] SharedHookType.Local {}).2 ≠ .ok true ∧
      (checkSharedHook s5Env { HookName := "pre-push", SkipNonExistingSharedHooks := true }
        (clonedSource "https://y" "/clones/missing") [] SharedHookType.Local {}).2 = .ok false :=
  ⟨(checkSharedHook_missing_dir s5Env
      { HookName := "pre-push", SkipNonExistingSharedHooks := true }
      (clonedSource "https://y" "/clones/missing") [] SharedHookType.Local {} rfl).1,
    by decide⟩

set_option maxRecDepth 8000 in
/-- C15 (as stated) fails, both ways: in a `reference-transaction` event a missing
directory raises no fatal error although skip-missing-shared is not set; and in a
`pre-push` event a missing local path of the repository's shared list is fatal although
skip-missing-shared is set. A directory that is listed already is turned away with a
warning before the directory is looked for. -/
theorem checkSharedHook_missing_dir_counterexample :
    ({ HookName := "reference-transaction" } : HookSettings).SkipNonExistingSharedHooks = false ∧
      (s5Env.IsPathExisting (clonedSource "https://y" "/clones/missing").RepositoryDir).1
        = false ∧
      (checkSharedHook s5Env { HookName := "reference-transaction" }
        (clonedSource "https://y" "/clones/missing") [] SharedHookType.Local {}).2
        = .ok false ∧
      (s5Env.IsPathExisting (localSource "/local/missing").RepositoryDir).1 = false ∧
      (checkSharedHook s5Env { HookName := "pre-push", SkipNonExistingSharedHooks := true }
        (localSource "/local/missing") [] SharedHookType.Repo {}).2
        = .error (localPathMessage ".githooks/.shared.yaml" "/local/missing") ∧
      ({ HookName := "pre-push" } : HookSettings).SkipNonExistingSharedHooks = false ∧
      (checkSharedHook s5Env { HookName := "pre-push" }
        (clonedSource "https://y" "/clones/missing") ["/clones/missing"]
        SharedHookType.Local {}).2 = .ok false := by
  decide

set_option maxRecDepth 8000 in
/-- C13 (the code departs from it): for every event other than `reference-transaction`,
`checkSharedHook` never accepts a repository shared source that is a local path while
local paths are not allowed; in a `reference-transaction` event it logs the error and
then accepts the source, when the path exists. -/
theorem checkSharedHook_local_path :
    (∀ (senv : SharedEnv) (settings : HookSettings) (hook : SharedRepo)
        (allAddedHooks : List String) (w : World),
        settings.HookName ≠ "reference-transaction" →
        senv.AllowLocalURLInRepoSharedHooks = false → hook.IsLocal = true →
        (checkSharedHook senv settings hook allAddedHooks SharedHookType.Repo w).2 ≠ .ok true) ∧
      s5Env.AllowLocalURLInRepoSharedHooks = false ∧
      (localSource "/local/hooks").IsLocal = true ∧
      checkSharedHook s5Env { HookName := "reference-transaction" } (localSource "/local/hooks")
          [] SharedHookType.Repo {}
        = ({ errors := [localPathMessage ".githooks/.shared.yaml" "/local/hooks"] }, .ok true) := by
  refine ⟨?_, rfl, rfl, by decide⟩
  intro senv settings hook allAddedHooks w hn hallow hlocal
  by_cases hl : hook.RepositoryDir ∈ allAddedHooks
  · simp [checkSharedHook, hl]
  · simp [checkSharedHook, errorOrPanicIfF, errorOrPanicF, hl, hn, hallow, hlocal]

/-! ## Lemmas: the record of the calls of `getHooksInShared` -/

theorem showTrustPrompt_enumerated (env : Env) (w : World) (hook : Hook) :
    (showTrustPrompt env w hook).1.enumerated = w.enumerated := by
  by_cases hT : hook.Trusted = true
  · simp [showTrustPrompt, hT]
  · simp only [Bool.not_eq_true] at hT
    rw [showTrustPrompt_eq env w hook hT]
    split_ifs <;> simp [stageAccept, stageDisable, UISettings.asked]

theorem trustGate_enumerated (env : Env) (ni skip : Bool) (w : World) (hook : Hook)
    (r : World × Hook) (h : trustGate env ni skip w hook = .ok r) :
    r.1.enumerated = w.enumerated := by
  rw [trustGate_eq] at h
  have hf := showTrustPrompt_enumerated env w hook
  cases ni <;> split_ifs at h <;> cases h <;> first | exact hf | rfl

theorem trustGate_world_enumerated (env : Env) (ni skip : Bool) (w : World) (hook : Hook) :
    (trustGate_world env ni skip w hook).enumerated = w.enumerated := by
  unfold trustGate_world
  cases h : trustGate env ni skip w hook with
  | ok r => simpa using trustGate_enumerated env ni skip w hook r h
  | error m => cases ni <;> simp [showTrustPrompt_enumerated]

theorem getHooksIn_step_enumerated (env : Env) (settings : HookSettings) (s s1 : LoopState)
    (hook : Hook) (h : getHooksIn_step env settings s hook = .ok s1) :
    s1.world.enumerated = s.world.enumerated := by
  unfold getHooksIn_step at h
  cases hg : trustGate env settings.NonInteractive settings.SkipUntrustedHooks s.world hook with
  | error m => simp [hg] at h
  | ok r =>
    have hc := trustGate_enumerated _ _ _ _ _ _ hg
    simp only [hg] at h
    split_ifs at h <;> cases h <;> exact hc

theorem getHooksIn_loop_world_enumerated (env : Env) (settings : HookSettings)
    (hooks : List Hook) : ∀ s : LoopState,
    (getHooksIn_loop_world env settings hooks s).enumerated = s.world.enumerated := by
  induction hooks with
  | nil => intro s; rfl
  | cons hook rest ih =>
    intro s
    simp only [getHooksIn_loop_world]
    cases hs : getHooksIn_step env settings s hook with
    | error m => simpa using trustGate_world_enumerated _ _ _ _ _
    | ok s1 =>
      simp only
      rw [ih s1, getHooksIn_step_enumerated env settings s s1 hook hs]

theorem getHooksIn_world_enumerated (env : Env) (settings : HookSettings) (w : World)
    (rootDir hooksDir : String) (addInternalIgnores : Bool) (hookNamespace : String)
    (readNamespace : Bool) :
    (getHooksIn_world env settings w rootDir hooksDir addInternalIgnores hookNamespace
        readNamespace).enumerated = w.enumerated := by
  unfold getHooksIn_world
  cases getHooksIn_enumerate env settings w rootDir hooksDir addInternalIgnores hookNamespace
      readNamespace with
  | error m => rfl
  | ok r =>
    obtain ⟨allHooks, maxBatches⟩ := r
    simp only
    split_ifs
    · rfl
    · cases sortedHooks env allHooks with
      | nil => rfl
      | cons h0 t => simpa using getHooksIn_loop_world_enumerated env settings (h0 :: t) _

theorem getHooksInS_enumerated (env : Env) (settings : HookSettings) (w : World)
    (rootDir hooksDir : String) (addInternalIgnores : Bool) (hookNamespace : String)
    (readNamespace : Bool) :
    (getHooksInS env settings w rootDir hooksDir addInternalIgnores hookNamespace
        readNamespace).1.enumerated = w.enumerated := by
  simpa [getHooksInS] using getHooksIn_world_enumerated env settings w _ _ _ _ _

theorem errorOrPanicF_enumerated (isFatal : Bool) (err : Option String) (msg : String)
    (w : World) :
    (errorOrPanicF isFatal err msg w).1.enumerated = w.enumerated := by
  unfold errorOrPanicF
  cases isFatal <;> simp

theorem checkSharedHook_enumerated (senv : SharedEnv) (settings : HookSettings)
    (hook : SharedRepo) (allAddedHooks : List String) (sharedType : SharedHookType)
    (w : World) :
    (checkSharedHook senv settings hook allAddedHooks sharedType w).1.enumerated
      = w.enumerated := by
  unfold checkSharedHook errorOrPanicIfF errorOrPanicF
  simp only
  split_ifs <;> rfl

/-- Every call of `getHooksInShared` is put on record, once, whatever its outcome. -/
theorem getHooksInShared_enumerated (senv : SharedEnv) (env : Env) (settings : HookSettings)
    (w : World) (shRepo : SharedRepo) :
    (getHooksInShared senv env settings w shRepo).1.enumerated
      = w.enumerated ++ [shRepo.RepositoryDir] := by
  unfold getHooksInShared
  cases GetDefaultHooksNamespaceShared senv shRepo with
  | error m => rfl
  | ok ns => simp [getHooksInS_enumerated]

/-- The loop over the shared sources, whatever its outcome: the sources it hands to
`getHooksInShared` are sources of its list, in their order, none of a directory that is
listed already and no two of one directory; when the loop returns, the list of added
directories has grown by exactly these. -/
theorem sharedHooksLoop_enumerated (senv : SharedEnv) (env : Env) (settings : HookSettings)
    (sharedType : SharedHookType) (shared : List SharedRepo) :
    ∀ (hs : List (List Hook)) (allAddedHooks : List String) (w : World),
      allAddedHooks.Nodup →
      ∃ calls : List String,
        (sharedHooksLoop senv env settings sharedType shared hs allAddedHooks w).1.enumerated
          = w.enumerated ++ calls ∧
        List.Sublist calls (shared.map (fun r => r.RepositoryDir)) ∧
        (allAddedHooks ++ calls).Nodup ∧
        ∀ r, (sharedHooksLoop senv env settings sharedType shared hs allAddedHooks w).2 = .ok r →
          r.2 = allAddedHooks ++ calls := by
  induction shared with
  | nil =>
    intro hs allAddedHooks w hnd
    refine ⟨[], by simp [sharedHooksLoop], List.Sublist.refl _, by simpa using hnd, ?_⟩
    intro r hr
    simp only [sharedHooksLoop, Except.ok.injEq] at hr
    simp [← hr]
  | cons shRepo rest ih =>
    intro hs allAddedHooks w hnd
    have hce := checkSharedHook_enumerated senv settings shRepo allAddedHooks sharedType w
    rcases hck : checkSharedHook senv settings shRepo allAddedHooks sharedType w with ⟨wc, r⟩
    rw [hck] at hce
    simp only at hce
    cases r with
    | error m =>
      refine ⟨[], by simp [sharedHooksLoop, hck, hce], List.nil_sublist _, by simpa using hnd, ?_⟩
      intro r hr
      simp [sharedHooksLoop, hck] at hr
    | ok b =>
      cases b with
      | false =>
        obtain ⟨calls, h1, h2, h3, h4⟩ := ih hs allAddedHooks wc hnd
        refine ⟨calls, ?_, by simpa using h2.cons shRepo.RepositoryDir, h3, ?_⟩
        · simp only [sharedHooksLoop, hck]
          rw [h1, hce]
        · intro r hr
          simp only [sharedHooksLoop, hck] at hr
          exact h4 r hr
      | true =>
        have hnot := checkSharedHook_true_not_listed senv settings shRepo allAddedHooks
          sharedType w wc hck
        have hnd1 : (allAddedHooks ++ [shRepo.RepositoryDir]).Nodup := by
          rw [List.nodup_append]
          refine ⟨hnd, List.nodup_singleton _, ?_⟩
          intro x hx hy
          simp only [List.mem_singleton] at hy
          subst hy
          exact hnot hx
        have hge := getHooksInShared_enumerated senv env settings wc shRepo
        rcases hg : getHooksInShared senv env settings wc shRepo with ⟨wg, rg⟩
        rw [hg] at hge
        simp only at hge
        cases rg with
        | error m =>
          refine ⟨[shRepo.RepositoryDir], ?_, ?_, hnd1, ?_⟩
          · simp only [sharedHooksLoop, hck, hg]
            rw [hge, hce]
          · simp
          · intro r hr
            simp [sharedHooksLoop, hck, hg] at hr
        | ok batches =>
          obtain ⟨calls, h1, h2, h3, h4⟩ := ih (hs ++ batches)
            (allAddedHooks ++ [shRepo.RepositoryDir]) wg hnd1
          refine ⟨shRepo.RepositoryDir :: calls, ?_, ?_, ?_, ?_⟩
          · simp only [sharedHooksLoop, hck, hg]
            rw [h1, hge, hce]
            simp
          · simpa using h2.cons₂ shRepo.RepositoryDir
          · simpa using h3
          · intro r hr
            simp only [sharedHooksLoop, hck, hg] at hr
            rw [h4 r hr]
            simp

theorem getRepoSharedHooks_enumerated (senv : SharedEnv) (env : Env) (settings : HookSettings)
    (w : World) (allAddedHooks : List String) (hnd : allAddedHooks.Nodup) :
    ∃ calls : List String,
      (getRepoSharedHooks senv env settings w allAddedHooks).1.enumerated
        = w.enumerated ++ calls ∧
      List.Sublist calls (senv.LoadRepoSharedHooks.1.map (fun r => r.RepositoryDir)) ∧
      (allAddedHooks ++ calls).Nodup ∧
      ∀ r, (getRepoSharedHooks senv env settings w allAddedHooks).2 = .ok r →
        r.2 = allAddedHooks ++ calls := by
  unfold getRepoSharedHooks
  cases senv.LoadRepoSharedHooks.2 with
  | none => exact sharedHooksLoop_enumerated senv env settings _ _ _ _ w hnd
  | some e =>
    simp only
    have hc := errorOrPanicF_enumerated (!settings.SkipNonExistingSharedHooks) (some e)
      ("Repository shared hooks are demanded but failed to parse the file:\n\x27" ++
        senv.GetRepoSharedFile settings.RepositoryDir ++ "\x27") w
    rcases hl : errorOrPanicF (!settings.SkipNonExistingSharedHooks) (some e)
      ("Repository shared hooks are demanded but failed to parse the file:\n\x27" ++
        senv.GetRepoSharedFile settings.RepositoryDir ++ "\x27") w with ⟨w1, r⟩
    rw [hl] at hc
    simp only at hc
    cases r with
    | error m =>
      exact ⟨[], by simp [hc], List.nil_sublist _, by simpa using hnd, by intro r hr; simp at hr⟩
    | ok u =>
      simp only
      rw [← hc]
      exact sharedHooksLoop_enumerated senv env settings _ _ _ _ w1 hnd

theorem getConfigSharedHooks_enumerated (senv : SharedEnv) (env : Env)
    (settings : HookSettings) (w : World) (allAddedHooks : List String)
    (sharedType : SharedHookType) (hnd : allAddedHooks.Nodup) :
    ∃ calls : List String,
      (getConfigSharedHooks senv env settings w allAddedHooks sharedType).1.enumerated
        = w.enumerated ++ calls ∧
      List.Sublist calls
        ((loadConfigShared senv sharedType).1.map (fun r => r.RepositoryDir)) ∧
      (allAddedHooks ++ calls).Nodup ∧
      ∀ r, (getConfigSharedHooks senv env settings w allAddedHooks sharedType).2 = .ok r →
        r.2 = allAddedHooks ++ calls := by
  unfold getConfigSharedHooks
  simp only
  cases (loadConfigShared senv sharedType).2 with
  | none => exact sharedHooksLoop_enumerated senv env settings _ _ _ _ w hnd
  | some e =>
    simp only
    have hc := errorOrPanicF_enumerated (!settings.SkipNonExistingSharedHooks) (some e)
      ("Shared hooks are demanded but failed to parse the " ++
        GetSharedHookTypeString sharedType ++ " config:\n\x27" ++ senv.GitCKShared ++ "\x27") w
    rcases hl : errorOrPanicF (!settings.SkipNonExistingSharedHooks) (some e)
      ("Shared hooks are demanded but failed to parse the " ++
        GetSharedHookTypeString sharedType ++ " config:\n\x27" ++ senv.GitCKShared ++ "\x27")
      w with ⟨w1, r⟩
    rw [hl] at hc
    simp only at hc
    cases r with
    | error m =>
      exact ⟨[], by simp [hc], List.nil_sublist _, by simpa using hnd, by intro r hr; simp at hr⟩
    | ok u =>
      simp only
      rw [← hc]
      exact sharedHooksLoop_enumerated senv env settings _ _ _ _ w1 hnd


/-! ## Theorems: shared directories are added once -/

/-- A run of `collectHooks` that returns went through the four tiers in turn: the local
hooks, then the repository shared hooks, then the shared hooks of the local and of the
global configuration, each on the state and the list of added directories the one before
left. -/
theorem collectHooks_run_ok (senv : SharedEnv) (env : Env) (settings : HookSettings)
    (w w4 : World) (hooks : Hooks) (allAdded : List String)
    (h : collectHooks_run senv env settings w = (w4, .ok (hooks, allAdded))) :
    ∃ (w1 w2 w3 : World) (a2 a3 : List String),
      getHooksInS env settings w settings.RepositoryDir settings.RepositoryHooksDir
          false settings.HookNamespace false = (w1, .ok hooks.LocalHooks) ∧
      getRepoSharedHooks senv env settings w1 [] = (w2, .ok (hooks.RepoSharedHooks, a2)) ∧
      getConfigSharedHooks senv env settings w2 a2 SharedHookType.Local
        = (w3, .ok (hooks.LocalSharedHooks, a3)) ∧
      getConfigSharedHooks senv env settings w3 a3 SharedHookType.Global
        = (w4, .ok (hooks.GlobalSharedHooks, allAdded)) := by
  unfold collectHooks_run at h
  cases hn : senv.LoadNamespaceEnvs with
  | some e => simp [hn] at h
  | none =>
    simp only [hn] at h
    rcases h1 : getHooksInS env settings w settings.RepositoryDir settings.RepositoryHooksDir
        false settings.HookNamespace false with ⟨w1, r1⟩
    cases r1 with
    | error m => simp [h1] at h
    | ok localHooks =>
      simp only [h1] at h
      rcases h2 : getRepoSharedHooks senv env settings w1 [] with ⟨w2, r2⟩
      cases r2 with
      | error m => simp [h2] at h
      | ok p2 =>
        simp only [h2] at h
        rcases h3 : getConfigSharedHooks senv env settings w2 p2.2 SharedHookType.Local
          with ⟨w3, r3⟩
        cases r3 with
        | error m => simp [h3] at h
        | ok p3 =>
          simp only [h3] at h
          rcases h4 : getConfigSharedHooks senv env settings w3 p3.2 SharedHookType.Global
            with ⟨w5, r4⟩
          cases r4 with
          | error m => simp [h4] at h
          | ok p4 =>
            simp only [h4, Prod.mk.injEq, Except.ok.injEq] at h
            obtain ⟨hw, hh, ha⟩ := h
            subst hw hh ha
            exact ⟨w1, w2, w3, p2.2, p3.2, rfl, h2, h3, h4⟩

/-- C12: within one run of `collectHooks`, whatever its outcome, the shared sources handed
to `getHooksInShared` (on record in `World.enumerated`, by directory) are of pairwise
different directories: each directory is enumerated at most once. They are directories
of the declared sources, in tier order (repository shared, local configuration, global
configuration), and when the run returns they are exactly the list of already added
directories, which so has no duplicate. `checkSharedHook` rejects, with a warning, every
source whose directory is in the list already, and accepts none such, so that of the
sources with one directory only one, and none after it, is enumerated. -/
theorem collectHooks_shared_once (senv : SharedEnv) (env : Env) (settings : HookSettings)
    (w : World) :
    ∃ calls : List String,
      (collectHooks_run senv env settings w).1.enumerated = w.enumerated ++ calls ∧
      calls.Nodup ∧
      List.Sublist calls
        ((senv.LoadRepoSharedHooks.1 ++ senv.LoadConfigSharedHooksLocal.1 ++
          senv.LoadConfigSharedHooksGlobal.1).map (fun r => r.RepositoryDir)) ∧
      (∀ (hooks : Hooks) (allAdded : List String),
        (collectHooks_run senv env settings w).2 = .ok (hooks, allAdded) →
        allAdded = calls ∧ allAdded.Nodup) ∧
      (∀ (hook : SharedRepo) (added : List String) (sharedType : SharedHookType) (w2 : World),
        hook.RepositoryDir ∈ added →
        checkSharedHook senv settings hook added sharedType w2 =
          ({ w2 with warnings := w2.warnings ++ [alreadyListedWarning hook.OriginalURL] },
            .ok false)) ∧
      ∀ (hook : SharedRepo) (added : List String) (sharedType : SharedHookType)
        (w2 w3 : World),
        checkSharedHook senv settings hook added sharedType w2 = (w3, .ok true) →
        hook.RepositoryDir ∉ added := by
  have hrest : (∀ (hook : SharedRepo) (added : List String) (sharedType : SharedHookType)
        (w2 : World), hook.RepositoryDir ∈ added →
        checkSharedHook senv settings hook added sharedType w2 =
          ({ w2 with warnings := w2.warnings ++ [alreadyListedWarning hook.OriginalURL] },
            .ok false)) ∧
      ∀ (hook : SharedRepo) (added : List String) (sharedType : SharedHookType)
        (w2 w3 : World),
        checkSharedHook senv settings hook added sharedType w2 = (w3, .ok true) →
        hook.RepositoryDir ∉ added :=
    ⟨fun hook added sharedType w2 hm =>
        checkSharedHook_listed senv settings hook added sharedType w2 hm,
      fun hook added sharedType w2 w3 h =>
        checkSharedHook_true_not_listed senv settings hook added sharedType w2 w3 h⟩
  unfold collectHooks_run
  cases senv.LoadNamespaceEnvs with
  | some e =>
    exact ⟨[], by simp, List.nodup_nil, List.nil_sublist _, by intro a b h; simp at h, hrest⟩
  | none =>
    simp only
    have h1 := getHooksInS_enumerated env settings w settings.RepositoryDir
      settings.RepositoryHooksDir false settings.HookNamespace false
    rcases e1 : getHooksInS env settings w settings.RepositoryDir settings.RepositoryHooksDir
      false settings.HookNamespace false with ⟨w1, r1⟩
    rw [e1] at h1
    simp only at h1
    cases r1 with
    | error m =>
      exact ⟨[], by simp [h1], List.nodup_nil, List.nil_sublist _, by intro a b h; simp at h,
        hrest⟩
    | ok localHooks =>
      simp only
      obtain ⟨c2, h2, s2, n2, k2⟩ := getRepoSharedHooks_enumerated senv env settings w1 []
        List.nodup_nil
      rcases e2 : getRepoSharedHooks senv env settings w1 [] with ⟨w2, r2⟩
      rw [e2] at h2 k2
      simp only [List.nil_append] at h2 k2 n2
      cases r2 with
      | error m =>
        refine ⟨c2, by simp [h2, h1], n2, ?_, by intro a b h; simp at h, hrest⟩
        simp only [List.map_append, List.append_assoc]
        exact s2.trans (List.sublist_append_left _ _)
      | ok r2 =>
        simp only
        have hr2 := k2 r2 rfl
        obtain ⟨c3, h3, s3, n3, k3⟩ := getConfigSharedHooks_enumerated senv env settings w2
          r2.2 SharedHookType.Local (by rw [hr2]; exact n2)
        rcases e3 : getConfigSharedHooks senv env settings w2 r2.2 SharedHookType.Local
          with ⟨w3, r3⟩
        rw [e3] at h3 k3
        simp only at h3 k3
        rw [hr2] at n3 k3
        have s23 : List.Sublist (c2 ++ c3)
            ((senv.LoadRepoSharedHooks.1 ++ senv.LoadConfigSharedHooksLocal.1).map
              (fun r => r.RepositoryDir)) := by
          simp only [List.map_append]
          exact s2.append s3
        cases r3 with
        | error m =>
          refine ⟨c2 ++ c3, by simp [h3, h2, h1], n3, ?_, by intro a b h; simp at h, hrest⟩
          simp only [List.map_append] at s23 ⊢
          exact s23.trans (List.sublist_append_left _ _)
        | ok r3 =>
          simp only
          have hr3 := k3 r3 rfl
          obtain ⟨c4, h4, s4, n4, k4⟩ := getConfigSharedHooks_enumerated senv env settings w3
            r3.2 SharedHookType.Global (by rw [hr3]; exact n3)
          rcases e4 : getConfigSharedHooks senv env settings w3 r3.2 SharedHookType.Global
            with ⟨w4, r4⟩
          rw [e4] at h4 k4
          simp only at h4 k4
          rw [hr3] at n4 k4
          have s234 : List.Sublist (c2 ++ c3 ++ c4)
              ((senv.LoadRepoSharedHooks.1 ++ senv.LoadConfigSharedHooksLocal.1 ++
                senv.LoadConfigSharedHooksGlobal.1).map (fun r => r.RepositoryDir)) := by
            rw [List.map_append]
            exact s23.append s4
          cases r4 with
          | error m =>
            exact ⟨c2 ++ c3 ++ c4, by simp [h4, h3, h2, h1], n4, s234,
              by intro a b h; simp at h, hrest⟩
          | ok r4 =>
            refine ⟨c2 ++ c3 ++ c4, by simp [h4, h3, h2, h1], n4, s234, ?_, hrest⟩
            intro hooks allAdded h
            simp only [Except.ok.injEq, Prod.mk.injEq] at h
            have hr4 := k4 r4 rfl
            rw [← h.2, hr4]
            exact ⟨rfl, n4⟩

set_option maxRecDepth 8000 in
/-- Scenario S6: the directory `/clones/x` is declared twice, in the repository shared
list and in the local configuration; it is enumerated once, and the second source is
turned away with the warning. -/
theorem collectHooks_shared_once_example :
    collectHooks_run s6Shared s6Env s6Settings {}
      = ({ warnings := [alreadyListedWarning "https://x"], enumerated := ["/clones/x"] },
          .ok ({ LocalHooks := [[mkHook "a" "01" true]],
                 RepoSharedHooks := [[mkHook "s" "01" true]] }, ["/clones/x"])) := by
  decide

/-! ## Theorems: `logHookResults` -/

theorem foldl_append_start (l : List String) :
    ∀ a : String, l.foldl (fun r s => r ++ s) a = a ++ l.foldl (fun r s => r ++ s) "" := by
  induction l with
  | nil => intro a; simp
  | cons x xs ih =>
    intro a
    simp only [List.foldl_cons]
    rw [ih (a ++ x), ih ("" ++ x)]
    simp [String.append_assoc]

theorem join_cons (x : String) (xs : List String) :
    String.join (x :: xs) = x ++ String.join xs := by
  simp only [String.join, List.foldl_cons]
  rw [foldl_append_start xs ("" ++ x)]
  simp

theorem logHookResults_loop_spec (lit : String) (res : List HookResult) :
    ∀ (w : World) (hadErrors : Bool) (sb : String),
      (logHookResults_loop lit res w hadErrors sb).2.1
        = (hadErrors || res.any (fun r => r.Error.isSome)) ∧
      (logHookResults_loop lit res w hadErrors sb).2.2
        = sb ++ String.join ((res.filter (fun r => r.Error.isSome)).map
            (fun r => failedItem lit r.Hook.NamespacePath)) ∧
      (logHookResults_loop lit res w hadErrors sb).1.infoSink
        = w.infoSink ++ (res.filter (fun r => r.Error.isNone && decide (r.Output ≠ ""))).map
            (fun r => r.Output) ∧
      (logHookResults_loop lit res w hadErrors sb).1.errorSink
        = w.errorSink ++ (res.filter (fun r => r.Error.isSome && decide (r.Output ≠ ""))).map
            (fun r => r.Output) ∧
      (logHookResults_loop lit res w hadErrors sb).1.executed = w.executed ∧
      (logHookResults_loop lit res w hadErrors sb).1.uiSettings = w.uiSettings ∧
      (logHookResults_loop lit res w hadErrors sb).1.checksums = w.checksums ∧
      (logHookResults_loop lit res w hadErrors sb).1.warnings = w.warnings := by
  induction res with
  | nil => intro w hadErrors sb; simp [logHookResults_loop, String.join]
  | cons r rest ih =>
    intro w hadErrors sb
    cases he : r.Error with
    | none =>
      simp only [logHookResults_loop, he]
      obtain ⟨i1, i2, i3, i4, i5, i6, i7, i8⟩ := ih
        (if r.Output ≠ "" then { w with infoSink := w.infoSink ++ [r.Output] } else w)
        hadErrors sb
      refine ⟨?_, ?_, ?_, ?_, ?_, ?_, ?_, ?_⟩
      · rw [i1]; simp [he]
      · rw [i2]; simp [List.filter_cons, he]
      · rw [i3]
        by_cases ho : r.Output = "" <;> simp [List.filter_cons, he, ho]
      · rw [i4]
        by_cases ho : r.Output = "" <;> simp [List.filter_cons, he, ho]
      · rw [i5]; split_ifs <;> rfl
      · rw [i6]; split_ifs <;> rfl
      · rw [i7]; split_ifs <;> rfl
      · rw [i8]; split_ifs <;> rfl
    | some e =>
      simp only [logHookResults_loop, he]
      obtain ⟨i1, i2, i3, i4, i5, i6, i7, i8⟩ := ih
        { (if r.Output ≠ "" then { w with errorSink := w.errorSink ++ [r.Output] } else w) with
          errors := (if r.Output ≠ "" then { w with errorSink := w.errorSink ++ [r.Output] }
            else w).errors ++ [hookFailedLine r.Hook.Path e] }
        true (sb ++ failedItem lit r.Hook.NamespacePath)
      refine ⟨?_, ?_, ?_, ?_, ?_, ?_, ?_, ?_⟩
      · rw [i1]; simp [he]
      · rw [i2]; simp [List.filter_cons, he, join_cons, String.append_assoc]
      · rw [i3]
        by_cases ho : r.Output = "" <;> simp [List.filter_cons, he, ho]
      · rw [i4]
        by_cases ho : r.Output = "" <;> simp [List.filter_cons, he, ho]
      · rw [i5]; simp only []; split_ifs <;> rfl
      · rw [i6]; simp only []; split_ifs <;> rfl
      · rw [i7]; simp only []; split_ifs <;> rfl
      · rw [i8]; simp only []; split_ifs <;> rfl

/-- C18: `logHookResults` raises a fatal error if and only if at least one result has
an error; the message is the head followed by one item per failed hook, with its
namespace-path, in the order of the results, and by nothing else; the output of a
successful hook goes to the info sink and the output of a failed hook to the error
sink. -/
theorem logHookResults_fatal (lit : String) (res : List HookResult) (w : World) :
    ((∃ m, (logHookResults lit res w).2 = .error m) ↔ ∃ r ∈ res, r.Error ≠ none) ∧
      (∀ m, (logHookResults lit res w).2 = .error m →
        m = hooksFailedHead ++ String.join ((res.filter (fun r => r.Error.isSome)).map
          (fun r => failedItem lit r.Hook.NamespacePath))) ∧
      (logHookResults lit res w).1.infoSink
        = w.infoSink ++ (res.filter (fun r => r.Error.isNone && decide (r.Output ≠ ""))).map
            (fun r => r.Output) ∧
      (logHookResults lit res w).1.errorSink
        = w.errorSink ++ (res.filter (fun r => r.Error.isSome && decide (r.Output ≠ ""))).map
            (fun r => r.Output) := by
  obtain ⟨i1, i2, i3, i4, _⟩ := logHookResults_loop_spec lit res w false ""
  have hany : (res.any (fun r => r.Error.isSome) = true) ↔ ∃ r ∈ res, r.Error ≠ none := by
    simp only [List.any_eq_true, Option.isSome_iff_ne_none]
  unfold logHookResults
  rw [i1, Bool.false_or]
  by_cases ha : res.any (fun r => r.Error.isSome) = true
  · simp only [ha, if_true]
    refine ⟨⟨fun _ => hany.mp ha, fun _ => ⟨_, rfl⟩⟩, ?_, i3, i4⟩
    intro m hm
    simp only [Except.error.injEq] at hm
    rw [← hm, i2]
    simp
  · simp only [ha, if_false]
    refine ⟨⟨?_, fun h => absurd (hany.mpr h) ha⟩, ?_, i3, i4⟩
    · rintro ⟨m, hm⟩; cases hm
    · intro m hm; cases hm

/-! ## Theorems: `executeHooks` -/

theorem logHookResults_executed (lit : String) (res : List HookResult) (w : World) :
    (logHookResults lit res w).1.executed = w.executed := by
  obtain ⟨_, _, _, _, i5, _⟩ := logHookResults_loop_spec lit res w false ""
  unfold logHookResults
  split_ifs <;> exact i5

theorem logHookResults_result (lit : String) (res : List HookResult) (w : World) :
    (logHookResults lit res w).2 =
      if res.any (fun r => r.Error.isSome) = true then
        .error (hooksFailedHead ++ String.join ((res.filter (fun r => r.Error.isSome)).map
          (fun r => failedItem lit r.Hook.NamespacePath)))
      else .ok () := by
  obtain ⟨i1, i2, _⟩ := logHookResults_loop_spec lit res w false ""
  unfold logHookResults
  rw [i1, Bool.false_or]
  split_ifs
  · simp [i2]
  · rfl

/-- The hooks run by the executor's loop are those of a prefix of the batches, in their
order, and all of them when it returns. -/
theorem ExecuteHooksParallel_loop_executed (xenv : ExecEnv) (lit : String)
    (batches : List (List Hook)) :
    ∀ (res pending : List HookResult) (w : World),
      (∃ k, k ≤ batches.length ∧
        (ExecuteHooksParallel_loop xenv (logHookResults lit) batches res pending w).1.executed
          = w.executed ++ (batches.take k).flatten) ∧
      (∀ r, (ExecuteHooksParallel_loop xenv (logHookResults lit) batches res pending w).2
          = .ok r →
        (ExecuteHooksParallel_loop xenv (logHookResults lit) batches res pending w).1.executed
          = w.executed ++ batches.flatten) := by
  induction batches with
  | nil =>
    intro res pending w
    cases pending with
    | nil => exact ⟨⟨0, le_refl _, by simp [ExecuteHooksParallel_loop]⟩,
        by simp [ExecuteHooksParallel_loop]⟩
    | cons p ps =>
      have hex := logHookResults_executed lit (p :: ps) w
      rcases hcb : logHookResults lit (p :: ps) w with ⟨w1, r⟩
      rw [hcb] at hex
      simp only at hex
      cases r with
      | error m =>
        simp only [ExecuteHooksParallel_loop, hcb]
        exact ⟨⟨0, le_refl _, by simp [hex]⟩, by intro r hr; cases hr⟩
      | ok u =>
        simp only [ExecuteHooksParallel_loop, hcb]
        exact ⟨⟨0, le_refl _, by simp [hex]⟩, by intro r _; simp [hex]⟩
  | cons b rest ih =>
    intro res pending w
    by_cases hh : xenv.HandOver (pending ++ runBatch xenv b) = true
    · have hex := logHookResults_executed lit (pending ++ runBatch xenv b)
        { w with executed := w.executed ++ b }
      rcases hcb : logHookResults lit (pending ++ runBatch xenv b)
        { w with executed := w.executed ++ b } with ⟨w1, r⟩
      rw [hcb] at hex
      simp only at hex
      cases r with
      | error m =>
        simp only [ExecuteHooksParallel_loop, hh, if_true, hcb]
        exact ⟨⟨1, by simp, by simp [hex]⟩, by intro r hr; cases hr⟩
      | ok u =>
        simp only [ExecuteHooksParallel_loop, hh, if_true, hcb]
        obtain ⟨⟨k, hk1, hk⟩, hok⟩ := ih (res ++ runBatch xenv b) [] w1
        refine ⟨⟨k + 1, by simpa using hk1, ?_⟩, ?_⟩
        · rw [hk, hex]; simp
        · intro r hr
          rw [hok r hr, hex]; simp
    · simp only [ExecuteHooksParallel_loop, hh, Bool.false_eq_true, if_false]
      obtain ⟨⟨k, hk1, hk⟩, hok⟩ := ih (res ++ runBatch xenv b) (pending ++ runBatch xenv b)
        { w with executed := w.executed ++ b }
      refine ⟨⟨k + 1, by simpa using hk1, ?_⟩, ?_⟩
      · rw [hk]; simp
      · intro r hr
        rw [hok r hr]; simp

theorem take_flatten_mid {α : Type} (A B C : List (List α)) (k : Nat) (hk : k ≤ B.length) :
    ((A ++ B ++ C).take (A.length + k)).flatten = A.flatten ++ (B.take k).flatten := by
  rw [List.append_assoc, List.take_append_eq_append_take,
    List.take_of_length_le (Nat.le_add_right _ _), Nat.add_sub_cancel_left,
    List.take_append_of_le_length hk, List.flatten_append]

/-- C16: `executeHooks` hands the batches to the executor tier by tier, in the order
local, repository shared, local shared, global shared, whatever the batch labels: the
hooks run are always those of a prefix of the batches in that order, and all of them
when it returns; and a run of `collectHooks` that returns has filled the tiers in the
same order, each tier from the state the tier before left. -/
theorem executeHooks_tier_order (xenv : ExecEnv) (hs : Hooks) (w : World) :
    (∃ k, (executeHooks xenv hs w).1.executed
        = w.executed ++ ((hs.LocalHooks ++ hs.RepoSharedHooks ++ hs.LocalSharedHooks ++
            hs.GlobalSharedHooks).take k).flatten) ∧
      ((executeHooks xenv hs w).2 = .ok () →
        (executeHooks xenv hs w).1.executed
          = w.executed ++ (hs.LocalHooks.flatten ++ hs.RepoSharedHooks.flatten ++
              hs.LocalSharedHooks.flatten ++ hs.GlobalSharedHooks.flatten)) ∧
      (∀ (senv : SharedEnv) (env : Env) (settings : HookSettings) (w0 w4 : World)
          (hooks : Hooks), collectHooks senv env settings w0 = (w4, .ok hooks) →
        ∃ (w1 w2 w3 : World) (a2 a3 a4 : List String),
          getHooksInS env settings w0 settings.RepositoryDir settings.RepositoryHooksDir
              false settings.HookNamespace false = (w1, .ok hooks.LocalHooks) ∧
          getRepoSharedHooks senv env settings w1 [] = (w2, .ok (hooks.RepoSharedHooks, a2)) ∧
          getConfigSharedHooks senv env settings w2 a2 SharedHookType.Local
            = (w3, .ok (hooks.LocalSharedHooks, a3)) ∧
          getConfigSharedHooks senv env settings w3 a3 SharedHookType.Global
            = (w4, .ok (hooks.GlobalSharedHooks, a4))) := by
  have key : (∃ k, (executeHooks xenv hs w).1.executed
        = w.executed ++ ((hs.LocalHooks ++ hs.RepoSharedHooks ++ hs.LocalSharedHooks ++
            hs.GlobalSharedHooks).take k).flatten) ∧
      ((executeHooks xenv hs w).2 = .ok () →
        (executeHooks xenv hs w).1.executed
          = w.executed ++ (hs.LocalHooks.flatten ++ hs.RepoSharedHooks.flatten ++
              hs.LocalSharedHooks.flatten ++ hs.GlobalSharedHooks.flatten)) := by
    unfold executeHooks ExecuteHooksParallel
    cases hd : xenv.DumpError with
    | some e => exact ⟨⟨0, by simp⟩, by intro h; cases h⟩
    | none =>
      simp only
      obtain ⟨⟨k1, l1, x1⟩, o1⟩ := ExecuteHooksParallel_loop_executed xenv xenv.ListItemLiteral
        hs.LocalHooks [] [] w
      rcases e1 : ExecuteHooksParallel_loop xenv (logHookResults xenv.ListItemLiteral)
        hs.LocalHooks [] [] w with ⟨w1, r1⟩
      rw [e1] at x1 o1
      simp only at x1 o1
      cases r1 with
      | error m =>
        refine ⟨⟨k1, ?_⟩, by intro h; cases h⟩
        simp only
        rw [x1, List.append_assoc, List.append_assoc, List.take_append_of_le_length l1]
      | ok res1 =>
        simp only
        have y1 := o1 res1 rfl
        obtain ⟨⟨k2, l2, x2⟩, o2⟩ := ExecuteHooksParallel_loop_executed xenv
          xenv.ListItemLiteral hs.RepoSharedHooks res1 [] w1
        rcases e2 : ExecuteHooksParallel_loop xenv (logHookResults xenv.ListItemLiteral)
          hs.RepoSharedHooks res1 [] w1 with ⟨w2, r2⟩
        rw [e2] at x2 o2
        simp only at x2 o2
        cases r2 with
        | error m =>
          refine ⟨⟨hs.LocalHooks.length + k2, ?_⟩, by intro h; cases h⟩
          simp only
          have ht := take_flatten_mid hs.LocalHooks hs.RepoSharedHooks
            (hs.LocalSharedHooks ++ hs.GlobalSharedHooks) k2 l2
          simp only [List.append_assoc] at ht ⊢
          rw [x2, y1, ht]
          simp
        | ok res2 =>
          simp only
          have y2 := o2 res2 rfl
          obtain ⟨⟨k3, l3, x3⟩, o3⟩ := ExecuteHooksParallel_loop_executed xenv
            xenv.ListItemLiteral hs.LocalSharedHooks res2 [] w2
          rcases e3 : ExecuteHooksParallel_loop xenv (logHookResults xenv.ListItemLiteral)
            hs.LocalSharedHooks res2 [] w2 with ⟨w3, r3⟩
          rw [e3] at x3 o3
          simp only at x3 o3
          cases r3 with
          | error m =>
            refine ⟨⟨(hs.LocalHooks ++ hs.RepoSharedHooks).length + k3, ?_⟩,
              by intro h; cases h⟩
            simp only
            rw [x3, y2, y1, take_flatten_mid _ _ _ _ l3]
            simp
          | ok res3 =>
            simp only
            have y3 := o3 res3 rfl
            obtain ⟨⟨k4, l4, x4⟩, o4⟩ := ExecuteHooksParallel_loop_executed xenv
              xenv.ListItemLiteral hs.GlobalSharedHooks res3 [] w3
            rcases e4 : ExecuteHooksParallel_loop xenv (logHookResults xenv.ListItemLiteral)
              hs.GlobalSharedHooks res3 [] w3 with ⟨w4, r4⟩
            rw [e4] at x4 o4
            simp only at x4 o4
            cases r4 with
            | error m =>
              refine ⟨⟨(hs.LocalHooks ++ hs.RepoSharedHooks ++ hs.LocalSharedHooks).length
                + k4, ?_⟩, by intro h; cases h⟩
              simp only
              have ht := take_flatten_mid (hs.LocalHooks ++ hs.RepoSharedHooks ++
                hs.LocalSharedHooks) hs.GlobalSharedHooks [] k4 l4
              rw [List.append_nil] at ht
              rw [x4, y3, y2, y1, ht]
              simp
            | ok res4 =>
              have y4 := o4 res4 rfl
              refine ⟨⟨(hs.LocalHooks ++ hs.RepoSharedHooks ++ hs.LocalSharedHooks ++
                hs.GlobalSharedHooks).length, ?_⟩, ?_⟩
              · simp only
                rw [List.take_length, y4, y3, y2, y1]
                simp
              · intro _
                simp only
                rw [y4, y3, y2, y1]
                simp
  refine ⟨key.1, key.2, ?_⟩
  intro senv env settings w0 w4 hooks h
  unfold collectHooks at h
  rcases hrun : collectHooks_run senv env settings w0 with ⟨wr, r⟩
  rw [hrun] at h
  cases r with
  | error m => simp [Except.map] at h
  | ok p =>
    simp only [Except.map, Prod.mk.injEq, Except.ok.injEq] at h
    obtain ⟨hw, hp⟩ := h
    subst hw
    obtain ⟨hooks1, a4⟩ := p
    simp only at hp
    subst hp
    obtain ⟨w1, w2, w3, a2, a3, e1, e2, e3, e4⟩ := collectHooks_run_ok senv env settings
      w0 wr hooks1 a4 hrun
    exact ⟨w1, w2, w3, a2, a3, a4, e1, e2, e3, e4⟩

theorem executeHooks_tier_order_witness :
    (executeHooks (execEnvOf []) failingHooks {}).2 = .ok () ∧
      (executeHooks (execEnvOf []) failingHooks {}).1.executed
        = ({} : World).executed ++ (failingHooks.LocalHooks.flatten ++
            failingHooks.RepoSharedHooks.flatten ++ failingHooks.LocalSharedHooks.flatten ++
            failingHooks.GlobalSharedHooks.flatten) :=
  ⟨by decide, (executeHooks_tier_order (execEnvOf []) failingHooks {}).2.1 (by decide)⟩


theorem runBatch_ok (xenv : ExecEnv) (b : List Hook)
    (h : ∀ hook ∈ b, (xenv.RunHook hook).2 = none) :
    ∀ r ∈ runBatch xenv b, r.Error = none := by
  intro r hr
  simp only [runBatch, List.mem_map] at hr
  obtain ⟨hook, hh, hr⟩ := hr
  rw [← hr]
  exact h hook hh

theorem runBatch_failed (xenv : ExecEnv) (b : List Hook)
    (h : ∃ hook ∈ b, (xenv.RunHook hook).2 ≠ none) :
    (runBatch xenv b).any (fun r => r.Error.isSome) = true := by
  obtain ⟨hook, hh, hne⟩ := h
  simp only [runBatch, List.any_eq_true, List.mem_map]
  exact ⟨_, ⟨hook, hh, rfl⟩, by simpa [Option.isSome_iff_ne_none] using hne⟩

theorem runBatch_append (xenv : ExecEnv) (a b : List Hook) :
    runBatch xenv (a ++ b) = runBatch xenv a ++ runBatch xenv b := by
  simp [runBatch]

theorem any_failed_false (res : List HookResult) (h : ∀ r ∈ res, r.Error = none) :
    res.any (fun r => r.Error.isSome) = false := by
  rw [Bool.eq_false_iff]
  intro ha
  simp only [List.any_eq_true] at ha
  obtain ⟨r, hr, hs⟩ := ha
  simp [h r hr] at hs

theorem filter_failed_nil (res : List HookResult) (h : ∀ r ∈ res, r.Error = none) :
    res.filter (fun r => r.Error.isSome) = [] := by
  rw [List.filter_eq_nil_iff]
  intro r hr
  simp [h r hr]

/-- The message of `logHookResults` for the failed hooks among the results. -/
theorem failedMessage_eq (lit : String) (pending res : List HookResult)
    (h : ∀ r ∈ pending, r.Error = none) :
    ((pending ++ res).filter (fun r => r.Error.isSome)).map
        (fun r => failedItem lit r.Hook.NamespacePath)
      = (res.filter (fun r => r.Error.isSome)).map
          (fun r => failedItem lit r.Hook.NamespacePath) := by
  rw [List.filter_append, filter_failed_nil pending h, List.nil_append]

/-- The executor's loop while a failed result waits to be handed over: it runs some more
of the batches, then the callback panics with the failed hooks among the waiting
results and those of the batches run. -/
theorem ExecuteHooksParallel_loop_pending (xenv : ExecEnv) (lit : String)
    (post : List (List Hook)) :
    ∀ (res pending : List HookResult) (w : World),
      pending.any (fun r => r.Error.isSome) = true →
      ∃ k, k ≤ post.length ∧
        (ExecuteHooksParallel_loop xenv (logHookResults lit) post res pending w).2
          = .error (hooksFailedHead ++
              String.join (((pending ++ runBatch xenv (post.take k).flatten).filter
                (fun r => r.Error.isSome)).map
                (fun r => failedItem lit r.Hook.NamespacePath))) ∧
        (ExecuteHooksParallel_loop xenv (logHookResults lit) post res pending w).1.executed
          = w.executed ++ (post.take k).flatten := by
  induction post with
  | nil =>
    intro res pending w hp
    cases pending with
    | nil => simp at hp
    | cons p ps =>
      have hr := logHookResults_result lit (p :: ps) w
      have hex := logHookResults_executed lit (p :: ps) w
      rw [hp] at hr
      simp only [if_true] at hr
      rcases hcb : logHookResults lit (p :: ps) w with ⟨w1, r⟩
      rw [hcb] at hr hex
      simp only at hr hex
      subst hr
      refine ⟨0, le_refl _, ?_, ?_⟩
      · simp [ExecuteHooksParallel_loop, hcb, runBatch]
      · simp [ExecuteHooksParallel_loop, hcb, hex]
  | cons q rest ih =>
    intro res pending w hp
    have hp1 : (pending ++ runBatch xenv q).any (fun r => r.Error.isSome) = true := by
      rw [List.any_append, hp, Bool.true_or]
    by_cases hh : xenv.HandOver (pending ++ runBatch xenv q) = true
    · have hr := logHookResults_result lit (pending ++ runBatch xenv q)
        { w with executed := w.executed ++ q }
      have hex := logHookResults_executed lit (pending ++ runBatch xenv q)
        { w with executed := w.executed ++ q }
      rw [hp1] at hr
      simp only [if_true] at hr
      rcases hcb : logHookResults lit (pending ++ runBatch xenv q)
        { w with executed := w.executed ++ q } with ⟨w1, r⟩
      rw [hcb] at hr hex
      simp only at hr hex
      subst hr
      refine ⟨1, by simp, ?_, ?_⟩
      · simp [ExecuteHooksParallel_loop, hh, hcb]
      · simp [ExecuteHooksParallel_loop, hh, hcb, hex]
    · obtain ⟨k, hk, i1, i2⟩ := ih (res ++ runBatch xenv q) (pending ++ runBatch xenv q)
        { w with executed := w.executed ++ q } hp1
      refine ⟨k + 1, by simpa using hk, ?_, ?_⟩
      · simp only [ExecuteHooksParallel_loop, hh, Bool.false_eq_true, if_false]
        rw [i1]
        simp [runBatch_append]
      · simp only [ExecuteHooksParallel_loop, hh, Bool.false_eq_true, if_false]
        rw [i2]
        simp

/-- The executor's loop over batches whose hooks all succeed, with no failed result
waiting: every batch is run, and the loop returns. -/
theorem ExecuteHooksParallel_loop_ok (xenv : ExecEnv) (lit : String)
    (batches : List (List Hook))
    (hok : ∀ batch ∈ batches, ∀ hook ∈ batch, (xenv.RunHook hook).2 = none) :
    ∀ (res pending : List HookResult) (w : World),
      (∀ r ∈ pending, r.Error = none) →
      (ExecuteHooksParallel_loop xenv (logHookResults lit) batches res pending w).2
          = .ok (res ++ runBatch xenv batches.flatten) ∧
        (ExecuteHooksParallel_loop xenv (logHookResults lit) batches res pending w).1.executed
          = w.executed ++ batches.flatten := by
  induction batches with
  | nil =>
    intro res pending w hp
    cases pending with
    | nil => simp [ExecuteHooksParallel_loop, runBatch]
    | cons p ps =>
      have hr := logHookResults_result lit (p :: ps) w
      have hex := logHookResults_executed lit (p :: ps) w
      rw [any_failed_false _ hp] at hr
      simp only [Bool.false_eq_true, if_false] at hr
      rcases hcb : logHookResults lit (p :: ps) w with ⟨w1, r⟩
      rw [hcb] at hr hex
      simp only at hr hex
      subst hr
      simp [ExecuteHooksParallel_loop, hcb, hex, runBatch]
  | cons b rest ih =>
    intro res pending w hp
    have hb : ∀ r ∈ pending ++ runBatch xenv b, r.Error = none := by
      intro r hr
      rcases List.mem_append.mp hr with h | h
      · exact hp r h
      · exact runBatch_ok xenv b (hok b (List.mem_cons_self _ _)) r h
    have hrest : ∀ batch ∈ rest, ∀ hook ∈ batch, (xenv.RunHook hook).2 = none :=
      fun batch hm => hok batch (List.mem_cons_of_mem _ hm)
    by_cases hh : xenv.HandOver (pending ++ runBatch xenv b) = true
    · have hr := logHookResults_result lit (pending ++ runBatch xenv b)
        { w with executed := w.executed ++ b }
      have hex := logHookResults_executed lit (pending ++ runBatch xenv b)
        { w with executed := w.executed ++ b }
      rw [any_failed_false _ hb] at hr
      simp only [Bool.false_eq_true, if_false] at hr
      rcases hcb : logHookResults lit (pending ++ runBatch xenv b)
        { w with executed := w.executed ++ b } with ⟨w1, r⟩
      rw [hcb] at hr hex
      simp only at hr hex
      subst hr
      obtain ⟨i1, i2⟩ := ih hrest (res ++ runBatch xenv b) [] w1 (by simp)
      simp only [ExecuteHooksParallel_loop, hh, if_true, hcb]
      rw [i1, i2, hex]
      simp [runBatch_append]
    · obtain ⟨i1, i2⟩ := ih hrest (res ++ runBatch xenv b) (pending ++ runBatch xenv b)
        { w with executed := w.executed ++ b } hb
      simp only [ExecuteHooksParallel_loop, hh, Bool.false_eq_true, if_false]
      rw [i1, i2]
      simp [runBatch_append]

/-- The executor up to the first batch `b` with a failing hook: that batch is run in
full, then some of the batches after it, then the callback panics with the failed hooks
among those run from `b` on; when the results are handed over after every batch, no
batch after `b` is run. -/
theorem ExecuteHooksParallel_first_failure (xenv : ExecEnv) (lit : String)
    (b : List Hook) (post : List (List Hook))
    (hfail : ∃ hook ∈ b, (xenv.RunHook hook).2 ≠ none) (pre : List (List Hook))
    (hpre : ∀ batch ∈ pre, ∀ hook ∈ batch, (xenv.RunHook hook).2 = none) :
    ∀ (res pending : List HookResult) (w : World),
      (∀ r ∈ pending, r.Error = none) →
      ∃ k, k ≤ post.length ∧ ((∀ p, xenv.HandOver p = true) → k = 0) ∧
        (ExecuteHooksParallel_loop xenv (logHookResults lit) (pre ++ b :: post) res
            pending w).2
          = .error (hooksFailedHead ++
              String.join (((runBatch xenv (b ++ (post.take k).flatten)).filter
                (fun r => r.Error.isSome)).map
                (fun r => failedItem lit r.Hook.NamespacePath))) ∧
        (ExecuteHooksParallel_loop xenv (logHookResults lit) (pre ++ b :: post) res
            pending w).1.executed
          = w.executed ++ pre.flatten ++ b ++ (post.take k).flatten := by
  induction pre with
  | nil =>
    intro res pending w hp
    have hp1 : (pending ++ runBatch xenv b).any (fun r => r.Error.isSome) = true := by
      rw [List.any_append, runBatch_failed xenv b hfail, Bool.or_true]
    by_cases hh : xenv.HandOver (pending ++ runBatch xenv b) = true
    · have hr := logHookResults_result lit (pending ++ runBatch xenv b)
        { w with executed := w.executed ++ b }
      have hex := logHookResults_executed lit (pending ++ runBatch xenv b)
        { w with executed := w.executed ++ b }
      rw [hp1] at hr
      simp only [if_true] at hr
      rcases hcb : logHookResults lit (pending ++ runBatch xenv b)
        { w with executed := w.executed ++ b } with ⟨w1, r⟩
      rw [hcb] at hr hex
      simp only at hr hex
      subst hr
      refine ⟨0, Nat.zero_le _, fun _ => rfl, ?_, ?_⟩
      · simp only [List.nil_append, ExecuteHooksParallel_loop, hh, if_true, hcb,
          List.take_zero, List.flatten_nil, List.append_nil]
        rw [failedMessage_eq lit pending _ hp]
      · simp [ExecuteHooksParallel_loop, hh, hcb, hex]
    · obtain ⟨k, hk, i1, i2⟩ := ExecuteHooksParallel_loop_pending xenv lit post
        (res ++ runBatch xenv b) (pending ++ runBatch xenv b)
        { w with executed := w.executed ++ b } hp1
      refine ⟨k, hk, fun hall => absurd (hall _) hh, ?_, ?_⟩
      · simp only [List.nil_append, ExecuteHooksParallel_loop, hh, Bool.false_eq_true,
          if_false]
        rw [i1, List.append_assoc, failedMessage_eq lit pending _ hp, runBatch_append]
      · simp only [List.nil_append, ExecuteHooksParallel_loop, hh, Bool.false_eq_true,
          if_false]
        rw [i2]
        simp
  | cons p rest ih =>
    intro res pending w hp
    have hb : ∀ r ∈ pending ++ runBatch xenv p, r.Error = none := by
      intro r hr
      rcases List.mem_append.mp hr with h | h
      · exact hp r h
      · exact runBatch_ok xenv p (hpre p (List.mem_cons_self _ _)) r h
    have hrest : ∀ batch ∈ rest, ∀ hook ∈ batch, (xenv.RunHook hook).2 = none :=
      fun batch hm => hpre batch (List.mem_cons_of_mem _ hm)
    by_cases hh : xenv.HandOver (pending ++ runBatch xenv p) = true
    · have hr := logHookResults_result lit (pending ++ runBatch xenv p)
        { w with executed := w.executed ++ p }
      have hex := logHookResults_executed lit (pending ++ runBatch xenv p)
        { w with executed := w.executed ++ p }
      rw [any_failed_false _ hb] at hr
      simp only [Bool.false_eq_true, if_false] at hr
      rcases hcb : logHookResults lit (pending ++ runBatch xenv p)
        { w with executed := w.executed ++ p } with ⟨w1, r⟩
      rw [hcb] at hr hex
      simp only at hr hex
      subst hr
      obtain ⟨k, hk, h0, i1, i2⟩ := ih hrest (res ++ runBatch xenv p) [] w1 (by simp)
      refine ⟨k, hk, h0, ?_, ?_⟩
      · simp only [List.cons_append, ExecuteHooksParallel_loop, hh, if_true, hcb]
        exact i1
      · simp only [List.cons_append, ExecuteHooksParallel_loop, hh, if_true, hcb]
        exact i2.trans (by rw [hex]; simp)
    · obtain ⟨k, hk, h0, i1, i2⟩ := ih hrest (res ++ runBatch xenv p)
        (pending ++ runBatch xenv p) { w with executed := w.executed ++ p } hb
      refine ⟨k, hk, h0, ?_, ?_⟩
      · simp only [List.cons_append, ExecuteHooksParallel_loop, hh, Bool.false_eq_true,
          if_false]
        exact i1
      · simp only [List.cons_append, ExecuteHooksParallel_loop, hh, Bool.false_eq_true,
          if_false]
        exact i2.trans (by simp)


/-- C17 (amended): an execution failure does not preempt the other hooks of its batch,
but it ends the dispatch at the latest at the end of its tier. When the tiers before are
free of failures and the first batch with a failing hook is `b`, in a tier
`pre ++ b :: post`, then `executeHooks` runs all hooks of the tiers before, of the
batches `pre` and of `b`, and of some of the batches `post` of that tier (none of them
when the results are handed over after every batch); then `logHookResults` raises one
fatal condition that lists the failed hooks among those run from `b` on, and no hook of a
later tier is run. -/
theorem executeHooks_first_failure (xenv : ExecEnv) (hs : Hooks) (w : World)
    (early late : List (List (List Hook))) (pre : List (List Hook)) (b : List Hook)
    (post : List (List Hook))
    (hdump : xenv.DumpError = none)
    (htiers : [hs.LocalHooks, hs.RepoSharedHooks, hs.LocalSharedHooks, hs.GlobalSharedHooks]
      = early ++ (pre ++ b :: post) :: late)
    (hearly : ∀ tier ∈ early, ∀ batch ∈ tier, ∀ hook ∈ batch, (xenv.RunHook hook).2 = none)
    (hpre : ∀ batch ∈ pre, ∀ hook ∈ batch, (xenv.RunHook hook).2 = none)
    (hfail : ∃ hook ∈ b, (xenv.RunHook hook).2 ≠ none) :
    ∃ k, k ≤ post.length ∧ ((∀ p, xenv.HandOver p = true) → k = 0) ∧
      (executeHooks xenv hs w).2
        = .error (hooksFailedHead ++
            String.join (((runBatch xenv (b ++ (post.take k).flatten)).filter
              (fun r => r.Error.isSome)).map
              (fun r => failedItem xenv.ListItemLiteral r.Hook.NamespacePath))) ∧
      (executeHooks xenv hs w).1.executed
        = w.executed ++ early.flatten.flatten ++ pre.flatten ++ b ++ (post.take k).flatten := by
  obtain ⟨L, R, LS, G⟩ := hs
  simp only at htiers
  unfold executeHooks ExecuteHooksParallel
  simp only [hdump]
  rcases early with _ | ⟨e1, _ | ⟨e2, _ | ⟨e3, _ | ⟨e4, e5⟩⟩⟩⟩
  · simp only [List.nil_append, List.cons.injEq] at htiers
    obtain ⟨hL, _⟩ := htiers
    subst hL
    obtain ⟨k, hk, h0, i1, i2⟩ := ExecuteHooksParallel_first_failure xenv xenv.ListItemLiteral
      b post hfail pre hpre [] [] w (by simp)
    rcases q : ExecuteHooksParallel_loop xenv (logHookResults xenv.ListItemLiteral)
      (pre ++ b :: post) [] [] w with ⟨w1, r1⟩
    rw [q] at i1 i2
    simp only at i1 i2
    subst i1
    exact ⟨k, hk, h0, rfl, by simpa using i2⟩
  · simp only [List.cons_append, List.nil_append, List.cons.injEq] at htiers
    obtain ⟨hL, hR, _⟩ := htiers
    subst hL hR
    obtain ⟨r1, x1⟩ := ExecuteHooksParallel_loop_ok xenv xenv.ListItemLiteral L
      (hearly L (by simp)) [] [] w (by simp)
    rcases q1 : ExecuteHooksParallel_loop xenv (logHookResults xenv.ListItemLiteral) L [] [] w
      with ⟨w1, rr1⟩
    rw [q1] at r1 x1
    simp only at r1 x1
    subst r1
    simp only
    obtain ⟨k, hk, h0, i1, i2⟩ := ExecuteHooksParallel_first_failure xenv xenv.ListItemLiteral
      b post hfail pre hpre ([] ++ runBatch xenv L.flatten) [] w1 (by simp)
    rcases q : ExecuteHooksParallel_loop xenv (logHookResults xenv.ListItemLiteral)
      (pre ++ b :: post) ([] ++ runBatch xenv L.flatten) [] w1 with ⟨w2, r2⟩
    rw [q] at i1 i2
    simp only at i1 i2
    subst i1
    refine ⟨k, hk, h0, rfl, ?_⟩
    simp only
    rw [i2, x1]
    simp
  · simp only [List.cons_append, List.nil_append, List.cons.injEq] at htiers
    obtain ⟨hL, hR, hLS, _⟩ := htiers
    subst hL hR hLS
    obtain ⟨r1, x1⟩ := ExecuteHooksParallel_loop_ok xenv xenv.ListItemLiteral L
      (hearly L (by simp)) [] [] w (by simp)
    rcases q1 : ExecuteHooksParallel_loop xenv (logHookResults xenv.ListItemLiteral) L [] [] w
      with ⟨w1, rr1⟩
    rw [q1] at r1 x1
    simp only at r1 x1
    subst r1
    simp only
    obtain ⟨r2, x2⟩ := ExecuteHooksParallel_loop_ok xenv xenv.ListItemLiteral R
      (hearly R (by simp)) ([] ++ runBatch xenv L.flatten) [] w1 (by simp)
    rcases q2 : ExecuteHooksParallel_loop xenv (logHookResults xenv.ListItemLiteral) R
      ([] ++ runBatch xenv L.flatten) [] w1 with ⟨w2, rr2⟩
    rw [q2] at r2 x2
    simp only at r2 x2
    subst r2
    simp only
    obtain ⟨k, hk, h0, i1, i2⟩ := ExecuteHooksParallel_first_failure xenv xenv.ListItemLiteral
      b post hfail pre hpre ([] ++ runBatch xenv L.flatten ++ runBatch xenv R.flatten) [] w2
      (by simp)
    rcases q : ExecuteHooksParallel_loop xenv (logHookResults xenv.ListItemLiteral)
      (pre ++ b :: post) ([] ++ runBatch xenv L.flatten ++ runBatch xenv R.flatten) [] w2
      with ⟨w3, r3⟩
    rw [q] at i1 i2
    simp only at i1 i2
    subst i1
    refine ⟨k, hk, h0, rfl, ?_⟩
    simp only
    rw [i2, x2, x1]
    simp
  · simp only [List.cons_append, List.nil_append, List.cons.injEq] at htiers
    obtain ⟨hL, hR, hLS, hG, _⟩ := htiers
    subst hL hR hLS hG
    obtain ⟨r1, x1⟩ := ExecuteHooksParallel_loop_ok xenv xenv.ListItemLiteral L
      (hearly L (by simp)) [] [] w (by simp)
    rcases q1 : ExecuteHooksParallel_loop xenv (logHookResults xenv.ListItemLiteral) L [] [] w
      with ⟨w1, rr1⟩
    rw [q1] at r1 x1
    simp only at r1 x1
    subst r1
    simp only
    obtain ⟨r2, x2⟩ := ExecuteHooksParallel_loop_ok xenv xenv.ListItemLiteral R
      (hearly R (by simp)) ([] ++ runBatch xenv L.flatten) [] w1 (by simp)
    rcases q2 : ExecuteHooksParallel_loop xenv (logHookResults xenv.ListItemLiteral) R
      ([] ++ runBatch xenv L.flatten) [] w1 with ⟨w2, rr2⟩
    rw [q2] at r2 x2
    simp only at r2 x2
    subst r2
    simp only
    obtain ⟨r3, x3⟩ := ExecuteHooksParallel_loop_ok xenv xenv.ListItemLiteral LS
      (hearly LS (by simp)) ([] ++ runBatch xenv L.flatten ++ runBatch xenv R.flatten) [] w2
      (by simp)
    rcases q3 : ExecuteHooksParallel_loop xenv (logHookResults xenv.ListItemLiteral) LS
      ([] ++ runBatch xenv L.flatten ++ runBatch xenv R.flatten) [] w2 with ⟨w3, rr3⟩
    rw [q3] at r3 x3
    simp only at r3 x3
    subst r3
    simp only
    obtain ⟨k, hk, h0, i1, i2⟩ := ExecuteHooksParallel_first_failure xenv xenv.ListItemLiteral
      b post hfail pre hpre
      ([] ++ runBatch xenv L.flatten ++ runBatch xenv R.flatten ++ runBatch xenv LS.flatten)
      [] w3 (by simp)
    rcases q : ExecuteHooksParallel_loop xenv (logHookResults xenv.ListItemLiteral)
      (pre ++ b :: post)
      ([] ++ runBatch xenv L.flatten ++ runBatch xenv R.flatten ++ runBatch xenv LS.flatten)
      [] w3 with ⟨w4, r4⟩
    rw [q] at i1 i2
    simp only at i1 i2
    subst i1
    refine ⟨k, hk, h0, rfl, ?_⟩
    simp only
    rw [i2, x3, x2, x1]
    simp
  · simp at htiers

set_option maxRecDepth 8000 in
theorem executeHooks_first_failure_witness :
    ∃ k, k ≤ [[mkHook "c" "02" true]].length ∧
      ((∀ p, (execEnvOf ["a"]).HandOver p = true) → k = 0) ∧
      (executeHooks (execEnvOf ["a"]) failingHooks {}).2
        = .error (hooksFailedHead ++
            String.join (((runBatch (execEnvOf ["a"])
              ([mkHook "a" "01" true, mkHook "b" "01" true] ++
                ([[mkHook "c" "02" true]].take k).flatten)).filter
              (fun r => r.Error.isSome)).map
              (fun r => failedItem (execEnvOf ["a"]).ListItemLiteral r.Hook.NamespacePath))) ∧
      (executeHooks (execEnvOf ["a"]) failingHooks {}).1.executed
        = ({} : World).executed ++ ([] : List (List (List Hook))).flatten.flatten ++
            ([] : List (List Hook)).flatten ++ [mkHook "a" "01" true, mkHook "b" "01" true] ++
            ([[mkHook "c" "02" true]].take k).flatten :=
  executeHooks_first_failure (execEnvOf ["a"]) failingHooks {} []
    [[[mkHook "s" "01" true]], [], []] []
    [mkHook "a" "01" true, mkHook "b" "01" true] [[mkHook "c" "02" true]] rfl
    (by decide) (by decide) (by decide) (by decide)



set_option maxRecDepth 8000 in
/-- C17 (as stated) fails: when the hook `a` of the first local batch fails, the hook `s`
of the repository shared tier is not run, and the fatal condition is raised before that
tier is entered, however the executor hands the results to `logHookResults`: after
every batch (then the hook `c` of the next local batch is not run either), at the end of
the tier, or in any other way. -/
theorem executeHooks_short_circuit_counterexample :
    executeHooks (execEnvOf ["a"]) failingHooks {}
        = ({ executed := [mkHook "a" "01" true, mkHook "b" "01" true],
             errors := [hookFailedLine "a" "exit status 1"],
             infoSink := ["out:b"], errorSink := ["out:a"] },
            .error (hooksFailedHead ++ failedItem "•" "ns/a")) ∧
      executeHooks (execEnvWith ["a"] (fun _ => false)) failingHooks {}
        = ({ executed := [mkHook "a" "01" true, mkHook "b" "01" true, mkHook "c" "02" true],
             errors := [hookFailedLine "a" "exit status 1"],
             infoSink := ["out:b", "out:c"], errorSink := ["out:a"] },
            .error (hooksFailedHead ++ failedItem "•" "ns/a")) ∧
      ∀ handOver : List HookResult → Bool,
        (∃ m, (executeHooks (execEnvWith ["a"] handOver) failingHooks {}).2 = .error m) ∧
        mkHook "s" "01" true
          ∉ (executeHooks (execEnvWith ["a"] handOver) failingHooks {}).1.executed := by
  refine ⟨by decide, by decide, ?_⟩
  intro handOver
  have hfail : ∃ hook ∈ [mkHook "a" "01" true, mkHook "b" "01" true],
      ((execEnvWith ["a"] handOver).RunHook hook).2 ≠ none :=
    ⟨mkHook "a" "01" true, by simp, by simp [execEnvWith, mkHook]⟩
  obtain ⟨k, hk, _, i1, i2⟩ := ExecuteHooksParallel_first_failure (execEnvWith ["a"] handOver)
    (execEnvWith ["a"] handOver).ListItemLiteral [mkHook "a" "01" true, mkHook "b" "01" true]
    [[mkHook "c" "02" true]] hfail [] (by simp) [] [] {} (by simp)
  have hL : failingHooks.LocalHooks
      = [] ++ [mkHook "a" "01" true, mkHook "b" "01" true] :: [[mkHook "c" "02" true]] := rfl
  have hd : (execEnvWith ["a"] handOver).DumpError = none := rfl
  unfold executeHooks ExecuteHooksParallel
  simp only [hd, hL]
  rcases q : ExecuteHooksParallel_loop (execEnvWith ["a"] handOver)
    (logHookResults (execEnvWith ["a"] handOver).ListItemLiteral)
    ([] ++ [mkHook "a" "01" true, mkHook "b" "01" true] :: [[mkHook "c" "02" true]])
    [] [] {} with ⟨w1, r1⟩
  rw [q] at i1 i2
  simp only at i1 i2
  subst i1
  simp only
  refine ⟨⟨_, rfl⟩, ?_⟩
  rw [i2]
  have hk01 : k = 0 ∨ k = 1 := by
    simp only [List.length_singleton] at hk
    omega
  rcases hk01 with h | h <;> subst h <;> decide

/-! ## Lemmas: the state a panic leaves behind -/

theorem getHooksIn_loop_world_ok (env : Env) (settings : HookSettings) (hooks : List Hook) :
    ∀ s s1 : LoopState, getHooksIn_loop env settings hooks s = .ok s1 →
      getHooksIn_loop_world env settings hooks s = s1.world := by
  induction hooks with
  | nil =>
    intro s s1 h
    simp only [getHooksIn_loop] at h
    cases h
    rfl
  | cons hook rest ih =>
    intro s s1 h
    simp only [getHooksIn_loop] at h
    simp only [getHooksIn_loop_world]
    cases hs : getHooksIn_step env settings s hook with
    | error m => simp [hs] at h
    | ok s2 =>
      simp only [hs] at h
      exact ih s2 s1 h

/-- When `getHooksIn` returns, the state it returns is the state `getHooksIn_world`
gives. -/
theorem getHooksIn_world_ok (env : Env) (settings : HookSettings) (w : World)
    (rootDir hooksDir : String) (addInternalIgnores : Bool) (hookNamespace : String)
    (readNamespace : Bool) (r : List (List Hook) × World)
    (h : getHooksIn env settings w rootDir hooksDir addInternalIgnores hookNamespace
      readNamespace = .ok r) :
    getHooksIn_world env settings w rootDir hooksDir addInternalIgnores hookNamespace
      readNamespace = r.2 := by
  unfold getHooksIn at h
  unfold getHooksIn_world
  cases he : getHooksIn_enumerate env settings w rootDir hooksDir addInternalIgnores
      hookNamespace readNamespace with
  | error m => simp [he] at h
  | ok p =>
    obtain ⟨allHooks, maxBatches⟩ := p
    simp only [he] at h
    simp only
    unfold getHooksIn_batches at h
    cases allHooks with
    | nil =>
      simp only at h
      cases h
      simp [sortedHooks]
    | cons first others =>
      by_cases hmb : maxBatches < 1
      · simp [hmb] at h
      · have hs : (if (first :: others).length > 1 then env.sortSlice (first :: others)
            else first :: others) = sortedHooks env (first :: others) := rfl
        simp only [hmb, if_false, hs] at h
        simp only [hmb, if_false]
        cases hsorted : sortedHooks env (first :: others) with
        | nil => simp [hsorted] at h
        | cons h0 t =>
          simp only [hsorted] at h
          simp only
          cases hl : getHooksIn_loop env settings (h0 :: t)
              { batches := [[]], curBatchIdx := 0, curBatchName := h0.BatchName,
                world := w } with
          | error m => simp [hl] at h
          | ok s =>
            simp only [hl] at h
            cases h
            exact getHooksIn_loop_world_ok env settings (h0 :: t) _ s hl

/-! ## Lemmas: the prompt context stays open -/

theorem showTrustPrompt_closed (env : Env) (w : World) (hook : Hook) :
    (showTrustPrompt env w hook).1.uiSettings.PromptCtx.Closed
      = w.uiSettings.PromptCtx.Closed := by
  by_cases hT : hook.Trusted = true
  · simp [showTrustPrompt, hT]
  · simp only [Bool.not_eq_true] at hT
    rw [showTrustPrompt_eq env w hook hT]
    split_ifs <;> simp [stageAccept, stageDisable, UISettings.asked]

theorem trustGate_closed (env : Env) (ni skip : Bool) (w : World) (hook : Hook)
    (r : World × Hook) (h : trustGate env ni skip w hook = .ok r) :
    r.1.uiSettings.PromptCtx.Closed = w.uiSettings.PromptCtx.Closed := by
  rw [trustGate_eq] at h
  have hf := showTrustPrompt_closed env w hook
  cases ni <;> split_ifs at h <;> cases h <;> first | exact hf | rfl

theorem trustGate_world_closed (env : Env) (ni skip : Bool) (w : World) (hook : Hook) :
    (trustGate_world env ni skip w hook).uiSettings.PromptCtx.Closed
      = w.uiSettings.PromptCtx.Closed := by
  unfold trustGate_world
  cases h : trustGate env ni skip w hook with
  | ok r => simpa using trustGate_closed env ni skip w hook r h
  | error m => cases ni <;> simp [showTrustPrompt_closed]

theorem getHooksIn_step_closed (env : Env) (settings : HookSettings) (s s1 : LoopState)
    (hook : Hook) (h : getHooksIn_step env settings s hook = .ok s1) :
    s1.world.uiSettings.PromptCtx.Closed = s.world.uiSettings.PromptCtx.Closed := by
  unfold getHooksIn_step at h
  cases hg : trustGate env settings.NonInteractive settings.SkipUntrustedHooks s.world hook with
  | error m => simp [hg] at h
  | ok r =>
    have hc := trustGate_closed _ _ _ _ _ _ hg
    simp only [hg] at h
    split_ifs at h <;> cases h <;> exact hc

theorem getHooksIn_loop_world_closed (env : Env) (settings : HookSettings)
    (hooks : List Hook) : ∀ s : LoopState,
    (getHooksIn_loop_world env settings hooks s).uiSettings.PromptCtx.Closed
      = s.world.uiSettings.PromptCtx.Closed := by
  induction hooks with
  | nil => intro s; rfl
  | cons hook rest ih =>
    intro s
    simp only [getHooksIn_loop_world]
    cases hs : getHooksIn_step env settings s hook with
    | error m => simpa using trustGate_world_closed _ _ _ _ _
    | ok s1 =>
      simp only
      rw [ih s1, getHooksIn_step_closed env settings s s1 hook hs]

theorem getHooksIn_world_closed (env : Env) (settings : HookSettings) (w : World)
    (rootDir hooksDir : String) (addInternalIgnores : Bool) (hookNamespace : String)
    (readNamespace : Bool) :
    (getHooksIn_world env settings w rootDir hooksDir addInternalIgnores hookNamespace
        readNamespace).uiSettings.PromptCtx.Closed = w.uiSettings.PromptCtx.Closed := by
  unfold getHooksIn_world
  cases getHooksIn_enumerate env settings w rootDir hooksDir addInternalIgnores hookNamespace
      readNamespace with
  | error m => rfl
  | ok r =>
    obtain ⟨allHooks, maxBatches⟩ := r
    simp only
    split_ifs
    · rfl
    · cases sortedHooks env allHooks with
      | nil => rfl
      | cons h0 t => simpa using getHooksIn_loop_world_closed env settings (h0 :: t) _

theorem executeOldHook_closed (env : Env) (settings : HookSettings) (w w1 : World)
    (h : executeOldHook env settings w = .ok w1) :
    w1.uiSettings.PromptCtx.Closed = w.uiSettings.PromptCtx.Closed := by
  unfold executeOldHook at h
  simp only at h
  split at h
  · cases h
  · split at h
    · cases h
    · split at h
      · cases h; rfl
      · split at h
        · cases h
        · rename_i g hg
          have hc := trustGate_closed _ _ _ _ _ _ hg
          split_ifs at h
          · cases h; exact hc
          · split at h
            · cases h
            · cases h; exact hc

theorem executeOldHookS_closed (env : Env) (settings : HookSettings) (w : World) :
    (executeOldHookS env settings w).1.uiSettings.PromptCtx.Closed
      = w.uiSettings.PromptCtx.Closed := by
  unfold executeOldHookS
  cases h : executeOldHook env settings w with
  | ok w1 => simpa using executeOldHook_closed env settings w w1 h
  | error m =>
    simp only
    split
    · split
      · rename_i g hg
        simpa using trustGate_closed _ _ _ _ _ _ hg
      · simpa using trustGate_world_closed _ _ _ _ _
    · rfl


theorem errorOrPanicF_closed (isFatal : Bool) (err : Option String) (msg : String)
    (w : World) :
    (errorOrPanicF isFatal err msg w).1.uiSettings.PromptCtx.Closed
      = w.uiSettings.PromptCtx.Closed := by
  unfold errorOrPanicF
  cases isFatal <;> simp

theorem errorOrPanicIfF_closed (isFatal condition : Bool) (msg : String) (w : World) :
    (errorOrPanicIfF isFatal condition msg w).1.uiSettings.PromptCtx.Closed
      = w.uiSettings.PromptCtx.Closed := by
  unfold errorOrPanicIfF
  cases condition <;> simp [errorOrPanicF_closed]

theorem checkSharedHook_closed (senv : SharedEnv) (settings : HookSettings)
    (hook : SharedRepo) (allAddedHooks : List String) (sharedType : SharedHookType)
    (w : World) :
    (checkSharedHook senv settings hook allAddedHooks sharedType w).1.uiSettings.PromptCtx.Closed
      = w.uiSettings.PromptCtx.Closed := by
  unfold checkSharedHook errorOrPanicIfF errorOrPanicF
  simp only
  split_ifs <;> rfl

theorem getHooksInShared_closed (senv : SharedEnv) (env : Env) (settings : HookSettings)
    (w : World) (shRepo : SharedRepo) :
    (getHooksInShared senv env settings w shRepo).1.uiSettings.PromptCtx.Closed
      = w.uiSettings.PromptCtx.Closed := by
  unfold getHooksInShared
  cases GetDefaultHooksNamespaceShared senv shRepo with
  | error m => rfl
  | ok ns =>
    simpa [getHooksInS] using getHooksIn_world_closed env settings
      { w with enumerated := w.enumerated ++ [shRepo.RepositoryDir] } _ _ _ _ _

theorem sharedHooksLoop_closed (senv : SharedEnv) (env : Env) (settings : HookSettings)
    (sharedType : SharedHookType) (shared : List SharedRepo) :
    ∀ (hs : List (List Hook)) (allAddedHooks : List String) (w : World),
      (sharedHooksLoop senv env settings sharedType shared hs allAddedHooks
          w).1.uiSettings.PromptCtx.Closed = w.uiSettings.PromptCtx.Closed := by
  induction shared with
  | nil => intro hs added w; rfl
  | cons shRepo rest ih =>
    intro hs added w
    have hc := checkSharedHook_closed senv settings shRepo added sharedType w
    simp only [sharedHooksLoop]
    rcases hck : checkSharedHook senv settings shRepo added sharedType w with ⟨w1, r⟩
    rw [hck] at hc
    simp only at hc
    cases r with
    | error m => exact hc
    | ok b =>
      cases b with
      | false =>
        simp only
        rw [ih hs added w1, hc]
      | true =>
        simp only
        have hg := getHooksInShared_closed senv env settings w1 shRepo
        rcases hgs : getHooksInShared senv env settings w1 shRepo with ⟨w2, r2⟩
        rw [hgs] at hg
        simp only at hg
        cases r2 with
        | error m => exact hg.trans hc
        | ok batches =>
          simp only
          rw [ih, hg, hc]

theorem getRepoSharedHooks_closed (senv : SharedEnv) (env : Env) (settings : HookSettings)
    (w : World) (allAddedHooks : List String) :
    (getRepoSharedHooks senv env settings w allAddedHooks).1.uiSettings.PromptCtx.Closed
      = w.uiSettings.PromptCtx.Closed := by
  unfold getRepoSharedHooks
  cases senv.LoadRepoSharedHooks.2 with
  | none => exact sharedHooksLoop_closed senv env settings _ _ _ _ w
  | some e =>
    simp only
    have hc := errorOrPanicF_closed (!settings.SkipNonExistingSharedHooks) (some e)
      ("Repository shared hooks are demanded but failed to parse the file:\n\x27" ++
        senv.GetRepoSharedFile settings.RepositoryDir ++ "\x27") w
    rcases hl : errorOrPanicF (!settings.SkipNonExistingSharedHooks) (some e)
      ("Repository shared hooks are demanded but failed to parse the file:\n\x27" ++
        senv.GetRepoSharedFile settings.RepositoryDir ++ "\x27") w with ⟨w1, r⟩
    rw [hl] at hc
    simp only at hc
    cases r with
    | error m => exact hc
    | ok u =>
      simp only
      rw [sharedHooksLoop_closed, hc]

theorem getConfigSharedHooks_closed (senv : SharedEnv) (env : Env) (settings : HookSettings)
    (w : World) (allAddedHooks : List String) (sharedType : SharedHookType) :
    (getConfigSharedHooks senv env settings w allAddedHooks
        sharedType).1.uiSettings.PromptCtx.Closed = w.uiSettings.PromptCtx.Closed := by
  unfold getConfigSharedHooks
  simp only
  cases (loadConfigShared senv sharedType).2 with
  | none => exact sharedHooksLoop_closed senv env settings _ _ _ _ w
  | some e =>
    simp only
    have hc := errorOrPanicF_closed (!settings.SkipNonExistingSharedHooks) (some e)
      ("Shared hooks are demanded but failed to parse the " ++
        GetSharedHookTypeString sharedType ++ " config:\n\x27" ++ senv.GitCKShared ++ "\x27") w
    rcases hl : errorOrPanicF (!settings.SkipNonExistingSharedHooks) (some e)
      ("Shared hooks are demanded but failed to parse the " ++
        GetSharedHookTypeString sharedType ++ " config:\n\x27" ++ senv.GitCKShared ++ "\x27")
      w with ⟨w1, r⟩
    rw [hl] at hc
    simp only at hc
    cases r with
    | error m => exact hc
    | ok u =>
      simp only
      rw [sharedHooksLoop_closed, hc]


theorem collectHooks_closed (senv : SharedEnv) (env : Env) (settings : HookSettings)
    (w : World) :
    (collectHooks senv env settings w).1.uiSettings.PromptCtx.Closed
      = w.uiSettings.PromptCtx.Closed := by
  unfold collectHooks collectHooks_run
  simp only
  cases senv.LoadNamespaceEnvs with
  | some e => rfl
  | none =>
    simp only
    have h1 := getHooksIn_world_closed env settings w settings.RepositoryDir
      settings.RepositoryHooksDir false settings.HookNamespace false
    rcases e1 : getHooksInS env settings w settings.RepositoryDir settings.RepositoryHooksDir
      false settings.HookNamespace false with ⟨w1, r1⟩
    have e1w : w1 = getHooksIn_world env settings w settings.RepositoryDir
        settings.RepositoryHooksDir false settings.HookNamespace false := by
      simp only [getHooksInS, Prod.mk.injEq] at e1
      exact e1.1.symm
    rw [← e1w] at h1
    cases r1 with
    | error m => exact h1
    | ok localHooks =>
      simp only
      have h2 := getRepoSharedHooks_closed senv env settings w1 []
      rcases e2 : getRepoSharedHooks senv env settings w1 [] with ⟨w2, r2⟩
      rw [e2] at h2
      simp only at h2
      cases r2 with
      | error m => exact h2.trans h1
      | ok r2 =>
        simp only
        have h3 := getConfigSharedHooks_closed senv env settings w2 r2.2 SharedHookType.Local
        rcases e3 : getConfigSharedHooks senv env settings w2 r2.2 SharedHookType.Local
          with ⟨w3, r3⟩
        rw [e3] at h3
        simp only at h3
        cases r3 with
        | error m => exact h3.trans (h2.trans h1)
        | ok r3 =>
          simp only
          have h4 := getConfigSharedHooks_closed senv env settings w3 r3.2
            SharedHookType.Global
          rcases e4 : getConfigSharedHooks senv env settings w3 r3.2 SharedHookType.Global
            with ⟨w4, r4⟩
          rw [e4] at h4
          simp only at h4
          cases r4 with
          | error m => exact h4.trans (h3.trans (h2.trans h1))
          | ok r4 => exact h4.trans (h3.trans (h2.trans h1))

theorem logHookResults_loop_closed (lit : String) (res : List HookResult) :
    ∀ (w : World) (hadErrors : Bool) (sb : String),
      (logHookResults_loop lit res w hadErrors sb).1.uiSettings.PromptCtx.Closed
        = w.uiSettings.PromptCtx.Closed := by
  induction res with
  | nil => intro w hadErrors sb; rfl
  | cons r rest ih =>
    intro w hadErrors sb
    simp only [logHookResults_loop]
    cases r.Error with
    | none =>
      simp only
      rw [ih]
      split_ifs <;> rfl
    | some e =>
      simp only
      rw [ih]
      split_ifs <;> rfl

theorem logHookResults_closed (lit : String) (res : List HookResult) (w : World) :
    (logHookResults lit res w).1.uiSettings.PromptCtx.Closed
      = w.uiSettings.PromptCtx.Closed := by
  unfold logHookResults
  split_ifs <;> exact logHookResults_loop_closed lit res w false ""

theorem ExecuteHooksParallel_loop_closed (xenv : ExecEnv) (lit : String)
    (batches : List (List Hook)) :
    ∀ (res pending : List HookResult) (w : World),
      (ExecuteHooksParallel_loop xenv (logHookResults lit) batches res pending
          w).1.uiSettings.PromptCtx.Closed = w.uiSettings.PromptCtx.Closed := by
  induction batches with
  | nil =>
    intro res pending w
    cases pending with
    | nil => rfl
    | cons p ps =>
      simp only [ExecuteHooksParallel_loop]
      have hc := logHookResults_closed lit (p :: ps) w
      rcases hl : logHookResults lit (p :: ps) w with ⟨w1, r⟩
      rw [hl] at hc
      simp only at hc
      cases r with
      | error m => exact hc
      | ok u => exact hc
  | cons batch rest ih =>
    intro res pending w
    simp only [ExecuteHooksParallel_loop]
    by_cases hh : xenv.HandOver (pending ++ runBatch xenv batch) = true
    · simp only [hh, if_true]
      have hc := logHookResults_closed lit (pending ++ runBatch xenv batch)
        { w with executed := w.executed ++ batch }
      rcases hl : logHookResults lit (pending ++ runBatch xenv batch)
        { w with executed := w.executed ++ batch } with ⟨w1, r⟩
      rw [hl] at hc
      simp only at hc
      cases r with
      | error m => exact hc
      | ok u =>
        simp only
        rw [ih, hc]
    · simp only [hh, Bool.false_eq_true, if_false]
      rw [ih]

theorem ExecuteHooksParallel_closed (xenv : ExecEnv) (lit : String)
    (batches : List (List Hook)) (res : List HookResult) (w : World) :
    (ExecuteHooksParallel xenv (logHookResults lit) batches res
        w).1.uiSettings.PromptCtx.Closed = w.uiSettings.PromptCtx.Closed :=
  ExecuteHooksParallel_loop_closed xenv lit batches res [] w

theorem executeHooks_closed (xenv : ExecEnv) (hs : Hooks) (w : World) :
    (executeHooks xenv hs w).1.uiSettings.PromptCtx.Closed
      = w.uiSettings.PromptCtx.Closed := by
  unfold executeHooks
  cases xenv.DumpError with
  | some e => rfl
  | none =>
    simp only
    have h1 := ExecuteHooksParallel_closed xenv xenv.ListItemLiteral hs.LocalHooks [] w
    rcases e1 : ExecuteHooksParallel xenv (logHookResults xenv.ListItemLiteral)
      hs.LocalHooks [] w with ⟨w1, r1⟩
    rw [e1] at h1
    simp only at h1
    cases r1 with
    | error m => exact h1
    | ok results1 =>
      simp only
      have h2 := ExecuteHooksParallel_closed xenv xenv.ListItemLiteral hs.RepoSharedHooks
        results1 w1
      rcases e2 : ExecuteHooksParallel xenv (logHookResults xenv.ListItemLiteral)
        hs.RepoSharedHooks results1 w1 with ⟨w2, r2⟩
      rw [e2] at h2
      simp only at h2
      cases r2 with
      | error m => exact h2.trans h1
      | ok results2 =>
        simp only
        have h3 := ExecuteHooksParallel_closed xenv xenv.ListItemLiteral hs.LocalSharedHooks
          results2 w2
        rcases e3 : ExecuteHooksParallel xenv (logHookResults xenv.ListItemLiteral)
          hs.LocalSharedHooks results2 w2 with ⟨w3, r3⟩
        rw [e3] at h3
        simp only at h3
        cases r3 with
        | error m => exact h3.trans (h2.trans h1)
        | ok results3 =>
          simp only
          have h4 := ExecuteHooksParallel_closed xenv xenv.ListItemLiteral
            hs.GlobalSharedHooks results3 w3
          rcases e4 : ExecuteHooksParallel xenv (logHookResults xenv.ListItemLiteral)
            hs.GlobalSharedHooks results3 w3 with ⟨w4, r4⟩
          rw [e4] at h4
          simp only at h4
          cases r4 with
          | error m => exact h4.trans (h3.trans (h2.trans h1))
          | ok u => exact h4.trans (h3.trans (h2.trans h1))

/-- The prompt context after the statements of `mainRun` that follow the deferred
`storePendingData`: closed by them exactly when Githooks is enabled and none of them
panics. -/
theorem mainRun_body_closed (menv : MainEnv) (senv : SharedEnv) (env : Env) (xenv : ExecEnv)
    (settings : HookSettings) (w : World)
    (hupd : ∀ w0 : World, (menv.updateGithooks w0).uiSettings.PromptCtx.Closed
      = w0.uiSettings.PromptCtx.Closed) :
    (mainRun_body menv senv env xenv settings w).1.uiSettings.PromptCtx.Closed
      = (w.uiSettings.PromptCtx.Closed ||
          (!settings.Disabled &&
            (panicOf (mainRun_body menv senv env xenv settings w)).isNone)) := by
  unfold mainRun_body
  by_cases hd : settings.Disabled = true
  · simp only [hd, if_true]
    cases menv.executeLFSHooks with
    | some m => simp
    | none => simp [executeOldHookS_closed]
  · simp only [hd, if_false]
    simp only [Bool.not_eq_true] at hd
    cases menv.executeLFSHooks with
    | some m => simp [hupd, panicOf]
    | none =>
      simp only
      have h1 := executeOldHookS_closed env settings (menv.updateGithooks w)
      rw [hupd] at h1
      rcases e1 : executeOldHookS env settings (menv.updateGithooks w) with ⟨w1, r1⟩
      rw [e1] at h1
      simp only at h1
      cases r1 with
      | error m => simp [h1, panicOf]
      | ok u1 =>
        simp only
        have h2 := collectHooks_closed senv env settings w1
        rcases e2 : collectHooks senv env settings w1 with ⟨w2, r2⟩
        rw [e2] at h2
        simp only at h2
        cases r2 with
        | error m => simp [h2, h1, panicOf]
        | ok hooks =>
          simp only
          have h3 := executeHooks_closed xenv hooks w2
          rcases e3 : executeHooks xenv hooks w2 with ⟨w3, r3⟩
          rw [e3] at h3
          simp only at h3
          cases r3 with
          | error m => simp [h3, h2, h1, panicOf]
          | ok u3 => simp [hd, panicOf]

/-! ## Theorems: `mainRun` -/

theorem mainRun_body_panics (menv : MainEnv) (senv : SharedEnv) (env : Env) (xenv : ExecEnv)
    (settings : HookSettings) (w w1 : World) (hd : settings.Disabled = false)
    (hlfs : menv.executeLFSHooks = none)
    (hold : executeOldHookS env settings (menv.updateGithooks w) = (w1, .ok ())) :
    (∀ w0 m, collectHooks senv env settings w1 = (w0, .error m) →
        mainRun_body menv senv env xenv settings w = (w0, .error m)) ∧
      (∀ w2 hooks w0 m, collectHooks senv env settings w1 = (w2, .ok hooks) →
        executeHooks xenv hooks w2 = (w0, .error m) →
        mainRun_body menv senv env xenv settings w = (w0, .error m)) ∧
      (∀ w2 hooks w3, collectHooks senv env settings w1 = (w2, .ok hooks) →
        executeHooks xenv hooks w2 = (w3, .ok ()) →
        (mainRun_body menv senv env xenv settings w).2 = .ok ()) := by
  refine ⟨?_, ?_, ?_⟩
  · intro w0 m hc
    simp [mainRun_body, hd, hlfs, hold, hc]
  · intro w2 hooks w0 m hc hx
    simp [mainRun_body, hd, hlfs, hold, hc, hx]
  · intro w2 hooks w3 hc hx
    simp [mainRun_body, hd, hlfs, hold, hc, hx]

/-- C19: once `createLog()` has returned, `mainRun` returns an exit code. The code is 1
exactly when a panic was raised after the recover handler was installed, and 0 exactly when
none was: a failing `os.Getwd`, a panic of `setupSettings` or of `assertRegistered`, and a
panic of the statements after the stores are loaded each give 1; among the latter, for an
enabled run, are the panic of `collectHooks` (the untrusted-hook fatal) and the panic of
`executeHooks` (the aggregated hook failure). -/
theorem mainRun_exit_code (menv : MainEnv) (senv : SharedEnv) (env : Env) (xenv : ExecEnv)
    (hlog : menv.createLog = none) :
    ∃ res, mainRun menv senv env xenv = .ok res ∧
      (res.exitCode = 1 ↔ res.recovered ≠ none) ∧
      (res.exitCode = 0 ↔ res.recovered = none) ∧
      (menv.Getwd ≠ none → res.exitCode = 1) ∧
      (menv.Getwd = none → ∀ m, menv.setupSettings = .error m →
        res.recovered = some m ∧ res.exitCode = 1) ∧
      (menv.Getwd = none → ∀ su, menv.setupSettings = .ok su →
        (∀ m, menv.assertRegistered = some m → res.recovered = some m ∧ res.exitCode = 1) ∧
        (menv.assertRegistered = none →
          (∀ w0 m, mainRun_body menv senv env xenv (mainRun_settings menv su)
              (mainRun_start menv su) = (w0, .error m) →
            res.recovered = some m ∧ res.exitCode = 1) ∧
          (∀ w0, mainRun_body menv senv env xenv (mainRun_settings menv su)
              (mainRun_start menv su) = (w0, .ok ()) →
            res.recovered = none ∧ res.exitCode = 0) ∧
          ((mainRun_settings menv su).Disabled = false → menv.executeLFSHooks = none →
            ∀ w1, executeOldHookS env (mainRun_settings menv su)
                (menv.updateGithooks (mainRun_start menv su)) = (w1, .ok ()) →
              (∀ w0 m, collectHooks senv env (mainRun_settings menv su) w1 = (w0, .error m) →
                res.recovered = some m ∧ res.exitCode = 1) ∧
              (∀ w2 hooks w0 m,
                collectHooks senv env (mainRun_settings menv su) w1 = (w2, .ok hooks) →
                executeHooks xenv hooks w2 = (w0, .error m) →
                res.recovered = some m ∧ res.exitCode = 1) ∧
              (∀ w2 hooks w3,
                collectHooks senv env (mainRun_settings menv su) w1 = (w2, .ok hooks) →
                executeHooks xenv hooks w2 = (w3, .ok ()) →
                res.recovered = none ∧ res.exitCode = 0)))) := by
  unfold mainRun
  simp only [hlog]
  cases hwd : menv.Getwd with
  | some e => exact ⟨_, rfl, by simp [recoverExitCode, HandleCLIErrors]⟩
  | none =>
    cases hset : menv.setupSettings with
    | error m => exact ⟨_, rfl, by simp [recoverExitCode, HandleCLIErrors]⟩
    | ok su =>
      cases hreg : menv.assertRegistered with
      | some m => exact ⟨_, rfl, by simp [recoverExitCode, HandleCLIErrors]⟩
      | none =>
        refine ⟨_, rfl, ?_, ?_, by simp, by simp, ?_⟩
        · cases h : panicOf (mainRun_body menv senv env xenv (mainRun_settings menv su)
            (mainRun_start menv su)) <;> simp [recoverExitCode, HandleCLIErrors]
        · cases h : panicOf (mainRun_body menv senv env xenv (mainRun_settings menv su)
            (mainRun_start menv su)) <;> simp [recoverExitCode, HandleCLIErrors]
        · intro _ su1 hsu
          cases hsu
          refine ⟨by simp, fun _ => ⟨?_, ?_, ?_⟩⟩
          · intro w0 m hb
            simp [hb, panicOf, recoverExitCode, HandleCLIErrors]
          · intro w0 hb
            simp [hb, panicOf, recoverExitCode, HandleCLIErrors]
          · intro hd hlfs w1 hold
            obtain ⟨p1, p2, p3⟩ := mainRun_body_panics menv senv env xenv
              (mainRun_settings menv su) (mainRun_start menv su) w1 hd hlfs hold
            refine ⟨?_, ?_, ?_⟩
            · intro w0 m hc
              simp [p1 w0 m hc, panicOf, recoverExitCode, HandleCLIErrors]
            · intro w2 hooks w0 m hc hx
              simp [p2 w2 hooks w0 m hc hx, panicOf, recoverExitCode, HandleCLIErrors]
            · intro w2 hooks w3 hc hx
              simp [p3 w2 hooks w3 hc hx, panicOf, recoverExitCode, HandleCLIErrors]

set_option maxRecDepth 8000 in
theorem mainRun_exit_code_witness :
    (mainEnvOf { mainSettings with NonInteractive := true }).createLog = none ∧
      (∃ res, mainRun (mainEnvOf { mainSettings with NonInteractive := true }) noShared
          (runEnv [] ["a", "c"] mainScripts) (execEnvOf []) = .ok res ∧
        (res.exitCode = 1 ↔ res.recovered ≠ none)) ∧
      (mainRun (mainEnvOf { mainSettings with NonInteractive := true }) noShared
          (runEnv [] ["a", "c"] mainScripts) (execEnvOf [])).map
            (fun res => (res.exitCode, res.recovered))
        = .ok (1, some (untrustedFatal "ns/b")) ∧
      (mainRun (mainEnvOf mainSettings) noShared (runEnv [] ["a", "b", "c"] mainScripts)
          (execEnvOf ["a"])).map (fun res => (res.exitCode, res.recovered))
        = .ok (1, some (hooksFailedHead ++ failedItem "•" "ns/a")) ∧
      (mainRun (mainEnvOf mainSettings) noShared (runEnv [] ["a", "b", "c"] mainScripts)
          (execEnvOf [])).map (fun res => (res.exitCode, res.recovered))
        = .ok (0, none) :=
  ⟨rfl,
    (mainRun_exit_code (mainEnvOf { mainSettings with NonInteractive := true }) noShared
      (runEnv [] ["a", "c"] mainScripts) (execEnvOf []) rfl).imp
      (fun _ h => ⟨h.1, h.2.1⟩),
    by decide, by decide, by decide⟩

/-- C20 (amended): when the stores are loaded, the deferred `storePendingData` runs on the
state the run ends with, whether the run ends by a panic or not, and what it stores is
the same function of that state. The prompt context is not closed by the unwinding:
`uiSettings.PromptCtx.Close` is called exactly when Githooks is enabled and no panic was
raised (given that `setupSettings` hands over an open prompt context and `updateGithooks`
does not close it). -/
theorem mainRun_unwinding (menv : MainEnv) (senv : SharedEnv) (env : Env) (xenv : ExecEnv)
    (su : HookSettings × UISettings)
    (hlog : menv.createLog = none) (hwd : menv.Getwd = none)
    (hset : menv.setupSettings = .ok su) (hreg : menv.assertRegistered = none)
    (hopen : su.2.PromptCtx.Closed = false)
    (hupd : ∀ w0 : World, (menv.updateGithooks w0).uiSettings.PromptCtx.Closed
      = w0.uiSettings.PromptCtx.Closed) :
    ∃ res w, mainRun menv senv env xenv = .ok res ∧ res.world = some w ∧
      w = (mainRun_body menv senv env xenv (mainRun_settings menv su)
        (mainRun_start menv su)).1 ∧
      res.stored = some (storePendingData (mainRun_settings menv su) w.uiSettings
        menv.ignores) ∧
      (w.uiSettings.PromptCtx.Closed = true ↔
        res.recovered = none ∧ (mainRun_settings menv su).Disabled = false) := by
  refine ⟨_, _, by simp only [mainRun, hlog, hwd, hset, hreg]; rfl, rfl, rfl, rfl, ?_⟩
  rw [mainRun_body_closed menv senv env xenv _ _ hupd]
  have h0 : (mainRun_start menv su).uiSettings.PromptCtx.Closed = false := hopen
  rw [h0]
  cases hp : panicOf (mainRun_body menv senv env xenv (mainRun_settings menv su)
    (mainRun_start menv su)) <;>
    cases hd : (mainRun_settings menv su).Disabled <;> simp

set_option maxRecDepth 8000 in
theorem mainRun_unwinding_witness :
    ∃ res w, mainRun (mainEnvOf mainSettings) noShared (runEnv ["y", "n"] ["c"] mainScripts)
        (execEnvOf []) = .ok res ∧ res.world = some w ∧
      w = (mainRun_body (mainEnvOf mainSettings) noShared (runEnv ["y", "n"] ["c"] mainScripts)
        (execEnvOf []) (mainRun_settings (mainEnvOf mainSettings) (mainSettings, {}))
        (mainRun_start (mainEnvOf mainSettings) (mainSettings, {}))).1 ∧
      res.stored = some (storePendingData
        (mainRun_settings (mainEnvOf mainSettings) (mainSettings, {})) w.uiSettings
        (mainEnvOf mainSettings).ignores) ∧
      (w.uiSettings.PromptCtx.Closed = true ↔
        res.recovered = none ∧
          (mainRun_settings (mainEnvOf mainSettings) (mainSettings, {})).Disabled = false) :=
  mainRun_unwinding (mainEnvOf mainSettings) noShared (runEnv ["y", "n"] ["c"] mainScripts)
    (execEnvOf []) (mainSettings, {}) rfl rfl rfl rfl rfl (fun _ => rfl)

set_option maxRecDepth 8000 in
/-- C20 (as stated) fails: the hook `a` is accepted at the prompt and the hook `b` is
rejected, so `getHooksIn` panics. The deferred `storePendingData` hands the acceptance of
`a` to `SyncChecksumAdd`, but the prompt context is left open; when all hooks are trusted
and the run ends normally, it is closed. -/
theorem mainRun_prompt_left_open_counterexample :
    mainRun (mainEnvOf mainSettings) noShared (runEnv ["y", "n"] ["c"] mainScripts)
        (execEnvOf [])
      = .ok { exitCode := 1, recovered := some (untrustedFatal "ns/b"),
              world := some
                { uiSettings :=
                    { PromptCtx := { Shown := 2, Closed := false },
                      TrustedHooks := [{ SHA1 := "sha:a", Path := "a", NamespacePath := "ns/a" }] },
                  checksums := { Checksums := [("sha:a", "a")] } },
              stored := some ({},
                { syncedChecksums :=
                    some [{ SHA1 := "sha:a", Path := "a", NamespacePath := "ns/a" }] }) } ∧
      (mainRun (mainEnvOf mainSettings) noShared (runEnv [] ["a", "b", "c"] mainScripts)
          (execEnvOf [])).map
            (fun res => res.world.map (fun w => w.uiSettings.PromptCtx.Closed))
        = .ok (some true) := by
  decide

/-! ## Theorems: `common/error.go` -/

theorem CombineErrors_loop_flag (errs : List (Option String)) :
    ∀ (s : String) (a : Bool),
      (CombineErrors_loop errs s a).2 = (a || errs.any (fun e => e.isSome)) := by
  induction errs with
  | nil => intro s a; simp [CombineErrors_loop]
  | cons e rest ih =>
    intro s a
    cases e with
    | none => simp [CombineErrors_loop, ih]
    | some m => simp [CombineErrors_loop, ih]

/-- C26: `CombineErrors(err, errs...)` returns nil if and only if `err` is nil and every
element of `errs` is nil, and a non-nil error in every other case. -/
theorem CombineErrors_nil_iff (err : Option String) (errs : List (Option String)) :
    (CombineErrors err errs = none ↔ err = none ∧ ∀ e ∈ errs, e = none) ∧
      (CombineErrors err errs ≠ none ↔ err ≠ none ∨ ∃ e ∈ errs, e ≠ none) := by
  have key : CombineErrors err errs = none ↔ err = none ∧ ∀ e ∈ errs, e = none := by
    unfold CombineErrors
    cases err with
    | none =>
      simp only [CombineErrors_loop_flag, Bool.false_or]
      by_cases h : errs.any (fun e => e.isSome) = true
      · simp only [h, if_true]
        simp only [List.any_eq_true] at h
        obtain ⟨e, he, hs⟩ := h
        constructor
        · intro hc; cases hc
        · intro hc
          rw [hc.2 e he] at hs
          simp at hs
      · simp only [h, if_false, true_and]
        simp only [List.any_eq_true, not_exists, not_and] at h
        constructor
        · intro _ e he
          have := h e he
          cases e with
          | none => rfl
          | some m => simp at this
        · intro _; trivial
    | some m => simp [CombineErrors_loop_flag]
  refine ⟨key, ?_⟩
  rw [Ne, key]
  constructor
  · intro h
    by_cases he : err = none
    · right
      by_contra hc
      apply h
      refine ⟨he, fun e hm => ?_⟩
      by_contra hne
      exact hc ⟨e, hm, hne⟩
    · exact Or.inl he
  · rintro (h | ⟨e, hm, hne⟩) hc
    · exact h hc.1
    · exact hne (hc.2 e hm)


theorem intercalate_go_append (sep p : String) (l : List String) :
    ∀ acc : String, String.intercalate.go (p ++ acc) sep l
      = p ++ String.intercalate.go acc sep l := by
  induction l with
  | nil => intro acc; simp [String.intercalate.go]
  | cons x xs ih =>
    intro acc
    simp only [String.intercalate.go]
    rw [← ih (acc ++ sep ++ x)]
    simp [String.append_assoc]

theorem CombineErrors_loop_message (errs : List (Option String)) :
    ∀ (s : String) (a : Bool),
      (CombineErrors_loop errs s a).1
        = String.intercalate.go s "\n" (errs.filterMap id) := by
  induction errs with
  | nil => intro s a; simp [CombineErrors_loop, String.intercalate.go]
  | cons e rest ih =>
    intro s a
    cases e with
    | none => simp [CombineErrors_loop, ih]
    | some m =>
      simp [CombineErrors_loop, ih, String.intercalate.go, String.append_assoc]

set_option maxRecDepth 8000 in
/-- C29 (the code departs from it): when `err` is not nil, the message `CombineErrors`
returns is the messages of the non-nil arguments, in argument order, joined by single
newlines. When `err` is nil and some element of `errs` is not, the message is those
messages joined by newlines with one more newline in front: for `(nil, a, b)` it is
`"\na\nb"`, not `"a\nb"`. -/
theorem CombineErrors_message :
    (∀ (e0 : String) (errs : List (Option String)),
        CombineErrors (some e0) errs
          = some (String.intercalate "\n" ((some e0 :: errs).filterMap id))) ∧
      (∀ (errs : List (Option String)), (∃ e ∈ errs, e ≠ none) →
        CombineErrors none errs
          = some ("\n" ++ String.intercalate "\n" ((none :: errs).filterMap id))) ∧
      CombineErrors none [some "a", some "b"] = some "\na\nb" ∧
      String.intercalate "\n" ((none :: [some "a", some "b"]).filterMap id) = "a\nb" := by
  refine ⟨?_, ?_, by decide, by decide⟩
  · intro e0 errs
    simp [CombineErrors, CombineErrors_loop_flag, CombineErrors_loop_message,
      String.intercalate]
  · intro errs hex
    have hany : errs.any (fun e => e.isSome) = true := by
      obtain ⟨e, he, hne⟩ := hex
      simp only [List.any_eq_true]
      exact ⟨e, he, by cases e <;> simp_all⟩
    simp only [CombineErrors, CombineErrors_loop_flag, CombineErrors_loop_message, hany,
      Bool.false_or, if_true]
    cases hl : errs.filterMap id with
    | nil =>
      exfalso
      obtain ⟨e, he, hne⟩ := hex
      cases e with
      | none => exact hne rfl
      | some m =>
        have : m ∈ errs.filterMap id := by
          simp only [List.mem_filterMap, id]
          exact ⟨some m, he, rfl⟩
        rw [hl] at this
        simp at this
    | cons m l =>
      have hf : List.filterMap id (none :: errs) = m :: l := by
        simpa [List.filterMap_cons] using hl
      simp only [String.intercalate, String.intercalate.go, hf]
      rw [← intercalate_go_append "\n" "\n" l m]
      simp

/-- C25 (the code departs from it): `PanicIf` and `PanicIfF` panic when the condition is
true, with the error made from the lines (the format), and return normally when it is
false: the opposite of what their doc comments say. `AssertPanic`, which carries the same
doc comment, does assert its condition. -/
theorem PanicIf_panics_if_true (sprintf : String → List String → String) (format : String)
    (lines args : List String) :
    PanicIf true lines = .error (Error lines) ∧
      PanicIf false lines = .ok () ∧
      PanicIfF sprintf true format args = .error (ErrorF sprintf format args) ∧
      PanicIfF sprintf false format args = .ok () ∧
      AssertPanic true lines = .ok () ∧
      AssertPanic false lines = .error (Error lines) ∧
      PanicIf true ["no binaries"] = .error "no binaries" ∧
      PanicIf false ["no binaries"] = .ok () := by
  refine ⟨?_, ?_, ?_, ?_, ?_, ?_, by decide, by decide⟩ <;>
    simp [PanicIf, PanicIfF, AssertPanic, Panic, PanicF]

/-! ## Lemmas: `strconv.ParseInt` -/

theorem foldl_digits_ge (ds : List Char) :
    ∀ n : Nat, n ≤ ds.foldl (fun n c => 10 * n + (c.toNat - 48)) n := by
  induction ds with
  | nil => intro n; simp
  | cons c rest ih =>
    intro n
    simp only [List.foldl_cons]
    have := ih (10 * n + (c.toNat - 48))
    omega

/-- The loop of `ParseUint` returns the value of the digits read onto `n`, when all
characters are digits and that value is below `2^64`, and an error otherwise. -/
theorem ParseUint_loop_ok (ds : List Char) :
    ∀ (n v : Nat), n < 2 ^ 64 →
      (ParseUint_loop ds n = .ok v ↔
        (∀ c ∈ ds, 48 ≤ c.toNat ∧ c.toNat ≤ 57) ∧
          v = ds.foldl (fun n c => 10 * n + (c.toNat - 48)) n ∧ v < 2 ^ 64) := by
  have h64 : (2 : Nat) ^ 64 = 18446744073709551616 := by norm_num
  induction ds with
  | nil =>
    intro n v hn
    simp only [ParseUint_loop, List.foldl_nil, List.not_mem_nil, false_imp_iff,
      implies_true, true_and, Except.ok.injEq]
    constructor
    · intro h; subst h; exact ⟨rfl, hn⟩
    · intro h; exact h.1.symm
  | cons c rest ih =>
    intro n v hn
    simp only [ParseUint_loop, List.foldl_cons, List.mem_cons, forall_eq_or_imp]
    by_cases hd : 48 ≤ c.toNat ∧ c.toNat ≤ 57
    · simp only [hd, and_self, if_true, true_and]
      have hge := foldl_digits_ge rest (10 * n + (c.toNat - 48))
      rw [h64] at hn ⊢
      by_cases hc : n ≥ (18446744073709551616 - 1) / 10 + 1
      · simp only [hc, if_true]
        constructor
        · intro h; cases h
        · rintro ⟨_, hv, hlt⟩
          omega
      · simp only [hc, if_false]
        have hc1 : n < 1844674407370955162 := by omega
        have h10 : n * 10 % 18446744073709551616 = n * 10 := by
          apply Nat.mod_eq_of_lt; omega
        rw [h10]
        by_cases hs : n * 10 + (c.toNat - 48) < 18446744073709551616
        · have h1 : (n * 10 + (c.toNat - 48)) % 18446744073709551616
              = n * 10 + (c.toNat - 48) := Nat.mod_eq_of_lt hs
          rw [h1]
          have hcond : ¬ (n * 10 + (c.toNat - 48) < n * 10 ∨
              n * 10 + (c.toNat - 48) > 18446744073709551616 - 1) := by omega
          simp only [hcond, if_false]
          have hih := ih (n * 10 + (c.toNat - 48)) v (by rw [h64]; exact hs)
          rw [h64] at hih
          rw [hih, Nat.mul_comm n 10]
        · have h1 : (n * 10 + (c.toNat - 48)) % 18446744073709551616
              = n * 10 + (c.toNat - 48) - 18446744073709551616 := by
            rw [Nat.mod_eq_sub_mod (by omega)]
            apply Nat.mod_eq_of_lt
            omega
          rw [h1]
          have hcond : (n * 10 + (c.toNat - 48) - 18446744073709551616 < n * 10 ∨
              n * 10 + (c.toNat - 48) - 18446744073709551616 > 18446744073709551616 - 1) := by
            omega
          simp only [hcond, if_true]
          constructor
          · intro h; cases h
          · rintro ⟨_, hv, hlt⟩
            omega
    · simp only [hd, if_false, false_and]
      constructor
      · intro h; cases h
      · intro h; exact h.elim

theorem ParseUint_ok (ds : List Char) (v : Nat) :
    ParseUint ds = .ok v ↔
      ds ≠ [] ∧ (∀ c ∈ ds, 48 ≤ c.toNat ∧ c.toNat ≤ 57) ∧ v = decimalValue ds ∧ v < 2 ^ 64 := by
  cases ds with
  | nil => simp [ParseUint]
  | cons c rest =>
    simp only [ParseUint, ne_eq, reduceCtorEq, not_false_eq_true, true_and]
    exact ParseUint_loop_ok (c :: rest) 0 v (by norm_num)


theorem toInt64_of_lt (u : Nat) (h : u < 2 ^ 63) : toInt64 (u : Int) = u := by
  unfold toInt64
  have h63 : (2 : Int) ^ 63 = 9223372036854775808 := by norm_num
  have h64 : (2 : Int) ^ 64 = 18446744073709551616 := by norm_num
  have hn : (2 : Nat) ^ 63 = 9223372036854775808 := by norm_num
  rw [hn] at h
  rw [h63, h64]
  omega

theorem toInt64_neg (u : Nat) (h : u ≤ 2 ^ 63) :
    toInt64 (-(toInt64 (u : Int))) = -(u : Int) := by
  unfold toInt64
  have h63 : (2 : Int) ^ 63 = 9223372036854775808 := by norm_num
  have h64 : (2 : Int) ^ 64 = 18446744073709551616 := by norm_num
  have hn : (2 : Nat) ^ 63 = 9223372036854775808 := by norm_num
  rw [hn] at h
  rw [h63, h64]
  omega

/-- Go's `ParseInt(s, 10, 64)` returns `n` exactly when `s` is the base-10 text of the
64-bit integer `n`. -/
theorem ParseInt_ok_iff (s : String) (n : Int) :
    ParseInt s = .ok n ↔ int64OfText s = some n := by
  have h63 : (2 : Int) ^ 63 = 9223372036854775808 := by norm_num
  have hn63 : (2 : Nat) ^ 63 = 9223372036854775808 := by norm_num
  have hn64 : (2 : Nat) ^ 64 = 18446744073709551616 := by norm_num
  unfold ParseInt int64OfText
  cases hs : s.data with
  | nil => simp
  | cons c rest =>
    simp only [List.head?_cons, Option.some.injEq, List.tail_cons]
    by_cases hm : c = '-'
    · subst hm
      simp only [true_or, or_true, if_true, decide_True, Bool.not_true, Bool.false_eq_true,
        false_and, if_false, true_and]
      cases hp : ParseUint rest with
      | error e =>
        have hno : ¬ (rest ≠ [] ∧ (∀ c ∈ rest, 48 ≤ c.toNat ∧ c.toNat ≤ 57) ∧
            decimalValue rest < 2 ^ 64) := by
          rintro ⟨h1, h2, h3⟩
          have := (ParseUint_ok rest (decimalValue rest)).mpr ⟨h1, h2, rfl, h3⟩
          rw [hp] at this
          cases this
        cases e <;> simp only [reduceCtorEq, false_iff]
        all_goals
          intro hc
          split_ifs at hc with h1 h2
          · apply hno
            refine ⟨h1.1, h1.2, ?_⟩
            rw [hn64]
            have := h2.1
            rw [h63] at this
            omega
      | ok un =>
        obtain ⟨h1, h2, h3, h4⟩ := (ParseUint_ok rest un).mp hp
        subst h3
        have hcond : rest ≠ [] ∧ ∀ c ∈ rest, 48 ≤ c.toNat ∧ c.toNat ≤ 57 := ⟨h1, h2⟩
        simp only [if_pos hcond, h63]
        rw [hn63] at *
        by_cases hgt : decimalValue rest > 9223372036854775808
        · have hr : ¬ (-9223372036854775808 ≤ -(decimalValue rest : Int) ∧
              -(decimalValue rest : Int) < 9223372036854775808) := by omega
          rw [if_pos hgt, if_neg hr]
          simp
        · have hr : (-9223372036854775808 ≤ -(decimalValue rest : Int) ∧
              -(decimalValue rest : Int) < 9223372036854775808) := by omega
          rw [if_neg hgt, if_pos hr,
            toInt64_neg _ (by have h : (2 : Nat) ^ 63 = 9223372036854775808 := by norm_num
                              omega)]
          simp
    · simp only [hm, false_or, or_false, decide_False, Bool.not_false, true_and,
        Bool.false_eq_true, false_and, if_false, h63]
      have key : ∀ ds : List Char,
          ((match ParseUint ds with
            | .error NumErr.ErrSyntax => (.error NumErr.ErrSyntax : Except NumErr Int)
            | .error NumErr.ErrRange => .error NumErr.ErrRange
            | .ok un =>
              if un ≥ 2 ^ 63 then .error NumErr.ErrRange else .ok (toInt64 un)) = .ok n ↔
          (if ds ≠ [] ∧ ∀ c ∈ ds, 48 ≤ c.toNat ∧ c.toNat ≤ 57 then
            if -9223372036854775808 ≤ (decimalValue ds : Int) ∧
                (decimalValue ds : Int) < 9223372036854775808 then
              some (decimalValue ds : Int) else none
          else none) = some n) := by
        intro ds
        cases hp : ParseUint ds with
        | error e =>
          have hno : ¬ (ds ≠ [] ∧ (∀ c ∈ ds, 48 ≤ c.toNat ∧ c.toNat ≤ 57) ∧
              decimalValue ds < 2 ^ 64) := by
            rintro ⟨h1, h2, h3⟩
            have := (ParseUint_ok ds (decimalValue ds)).mpr ⟨h1, h2, rfl, h3⟩
            rw [hp] at this
            cases this
          cases e <;> simp only [reduceCtorEq, false_iff]
          all_goals
            intro hc
            split_ifs at hc with h1 h2
            · apply hno
              refine ⟨h1.1, h1.2, ?_⟩
              rw [hn64]
              omega
        | ok un =>
          obtain ⟨h1, h2, h3, h4⟩ := (ParseUint_ok ds un).mp hp
          subst h3
          have hcond : ds ≠ [] ∧ ∀ c ∈ ds, 48 ≤ c.toNat ∧ c.toNat ≤ 57 := ⟨h1, h2⟩
          simp only [if_pos hcond]
          rw [hn63] at *
          by_cases hge : decimalValue ds ≥ 9223372036854775808
          · have hr : ¬ (-9223372036854775808 ≤ (decimalValue ds : Int) ∧
                (decimalValue ds : Int) < 9223372036854775808) := by omega
            rw [if_pos hge, if_neg hr]
            simp
          · have hr : (-9223372036854775808 ≤ (decimalValue ds : Int) ∧
                (decimalValue ds : Int) < 9223372036854775808) := by omega
            rw [if_neg hge, if_pos hr,
              toInt64_of_lt _ (by have h : (2 : Nat) ^ 63 = 9223372036854775808 := by norm_num
                                  omega)]
            simp
      by_cases hplus : c = '+'
      · subst hplus
        simp only [true_or, if_true]
        exact key rest
      · simp only [hplus, if_false]
        exact key (c :: rest)

/-! ## Lemmas: Go's `time` package -/

theorem unixToInternal_eq : unixToInternal = 62135596800 := by decide

theorem toInt64_eq (x : Int) : ∃ q : Int, toInt64 x = x - 18446744073709551616 * q ∧
    -9223372036854775808 ≤ toInt64 x ∧ toInt64 x ≤ 9223372036854775807 := by
  unfold toInt64
  have h63 : (2 : Int) ^ 63 = 9223372036854775808 := by norm_num
  have h64 : (2 : Int) ^ 64 = 18446744073709551616 := by norm_num
  rw [h63, h64]
  refine ⟨(x + 9223372036854775808) / 18446744073709551616, ?_, ?_, ?_⟩ <;> omega

theorem neg_tmod_second (a : Int) : (-a).tmod 1000000000 = -(a.tmod 1000000000) := by
  have h1 := Int.tdiv_add_tmod a 1000000000
  have h2 := Int.tdiv_add_tmod (-a) 1000000000
  have h3 : (-a).tdiv 1000000000 = -(a.tdiv 1000000000) := Int.neg_tdiv a 1000000000
  rw [h3] at h2
  linarith

theorem tdiv_tmod_eq (d : Int) : ∃ q r : Int, d.tdiv 1000000000 = q ∧ d.tmod 1000000000 = r ∧
    d = q * 1000000000 + r ∧ -1000000000 < r ∧ r < 1000000000 ∧
    (0 ≤ d → 0 ≤ r) ∧ (d ≤ 0 → r ≤ 0) := by
  refine ⟨d.tdiv 1000000000, d.tmod 1000000000, rfl, rfl, ?_, ?_, ?_, ?_, ?_⟩
  · have := Int.tdiv_add_tmod d 1000000000
    linarith
  · have := Int.tmod_lt_of_pos (-d) (show (0 : Int) < 1000000000 by norm_num)
    rw [neg_tmod_second] at this
    linarith
  · exact Int.tmod_lt_of_pos d (by norm_num)
  · intro h
    exact Int.tmod_nonneg _ h
  · intro h
    have := Int.tmod_nonneg 1000000000 (show (0 : Int) ≤ -d by linarith)
    rw [neg_tmod_second] at this
    linarith

theorem addSec_cases (t : Time) (d : Int) (h1 : -9223372036854775808 ≤ t.sec)
    (h2 : t.sec ≤ 9223372036854775807) (h3 : -9223372036854775808 ≤ d)
    (h4 : d ≤ 9223372036854775807) :
    (t.addSec d).nsec = t.nsec ∧
      ((-9223372036854775808 ≤ t.sec + d ∧ t.sec + d ≤ 9223372036854775807 ∧
          (t.addSec d).sec = t.sec + d) ∨
        (9223372036854775807 < t.sec + d ∧ (t.addSec d).sec = 9223372036854775807) ∨
        (t.sec + d < -9223372036854775808 ∧ (t.addSec d).sec = -9223372036854775807)) := by
  obtain ⟨q, e, l, u⟩ := toInt64_eq (t.sec + d)
  have h63 : (2 : Int) ^ 63 = 9223372036854775808 := by norm_num
  unfold Time.addSec
  rw [h63]
  generalize toInt64 (t.sec + d) = s at e l u
  by_cases hc : decide (s > t.sec) = decide (d > 0)
  · rw [if_pos hc]
    refine ⟨rfl, Or.inl ?_⟩
    simp only [decide_eq_decide] at hc
    simp only
    by_cases hd : d > 0
    · have := hc.mpr hd
      omega
    · have := fun h => hd (hc.mp h)
      omega
  · rw [if_neg hc]
    simp only [decide_eq_decide] at hc
    by_cases hd : d > 0
    · rw [if_pos hd]
      have hs : ¬ s > t.sec := fun h => hc ⟨fun _ => hd, fun _ => h⟩
      exact ⟨rfl, Or.inr (Or.inl ⟨by omega, by norm_num⟩)⟩
    · rw [if_neg hd]
      have hs : s > t.sec := by
        by_contra h
        exact hc ⟨fun h1 => absurd h1 h, fun h1 => absurd h1 hd⟩
      exact ⟨rfl, Or.inr (Or.inr ⟨by omega, by norm_num⟩)⟩

theorem Add_cases (u : Time) (d : Int) (hu : u.valid) (l3 : -9223372036854775808 ≤ d)
    (u3 : d ≤ 9223372036854775807) :
    ∃ q n : Int, q * 1000000000 + n = d + u.nsec ∧ 0 ≤ n ∧ n < 1000000000 ∧
      (u.Add d).nsec = n ∧
      ((-9223372036854775808 ≤ u.sec + q ∧ u.sec + q ≤ 9223372036854775807 ∧
          (u.Add d).sec = u.sec + q) ∨
        (9223372036854775807 < u.sec + q ∧ (u.Add d).sec = 9223372036854775807) ∨
        (u.sec + q < -9223372036854775808 ∧ (u.Add d).sec = -9223372036854775807)) := by
  obtain ⟨hu3, hu4, hu5, hu6⟩ := hu
  have h63 : (2 : Int) ^ 63 = 9223372036854775808 := by norm_num
  rw [h63] at hu3 hu4
  obtain ⟨q, r, eq, er, edr, r1, r2, r3, r4⟩ := tdiv_tmod_eq d
  unfold Time.Add
  rw [eq, er]
  by_cases c1 : u.nsec + r ≥ 1000000000
  · rw [if_pos c1]
    obtain ⟨a1, a2⟩ := addSec_cases
      ({ u with nsec := u.nsec + r - 1000000000 } : Time) (q + 1) hu3 (by simpa using (by omega))
      (by omega) (by omega)
    exact ⟨q + 1, u.nsec + r - 1000000000, by omega, by omega, by omega, a1, a2⟩
  · rw [if_neg c1]
    by_cases c2 : u.nsec + r < 0
    · rw [if_pos c2]
      obtain ⟨a1, a2⟩ := addSec_cases
        ({ u with nsec := u.nsec + r + 1000000000 } : Time) (q - 1) hu3
        (by simpa using (by omega)) (by omega) (by omega)
      exact ⟨q - 1, u.nsec + r + 1000000000, by omega, by omega, by omega, a1, a2⟩
    · rw [if_neg c2]
      obtain ⟨a1, a2⟩ := addSec_cases
        ({ u with nsec := u.nsec + r } : Time) q hu3 (by simpa using (by omega))
        (by omega) (by omega)
      exact ⟨q, u.nsec + r, by omega, by omega, by omega, a1, a2⟩

/-- Go's `t.Sub(u)` is the difference of the instants of `t` and `u`, cut off at the least
and the greatest `Duration`, when `t` is not at the end of the range of seconds. -/
theorem Time_Sub_eq (t u : Time) (ht : t.valid) (hu : u.valid)
    (ht1 : t.sec ≠ 2 ^ 63 - 1) (ht2 : t.sec ≠ -(2 ^ 63 - 1)) :
    t.Sub u = clampDuration (t.instant - u.instant) := by
  have hu0 := hu
  obtain ⟨ht3, ht4, ht5, ht6⟩ := ht
  obtain ⟨hu3, hu4, hu5, hu6⟩ := hu
  have h63 : (2 : Int) ^ 63 = 9223372036854775808 := by norm_num
  rw [h63] at ht3 ht4 hu3 hu4 ht1 ht2
  have key : ∃ d k : Int,
      toInt64 (toInt64 (toInt64 (t.sec - u.sec) * Second) + (t.nsec - u.nsec)) = d ∧
      d = (t.sec - u.sec) * 1000000000 + (t.nsec - u.nsec) - 18446744073709551616 * k ∧
      -9223372036854775808 ≤ d ∧ d ≤ 9223372036854775807 := by
    obtain ⟨q1, e1, _, _⟩ := toInt64_eq (t.sec - u.sec)
    obtain ⟨q2, e2, _, _⟩ := toInt64_eq (toInt64 (t.sec - u.sec) * Second)
    obtain ⟨q3, e3, l3, u3⟩ := toInt64_eq
      (toInt64 (toInt64 (t.sec - u.sec) * Second) + (t.nsec - u.nsec))
    refine ⟨_, q1 * 1000000000 + q2 + q3, rfl, ?_, l3, u3⟩
    rw [e3, e2, e1]
    unfold Second
    ring
  obtain ⟨d, k, hd, hk, l3, u3⟩ := key
  obtain ⟨q, n, e, n1, n2, an, as⟩ := Add_cases u d hu0 l3 u3
  unfold Time.Sub
  rw [hd]
  unfold Time.Equal Time.Before clampDuration minDuration maxDuration
  rw [an, h63]
  have hI : t.instant - u.instant = (t.sec - u.sec) * 1000000000 + (t.nsec - u.nsec) := by
    unfold Time.instant
    ring
  rw [hI]
  by_cases hin : -9223372036854775808 ≤ (t.sec - u.sec) * 1000000000 + (t.nsec - u.nsec) ∧
      (t.sec - u.sec) * 1000000000 + (t.nsec - u.nsec) ≤ 9223372036854775807
  · have hD : d = (t.sec - u.sec) * 1000000000 + (t.nsec - u.nsec) := by omega
    have hq : q = t.sec - u.sec ∧ n = t.nsec := by omega
    have hs : (u.Add d).sec = t.sec := by
      rcases as with ⟨_, _, h⟩ | ⟨h0, h⟩ | ⟨h0, h⟩
      · omega
      · omega
      · omega
    rw [hs]
    simp only [hq.2, decide_True, Bool.and_self, if_true]
    split_ifs <;> omega
  · have hne : ¬ ((u.Add d).sec = t.sec ∧ n = t.nsec) := by
      rintro ⟨h1, h2⟩
      rcases as with ⟨_, _, h⟩ | ⟨h0, h⟩ | ⟨h0, h⟩
      · exact hin ⟨by linarith, by linarith⟩
      · exact ht1 (by linarith)
      · exact ht2 (by linarith)
    have hE : (decide ((u.Add d).sec = t.sec) && decide (n = t.nsec)) = false := by
      rw [Bool.eq_false_iff]
      intro h
      simp only [Bool.and_eq_true, decide_eq_true_eq] at h
      exact hne h
    rw [hE]
    simp only [Bool.false_eq_true, if_false, Bool.or_eq_true, Bool.and_eq_true,
      decide_eq_true_eq]
    split_ifs <;> omega


theorem int64OfText_range (s : String) (n : Int) (h : int64OfText s = some n) :
    -9223372036854775808 ≤ n ∧ n ≤ 9223372036854775807 := by
  have h63 : (2 : Int) ^ 63 = 9223372036854775808 := by norm_num
  unfold int64OfText at h
  simp only at h
  split_ifs at h <;>
    (rename_i hr
     simp only [Option.some.injEq] at h
     rw [h63, h] at hr
     omega)

/-- What `time.Unix(n, 0)` is for a 64-bit `n`: the instant `n` seconds after the epoch
as long as `n + unixToInternal` fits an `int64`, and the instant `n - 2^64` seconds after
the epoch beyond that. -/
theorem Unix_instant (n : Int) (h1 : -9223372036854775808 ≤ n) (h2 : n ≤ 9223372036854775807) :
    (Unix n 0).valid ∧
      (n ≤ 9223372036854775807 - unixToInternal → (Unix n 0).instant = n * 1000000000) ∧
      (9223372036854775807 - unixToInternal < n →
        (Unix n 0).instant = (n - 18446744073709551616) * 1000000000) := by
  have hU := unixToInternal_eq
  obtain ⟨q, e, l, u⟩ := toInt64_eq (n + unixToInternal)
  have h63 : (2 : Int) ^ 63 = 9223372036854775808 := by norm_num
  have hx : Unix n 0 = { sec := toInt64 (n + unixToInternal), nsec := 0 } := by
    simp [Unix, unixTime]
  rw [hx]
  unfold Time.valid Time.instant
  simp only [h63]
  generalize toInt64 (n + unixToInternal) = s at e l u
  refine ⟨⟨l, by omega, le_refl _, by norm_num⟩, ?_, ?_⟩
  · intro h
    omega
  · intro h
    omega

theorem Duration_Hours_eq (d : Int) : Duration_Hours d = (d : ℚ) / 3600000000000 := by
  unfold Duration_Hours Hour
  have h := Int.tdiv_add_tmod d (60 * 60 * 1000000000)
  have hq : ((60 * 60 * 1000000000 : Int) : ℚ) * ((d.tdiv (60 * 60 * 1000000000) : Int) : ℚ)
      + ((d.tmod (60 * 60 * 1000000000) : Int) : ℚ) = (d : ℚ) := by
    exact_mod_cast h
  rw [← hq]
  push_cast
  field_simp
  ring

theorem Duration_Hours_gt (d : Int) : Duration_Hours d > 24.0 ↔ d > 24 * Hour := by
  rw [Duration_Hours_eq]
  unfold Hour
  have h24 : (24.0 : ℚ) = 24 := by norm_num
  rw [h24, gt_iff_lt, lt_div_iff₀ (by norm_num)]
  constructor
  · intro h
    have : ((24 * (60 * 60 * 1000000000) : Int) : ℚ) < (d : ℚ) := by
      push_cast
      linarith
    exact_mod_cast this
  · intro h
    have : ((24 * (60 * 60 * 1000000000) : Int) : ℚ) < (d : ℚ) := by exact_mod_cast h
    push_cast at this
    linarith

/-- The result of `shouldRunUpdateCheck`, with the comparison of `Hours()` taken over to
the duration. -/
theorem shouldRunUpdateCheck_result (uenv : UpdateEnv) (settings : HookSettings)
    (gitx : GitX) :
    (shouldRunUpdateCheck uenv settings gitx).1
      = (decide (settings.HookName = "post-commit") && uenv.AutomaticUpdateCheckEnabled &&
          decide (uenv.Now.Sub (GetUpdateCheckTimestamp uenv.Quote
            uenv.GitCKAutoUpdateCheckTimestamp gitx).1.1 > 24 * Hour)) := by
  unfold shouldRunUpdateCheck
  by_cases hn : settings.HookName = "post-commit"
  · cases he : uenv.AutomaticUpdateCheckEnabled
    · simp [hn]
    · simp only [hn, ne_eq, not_true_eq_false, if_false, Bool.not_true, Bool.false_eq_true,
        decide_True, Bool.and_self, Bool.true_and]
      rw [decide_eq_decide]
      exact Duration_Hours_gt _
  · simp [hn]

theorem clampDuration_gt (x : Int) : clampDuration x > 24 * Hour ↔ x > 24 * Hour := by
  unfold clampDuration Hour
  have h63 : (2 : Int) ^ 63 = 9223372036854775808 := by norm_num
  rw [h63]
  split_ifs <;> omega


/-! ## Theorems: the update-check timestamp -/

/-- C28 (amended): `GetUpdateCheckTimestamp` returns the epoch, `isSet = false` and no
error when the config entry is empty; `time.Unix(n, 0)`, `isSet = true` and no error when
the entry is the base-10 text of a 64-bit integer `n` (an optional sign and decimal
digits), which is the instant `n` seconds after the epoch when `n` is at most
`9223372036854775807 - 62135596800`, and the instant `n - 2^64` seconds after the epoch
for a greater `n`; and the epoch, `isSet = true` and an error for every other non-empty
entry. It reads the entry once. -/
theorem GetUpdateCheckTimestamp_cases (quote : String → String) (key : String) (gitx : GitX) :
    (gitx.config key = "" →
        (GetUpdateCheckTimestamp quote key gitx).1 = (Unix 0 0, false, none)) ∧
      (∀ n : Int, int64OfText (gitx.config key) = some n →
        (GetUpdateCheckTimestamp quote key gitx).1 = (Unix n 0, true, none) ∧
          (n ≤ 9223372036854775807 - 62135596800 →
            (Unix n 0).instant = n * 1000000000) ∧
          (9223372036854775807 - 62135596800 < n →
            (Unix n 0).instant = (n - 2 ^ 64) * 1000000000)) ∧
      (gitx.config key ≠ "" → int64OfText (gitx.config key) = none →
        (GetUpdateCheckTimestamp quote key gitx).1.1 = Unix 0 0 ∧
          (GetUpdateCheckTimestamp quote key gitx).1.2.1 = true ∧
          (GetUpdateCheckTimestamp quote key gitx).1.2.2 ≠ none) ∧
      (Unix 0 0).instant = 0 ∧
      (GetUpdateCheckTimestamp quote key gitx).2.reads = gitx.reads ++ [key] := by
  refine ⟨?_, ?_, ?_, by decide, ?_⟩
  · intro h
    simp [GetUpdateCheckTimestamp, GitX.GetConfig, h]
  · intro n h
    have hp := (ParseInt_ok_iff (gitx.config key) n).mpr h
    have hne : gitx.config key ≠ "" := by
      intro he
      rw [he] at h
      simp [int64OfText] at h
    obtain ⟨r1, r2⟩ := int64OfText_range _ n h
    obtain ⟨_, i1, i2⟩ := Unix_instant n r1 r2
    rw [unixToInternal_eq] at i1 i2
    have h64 : (2 : Int) ^ 64 = 18446744073709551616 := by norm_num
    rw [h64]
    refine ⟨?_, i1, i2⟩
    simp [GetUpdateCheckTimestamp, GitX.GetConfig, hne, hp]
  · intro hne h
    cases hp : ParseInt (gitx.config key) with
    | ok n =>
      have := (ParseInt_ok_iff (gitx.config key) n).mp hp
      rw [h] at this
      cases this
    | error e =>
      simp [GetUpdateCheckTimestamp, GitX.GetConfig, hne, hp, CombineErrors,
        CombineErrors_loop]
  · unfold GetUpdateCheckTimestamp
    simp only
    split_ifs
    · rfl
    · cases ParseInt (gitx.GetConfig key).1 <;> rfl

set_option maxRecDepth 8000 in
/-- C28 (as stated) fails: for the entry `9223372036854775807`, the text of a 64-bit
integer, the time returned is not the instant so many seconds after the epoch: the
seconds count of `time.Unix` has wrapped around, to an instant before the epoch. -/
theorem GetUpdateCheckTimestamp_counterexample :
    int64OfText "9223372036854775807" = some 9223372036854775807 ∧
      (GetUpdateCheckTimestamp (fun s => s) "k"
          { config := fun _ => "9223372036854775807" }).1
        = ({ sec := -9223371974719179009, nsec := 0 }, true, none) ∧
      ({ sec := -9223371974719179009, nsec := 0 } : Time).instant
        = -9223372036854775809 * 1000000000 ∧
      ({ sec := -9223371974719179009, nsec := 0 } : Time).instant
        ≠ 9223372036854775807 * 1000000000 := by
  decide

set_option maxRecDepth 8000 in
theorem GetUpdateCheckTimestamp_examples :
    (GetUpdateCheckTimestamp (fun s => s) "k" { config := fun _ => "" }).1
        = (Unix 0 0, false, none) ∧
      (GetUpdateCheckTimestamp (fun s => s) "k" { config := fun _ => "1700000000" }).1
        = (Unix 1700000000 0, true, none) ∧
      (GetUpdateCheckTimestamp (fun s => s) "k" { config := fun _ => "-5" }).1
        = (Unix (-5) 0, true, none) ∧
      (GetUpdateCheckTimestamp (fun s => s) "k" { config := fun _ => "9223372036854775808" }).1
        = (Unix 0 0, true,
            some "Could not parse update time.\nstrconv.ParseInt: parsing 9223372036854775808: value out of range") ∧
      (GetUpdateCheckTimestamp (fun s => s) "k" { config := fun _ => "12h" }).1
        = (Unix 0 0, true,
            some "Could not parse update time.\nstrconv.ParseInt: parsing 12h: invalid syntax") := by
  decide

/-! ## Theorems: `shouldRunUpdateCheck` -/

/-- C22 (amended): for a clock reading between the epoch and the year 2262 (its
nanoseconds since the epoch fit an `int64`), `shouldRunUpdateCheck` returns true if and
only if the event is `post-commit`, automatic update checks are enabled and more than 24
hours lie between the time `GetUpdateCheckTimestamp` returns and now. For a recorded
timestamp `n` of at most `9223372036854775807 - 62135596800` that time is `n` seconds
after the epoch; for a greater `n` it lies in the remote past and the check is always
due. For another event the function returns false and reads nothing from the Git
configuration; an unset timestamp is the Unix epoch, so that the check is due whenever
now is more than 24 hours after the epoch. -/
theorem shouldRunUpdateCheck_iff (uenv : UpdateEnv) (settings : HookSettings) (gitx : GitX)
    (hnow : uenv.Now.valid) (hepoch : 0 ≤ uenv.Now.instant)
    (h2262 : uenv.Now.instant < 2 ^ 63) :
    ((shouldRunUpdateCheck uenv settings gitx).1 = true ↔
        settings.HookName = "post-commit" ∧ uenv.AutomaticUpdateCheckEnabled = true ∧
          uenv.Now.instant -
              (GetUpdateCheckTimestamp uenv.Quote uenv.GitCKAutoUpdateCheckTimestamp
                gitx).1.1.instant > 24 * Hour) ∧
      (∀ n : Int, int64OfText (gitx.config uenv.GitCKAutoUpdateCheckTimestamp) = some n →
        (n ≤ 9223372036854775807 - 62135596800 →
          ((shouldRunUpdateCheck uenv settings gitx).1 = true ↔
            settings.HookName = "post-commit" ∧ uenv.AutomaticUpdateCheckEnabled = true ∧
              uenv.Now.instant - n * 1000000000 > 24 * Hour)) ∧
        (9223372036854775807 - 62135596800 < n →
          ((shouldRunUpdateCheck uenv settings gitx).1 = true ↔
            settings.HookName = "post-commit" ∧ uenv.AutomaticUpdateCheckEnabled = true))) ∧
      (settings.HookName ≠ "post-commit" →
        (shouldRunUpdateCheck uenv settings gitx).1 = false ∧
          (shouldRunUpdateCheck uenv settings gitx).2.1.reads = gitx.reads) ∧
      (gitx.config uenv.GitCKAutoUpdateCheckTimestamp = "" →
        (GetUpdateCheckTimestamp uenv.Quote uenv.GitCKAutoUpdateCheckTimestamp gitx).1.1
            = Unix 0 0 ∧
          ((shouldRunUpdateCheck uenv settings gitx).1 = true ↔
            settings.HookName = "post-commit" ∧ uenv.AutomaticUpdateCheckEnabled = true ∧
              uenv.Now.instant > 24 * Hour)) := by
  have h63 : (2 : Int) ^ 63 = 9223372036854775808 := by norm_num
  have hU := unixToInternal_eq
  rw [h63] at h2262
  have hsec : uenv.Now.sec ≠ 2 ^ 63 - 1 ∧ uenv.Now.sec ≠ -(2 ^ 63 - 1) := by
    obtain ⟨v1, v2, v3, v4⟩ := hnow
    unfold Time.instant at hepoch h2262
    rw [h63]
    constructor <;> omega
  have hres := shouldRunUpdateCheck_result uenv settings gitx
  have hsub : ∀ u : Time, u.valid →
      (decide (uenv.Now.Sub u > 24 * Hour) = true ↔
        uenv.Now.instant - u.instant > 24 * Hour) := by
    intro u hu
    rw [decide_eq_true_eq, Time_Sub_eq uenv.Now u hnow hu hsec.1 hsec.2, clampDuration_gt]
  have hvalid : (GetUpdateCheckTimestamp uenv.Quote uenv.GitCKAutoUpdateCheckTimestamp
      gitx).1.1.valid := by
    unfold GetUpdateCheckTimestamp
    simp only
    split_ifs
    · exact (Unix_instant 0 (by norm_num) (by norm_num)).1
    · cases hp : ParseInt (gitx.GetConfig uenv.GitCKAutoUpdateCheckTimestamp).1 with
      | error e => exact (Unix_instant 0 (by norm_num) (by norm_num)).1
      | ok n =>
        have hr := int64OfText_range _ n ((ParseInt_ok_iff _ n).mp hp)
        exact (Unix_instant n hr.1 hr.2).1
  have main : ((shouldRunUpdateCheck uenv settings gitx).1 = true ↔
        settings.HookName = "post-commit" ∧ uenv.AutomaticUpdateCheckEnabled = true ∧
          uenv.Now.instant -
              (GetUpdateCheckTimestamp uenv.Quote uenv.GitCKAutoUpdateCheckTimestamp
                gitx).1.1.instant > 24 * Hour) := by
    rw [hres, Bool.and_eq_true, Bool.and_eq_true, decide_eq_true_eq, hsub _ hvalid, and_assoc]
  refine ⟨main, ?_, ?_, ?_⟩
  · intro n hn
    have hp := (ParseInt_ok_iff _ n).mpr hn
    have hne : gitx.config uenv.GitCKAutoUpdateCheckTimestamp ≠ "" := by
      intro he
      rw [he] at hn
      simp [int64OfText] at hn
    have ht : (GetUpdateCheckTimestamp uenv.Quote uenv.GitCKAutoUpdateCheckTimestamp gitx).1.1
        = Unix n 0 := by
      simp [GetUpdateCheckTimestamp, GitX.GetConfig, hne, hp]
    obtain ⟨r1, r2⟩ := int64OfText_range _ n hn
    obtain ⟨_, i1, i2⟩ := Unix_instant n r1 r2
    rw [hU] at i1 i2
    constructor
    · intro hle
      rw [main, ht, i1 hle]
    · intro hgt
      rw [main, ht, i2 hgt]
      unfold Hour
      constructor
      · rintro ⟨a, b, _⟩
        exact ⟨a, b⟩
      · rintro ⟨a, b⟩
        exact ⟨a, b, by omega⟩
  · intro hn
    simp [shouldRunUpdateCheck, hn]
  · intro hc
    have ht : (GetUpdateCheckTimestamp uenv.Quote uenv.GitCKAutoUpdateCheckTimestamp gitx).1.1
        = Unix 0 0 := by
      simp [GetUpdateCheckTimestamp, GitX.GetConfig, hc]
    refine ⟨ht, ?_⟩
    rw [main, ht]
    have h0 : (Unix 0 0).instant = 0 := by decide
    rw [h0, sub_zero]

set_option maxRecDepth 8000 in
theorem shouldRunUpdateCheck_iff_witness :
    (shouldRunUpdateCheck { AutomaticUpdateCheckEnabled := true, Now := Unix 1700100000 0 }
        { HookName := "post-commit" } { config := fun _ => "1700000000" }).1 = true ∧
      (shouldRunUpdateCheck { AutomaticUpdateCheckEnabled := true, Now := Unix 1700086400 0 }
        { HookName := "post-commit" } { config := fun _ => "1700000000" }).1 ≠ true ∧
      (shouldRunUpdateCheck { AutomaticUpdateCheckEnabled := true, Now := Unix 1700100000 0 }
        { HookName := "post-commit" } { config := fun _ => "" }).1 = true :=
  ⟨(shouldRunUpdateCheck_iff { AutomaticUpdateCheckEnabled := true, Now := Unix 1700100000 0 }
      { HookName := "post-commit" } { config := fun _ => "1700000000" }
      (by unfold Time.valid; decide) (by decide) (by decide)).1.mpr
      ⟨rfl, rfl, by decide⟩,
    fun h => absurd ((shouldRunUpdateCheck_iff
      { AutomaticUpdateCheckEnabled := true, Now := Unix 1700086400 0 }
      { HookName := "post-commit" } { config := fun _ => "1700000000" }
      (by unfold Time.valid; decide) (by decide) (by decide)).1.mp h).2.2
      (by decide),
    ((shouldRunUpdateCheck_iff { AutomaticUpdateCheckEnabled := true, Now := Unix 1700100000 0 }
      { HookName := "post-commit" } { config := fun _ => "" }
      (by unfold Time.valid; decide) (by decide) (by decide)).2.2.2 rfl).2.mpr
      ⟨rfl, rfl, by decide⟩⟩

set_option maxRecDepth 8000 in
/-- C22 (as stated) fails: with the recorded timestamp `9223372036854775807`, which lies
after the clock reading `1700000000`, no time has elapsed since the recorded timestamp,
and yet the check is due in a `post-commit` event with update checks enabled: the time
`GetUpdateCheckTimestamp` returns for it lies in the remote past. -/
theorem shouldRunUpdateCheck_counterexample :
    int64OfText "9223372036854775807" = some 9223372036854775807 ∧
      (1700000000 : Int) < 9223372036854775807 ∧
      (shouldRunUpdateCheck { AutomaticUpdateCheckEnabled := true, Now := Unix 1700000000 0 }
        { HookName := "post-commit" } { config := fun _ => "9223372036854775807" }).1
        = true := by
  refine ⟨by decide, by decide, ?_⟩
  rw [shouldRunUpdateCheck_result]
  decide

/-! ## Theorems: `logInvocation` -/

set_option maxRecDepth 8000 in
/-- C24 (the code departs from it): whenever the trace flag is non-empty, `logInvocation`
emits the one line `Running hooks for: ...` and no settings dump, also for the value `1`;
the dump is emitted only when the flag is empty and `cm.IsDebug` is set. -/
theorem logInvocation_trace :
    (∀ (trace : String) (isDebug : Bool) (s : HookSettings) (args dump : String),
        trace ≠ "" →
        logInvocation trace isDebug s args dump
          = ["Running hooks for: \x27" ++ s.HookName ++ "\x27 " ++ args]) ∧
      (∀ (isDebug : Bool) (s : HookSettings) (args dump : String),
        logInvocation "" isDebug s args dump
          = if isDebug then ["Settings:\n" ++ dump] else []) ∧
      logInvocation "1" false { HookName := "pre-commit" } "[]" "HookName: pre-commit"
        = ["Running hooks for: \x27pre-commit\x27 []"] ∧
      "Settings:\nHookName: pre-commit" ∉
        logInvocation "1" true { HookName := "pre-commit" } "[]" "HookName: pre-commit" := by
  refine ⟨?_, ?_, by decide, by decide⟩
  · intro trace isDebug s args dump h
    simp [logInvocation, h]
  · intro isDebug s args dump
    have h : ("" : String) ≠ "1" := by decide
    cases isDebug <;> simp [logInvocation, h]

/-! ## Theorems: `updateSharedHooks` -/

/-- C23: `updateSharedHooks` refreshes the shared sources if and only if updates are not
disabled and the event is `post-merge`, or is one of the configured triggers, or is
`post-checkout` while the update-on-clone marker file is absent; it changes the files only
by writing the marker file at the end of a refresh that ran for such a `post-checkout`
(and writes it then, unless `TouchFile` fails); and once the marker file exists, a
`post-checkout` that is no configured trigger refreshes nothing. -/
theorem updateSharedHooks_refresh (uenv : SharedUpdateEnv) (settings : HookSettings)
    (sharedHooks : List SharedRepo) (sharedType : SharedHookType) (st : SharedUpdateState) :
    ((updateSharedHooks uenv settings sharedHooks sharedType st).refreshed ≠ st.refreshed ↔
        uenv.IsSharedHooksUpdateDisabled = false ∧
          (settings.HookName = "post-merge" ∨ settings.HookName ∈ uenv.updateTriggers ∨
            (settings.HookName = "post-checkout" ∧
              uenv.Join settings.GitDirWorktree ".githooks-shared-update-on-clone-done"
                ∉ st.files))) ∧
      ((updateSharedHooks uenv settings sharedHooks sharedType st).refreshed ≠ st.refreshed →
        (updateSharedHooks uenv settings sharedHooks sharedType st).refreshed
          = st.refreshed ++ [(sharedHooks, sharedType)]) ∧
      ((updateSharedHooks uenv settings sharedHooks sharedType st).files ≠ st.files →
        (updateSharedHooks uenv settings sharedHooks sharedType st).refreshed
            = st.refreshed ++ [(sharedHooks, sharedType)] ∧
          settings.HookName = "post-checkout" ∧
          uenv.Join settings.GitDirWorktree ".githooks-shared-update-on-clone-done"
            ∉ st.files ∧
          (updateSharedHooks uenv settings sharedHooks sharedType st).files
            = st.files ++
                [uenv.Join settings.GitDirWorktree ".githooks-shared-update-on-clone-done"]) ∧
      (uenv.IsSharedHooksUpdateDisabled = false → settings.HookName = "post-checkout" →
        uenv.Join settings.GitDirWorktree ".githooks-shared-update-on-clone-done" ∉ st.files →
        uenv.TouchFile = none →
        uenv.Join settings.GitDirWorktree ".githooks-shared-update-on-clone-done"
          ∈ (updateSharedHooks uenv settings sharedHooks sharedType st).files) ∧
      (∀ (later : List SharedRepo) (laterType : SharedHookType) (st1 : SharedUpdateState),
        settings.HookName = "post-checkout" →
        settings.HookName ∉ uenv.updateTriggers →
        uenv.Join settings.GitDirWorktree ".githooks-shared-update-on-clone-done"
          ∈ st1.files →
        updateSharedHooks uenv settings later laterType st1 = st1) := by
  have hpm : ("post-checkout" : String) ≠ "post-merge" := by decide
  refine ⟨?_, ?_, ?_, ?_, ?_⟩
  · unfold updateSharedHooks
    cases hdis : uenv.IsSharedHooksUpdateDisabled <;>
      by_cases h1 : settings.HookName = "post-merge" <;>
      by_cases h2 : settings.HookName ∈ uenv.updateTriggers <;>
      by_cases h3 : settings.HookName = "post-checkout" <;>
      by_cases h4 : uenv.Join settings.GitDirWorktree ".githooks-shared-update-on-clone-done"
        ∈ st.files <;>
      simp [h1, h2, h3, h4] <;>
      (rw [h3] at h2; simp [h2])
  · unfold updateSharedHooks
    cases hdis : uenv.IsSharedHooksUpdateDisabled <;>
      by_cases h1 : settings.HookName = "post-merge" <;>
      by_cases h2 : settings.HookName ∈ uenv.updateTriggers <;>
      by_cases h3 : settings.HookName = "post-checkout" <;>
      by_cases h4 : uenv.Join settings.GitDirWorktree ".githooks-shared-update-on-clone-done"
        ∈ st.files <;>
      simp [h1, h2, h3, h4] <;>
      (rw [h3] at h2; simp [h2])
  · unfold updateSharedHooks TouchFile
    cases hdis : uenv.IsSharedHooksUpdateDisabled <;>
      cases ht : uenv.TouchFile <;>
      by_cases h1 : settings.HookName = "post-merge" <;>
      by_cases h2 : settings.HookName ∈ uenv.updateTriggers <;>
      by_cases h3 : settings.HookName = "post-checkout" <;>
      by_cases h4 : uenv.Join settings.GitDirWorktree ".githooks-shared-update-on-clone-done"
        ∈ st.files <;>
      simp [h1, h2, h3, h4] <;>
      (rw [h3] at h2; simp [h2])
  · intro hdis h3 h4 ht
    simp [updateSharedHooks, TouchFile, hdis, h3, h4, ht]
  · intro later laterType st1 h3 h2 h4
    have h1 : settings.HookName ≠ "post-merge" := by rw [h3]; exact hpm
    simp only [updateSharedHooks, h1, h2, h4, decide_False, decide_True, Bool.not_true,
      Bool.and_false, Bool.or_false, Bool.false_or, Bool.not_false, Bool.or_true, if_true]

/-- Two `post-checkout` events after a clone: the first refreshes and writes the marker
file, the second does nothing. -/
theorem updateSharedHooks_examples :
    updateSharedHooks {} { HookName := "post-checkout", GitDirWorktree := "/r/.git" }
        [clonedSource "https://x" "/clones/x"] SharedHookType.Repo {}
      = { files := ["/r/.git/.githooks-shared-update-on-clone-done"],
          refreshed := [([clonedSource "https://x" "/clones/x"], SharedHookType.Repo)] } ∧
      updateSharedHooks {} { HookName := "post-checkout", GitDirWorktree := "/r/.git" }
        [clonedSource "https://x" "/clones/x"] SharedHookType.Repo
        { files := ["/r/.git/.githooks-shared-update-on-clone-done"],
          refreshed := [([clonedSource "https://x" "/clones/x"], SharedHookType.Repo)] }
      = { files := ["/r/.git/.githooks-shared-update-on-clone-done"],
          refreshed := [([clonedSource "https://x" "/clones/x"], SharedHookType.Repo)] } ∧
      updateSharedHooks { IsSharedHooksUpdateDisabled := true } { HookName := "post-merge" }
        [] SharedHookType.Repo {} = {} := by
  decide

/-! ## Theorems: the workers of `executeHooks` -/

/-- C21: the worker count of `executeHooks` is `max(n, 1)`, where `n` is the configured
value when it is the text of an integer (of the 64-bit `int`) and the CPU count when it
is not; so it is at least 1. A pool is made only when the hooks of the four tiers are
more than one, and then with that worker count. -/
theorem executeHooks_workers (numCPU : Int) (nThSetting : String) (useThreadPool : Bool)
    (hs : Hooks) :
    (∀ n : Int, int64OfText nThSetting = some n →
        executeHooks_nThreads numCPU nThSetting = max n 1) ∧
      (int64OfText nThSetting = none →
        executeHooks_nThreads numCPU nThSetting = max numCPU 1) ∧
      1 ≤ executeHooks_nThreads numCPU nThSetting ∧
      (∀ p, executeHooks_pool useThreadPool hs (executeHooks_nThreads numCPU nThSetting)
          = some p →
        hs.GetHooksCount > 1 ∧ p.1 = executeHooks_nThreads numCPU nThSetting) ∧
      (hs.GetHooksCount ≤ 1 →
        executeHooks_pool useThreadPool hs (executeHooks_nThreads numCPU nThSetting)
          = none) := by
  have hmax : ∀ a : Int, MaxInt a 1 = max a 1 := by
    intro a
    unfold MaxInt
    split_ifs with h
    · exact (max_eq_left (le_of_lt h)).symm
    · exact (max_eq_right (not_lt.mp h)).symm
  refine ⟨?_, ?_, ?_, ?_, ?_⟩
  · intro n h
    have hp := (ParseInt_ok_iff nThSetting n).mpr h
    simp [executeHooks_nThreads, Atoi, hp, hmax]
  · intro h
    cases hp : ParseInt nThSetting with
    | ok n =>
      have := (ParseInt_ok_iff nThSetting n).mp hp
      rw [h] at this
      cases this
    | error e => simp [executeHooks_nThreads, Atoi, hp, hmax]
  · unfold executeHooks_nThreads
    simp only [hmax]
    exact le_max_right _ _
  · intro p h
    unfold executeHooks_pool at h
    split_ifs at h with hc
    simp only [Bool.and_eq_true, decide_eq_true_eq] at hc
    cases h
    exact ⟨hc.2, rfl⟩
  · intro h
    unfold executeHooks_pool
    have : ¬ hs.GetHooksCount > 1 := by omega
    simp [this]

set_option maxRecDepth 8000 in
/-- The configured values `0` and `-3` give one worker, an unset or unreadable value the
CPU count, and one hook no pool. -/
theorem executeHooks_workers_examples :
    executeHooks_nThreads 8 "0" = 1 ∧ executeHooks_nThreads 8 "-3" = 1 ∧
      executeHooks_nThreads 8 "4" = 4 ∧ executeHooks_nThreads 8 "" = 8 ∧
      executeHooks_nThreads 8 "many" = 8 ∧ executeHooks_nThreads 0 "" = 1 ∧
      executeHooks_pool true failingHooks 4 = some (4, 15) ∧
      executeHooks_pool true { LocalHooks := [[mkHook "a" "01" true]] } 4 = none := by
  decide

/-! ## Theorems: the installer -/

set_option maxRecDepth 8000 in
/-- C27 (the code departs from it): with `useCoreHooksPath = true`, the second result of
`findGitHookTemplates` is empty on every path but two: when no template directory is
found and the run is non-interactive, or the user asks for a new templates folder, the new
folder is returned as the Git template directory all the same. -/
theorem findGitHookTemplates_core_hooks_path :
    (∀ (tenv : TemplateEnv) (installDir : String) (nonInteractive : Bool)
        (hookTemplateDir templateDir : String),
        findGitHookTemplates tenv installDir true nonInteractive
          = .ok (hookTemplateDir, templateDir) →
        templateDir ≠ "" →
        nonInteractive = true ∨
          tenv.ShowPromptOptions "Do you want to set up a new Git templates folder?" = "y") ∧
      findGitHookTemplates {} "/home/u/.githooks" true true
        = .ok ("/home/u/.githooks/templates/hooks", "/home/u/.githooks/templates") ∧
      findGitHookTemplates
          { ShowPromptOptions := fun q =>
              if q = "Do you want to set up a new Git templates folder?" then "y" else "n" }
          "/home/u/.githooks" true false
        = .ok ("/home/u/.githooks/templates/hooks", "/home/u/.githooks/templates") := by
  refine ⟨?_, by decide, by decide⟩
  intro tenv installDir nonInteractive h t hres hne
  by_contra hcon
  simp only [not_or, Bool.not_eq_true] at hcon
  obtain ⟨hni, hnew⟩ := hcon
  unfold findGitHookTemplates at hres
  simp only at hres
  have hcfg : ∀ r, findGitHookTemplates_config tenv true = .ok (some r) → r.2 = "" := by
    intro r hr
    unfold findGitHookTemplates_config at hr
    simp only [Bool.true_or, if_true] at hr
    cases h1 : checkTemplateDir tenv (tenv.GetConfig "core.hooksPath") with
    | error m => simp [h1] at hr
    | ok d =>
      simp only [h1] at hr
      by_cases hd : d = ""
      · simp only [hd, ne_eq, not_true_eq_false, if_false] at hr
        cases h2 : checkTemplateDir tenv (tenv.Join tenv.GetDefaultTemplateDir "hooks") with
        | error m => simp [h2] at hr
        | ok d2 =>
          simp only [h2] at hr
          split_ifs at hr
          all_goals simp only [Except.ok.injEq, Option.some.injEq, reduceCtorEq] at hr
          rw [← hr]
      · simp only [hd, ne_eq, not_false_eq_true, if_true, Except.ok.injEq,
          Option.some.injEq] at hr
        rw [← hr]
  have hsetup : findGitHookTemplates_setup tenv installDir true nonInteractive = .ok (h, t) →
      False := by
    intro hs
    unfold findGitHookTemplates_setup at hs
    simp only [hni, Bool.false_eq_true, if_false, if_true, hnew] at hs
    split_ifs at hs <;> cases hs <;> exact hne rfl
  have hrest : (match findGitHookTemplates_config tenv true with
      | .error m => (.error m : Except String (String × String))
      | .ok (some r) => .ok r
      | .ok none =>
        if decide (tenv.GetConfig "githooks.useCoreHooksPath" ≠ "") = true then
          .error (corruptInstallMessage (tenv.GetConfig "githooks.useCoreHooksPath"))
        else findGitHookTemplates_setup tenv installDir true nonInteractive) = .ok (h, t) →
      False := by
    intro hr
    cases hc : findGitHookTemplates_config tenv true with
    | error m => simp [hc] at hr
    | ok o =>
      cases o with
      | some r =>
        simp only [hc] at hr
        cases hr
        exact hne (hcfg (h, t) hc)
      | none =>
        simp only [hc] at hr
        split_ifs at hr
        exact hsetup hr
  cases hg : tenv.GitTemplateDir with
  | none =>
    simp only [hg] at hres
    exact hrest hres
  | some g =>
    simp only [hg] at hres
    cases h1 : checkTemplateDir tenv g with
    | error m => simp [h1] at hres
    | ok d =>
      simp only [h1] at hres
      by_cases hd : d = ""
      · simp only [hd, ne_eq, not_true_eq_false, if_false] at hres
        exact hrest hres
      · simp only [hd, ne_eq, not_false_eq_true, if_true] at hres
        cases hres
        exact hne rfl

/-- When `buildFromSource` returns, it has found an installer. -/
theorem buildFromSource_installer (denv : DispatchEnv) (commitSHA : String) (b : Binaries)
    (h : buildFromSource denv commitSHA = .ok b) : b.Installer ≠ "" := by
  unfold buildFromSource at h
  cases h1 : denv.Clone with
  | some e => simp [h1] at h
  | none =>
    simp only [h1] at h
    split_ifs at h
    cases h2 : denv.Checkout with
    | some e => simp [h2] at h
    | none =>
      simp only [h2] at h
      cases h3 : denv.Build.2 with
      | some e => simp [h3] at h
      | none =>
        simp only [h3] at h
        cases h4 : denv.GetAllFiles.2 with
        | some e => simp [h4] at h
        | none =>
          simp only [h4] at h
          generalize buildFromSource_collect denv denv.GetAllFiles.1
            { BinDir := denv.Build.1 } = B at h
          unfold PanicIf Panic at h
          by_cases hi : B.Installer = ""
          · simp [hi] at h
          · split_ifs at h
            simp only [Except.ok.injEq] at h
            rw [← h]
            exact hi

set_option maxRecDepth 8000 in
/-- C30 (the code departs from it): when no update is available and an installer exists
in the install directory, `prepareDispatch` downloads and builds nothing and hands the
empty path of `updates.Binaries{}` to `runInstaller`, which then fails to run it; when
the binaries are built from source, the path handed over is not empty. -/
theorem prepareDispatch_installer_path :
    (∀ (denv : DispatchEnv) (args : Arguments),
        (if args.InternalAutoUpdate then denv.GetStatus else denv.FetchUpdates).2 = none →
        (if args.InternalAutoUpdate then denv.GetStatus else denv.FetchUpdates).1.LocalCommitSHA
          = (if args.InternalAutoUpdate then denv.GetStatus
              else denv.FetchUpdates).1.RemoteCommitSHA →
        denv.haveInstaller = true →
        prepareDispatch_call denv args = .ok ("", "", [])) ∧
      (∀ (denv : DispatchEnv) (args : Arguments) (call : String × String × List String),
        args.BuildFromSource = true →
        ((if args.InternalAutoUpdate then denv.GetStatus else denv.FetchUpdates).1.LocalCommitSHA
          ≠ (if args.InternalAutoUpdate then denv.GetStatus
              else denv.FetchUpdates).1.RemoteCommitSHA ∨ denv.haveInstaller = false) →
        prepareDispatch_call denv args = .ok call → call.1 ≠ "") ∧
      prepareDispatch_call
          { FetchUpdates := ({ LocalCommitSHA := "0a1b2c3", RemoteCommitSHA := "0a1b2c3" }, none),
            haveInstaller := true } {}
        = .ok ("", "", []) ∧
      prepareDispatch
          { FetchUpdates := ({ LocalCommitSHA := "0a1b2c3", RemoteCommitSHA := "0a1b2c3" }, none),
            haveInstaller := true,
            RunExecutable := fun p => if p = "" then some "exec: no command" else none } {}
        = .error "Running installer failed.\n-> error: [exec: no command]" := by
  refine ⟨?_, ?_, by decide, by decide⟩
  · intro denv args herr hsha hhave
    unfold prepareDispatch_call
    simp only [herr, hsha, hhave, ne_eq, not_true_eq_false, decide_False, Bool.not_true,
      Bool.or_self, Bool.false_eq_true, if_false]
  · intro denv args call hbuild hneed hcall
    unfold prepareDispatch_call at hcall
    cases herr : (if args.InternalAutoUpdate then denv.GetStatus else denv.FetchUpdates).2 with
    | some e => simp [herr] at hcall
    | none =>
      simp only [herr] at hcall
      have hcond : (decide ((if args.InternalAutoUpdate then denv.GetStatus
            else denv.FetchUpdates).1.LocalCommitSHA
          ≠ (if args.InternalAutoUpdate then denv.GetStatus
              else denv.FetchUpdates).1.RemoteCommitSHA) || !denv.haveInstaller) = true := by
        rcases hneed with h | h
        · simp [h]
        · simp [h]
      simp only [hcond, if_true, hbuild] at hcall
      cases htmp : denv.TempDir with
      | some e => simp [htmp] at hcall
      | none =>
        simp only [htmp] at hcall
        cases hb : buildFromSource denv (if args.InternalAutoUpdate then denv.GetStatus
            else denv.FetchUpdates).1.RemoteCommitSHA with
        | error m => simp [hb] at hcall
        | ok b =>
          simp only [hb, Except.ok.injEq] at hcall
          rw [← hcall]
          exact buildFromSource_installer denv _ b hb

end Githooks
